import Mathlib

/-!
# Cat language: lexer, recursive-descent parser and code generator

A shallow embedding of `src/header/token.h`, `src/header/ast.h`,
`src/src/lexer.cpp`, `src/src/parser.cpp` and `src/src/codegen.cpp`.

Conventions of the embedding.

* The parser object is the pair of its immutable token vector `toks` and its
  cursor `cur` (`Parser::tokens`, `Parser::current`); every parsing function
  takes the cursor and returns the new cursor next to its result.
* A `std::unique_ptr` result that may be null is an `Option`; `none` is `nullptr`.
* Loops and recursion are driven by a fuel argument.  A function returns the
  outer `none` exactly when the fuel ran out before the source function would
  have returned, so "the source call returns `r`" reads "for all sufficiently
  large fuel the model returns `some r`", and "the source call never returns"
  reads "the model returns `none` for every fuel".
-/

namespace Cat

/-! ## Tokens (`token.h`) -/

/-- The enumeration `TokenType`. -/
inductive TokenType where
  | FN | RETURN | IF | ELSE | WHILE
  | INT_TYPE | FLOAT_TYPE | STRING_TYPE | BOOL_TYPE
  | PRINT | SCAN | MEOW | MAIN
  | IDENTIFIER | INT_LITERAL | FLOAT_LITERAL | STRING_LITERAL | BOOL_LITERAL
  | ASSIGN | PLUS | GT | LESS | ARROW | COLON
  | EQUAL_EQUAL | BANG_EQUAL | LESS_EQUAL | GREATER_EQUAL
  | AMPERSAND_AMPERSAND | PIPE_PIPE | BANG
  | LPAREN | RPAREN | LBRACE | RBRACE | SEMICOLON | COMMA
  | COMMENT
  | END_OF_FILE
  | UNKNOWN
  deriving DecidableEq

/-- The record `Token`. -/
structure Token where
  type : TokenType
  value : String
  line : Int
  column : Int
  deriving DecidableEq

/-! ## Abstract syntax (`ast.h`) -/

/-- The node `StringExpr` (a string literal). -/
structure StringExpr where
  Value : String

/-- The class hierarchy under `Expr`.  The children of `BinaryExpr`, `UnaryExpr`
and `CallExpr` are built by the parser only from results it has checked to be
non-null, so they are plain expressions here. -/
inductive Expr where
  | NumberExpr (Value : String) (Ty : TokenType)
  | StringExpr (node : Cat.StringExpr)
  | BoolExpr (Value : Bool)
  | VariableExpr (Name : String)
  | BinaryExpr (Op : String) (LHS RHS : Expr)
  | UnaryExpr (Op : String) (RHS : Expr)
  | CallExpr (Callee : String) (Args : List Expr)

mutual
/-- The class hierarchy under `Stmt`.  A `std::unique_ptr` member that the
parser stores without a null check is an `Option`; `ScanStmt` holds the name of
its `VariableExpr`.  The last constructor is a `BlockStmt` seen as a `Stmt`
(the parser builds none in statement position). -/
inductive Stmt where
  | VarDeclStmt (VarType VarName : String) (Init : Option Expr)
  | ReturnStmt (Value : Option Expr)
  | PrintStmt (Format : StringExpr) (Args : List Expr)
  | ScanStmt (Var : String)
  | IfStmt (Condition : Option Expr) (ThenBranch ElseBranch : Option BlockStmt)
  | WhileStmt (Condition : Option Expr) (Body : Option BlockStmt)
  | BlockStmt (block : BlockStmt)
/-- The node `BlockStmt`: the ordered statements of a block. -/
inductive BlockStmt where
  | mk (Statements : List Stmt)
end

/-- The node `PrototypeAST`; `Args` holds `(type, name)` pairs. -/
structure PrototypeAST where
  Name : String
  Args : List (String × String)
  ReturnType : String

/-- The node `FunctionAST`. -/
structure FunctionAST where
  Proto : PrototypeAST
  Body : BlockStmt

/-- The node `ModuleAST`. -/
structure ModuleAST where
  Functions : List FunctionAST

/-! ## Parser helpers (`parser.cpp`, lines 4-66) -/

/-- Result of a parsing function: `none` when the fuel ran out, otherwise the
returned pointer (`none` for `nullptr`) and the cursor after the call. -/
abbrev PRes (α : Type) := Option (Option α × Nat)

/-- The table filled by `initializePrecedence`. -/
def BinopPrecedence : TokenType → Option Int
  | .LESS => some 10
  | .EQUAL_EQUAL => some 10
  | .BANG_EQUAL => some 10
  | .LESS_EQUAL => some 10
  | .GREATER_EQUAL => some 10
  | .PLUS => some 20
  | .AMPERSAND_AMPERSAND => some 5
  | .PIPE_PIPE => some 5
  | _ => none

/-- `Parser::currentToken`: `tokens[current]`.  The source does not check the
index; a read past the end yields a placeholder token here.  For a non-empty
token vector the cursor never leaves the vector (see `advance`). -/
def currentToken (toks : List Token) (cur : Nat) : Token :=
  toks.getD cur ⟨TokenType.UNKNOWN, "", 0, 0⟩

/-- `Parser::advance`: the cursor moves only while it is not on the last token.
(`tokens.size() - 1` is computed on naturals; the two differ only for an empty
vector, on which `parse` calls nothing.) -/
def advance (toks : List Token) (cur : Nat) : Nat :=
  if cur < toks.length - 1 then cur + 1 else cur

/-- `Parser::check`. -/
def check (toks : List Token) (cur : Nat) (type : TokenType) : Bool :=
  if cur ≥ toks.length then false else (currentToken toks cur).type == type

/-- `Parser::match`: the answer and the cursor after the call. -/
def matchTok (toks : List Token) (cur : Nat) (type : TokenType) : Bool × Nat :=
  if check toks cur type then (true, advance toks cur) else (false, cur)

/-- `Parser::isType`. -/
def isType (toks : List Token) (cur : Nat) : Bool :=
  check toks cur .INT_TYPE || check toks cur .FLOAT_TYPE ||
    check toks cur .STRING_TYPE || check toks cur .BOOL_TYPE

/-- `Parser::getTokPrecedence`. -/
def getTokPrecedence (toks : List Token) (cur : Nat) : Int :=
  match BinopPrecedence (currentToken toks cur).type with
  | some p => p
  | none => -1

/-! ## Expressions (`parser.cpp`, lines 68-175) -/

/-- `Parser::parseNumberExpr`. -/
def parseNumberExpr (toks : List Token) (cur : Nat) : Option Expr × Nat :=
  (some (Expr.NumberExpr (currentToken toks cur).value (currentToken toks cur).type),
    advance toks cur)

/-- `Parser::parseStringExpr`: always a `StringExpr` holding the text of the
current token, whatever its kind. -/
def parseStringExpr (toks : List Token) (cur : Nat) : Option StringExpr × Nat :=
  (some ⟨(currentToken toks cur).value⟩, advance toks cur)

/-- `Parser::parseBoolExpr`. -/
def parseBoolExpr (toks : List Token) (cur : Nat) : Option Expr × Nat :=
  (some (Expr.BoolExpr (decide ((currentToken toks cur).value = "true"))), advance toks cur)

mutual

/-- `Parser::parseIdentifierExpr`. -/
def parseIdentifierExpr : Nat → List Token → Nat → PRes Expr
  | 0, _, _ => none
  | fuel + 1, toks, cur =>
    let idName := (currentToken toks cur).value
    let cur := advance toks cur
    let m := matchTok toks cur .LPAREN
    if !m.1 then some (some (Expr.VariableExpr idName), m.2)
    else
      let argsRes : PRes (List Expr) :=
        if !check toks m.2 .RPAREN then parseIdentifierExprLoop fuel toks m.2 []
        else some (some [], m.2)
      match argsRes with
      | none => none
      | some (none, cur) => some (none, cur)
      | some (some args, cur) =>
        let m := matchTok toks cur .RPAREN
        if !m.1 then some (none, m.2)
        else some (some (Expr.CallExpr idName args), m.2)
termination_by structural fuel => fuel

/-- The `do ... while (match(COMMA))` loop of `parseIdentifierExpr`; an inner
`none` is the `return nullptr` inside the loop. -/
def parseIdentifierExprLoop : Nat → List Token → Nat → List Expr → PRes (List Expr)
  | 0, _, _, _ => none
  | fuel + 1, toks, cur, args =>
    match parseExpression fuel toks cur with
    | none => none
    | some (none, cur) => some (none, cur)
    | some (some arg, cur) =>
      let m := matchTok toks cur .COMMA
      if m.1 then parseIdentifierExprLoop fuel toks m.2 (args ++ [arg])
      else some (some (args ++ [arg]), m.2)
termination_by structural fuel => fuel

/-- `Parser::parseParenExpr`. -/
def parseParenExpr : Nat → List Token → Nat → PRes Expr
  | 0, _, _ => none
  | fuel + 1, toks, cur =>
    let cur := advance toks cur
    match parseExpression fuel toks cur with
    | none => none
    | some (none, cur) => some (none, cur)
    | some (some V, cur) =>
      let m := matchTok toks cur .RPAREN
      if !m.1 then some (none, m.2)
      else some (some V, m.2)
termination_by structural fuel => fuel

/-- `Parser::parsePrimary`. -/
def parsePrimary : Nat → List Token → Nat → PRes Expr
  | 0, _, _ => none
  | fuel + 1, toks, cur =>
    if check toks cur .IDENTIFIER then parseIdentifierExpr fuel toks cur
    else if check toks cur .INT_LITERAL || check toks cur .FLOAT_LITERAL then
      some (parseNumberExpr toks cur)
    else if check toks cur .STRING_LITERAL then
      some ((parseStringExpr toks cur).1.map Expr.StringExpr, (parseStringExpr toks cur).2)
    else if check toks cur .BOOL_LITERAL then some (parseBoolExpr toks cur)
    else if check toks cur .LPAREN then parseParenExpr fuel toks cur
    else some (none, cur)
termination_by structural fuel => fuel

/-- `Parser::parseUnary`. -/
def parseUnary : Nat → List Token → Nat → PRes Expr
  | 0, _, _ => none
  | fuel + 1, toks, cur =>
    if !check toks cur .BANG then parsePrimary fuel toks cur
    else
      let op := (currentToken toks cur).value
      let cur := advance toks cur
      match parseUnary fuel toks cur with
      | none => none
      | some (none, cur) => some (none, cur)
      | some (some operand, cur) => some (some (Expr.UnaryExpr op operand), cur)
termination_by structural fuel => fuel

/-- `Parser::parseBinOpRHS`; one unfolding is one turn of its `while (true)`. -/
def parseBinOpRHS : Nat → List Token → Nat → Int → Expr → PRes Expr
  | 0, _, _, _, _ => none
  | fuel + 1, toks, cur, exprPrec, LHS =>
    let tokPrec := getTokPrecedence toks cur
    if tokPrec < exprPrec then some (some LHS, cur)
    else
      let binOp := (currentToken toks cur).value
      let cur := advance toks cur
      match parseUnary fuel toks cur with
      | none => none
      | some (none, cur) => some (none, cur)
      | some (some RHS, cur) =>
        let nextPrec := getTokPrecedence toks cur
        if tokPrec < nextPrec then
          match parseBinOpRHS fuel toks cur (tokPrec + 1) RHS with
          | none => none
          | some (none, cur) => some (none, cur)
          | some (some RHS, cur) =>
            parseBinOpRHS fuel toks cur exprPrec (Expr.BinaryExpr binOp LHS RHS)
        else parseBinOpRHS fuel toks cur exprPrec (Expr.BinaryExpr binOp LHS RHS)
termination_by structural fuel => fuel

/-- `Parser::parseExpression`. -/
def parseExpression : Nat → List Token → Nat → PRes Expr
  | 0, _, _ => none
  | fuel + 1, toks, cur =>
    match parseUnary fuel toks cur with
    | none => none
    | some (none, cur) => some (none, cur)
    | some (some LHS, cur) => parseBinOpRHS fuel toks cur 0 LHS

termination_by structural fuel => fuel
end

/-! ## Statements (`parser.cpp`, lines 177-279) -/

/-- `Parser::parseReturnStmt`.  The result of `parseExpression` is stored as it
comes; only the semicolon is tested. -/
def parseReturnStmt (fuel : Nat) (toks : List Token) (cur : Nat) : PRes Stmt :=
  let cur := advance toks cur
  match parseExpression fuel toks cur with
  | none => none
  | some (value, cur) =>
    let m := matchTok toks cur .SEMICOLON
    if !m.1 then some (none, m.2)
    else some (some (Stmt.ReturnStmt value), m.2)

/-- The `while (match(COMMA))` loop of `parsePrintStmt`; an inner `none` is the
`return nullptr` inside the loop. -/
def parsePrintStmtLoop : Nat → List Token → Nat → List Expr → PRes (List Expr)
  | 0, _, _, _ => none
  | fuel + 1, toks, cur, args =>
    let m := matchTok toks cur .COMMA
    if m.1 then
      match parseExpression fuel toks m.2 with
      | none => none
      | some (none, cur) => some (none, cur)
      | some (some arg, cur) => parsePrintStmtLoop fuel toks cur (args ++ [arg])
    else some (some args, m.2)

/-- `Parser::parsePrintStmt`. -/
def parsePrintStmt (fuel : Nat) (toks : List Token) (cur : Nat) : PRes Stmt :=
  let cur := advance toks cur
  let m := matchTok toks cur .LPAREN
  if !m.1 then some (none, m.2)
  else
    match parseStringExpr toks m.2 with
    | (none, cur) => some (none, cur)
    | (some formatExpr, cur) =>
      match parsePrintStmtLoop fuel toks cur [] with
      | none => none
      | some (none, cur) => some (none, cur)
      | some (some args, cur) =>
        let m := matchTok toks cur .RPAREN
        if !m.1 then some (none, m.2)
        else
          let m := matchTok toks m.2 .SEMICOLON
          if !m.1 then some (none, m.2)
          else some (some (Stmt.PrintStmt formatExpr args), m.2)

/-- `Parser::parseScanStmt`. -/
def parseScanStmt (toks : List Token) (cur : Nat) : Option Stmt × Nat :=
  let cur := advance toks cur
  let m := matchTok toks cur .LPAREN
  if !m.1 then (none, m.2)
  else if !check toks m.2 .IDENTIFIER then (none, m.2)
  else
    let var := (currentToken toks m.2).value
    let cur := advance toks m.2
    let m := matchTok toks cur .RPAREN
    if !m.1 then (none, m.2)
    else
      let m := matchTok toks m.2 .SEMICOLON
      if !m.1 then (none, m.2)
      else (some (Stmt.ScanStmt var), m.2)

/-- `Parser::parseVarDeclStmt`.  The result of `parseExpression` after `=` is
stored as it comes; only the semicolon is tested. -/
def parseVarDeclStmt (fuel : Nat) (toks : List Token) (cur : Nat) : PRes Stmt :=
  let type := (currentToken toks cur).value
  let cur := advance toks cur
  if !check toks cur .IDENTIFIER then some (none, cur)
  else
    let name := (currentToken toks cur).value
    let cur := advance toks cur
    let m := matchTok toks cur .ASSIGN
    let initRes : PRes Expr :=
      if m.1 then parseExpression fuel toks m.2 else some (none, m.2)
    match initRes with
    | none => none
    | some (init, cur) =>
      let m := matchTok toks cur .SEMICOLON
      if !m.1 then some (none, m.2)
      else some (some (Stmt.VarDeclStmt type name init), m.2)

mutual

/-- `Parser::parseIfStmt`.  Condition and branches are stored as they come. -/
def parseIfStmt : Nat → List Token → Nat → PRes Stmt
  | 0, _, _ => none
  | fuel + 1, toks, cur =>
    let cur := advance toks cur
    let m := matchTok toks cur .LPAREN
    if !m.1 then some (none, m.2)
    else
      match parseExpression fuel toks m.2 with
      | none => none
      | some (condition, cur) =>
        let m := matchTok toks cur .RPAREN
        if !m.1 then some (none, m.2)
        else
          match parseBlock fuel toks m.2 with
          | none => none
          | some (thenBranch, cur) =>
            let m := matchTok toks cur .ELSE
            if m.1 then
              match parseBlock fuel toks m.2 with
              | none => none
              | some (elseBranch, cur) =>
                some (some (Stmt.IfStmt condition thenBranch elseBranch), cur)
            else some (some (Stmt.IfStmt condition thenBranch none), m.2)
termination_by structural fuel => fuel

/-- `Parser::parseWhileStmt`.  Condition and body are stored as they come. -/
def parseWhileStmt : Nat → List Token → Nat → PRes Stmt
  | 0, _, _ => none
  | fuel + 1, toks, cur =>
    let cur := advance toks cur
    let m := matchTok toks cur .LPAREN
    if !m.1 then some (none, m.2)
    else
      match parseExpression fuel toks m.2 with
      | none => none
      | some (condition, cur) =>
        let m := matchTok toks cur .RPAREN
        if !m.1 then some (none, m.2)
        else
          match parseBlock fuel toks m.2 with
          | none => none
          | some (body, cur) => some (some (Stmt.WhileStmt condition body), cur)
termination_by structural fuel => fuel

/-- `Parser::parseStatement`. -/
def parseStatement : Nat → List Token → Nat → PRes Stmt
  | 0, _, _ => none
  | fuel + 1, toks, cur =>
    if check toks cur .RETURN then parseReturnStmt fuel toks cur
    else if check toks cur .PRINT then parsePrintStmt fuel toks cur
    else if check toks cur .SCAN then some (parseScanStmt toks cur)
    else if isType toks cur then parseVarDeclStmt fuel toks cur
    else if check toks cur .IF then parseIfStmt fuel toks cur
    else if check toks cur .WHILE then parseWhileStmt fuel toks cur
    else some (none, cur)
termination_by structural fuel => fuel

/-- The statement loop of `parseBlock`: the statements collected and the cursor
when the loop is left. -/
def parseBlockLoop : Nat → List Token → Nat → List Stmt → Option (List Stmt × Nat)
  | 0, _, _, _ => none
  | fuel + 1, toks, cur, stmts =>
    if !check toks cur .RBRACE && decide (cur < toks.length) then
      match parseStatement fuel toks cur with
      | none => none
      | some (some stmt, cur) => parseBlockLoop fuel toks cur (stmts ++ [stmt])
      | some (none, cur) => parseBlockLoop fuel toks (advance toks cur) stmts
    else some (stmts, cur)
termination_by structural fuel => fuel

/-- `Parser::parseBlock`. -/
def parseBlock : Nat → List Token → Nat → PRes BlockStmt
  | 0, _, _ => none
  | fuel + 1, toks, cur =>
    let m := matchTok toks cur .LBRACE
    if !m.1 then some (none, m.2)
    else
      match parseBlockLoop fuel toks m.2 [] with
      | none => none
      | some (stmts, cur) =>
        let m := matchTok toks cur .RBRACE
        if !m.1 then some (none, m.2)
        else some (some (BlockStmt.mk stmts), m.2)
termination_by structural fuel => fuel

end

/-! ## Definitions and the module (`parser.cpp`, lines 21-32 and 281-320) -/

/-- The `do ... while (match(COMMA))` loop of `parsePrototype`; an inner `none`
is a `return nullptr` inside the loop. -/
def parsePrototypeLoop :
    Nat → List Token → Nat → List (String × String) → PRes (List (String × String))
  | 0, _, _, _ => none
  | fuel + 1, toks, cur, argNames =>
    if !isType toks cur then some (none, cur)
    else
      let argType := (currentToken toks cur).value
      let cur := advance toks cur
      if !check toks cur .IDENTIFIER then some (none, cur)
      else
        let argName := (currentToken toks cur).value
        let cur := advance toks cur
        let m := matchTok toks cur .COMMA
        if m.1 then parsePrototypeLoop fuel toks m.2 (argNames ++ [(argType, argName)])
        else some (some (argNames ++ [(argType, argName)]), m.2)

/-- `Parser::parsePrototype`. -/
def parsePrototype (fuel : Nat) (toks : List Token) (cur : Nat) : PRes PrototypeAST :=
  let m := matchTok toks cur .FN
  if !m.1 then some (none, m.2)
  else if !check toks m.2 .IDENTIFIER then some (none, m.2)
  else
    let fnName := (currentToken toks m.2).value
    let cur := advance toks m.2
    let m := matchTok toks cur .LPAREN
    if !m.1 then some (none, m.2)
    else
      let argsRes : PRes (List (String × String)) :=
        if !check toks m.2 .RPAREN then parsePrototypeLoop fuel toks m.2 []
        else some (some [], m.2)
      match argsRes with
      | none => none
      | some (none, cur) => some (none, cur)
      | some (some argNames, cur) =>
        let m := matchTok toks cur .RPAREN
        if !m.1 then some (none, m.2)
        else
          let mc := matchTok toks m.2 .COLON
          let ma := if mc.1 then mc else matchTok toks mc.2 .ARROW
          if ma.1 then
            if !isType toks ma.2 then some (none, ma.2)
            else
              some (some ⟨fnName, argNames, (currentToken toks ma.2).value⟩, advance toks ma.2)
          else some (some ⟨fnName, argNames, "void"⟩, ma.2)

/-- `Parser::parseDefinition`. -/
def parseDefinition (fuel : Nat) (toks : List Token) (cur : Nat) : PRes FunctionAST :=
  match parsePrototype fuel toks cur with
  | none => none
  | some (none, cur) => some (none, cur)
  | some (some proto, cur) =>
    match parseBlock fuel toks cur with
    | none => none
    | some (none, cur) => some (none, cur)
    | some (some body, cur) => some (some ⟨proto, body⟩, cur)

/-- The loop of `Parser::parse`, from cursor `cur` with the functions collected
so far. -/
def parseLoop : Nat → List Token → Nat → List FunctionAST → Option ModuleAST
  | 0, _, _, _ => none
  | fuel + 1, toks, cur, functions =>
    if decide (cur < toks.length) && (currentToken toks cur).type != TokenType.END_OF_FILE then
      match parseDefinition fuel toks cur with
      | none => none
      | some (some f, cur) => parseLoop fuel toks cur (functions ++ [f])
      | some (none, cur) => parseLoop fuel toks (advance toks cur) functions
    else some ⟨functions⟩

/-- `Parser::parse` on a fresh parser (cursor `0`): `none` when the fuel ran out,
otherwise the module returned. -/
def parse (fuel : Nat) (toks : List Token) : Option ModuleAST :=
  parseLoop fuel toks 0 []

/-! ## Lexer (`lexer.cpp`)

The source text is the list of its characters (`std::string`, one list element
per `char`).  The counters `start`, `current`, `line` and `column` are `int` in
the source; they only grow here, and overflow of `int` is not modelled. -/

namespace Lexer

/-- The table `keywords`. -/
def keywords (text : String) : Option TokenType :=
  if text = "fn" then some .FN
  else if text = "return" then some .RETURN
  else if text = "if" then some .IF
  else if text = "else" then some .ELSE
  else if text = "while" then some .WHILE
  else if text = "int" then some .INT_TYPE
  else if text = "float" then some .FLOAT_TYPE
  else if text = "string" then some .STRING_TYPE
  else if text = "bool" then some .BOOL_TYPE
  else if text = "true" then some .BOOL_LITERAL
  else if text = "false" then some .BOOL_LITERAL
  else if text = "print" then some .PRINT
  else if text = "scan" then some .SCAN
  else if text = "meow" then some .MEOW
  else none

/-- The mutable members of `Lexer`; `source` never changes and is passed along. -/
structure State where
  start : Nat
  current : Nat
  line : Int
  column : Int

/-- `std::string::substr(pos, len)` for `pos` inside the text. -/
def substr (source : List Char) (pos len : Nat) : String :=
  String.mk ((source.drop pos).take len)

/-- `Lexer::isAtEnd`. -/
def isAtEnd (source : List Char) (s : State) : Bool :=
  decide (s.current ≥ source.length)

/-- `Lexer::advance`: the character returned and the state after the call. -/
def advance (source : List Char) (s : State) : Char × State :=
  (source.getD s.current '\x00', { s with current := s.current + 1, column := s.column + 1 })

/-- `Lexer::match`: the answer and the state after the call. -/
def matchChar (source : List Char) (s : State) (expected : Char) : Bool × State :=
  if isAtEnd source s then (false, s)
  else if source.getD s.current '\x00' ≠ expected then (false, s)
  else (true, { s with current := s.current + 1, column := s.column + 1 })

/-- `Lexer::peek`. -/
def peek (source : List Char) (s : State) : Char :=
  if isAtEnd source s then '\x00' else source.getD s.current '\x00'

/-- `Lexer::peekNext`. -/
def peekNext (source : List Char) (s : State) : Char :=
  if s.current + 1 ≥ source.length then '\x00' else source.getD (s.current + 1) '\x00'

/-- `Lexer::isDigit`. -/
def isDigit (c : Char) : Bool :=
  decide ('0' ≤ c) && decide (c ≤ '9')

/-- `Lexer::isAlpha`. -/
def isAlpha (c : Char) : Bool :=
  (decide ('a' ≤ c) && decide (c ≤ 'z')) || (decide ('A' ≤ c) && decide (c ≤ 'Z')) ||
    decide (c = '_')

/-- `Lexer::isAlphaNumeric`. -/
def isAlphaNumeric (c : Char) : Bool :=
  isAlpha c || isDigit c

/-- The comment loop inside `skipWhitespace`:
`while (peek() != '\n' && !isAtEnd()) advance();`. -/
def skipComment (source : List Char) : Nat → State → Option State
  | 0, _ => none
  | fuel + 1, s =>
    if peek source s ≠ '\n' ∧ isAtEnd source s = false then
      skipComment source fuel (advance source s).2
    else some s

/-- `Lexer::skipWhitespace`; one unfolding is one turn of its loop. -/
def skipWhitespace (source : List Char) : Nat → State → Option State
  | 0, _ => none
  | fuel + 1, s =>
    if isAtEnd source s then some s
    else
      let c := peek source s
      if c = ' ' ∨ c = '\r' ∨ c = '\t' then skipWhitespace source fuel (advance source s).2
      else if c = '\n' then
        skipWhitespace source fuel (advance source { s with line := s.line + 1, column := 1 }).2
      else if c = '/' then
        if peekNext source s = '/' then
          match skipComment source fuel s with
          | none => none
          | some s => skipWhitespace source fuel s
        else some s
      else some s

/-- The loop of `identifier`: `while (isAlphaNumeric(peek())) advance();`. -/
def identifierLoop (source : List Char) : Nat → State → Option State
  | 0, _ => none
  | fuel + 1, s =>
    if isAlphaNumeric (peek source s) then identifierLoop source fuel (advance source s).2
    else some s

/-- `Lexer::identifier`: the token and the state after the call. -/
def identifier (source : List Char) (fuel : Nat) (s : State) : Option (Token × State) :=
  match identifierLoop source fuel s with
  | none => none
  | some s =>
    let text := substr source s.start (s.current - s.start)
    match keywords text with
    | some type => some (⟨type, text, s.line, s.column⟩, s)
    | none => some (⟨.IDENTIFIER, text, s.line, s.column⟩, s)

/-- The two loops of `number`: `while (isDigit(peek())) advance();`. -/
def numberLoop (source : List Char) : Nat → State → Option State
  | 0, _ => none
  | fuel + 1, s =>
    if isDigit (peek source s) then numberLoop source fuel (advance source s).2
    else some s

/-- `Lexer::number`: the token and the state after the call. -/
def number (source : List Char) (fuel : Nat) (s : State) : Option (Token × State) :=
  match numberLoop source fuel s with
  | none => none
  | some s =>
    if peek source s = '.' ∧ isDigit (peekNext source s) = true then
      match numberLoop source fuel (advance source s).2 with
      | none => none
      | some s =>
        some (⟨.FLOAT_LITERAL, substr source s.start (s.current - s.start), s.line, s.column⟩, s)
    else
      some (⟨.INT_LITERAL, substr source s.start (s.current - s.start), s.line, s.column⟩, s)

/-- The loop of `stringLiteral`. -/
def stringLiteralLoop (source : List Char) : Nat → State → Option State
  | 0, _ => none
  | fuel + 1, s =>
    if peek source s ≠ '\"' ∧ isAtEnd source s = false then
      let s := if peek source s = '\n' then { s with line := s.line + 1, column := 1 } else s
      stringLiteralLoop source fuel (advance source s).2
    else some s

/-- `Lexer::stringLiteral`: the token and the state after the call. -/
def stringLiteral (source : List Char) (fuel : Nat) (s : State) : Option (Token × State) :=
  match stringLiteralLoop source fuel s with
  | none => none
  | some s =>
    if isAtEnd source s then
      some (⟨.UNKNOWN, "Unterminated string.", s.line, s.column⟩, s)
    else
      let s := (advance source s).2
      some (⟨.STRING_LITERAL, substr source (s.start + 1) (s.current - s.start - 2),
        s.line, s.column⟩, s)

/-- The token built from one fixed lexeme at state `s`. -/
def tokenAt (type : TokenType) (value : String) (s : State) : Token × State :=
  (⟨type, value, s.line, s.column⟩, s)

/-- `Lexer::nextToken`: the token and the state after the call. -/
def nextToken (source : List Char) (fuel : Nat) (s : State) : Option (Token × State) :=
  let s := { s with start := s.current }
  let c := (advance source s).1
  let s := (advance source s).2
  if c = '(' then some (tokenAt .LPAREN "(" s)
  else if c = ')' then some (tokenAt .RPAREN ")" s)
  else if c = '\x7b' then some (tokenAt .LBRACE "\x7b" s)
  else if c = '\x7d' then some (tokenAt .RBRACE "\x7d" s)
  else if c = ';' then some (tokenAt .SEMICOLON ";" s)
  else if c = ',' then some (tokenAt .COMMA "," s)
  else if c = '+' then some (tokenAt .PLUS "+" s)
  else if c = ':' then some (tokenAt .COLON ":" s)
  else if c = '=' then
    let m := matchChar source s '='
    if m.1 then some (tokenAt .EQUAL_EQUAL "==" m.2) else some (tokenAt .ASSIGN "=" m.2)
  else if c = '!' then
    let m := matchChar source s '='
    if m.1 then some (tokenAt .BANG_EQUAL "!=" m.2) else some (tokenAt .BANG "!" m.2)
  else if c = '<' then
    let m := matchChar source s '='
    if m.1 then some (tokenAt .LESS_EQUAL "<=" m.2) else some (tokenAt .LESS "<" m.2)
  else if c = '>' then
    let m := matchChar source s '='
    if m.1 then some (tokenAt .GREATER_EQUAL ">=" m.2) else some (tokenAt .GT ">" m.2)
  else if c = '&' then
    let m := matchChar source s '&'
    if m.1 then some (tokenAt .AMPERSAND_AMPERSAND "&&" m.2)
    else some (tokenAt .UNKNOWN (String.singleton c) m.2)
  else if c = '|' then
    let m := matchChar source s '|'
    if m.1 then some (tokenAt .PIPE_PIPE "||" m.2)
    else some (tokenAt .UNKNOWN (String.singleton c) m.2)
  else if c = '-' then
    let m := matchChar source s '>'
    if m.1 then some (tokenAt .ARROW "->" m.2)
    else some (tokenAt .UNKNOWN (String.singleton c) m.2)
  else if c = '\"' then stringLiteral source fuel s
  else if isAlpha c then identifier source fuel s
  else if isDigit c then number source fuel s
  else some (tokenAt .UNKNOWN (String.singleton c) s)

/-- The loop of `tokenize` together with the final `push_back` of the end
marker. -/
def tokenizeLoop (source : List Char) : Nat → State → List Token → Option (List Token)
  | 0, _, _ => none
  | fuel + 1, s, tokens =>
    if !isAtEnd source s then
      match skipWhitespace source fuel s with
      | none => none
      | some s =>
        if isAtEnd source s then some (tokens ++ [⟨.END_OF_FILE, "", s.line, s.column⟩])
        else
          match nextToken source fuel s with
          | none => none
          | some (t, s) => tokenizeLoop source fuel s (tokens ++ [t])
    else some (tokens ++ [⟨.END_OF_FILE, "", s.line, s.column⟩])

/-- `Lexer::tokenize` on a fresh lexer: `none` when the fuel ran out, otherwise
the token vector returned. -/
def tokenize (fuel : Nat) (source : List Char) : Option (List Token) :=
  tokenizeLoop source fuel ⟨0, 0, 1, 1⟩ []

end Lexer

/-! ## Vocabulary of the statements below -/

/-- Token kinds that `parsePrimary` turns into an operand by themselves:
identifiers and the four kinds of literal. -/
def isAtom (t : Token) : Bool :=
  t.type == .IDENTIFIER || t.type == .INT_LITERAL || t.type == .FLOAT_LITERAL ||
    t.type == .STRING_LITERAL || t.type == .BOOL_LITERAL

/-- The node `parsePrimary` builds from an operand token that stands alone. -/
def atomExpr (t : Token) : Expr :=
  match t.type with
  | .INT_LITERAL => Expr.NumberExpr t.value t.type
  | .FLOAT_LITERAL => Expr.NumberExpr t.value t.type
  | .STRING_LITERAL => Expr.StringExpr ⟨t.value⟩
  | .BOOL_LITERAL => Expr.BoolExpr (decide (t.value = "true"))
  | _ => Expr.VariableExpr t.value

/-- Type keyword tokens: the four kinds `isType` accepts. -/
def isTypeTok (t : Token) : Bool :=
  t.type == .INT_TYPE || t.type == .FLOAT_TYPE || t.type == .STRING_TYPE || t.type == .BOOL_TYPE

/-- The tokens of a parameter list given as triples (comma, type, name): every
parameter preceded by its comma. -/
def paramTokens : List (Token × Token × Token) → List Token
  | [] => []
  | p :: ps => p.1 :: p.2.1 :: p.2.2 :: paramTokens ps

/-- The `(type, name)` pairs a parameter list declares, in source order. -/
def paramArgs (ps : List (Token × Token × Token)) : List (String × String) :=
  ps.map fun p => (p.2.1.value, p.2.2.value)

/-- The tokens of `fn NAME ( params )`; the comma of the first parameter is not
part of the text. -/
def prototypeTokens (fn name lp rp : Token) (ps : List (Token × Token × Token)) : List Token :=
  fn :: name :: lp :: ((paramTokens ps).tail ++ [rp])

/-- Moves the cursor of a result `k` tokens to the right. -/
def shiftRes {β : Type} (k : Nat) (r : Option (β × Nat)) : Option (β × Nat) :=
  r.map fun p => (p.1, k + p.2)

/-- What `tokenizeLoop` needs of a call of `nextToken` from state `s`: it
returns, it has read a character, and its token is not the end marker. -/
def Lexer.Advances (s : Lexer.State) (r : Option (Token × Lexer.State)) : Prop :=
  ∃ t s', r = some (t, s') ∧ s.current + 1 ≤ s'.current ∧ t.type ≠ TokenType.END_OF_FILE

/-- A token of kind `t` with text `v`; the parser never reads line and column. -/
def tk (t : TokenType) (v : String) : Token := ⟨t, v, 1, 1⟩

/-- The token vector of the source text `fn f() {`. -/
def unclosedTokens : List Token :=
  [⟨.FN, "fn", 1, 3⟩, ⟨.IDENTIFIER, "f", 1, 5⟩, ⟨.LPAREN, "(", 1, 6⟩, ⟨.RPAREN, ")", 1, 7⟩,
    ⟨.LBRACE, "\x7b", 1, 9⟩, ⟨.END_OF_FILE, "", 1, 9⟩]

/-- The token vector of the source text `fn f() { return ; int x = ; }`. -/
def absentValueTokens : List Token :=
  [⟨.FN, "fn", 1, 3⟩, ⟨.IDENTIFIER, "f", 1, 5⟩, ⟨.LPAREN, "(", 1, 6⟩, ⟨.RPAREN, ")", 1, 7⟩,
    ⟨.LBRACE, "\x7b", 1, 9⟩, ⟨.RETURN, "return", 1, 16⟩, ⟨.SEMICOLON, ";", 1, 18⟩,
    ⟨.INT_TYPE, "int", 1, 22⟩, ⟨.IDENTIFIER, "x", 1, 24⟩, ⟨.ASSIGN, "=", 1, 26⟩,
    ⟨.SEMICOLON, ";", 1, 28⟩, ⟨.RBRACE, "\x7d", 1, 30⟩, ⟨.END_OF_FILE, "", 1, 30⟩]

/-- The token vector of the source text `fn f() { if (x) return 1; }`. -/
def absentThenTokens : List Token :=
  [⟨.FN, "fn", 1, 3⟩, ⟨.IDENTIFIER, "f", 1, 5⟩, ⟨.LPAREN, "(", 1, 6⟩, ⟨.RPAREN, ")", 1, 7⟩,
    ⟨.LBRACE, "\x7b", 1, 9⟩, ⟨.IF, "if", 1, 12⟩, ⟨.LPAREN, "(", 1, 14⟩,
    ⟨.IDENTIFIER, "x", 1, 15⟩, ⟨.RPAREN, ")", 1, 16⟩, ⟨.RETURN, "return", 1, 23⟩,
    ⟨.INT_LITERAL, "1", 1, 25⟩, ⟨.SEMICOLON, ";", 1, 26⟩, ⟨.RBRACE, "\x7d", 1, 28⟩,
    ⟨.END_OF_FILE, "", 1, 28⟩]

/-- The token vector of the source text `fn f() { print(x); }`. -/
def printIdentifierTokens : List Token :=
  [⟨.FN, "fn", 1, 3⟩, ⟨.IDENTIFIER, "f", 1, 5⟩, ⟨.LPAREN, "(", 1, 6⟩, ⟨.RPAREN, ")", 1, 7⟩,
    ⟨.LBRACE, "\x7b", 1, 9⟩, ⟨.PRINT, "print", 1, 15⟩, ⟨.LPAREN, "(", 1, 16⟩,
    ⟨.IDENTIFIER, "x", 1, 17⟩, ⟨.RPAREN, ")", 1, 18⟩, ⟨.SEMICOLON, ";", 1, 19⟩,
    ⟨.RBRACE, "\x7d", 1, 21⟩, ⟨.END_OF_FILE, "", 1, 21⟩]

/-! ## The IR under construction (`codegen.h` and the LLVM objects it drives)

`CodeGen` owns an `llvm::Module`, an `llvm::IRBuilder` and the table
`namedValues`.  The embedding keeps of the LLVM objects what `codegen.cpp`
reads back from them (the function table, the type of a value, the parent of
a block, the entry block of a function, the names of arguments) and records
every instruction the builder inserts, with its operands as passed.  The
builder is an `llvm::IRBuilder<>` (`codegen.cpp`, line 10): its
`ConstantFolder` answers an arithmetic, bitwise or comparison operation on
constants with a constant and inserts nothing, and `CreateICmpNE` and
`CreateStore` read through their first operand, so that they do not return
when it is a null pointer.  The assertions of LLVM on the types of operands
are not modelled: an operation is recorded, or folded, whatever the types of
its operands.

* A pointer to an LLVM object is an index: `llvm::Function*` into the
  module's function list, `llvm::BasicBlock*` into the list of blocks created
  so far, an instruction by its creation number.  `nullptr` is `none`.
* A lowering function takes the generator's state and returns an `Outcome`:
  it returns a result with the new state, or it does not return because the
  program dereferences a null pointer or lets an exception escape.
* The recursion of the visitors follows the tree, so they are total and need
  no fuel.
-/

/-- The `llvm::Type`s the generator builds. -/
inductive LLVMType where
  | Void | Int1 | Int8 | Int32 | Float | Double
  | Pointer (pointee : LLVMType)
  | Array (n : Nat) (element : LLVMType)
  deriving DecidableEq

/-- `llvm::Type::isIntegerTy`. -/
def LLVMType.isIntegerTy : LLVMType → Bool
  | .Int1 | .Int8 | .Int32 => true
  | _ => false

/-- `llvm::Type::isVoidTy`. -/
def LLVMType.isVoidTy : LLVMType → Bool
  | .Void => true
  | _ => false

/-- Which `IRBuilder::Create...` call made an instruction. -/
inductive Opcode where
  | Alloca (AllocatedType : LLVMType)
  | Load | Store
  | Add | Sub | Mul | ICmpULT | ICmpEQ | ICmpNE | ICmpULE | ICmpUGE | And | Or
  | FAdd | FSub | FMul | FCmpULT | FCmpUEQ | FCmpUNE | FCmpULE | FCmpUGE
  | Not
  | Call (callee : Nat)
  | Ret | RetVoid
  | Br (Dest : Nat)
  | CondBr (True False : Nat)
  deriving DecidableEq

/-- An `llvm::Value*` as the generator sees it: each value knows its type.
`ConstantInt` holds the bits of the constant, `ConstantFP` the text of the
literal handed to `std::stod` (floating values are not computed),
`GlobalString` the number of the global string, `Argument` the function and
position of a formal argument, `Instruction` the creation number of the
instruction whose result it is.  `Folded` is the constant that the folder of
the builder returns for an operation on constants where its value is not
computed here (floating operands, operands of two types): the operation, its
operands and the type of the result. -/
inductive Value where
  | ConstantInt (type : LLVMType) (bits : Nat)
  | ConstantFP (literal : String)
  | GlobalString (index : Nat) (type : LLVMType)
  | Argument (function index : Nat) (type : LLVMType)
  | Instruction (id : Nat) (type : LLVMType)
  | Folded (opcode : Opcode) (L R : Value) (type : LLVMType)
  deriving DecidableEq

/-- `llvm::Value::getType`. -/
def Value.getType : Value → LLVMType
  | .ConstantInt type _ => type
  | .ConstantFP _ => .Double
  | .GlobalString _ type => type
  | .Argument _ _ type => type
  | .Instruction _ type => type
  | .Folded _ _ _ type => type

/-- `llvm::isa<llvm::Constant>`: constants of every kind and global
variables; arguments and instructions are not. -/
def Value.isConstant : Value → Bool
  | .ConstantInt _ _ | .ConstantFP _ | .GlobalString _ _ | .Folded _ _ _ _ => true
  | .Argument _ _ _ | .Instruction _ _ => false

/-- `llvm::Type::getIntegerBitWidth` of the integer types the generator
builds; 0 for the other types. -/
def LLVMType.getIntegerBitWidth : LLVMType → Nat
  | .Int1 => 1
  | .Int8 => 8
  | .Int32 => 32
  | _ => 0

/-- `llvm::Instruction::isTerminator`: a return or a branch. -/
def Opcode.isTerminator : Opcode → Bool
  | .Ret | .RetVoid | .Br _ | .CondBr _ _ => true
  | _ => false

/-- An instruction: its creation number, the call that made it, the operands
as passed (`none` is a null `llvm::Value*`), the type of its result and the
name asked for. -/
structure Instruction where
  id : Nat
  opcode : Opcode
  operands : List (Option Value)
  type : LLVMType
  Name : String
  deriving DecidableEq

/-- An `llvm::AllocaInst*`: the instruction and its allocated type. -/
structure AllocaInst where
  id : Nat
  AllocatedType : LLVMType
  deriving DecidableEq

/-- The alloca seen as a value: a pointer to the slot. -/
def AllocaInst.toValue (a : AllocaInst) : Value :=
  .Instruction a.id (.Pointer a.AllocatedType)

/-- An `llvm::BasicBlock`: the name asked for, the function it was inserted
into (`none`: created without a parent) and its instructions in order. -/
structure BasicBlock where
  Name : String
  Parent : Option Nat
  Insts : List Instruction
  deriving DecidableEq

/-- An `llvm::Function`: name, `llvm::FunctionType` (return type, parameter
types, variadic or not), the names of its arguments, and the counter from
which its symbol table numbers a name that is already in use. -/
structure Function where
  Name : String
  ReturnType : LLVMType
  Params : List LLVMType
  VarArg : Bool
  ArgNames : List String
  LastUnique : Nat
  deriving DecidableEq

/-- `llvm::Function::arg_size`. -/
def Function.arg_size (F : Function) : Nat := F.Params.length

/-- The state of a `CodeGen` object: the function list of `module` and the
counter of its symbol table, the global strings created, every basic block
created so far (in creation order), the number of instructions created, the
insertion block of `builder`, the table `namedValues` (a key may be bound to
a null pointer) and the messages written to the error stream. -/
structure CodeGen where
  functions : List Function
  LastUnique : Nat
  strings : List String
  blocks : List BasicBlock
  numInsts : Nat
  InsertBlock : Option Nat
  namedValues : List (String × Option AllocaInst)
  errs : List String
  deriving DecidableEq

/-- What a call of a lowering function leaves: `returned a g`, the call
returns `a` in state `g`; `aborted g`, the call does not return (a null
pointer is dereferenced, or an exception escapes), `g` being the state
reached. -/
inductive Outcome (α : Type) where
  | returned (a : α) (g : CodeGen)
  | aborted (g : CodeGen)
  deriving DecidableEq

/-- The state a call leaves. -/
def Outcome.state {α : Type} : Outcome α → CodeGen
  | .returned _ g => g
  | .aborted g => g

/-- The result of a call that returned. -/
def Outcome.result? {α : Type} : Outcome α → Option α
  | .returned a _ => some a
  | .aborted _ => none

/-- A member function of `CodeGen` with result `α`. -/
@[reducible] def M (α : Type) : Type := CodeGen → Outcome α

/-- Sequencing: the second call runs in the state the first one returned in. -/
def M.bind {α β : Type} (x : M α) (f : α → M β) : M β := fun g =>
  match x g with
  | .returned a g1 => f a g1
  | .aborted g1 => .aborted g1

instance : Monad M where
  pure a := fun g => .returned a g
  bind := M.bind

/-- The call does not return. -/
def abort {α : Type} : M α := fun g => .aborted g

/-- `CodeGen::CodeGen`: an empty module, a builder without insertion block. -/
def CodeGen.new : CodeGen :=
  { functions := [], LastUnique := 0, strings := [], blocks := [], numInsts := 0,
    InsertBlock := none, namedValues := [], errs := [] }

/-! ### The LLVM calls -/

/-- `ValueSymbolTable::makeUniqueName`: the loop that appends the next number
to a name already in use until the result is free.  `sep` is `"."` for a
global value and empty otherwise.  Among `taken.length + 1` candidates one is
free, which bounds the loop. -/
def makeUniqueName (sep : String) (taken : List String) (base : String) :
    Nat → Nat → String × Nat
  | 0, LastUnique => (base ++ sep ++ toString LastUnique, LastUnique)
  | fuel + 1, LastUnique =>
    let UniqueName := base ++ sep ++ toString (LastUnique + 1)
    if UniqueName ∈ taken then makeUniqueName sep taken base fuel (LastUnique + 1)
    else (UniqueName, LastUnique + 1)

/-- `ValueSymbolTable::createValueName`: the name itself when it is free, a
numbered one otherwise; with the new value of the table's counter. -/
def createValueName (sep : String) (taken : List String) (Name : String) (LastUnique : Nat) :
    String × Nat :=
  if Name ∈ taken then makeUniqueName sep taken Name (taken.length + 1) LastUnique
  else (Name, LastUnique)

/-- The loop `for (auto& arg : f->args()) arg.setName(...)` on a function
whose arguments have no name yet: the names the arguments end up with. -/
def setArgNames : List String → List String → Nat → List String × Nat
  | [], _, LastUnique => ([], LastUnique)
  | Name :: rest, taken, LastUnique =>
    let n := createValueName "" taken Name LastUnique
    let r := setArgNames rest (taken ++ [n.1]) n.2
    (n.1 :: r.1, r.2)

/-- `llvm::Module::getFunction`: the function of that name, if there is one. -/
def CodeGen.moduleGetFunction (g : CodeGen) (Name : String) : Option Nat :=
  g.functions.findIdx? (fun F => F.Name == Name)

/-- The function a pointer points to. -/
def CodeGen.function (g : CodeGen) (F : Nat) : Function :=
  g.functions.getD F ⟨"", .Void, [], false, [], 0⟩

/-- `llvm::Function::Create(ft, ExternalLinkage, Name, module)`: the function
is appended to the module; its arguments have no name yet.  A name already in
the module's symbol table is replaced by a numbered one. -/
def FunctionCreate (ReturnType : LLVMType) (Params : List LLVMType) (VarArg : Bool)
    (Name : String) : M Nat := fun g =>
  let n := createValueName "." (g.functions.map (·.Name)) Name g.LastUnique
  .returned g.functions.length
    { g with
      functions := g.functions ++ [⟨n.1, ReturnType, Params, VarArg, Params.map (fun _ => ""), 0⟩]
      LastUnique := n.2 }

/-- `llvm::BasicBlock::Create(context, Name, Parent)`: a new empty block,
appended to the function `Parent` when there is one. -/
def BasicBlockCreate (Name : String) (Parent : Option Nat) : M Nat := fun g =>
  .returned g.blocks.length { g with blocks := g.blocks ++ [⟨Name, Parent, []⟩] }

/-- `builder->SetInsertPoint(BB)`: new instructions go to the end of `BB`. -/
def SetInsertPoint (BB : Nat) : M Unit := fun g =>
  .returned () { g with InsertBlock := some BB }

/-- `llvm::BasicBlock::getParent` of a block. -/
def CodeGen.getParent (g : CodeGen) (BB : Nat) : Option Nat :=
  match g.blocks[BB]? with
  | some B => B.Parent
  | none => none

/-- `llvm::Function::getEntryBlock`: the first block inserted into the
function, if it has one. -/
def CodeGen.getEntryBlock (g : CodeGen) (F : Nat) : Option Nat :=
  g.blocks.findIdx? (fun B => B.Parent == some F)

/-- The builder inserts a new instruction at the end of its insertion block
(nowhere when it has none); the result is the instruction as a value. -/
def Insert (opcode : Opcode) (operands : List (Option Value)) (type : LLVMType)
    (Name : String) : M Value := fun g =>
  let I : Instruction := ⟨g.numInsts, opcode, operands, type, Name⟩
  .returned (.Instruction g.numInsts type)
    { g with
      numInsts := g.numInsts + 1
      blocks :=
        match g.InsertBlock with
        | some BB => g.blocks.modify (fun B => { B with Insts := B.Insts ++ [I] }) BB
        | none => g.blocks }

/-- `builder->CreateAlloca(Ty, 0, Name)`. -/
def CreateAlloca (Ty : LLVMType) (Name : String) : M AllocaInst := fun g =>
  match Insert (.Alloca Ty) [] (.Pointer Ty) Name g with
  | .returned _ g1 => .returned ⟨g.numInsts, Ty⟩ g1
  | .aborted g1 => .aborted g1

/-- `TmpB.CreateAlloca(Ty, 0, Name)` for the temporary builder
`TmpB(&BB, BB.begin())` of `visit(VarDeclStmt&)`: the alloca becomes the first
instruction of `BB`; the insertion block of `builder` is not touched. -/
def CreateAllocaAtBegin (BB : Nat) (Ty : LLVMType) (Name : String) : M AllocaInst := fun g =>
  let I : Instruction := ⟨g.numInsts, .Alloca Ty, [], .Pointer Ty, Name⟩
  .returned ⟨g.numInsts, Ty⟩
    { g with
      numInsts := g.numInsts + 1
      blocks := g.blocks.modify (fun B => { B with Insts := I :: B.Insts }) BB }

/-- `builder->CreateGlobalString(Str)`: a new global holding the text
(with its terminating zero); the result points to it.  No instruction. -/
def CreateGlobalString (Str : String) : M Value := fun g =>
  .returned (.GlobalString g.strings.length (.Pointer (.Array (Str.utf8ByteSize + 1) .Int8)))
    { g with strings := g.strings ++ [Str] }

/-- `builder->CreateLoad(Ty, Ptr, Name)`. -/
def CreateLoad (Ty : LLVMType) (Ptr : AllocaInst) (Name : String) : M Value :=
  Insert .Load [some Ptr.toValue] Ty Name

/-- `builder->CreateStore(Val, Ptr)` with a possibly null `Val`, as
`visit(VarDeclStmt&)` calls it: the builder reads `Val->getType()` for the
alignment of the store, so the call does not return for a null `Val`. -/
def CreateStore (Val : Option Value) (Ptr : AllocaInst) : M Value :=
  match Val with
  | none => abort
  | some Val => Insert .Store [some Val, some Ptr.toValue] .Void ""

/-- `builder->CreateCall(Callee, Args, Name)`: the result has the return type
of the callee. -/
def CreateCall (Callee : Nat) (Args : List (Option Value)) (Name : String) : M Value := fun g =>
  Insert (.Call Callee) Args (g.function Callee).ReturnType Name g

/-- `builder->CreateRet(V)`. -/
def CreateRet (V : Option Value) : M Value :=
  Insert .Ret [V] .Void ""

/-- `builder->CreateRetVoid()`. -/
def CreateRetVoid : M Value :=
  Insert .RetVoid [] .Void ""

/-- `builder->CreateBr(Dest)`. -/
def CreateBr (Dest : Nat) : M Value :=
  Insert (.Br Dest) [] .Void ""

/-- `builder->CreateCondBr(Cond, True, False)`. -/
def CreateCondBr (Cond : Value) (True False : Nat) : M Value :=
  Insert (.CondBr True False) [some Cond] .Void ""

/-- The constant the `ConstantFolder` of the builder returns for the
operation `opcode` on the constants `L` and `R`, `type` being the type of the
result.  On two `ConstantInt`s of one integer type the integer operations are
computed on the bits (arithmetic modulo two to the width, unsigned
comparison); every other constant is kept as `Folded`. -/
def fold (opcode : Opcode) (L R : Value) (type : LLVMType) : Value :=
  match L, R with
  | .ConstantInt t a, .ConstantInt t1 b =>
    if t = t1 ∧ t.isIntegerTy then
      let w := 2 ^ t.getIntegerBitWidth
      match opcode with
      | .Add => .ConstantInt t ((a + b) % w)
      | .Sub => .ConstantInt t ((a % w + (w - b % w)) % w)
      | .Mul => .ConstantInt t ((a * b) % w)
      | .And => .ConstantInt t ((a &&& b) % w)
      | .Or => .ConstantInt t ((a ||| b) % w)
      | .ICmpULT => .ConstantInt .Int1 (if a % w < b % w then 1 else 0)
      | .ICmpEQ => .ConstantInt .Int1 (if a % w = b % w then 1 else 0)
      | .ICmpNE => .ConstantInt .Int1 (if a % w = b % w then 0 else 1)
      | .ICmpULE => .ConstantInt .Int1 (if a % w ≤ b % w then 1 else 0)
      | .ICmpUGE => .ConstantInt .Int1 (if b % w ≤ a % w then 1 else 0)
      | _ => .Folded opcode L R type
    else .Folded opcode L R type
  | _, _ => .Folded opcode L R type

/-- The type of the result of a binary `builder->Create...(L, R, Name)` call:
the type of `L` for an arithmetic or bitwise operation, one bit for a
comparison. -/
def binaryType (opcode : Opcode) (L : Value) : LLVMType :=
  match opcode with
  | .Add | .Sub | .Mul | .And | .Or | .FAdd | .FSub | .FMul => L.getType
  | _ => .Int1

/-- The binary `builder->Create...(L, R, Name)` calls of `visit(BinaryExpr&)`:
when both operands are constants the folder answers with a constant and no
instruction is inserted; otherwise the instruction is inserted. -/
def CreateBinary (opcode : Opcode) (L R : Value) (Name : String) : M Value :=
  if L.isConstant && R.isConstant then pure (fold opcode L R (binaryType opcode L))
  else Insert opcode [some L, some R] (binaryType opcode L) Name

/-- `builder->CreateICmpNE(LHS, RHS, Name)` with a possibly null `LHS`, as
`visit(IfStmt&)` and `visit(WhileStmt&)` call it: the builder asks first
whether `LHS` is a constant, which reads through the pointer, so the call does
not return for a null `LHS`. -/
def CreateICmpNE (LHS : Option Value) (RHS : Value) (Name : String) : M Value :=
  match LHS with
  | none => abort
  | some LHS => CreateBinary .ICmpNE LHS RHS Name

/-- The constant the folder returns for `CreateNot` on a constant, an
exclusive or with the constant of all ones: computed on the bits of a
`ConstantInt` of an integer type, kept as `Folded` otherwise. -/
def foldNot (V : Value) : Value :=
  match V with
  | .ConstantInt t a =>
    if t.isIntegerTy then .ConstantInt t (2 ^ t.getIntegerBitWidth - 1 - a % 2 ^ t.getIntegerBitWidth)
    else .Folded .Not V (.ConstantInt t (2 ^ t.getIntegerBitWidth - 1)) t
  | _ => .Folded .Not V (.ConstantInt V.getType (2 ^ V.getType.getIntegerBitWidth - 1)) V.getType

/-- `builder->CreateNot(V, Name)`: a constant for a constant operand, an
instruction otherwise. -/
def CreateNot (V : Value) (Name : String) : M Value :=
  if V.isConstant then pure (foldNot V) else Insert .Not [some V] V.getType Name

/-! ### `codegen.cpp`, lines 34-61 -/

/-- One more line `Error: str` on the error stream; `errs` keeps the `str`. -/
def CodeGen.fprintf (g : CodeGen) (str : String) : CodeGen :=
  { g with errs := g.errs ++ [str] }

/-- `CodeGen::logErrorV`: the line on the error stream, and a null pointer. -/
def logErrorV {α : Type} (str : String) : M (Option α) := fun g =>
  .returned none (g.fprintf str)

/-- `CodeGen::getType`. -/
def getType (typeName : String) : LLVMType :=
  if typeName = "int" then .Int32
  else if typeName = "float" then .Float
  else if typeName = "bool" then .Int1
  else .Void

/-- `CodeGen::getFunction`: the function of that name in the module; `printf`
and `scanf` are declared on the spot when the module has none. -/
def getFunction (name : String) : M (Option Nat) := fun g =>
  match g.moduleGetFunction name with
  | some F => .returned (some F) g
  | none =>
    if name = "printf" then
      (FunctionCreate .Int32 [.Pointer .Int8] true "printf" >>= fun F => pure (some F)) g
    else if name = "scanf" then
      (FunctionCreate .Int32 [.Pointer .Int8] true "scanf" >>= fun F => pure (some F)) g
    else .returned none g

/-! ### Expressions (`codegen.cpp`, lines 63-164) -/

/-- `isspace` of the C locale. -/
def isspace (c : Char) : Bool :=
  c = ' ' || (9 ≤ c.toNat && c.toNat ≤ 13)

/-- `std::stoll(str)`: white space, an optional sign, then decimal digits up
to the first other character.  `none` when it throws: `std::invalid_argument`
without a digit, `std::out_of_range` outside the 64-bit signed range. -/
def stoll (str : String) : Option Int :=
  let s := str.toList.dropWhile isspace
  let signed : Bool × List Char :=
    match s with
    | '-' :: r => (true, r)
    | '+' :: r => (false, r)
    | _ => (false, s)
  let digits := signed.2.takeWhile Char.isDigit
  let n : Int := digits.foldl (fun acc c => 10 * acc + ((c.toNat - 48 : Nat) : Int)) 0
  let v : Int := if signed.1 then -n else n
  if digits = [] then none
  else if -(2 : Int) ^ 63 ≤ v ∧ v < (2 : Int) ^ 63 then some v
  else none

/-- `isxdigit` of the C locale. -/
def isxdigit (c : Char) : Bool :=
  c.isDigit || ('a'.toNat ≤ c.toLower.toNat && c.toLower.toNat ≤ 'f'.toNat)

/-- The number a text of digits denotes in the base `base`, a letter counting
from ten. -/
def digitsValue (base : Nat) (digits : List Char) : Nat :=
  digits.foldl (fun acc c =>
    base * acc + (if c.isDigit then c.toNat - 48 else c.toLower.toNat - 87)) 0

/-- The exponent part at the head of `s`: the letter `mark` in either case, an
optional sign and decimal digits.  The result is whether the sign is `-`, and
the value of the digits (0 when there is no exponent part). -/
def exponentPart (mark : Char) (s : List Char) : Bool × Nat :=
  match s with
  | c :: r =>
    if c.toLower = mark then
      let signed : Bool × List Char :=
        match r with
        | '-' :: r1 => (true, r1)
        | '+' :: r1 => (false, r1)
        | _ => (false, r)
      (signed.1, digitsValue 10 (signed.2.takeWhile Char.isDigit))
    else (false, 0)
  | [] => (false, 0)

/-- The fraction `M * base ^ e / scale` for an exponent `e` given by sign and
magnitude: numerator and denominator. -/
def scaled (M scale base : Nat) (exponent : Bool × Nat) : Nat × Nat :=
  if exponent.1 then (M, scale * base ^ exponent.2) else (M * base ^ exponent.2, scale)

/-- Whether `strtod` sets `ERANGE` for the value `num / den`: the value rounds
to infinity, or it is not zero, lies below the normal range of `double` and is
not a `double` itself (the underflow that glibc reports). -/
def rangeError (num den : Nat) : Bool :=
  decide ((2 ^ 1024 - 2 ^ 970) * den ≤ num) ||
    (decide (num ≠ 0) && decide (num * 2 ^ 1076 < (2 ^ 54 - 1) * den) &&
      decide ((num * 2 ^ 1074) % den ≠ 0))

/-- `std::stod(str)` as far as `visit(NumberExpr&)` depends on it: `some ()`
when it returns (the floating value is not computed) and `none` when it
throws.  After white space and an optional sign `strtod` reads `inf` or `nan`
in either case, a hexadecimal number after `0x`, or a decimal number, each
with an optional exponent part.  It throws `std::invalid_argument` when none
of these is there and `std::out_of_range` when `strtod` sets `ERANGE`. -/
def stod (str : String) : Option Unit :=
  let s := str.toList.dropWhile isspace
  let s : List Char :=
    match s with
    | '-' :: r => r
    | '+' :: r => r
    | _ => s
  let lower := s.map Char.toLower
  if "inf".toList.isPrefixOf lower || "nan".toList.isPrefixOf lower then some ()
  else
    let hex : Option (List Char) :=
      match s with
      | '0' :: x :: r =>
        if x.toLower = 'x' ∧
            (((r.head?.map isxdigit).getD false) ∨
              (r.head? = some '.' ∧ ((r.tail.head?.map isxdigit).getD false))) then some r
        else none
      | _ => none
    match hex with
    | some r =>
      let int := r.takeWhile isxdigit
      let rest := r.drop int.length
      let frac := if rest.head? = some '.' then rest.tail.takeWhile isxdigit else []
      let rest := if rest.head? = some '.' then rest.tail.drop frac.length else rest
      let v := scaled (digitsValue 16 (int ++ frac)) (16 ^ frac.length) 2 (exponentPart 'p' rest)
      if rangeError v.1 v.2 then none else some ()
    | none =>
      let int := s.takeWhile Char.isDigit
      let rest := s.drop int.length
      let frac := if rest.head? = some '.' then rest.tail.takeWhile Char.isDigit else []
      let rest := if rest.head? = some '.' then rest.tail.drop frac.length else rest
      if int = [] ∧ frac = [] then none
      else
        let v := scaled (digitsValue 10 (int ++ frac)) (10 ^ frac.length) 10 (exponentPart 'e' rest)
        if rangeError v.1 v.2 then none else some ()

/-- `CodeGen::visit(NumberExpr&)`.  `llvm::APInt(32, v, true)` keeps the low 32
bits of `v`; an exception of `std::stoll` or `std::stod` is not caught
anywhere.  The floating constant keeps the text of the literal. -/
def visitNumberExpr (V : String) (Ty : TokenType) : M (Option Value) :=
  if Ty = .INT_LITERAL then
    match stoll V with
    | some v => pure (some (.ConstantInt .Int32 (v % 2 ^ 32).toNat))
    | none => abort
  else if Ty = .FLOAT_LITERAL then
    match stod V with
    | some _ => pure (some (.ConstantFP V))
    | none => abort
  else logErrorV "Unknown number type"

/-- `CodeGen::visit(StringExpr&)`. -/
def visitStringExpr (ast : StringExpr) : M (Option Value) := do
  let s ← CreateGlobalString ast.Value
  pure (some s)

/-- `CodeGen::visit(BoolExpr&)`. -/
def visitBoolExpr (V : Bool) : M (Option Value) :=
  if V then pure (some (.ConstantInt .Int1 1)) else pure (some (.ConstantInt .Int1 0))

/-- The binding of `Name` in a table: `none` when the key is missing or bound
to a null pointer. -/
def lookupAlloca (namedValues : List (String × Option AllocaInst)) (Name : String) :
    Option AllocaInst :=
  (namedValues.lookup Name).join

/-- Reading `namedValues[Name]`: `std::map::operator[]` adds a missing key,
bound to a null pointer. -/
def namedValuesAt (Name : String) : M (Option AllocaInst) := fun g =>
  match g.namedValues.lookup Name with
  | some a => .returned a g
  | none => .returned none { g with namedValues := g.namedValues ++ [(Name, none)] }

/-- The table after `namedValues[Name] = alloca`. -/
def assign (Name : String) (alloca : AllocaInst) :
    List (String × Option AllocaInst) → List (String × Option AllocaInst)
  | [] => [(Name, some alloca)]
  | (k, v) :: rest =>
    if k = Name then (k, some alloca) :: rest else (k, v) :: assign Name alloca rest

/-- Writing `namedValues[Name] = alloca`. -/
def namedValuesSet (Name : String) (alloca : AllocaInst) : M Unit := fun g =>
  .returned () { g with namedValues := assign Name alloca g.namedValues }

/-- `CodeGen::visit(VariableExpr&)`. -/
def visitVariableExpr (Name : String) : M (Option Value) := do
  let a ← namedValuesAt Name
  match a with
  | none => logErrorV "Unknown variable name"
  | some a =>
    let v ← CreateLoad a.AllocatedType a Name
    pure (some v)

/-- The `if (ast.Op == ...)` chain of `visit(BinaryExpr&)` for an integer
left operand: the `Create...` call and the name it passes. -/
def integerInstruction (Op : String) : Option (Opcode × String) :=
  if Op = "+" then some (.Add, "addtmp")
  else if Op = "-" then some (.Sub, "subtmp")
  else if Op = "*" then some (.Mul, "multmp")
  else if Op = "<" then some (.ICmpULT, "cmptmp")
  else if Op = "==" then some (.ICmpEQ, "cmptmp")
  else if Op = "!=" then some (.ICmpNE, "cmptmp")
  else if Op = "<=" then some (.ICmpULE, "cmptmp")
  else if Op = ">=" then some (.ICmpUGE, "cmptmp")
  else if Op = "&&" then some (.And, "andtmp")
  else if Op = "||" then some (.Or, "ortmp")
  else none

/-- The `if (ast.Op == ...)` chain of `visit(BinaryExpr&)` for any other left
operand. -/
def floatInstruction (Op : String) : Option (Opcode × String) :=
  if Op = "+" then some (.FAdd, "addtmp")
  else if Op = "-" then some (.FSub, "subtmp")
  else if Op = "*" then some (.FMul, "multmp")
  else if Op = "<" then some (.FCmpULT, "cmptmp")
  else if Op = "==" then some (.FCmpUEQ, "cmptmp")
  else if Op = "!=" then some (.FCmpUNE, "cmptmp")
  else if Op = "<=" then some (.FCmpULE, "cmptmp")
  else if Op = ">=" then some (.FCmpUGE, "cmptmp")
  else none

/-- `CodeGen::visit(BinaryExpr&)` from line 106 on, `L` and `R` being the
results of the two calls of `visit`. -/
def visitBinaryExprRest (Op : String) (L R : Option Value) : M (Option Value) :=
  match L, R with
  | some L, some R =>
    match (if L.getType.isIntegerTy then integerInstruction Op else floatInstruction Op) with
    | some (opcode, Name) => do
      let v ← CreateBinary opcode L R Name
      pure (some v)
    | none => logErrorV "invalid binary operator"
  | _, _ => pure none

/-- `CodeGen::visit(UnaryExpr&)` from line 136 on. -/
def visitUnaryExprRest (Op : String) (operand : Option Value) : M (Option Value) :=
  match operand with
  | none => pure none
  | some operand =>
    if Op = "!" then do
      let v ← CreateNot operand "nottmp"
      pure (some v)
    else logErrorV "invalid unary operator"

mutual
/-- `CodeGen::visit(Expr&)` together with `visit(BinaryExpr&)`,
`visit(UnaryExpr&)` and `visit(CallExpr&)`, which call it back. -/
def visitExpr : Expr → M (Option Value)
  | .NumberExpr V Ty => visitNumberExpr V Ty
  | .StringExpr node => visitStringExpr node
  | .BoolExpr V => visitBoolExpr V
  | .VariableExpr Name => visitVariableExpr Name
  | .BinaryExpr Op LHS RHS => do
    let L ← visitExpr LHS
    let R ← visitExpr RHS
    visitBinaryExprRest Op L R
  | .UnaryExpr Op RHS => do
    let operand ← visitExpr RHS
    visitUnaryExprRest Op operand
  | .CallExpr Callee Args => do
    let calleeF ← getFunction Callee
    match calleeF with
    | none => logErrorV "Unknown function referenced"
    | some calleeF =>
      let F ← fun g => .returned (g.function calleeF) g
      if F.VarArg = false ∧ F.arg_size ≠ Args.length then
        logErrorV "Incorrect # arguments passed"
      else do
        let argsV ← visitCallArgs Args []
        match argsV with
        | none => pure none
        | some argsV =>
          let v ← CreateCall calleeF (argsV.map some) "calltmp"
          pure (some v)
termination_by structural e => e
/-- The argument loop of `visit(CallExpr&)`: `none` is its `return nullptr`. -/
def visitCallArgs : List Expr → List Value → M (Option (List Value))
  | [], argsV => pure (some argsV)
  | arg :: rest, argsV => do
    let v ← visitExpr arg
    match v with
    | none => pure none
    | some v => visitCallArgs rest (argsV ++ [v])
termination_by structural args => args
end

/-! ### Statements (`codegen.cpp`, lines 166-263) -/

/-- `CodeGen::visit(ReturnStmt&)`; `*ast.Value` dereferences the pointer. -/
def visitReturnStmt : Option Expr → M Unit
  | none => abort
  | some V => do
    let v ← visitExpr V
    let _ ← CreateRet v
    pure ()

/-- The argument loop of `visit(PrintStmt&)`: results are pushed unchecked. -/
def visitPrintArgs : List Expr → List (Option Value) → M (List (Option Value))
  | [], args => pure args
  | arg :: rest, args => do
    let v ← visitExpr arg
    visitPrintArgs rest (args ++ [v])

/-- `CodeGen::visit(PrintStmt&)`. -/
def visitPrintStmt (Format : StringExpr) (Args : List Expr) : M Unit := do
  let printfFn ← getFunction "printf"
  let format ← CreateGlobalString Format.Value
  let args ← visitPrintArgs Args [some format]
  match printfFn with
  | none => abort
  | some printfFn =>
    let _ ← CreateCall printfFn args ""
    pure ()

/-- `CodeGen::visit(ScanStmt&)`. -/
def visitScanStmt (Var : String) : M Unit := do
  let alloca ← namedValuesAt Var
  match alloca with
  | none =>
    let _ ← (logErrorV "Unknown variable name in scan" : M (Option Value))
    pure ()
  | some alloca =>
    let scanfFn ← getFunction "scanf"
    let formatStr ← CreateGlobalString "%d"
    match scanfFn with
    | none => abort
    | some scanfFn =>
      let _ ← CreateCall scanfFn [some formatStr, some alloca.toValue] ""
      pure ()

/-- `builder->GetInsertBlock()->getParent()`: the function of the insertion
block; the call does not return when the builder has no insertion block. -/
def GetInsertBlockParent : M (Option Nat) := fun g =>
  match g.InsertBlock with
  | none => .aborted g
  | some BB => .returned (g.getParent BB) g

/-- `&theFunction->getEntryBlock()`: does not return for a null `theFunction`
or a function without block. -/
def getEntryBlock (theFunction : Option Nat) : M Nat := fun g =>
  match theFunction with
  | none => .aborted g
  | some F =>
    match g.getEntryBlock F with
    | none => .aborted g
    | some BB => .returned BB g

/-- `CodeGen::visit(VarDeclStmt&)`. -/
def visitVarDeclStmt (VarType VarName : String) (Init : Option Expr) : M Unit := do
  let theFunction ← GetInsertBlockParent
  let entry ← getEntryBlock theFunction
  let alloca ← CreateAllocaAtBegin entry (getType VarType) VarName
  match Init with
  | some Init =>
    let initVal ← visitExpr Init
    let _ ← CreateStore initVal alloca
    namedValuesSet VarName alloca
  | none => namedValuesSet VarName alloca

mutual
/-- `CodeGen::visit(Stmt&)` together with `visit(IfStmt&)` and
`visit(WhileStmt&)`, which call it back through `visit(BlockStmt&)`. -/
def visitStmt : Stmt → M Unit
  | .BlockStmt block => visitBlockStmt block
  | .ReturnStmt V => visitReturnStmt V
  | .PrintStmt Format Args => visitPrintStmt Format Args
  | .ScanStmt Var => visitScanStmt Var
  | .VarDeclStmt VarType VarName Init => visitVarDeclStmt VarType VarName Init
  | .IfStmt Condition ThenBranch ElseBranch =>
    match Condition with
    | none => abort
    | some Condition => do
      let condV ← visitExpr Condition
      match condV with
      | none => pure ()
      | some condV =>
        let condV ← CreateICmpNE (some condV) (.ConstantInt .Int1 0) "ifcond"
        let theFunction ← GetInsertBlockParent
        let thenBB ← BasicBlockCreate "then" theFunction
        let elseBB ← BasicBlockCreate "else" theFunction
        let mergeBB ← BasicBlockCreate "ifcont" theFunction
        let _ ← CreateCondBr condV thenBB elseBB
        SetInsertPoint thenBB
        visitBranch ThenBranch
        let _ ← CreateBr mergeBB
        SetInsertPoint elseBB
        visitElseBranch ElseBranch
        let _ ← CreateBr mergeBB
        SetInsertPoint mergeBB
  | .WhileStmt Condition Body => do
    let theFunction ← GetInsertBlockParent
    let loopBB ← BasicBlockCreate "loop" theFunction
    let afterBB ← BasicBlockCreate "afterloop" none
    let _ ← CreateBr loopBB
    SetInsertPoint loopBB
    match Condition with
    | none => abort
    | some Condition =>
      let condV ← visitExpr Condition
      let condV ← CreateICmpNE condV (.ConstantInt .Int1 0) "loopcond"
      let _ ← CreateCondBr condV loopBB afterBB
      visitBranch Body
      let _ ← CreateBr loopBB
      SetInsertPoint afterBB
termination_by structural s => s
/-- `visit(*ast.ThenBranch)` and `visit(*ast.Body)`: the pointer is
dereferenced. -/
def visitBranch : Option BlockStmt → M Unit
  | none => abort
  | some block => visitBlockStmt block
termination_by structural b => b
/-- `if (ast.ElseBranch) visit(*ast.ElseBranch)`. -/
def visitElseBranch : Option BlockStmt → M Unit
  | none => pure ()
  | some block => visitBlockStmt block
termination_by structural b => b
/-- `CodeGen::visit(BlockStmt&)`. -/
def visitBlockStmt : BlockStmt → M Unit
  | .mk Statements => visitStatements Statements
termination_by structural b => b
/-- The loop of `visit(BlockStmt&)`. -/
def visitStatements : List Stmt → M Unit
  | [] => pure ()
  | stmt :: rest => do
    visitStmt stmt
    visitStatements rest
termination_by structural l => l
end

/-! ### Functions and the module (`codegen.cpp`, lines 13-15 and 265-334) -/

/-- The naming loops of `visit(PrototypeAST&)` on the function just created. -/
def SetArgNames (f : Nat) (names : List String) : M Unit := fun g =>
  .returned ()
    { g with
      functions := g.functions.modify
        (fun F =>
          let r := setArgNames names [] F.LastUnique
          { F with ArgNames := r.1, LastUnique := r.2 }) f }

/-- `CodeGen::visit(PrototypeAST&)`. -/
def visitPrototypeAST (ast : PrototypeAST) : M Nat := do
  let returnType := getType ast.ReturnType
  let argTypes : List LLVMType :=
    if ast.Name = "main" then [.Int32, .Pointer (.Pointer .Int8)]
    else ast.Args.map (fun arg => getType arg.1)
  let f ← FunctionCreate returnType argTypes false ast.Name
  if ast.Name = "main" then SetArgNames f ["argc", "argv"]
  else SetArgNames f (ast.Args.map (fun arg => arg.2))
  pure f

/-- The loop over `theFunction->args()` of `visit(FunctionAST&)`, on the
types and names of the arguments from position `idx` on. -/
def storeArgs (theFunction : Nat) : List (LLVMType × String) → Nat → M Unit
  | [], _ => pure ()
  | arg :: rest, idx => do
    let alloca ← CreateAlloca arg.1 arg.2
    let _ ← CreateStore (some (.Argument theFunction idx arg.1)) alloca
    namedValuesSet arg.2 alloca
    storeArgs theFunction rest (idx + 1)

/-- `CodeGen::visit(FunctionAST&)`.  `visit(PrototypeAST&)` returns no null
pointer, so the test after it is not represented; `llvm::verifyFunction`
changes nothing and its answer is dropped. -/
def visitFunctionAST (ast : FunctionAST) : M (Option Nat) := do
  let found ← getFunction ast.Proto.Name
  let theFunction ← (match found with
    | some F => pure F
    | none => visitPrototypeAST ast.Proto : M Nat)
  let BB ← BasicBlockCreate "entry" (some theFunction)
  SetInsertPoint BB
  let F ← fun g => .returned (g.function theFunction) { g with namedValues := [] }
  storeArgs theFunction (F.Params.zip F.ArgNames) 0
  visitBlockStmt ast.Body
  if F.ReturnType.isVoidTy then
    let _ ← CreateRetVoid
    pure (some theFunction)
  else pure (some theFunction)

/-- The first loop of `visit(ModuleAST&)`. -/
def declareAll : List FunctionAST → M Unit
  | [] => pure ()
  | func :: rest => do
    let _ ← visitPrototypeAST func.Proto
    declareAll rest

/-- The second loop of `visit(ModuleAST&)`. -/
def defineAll : List FunctionAST → M Unit
  | [] => pure ()
  | func :: rest => do
    let _ ← visitFunctionAST func
    defineAll rest

/-- `CodeGen::visit(ModuleAST&)`. -/
def visitModuleAST (ast : ModuleAST) : M Unit := do
  declareAll ast.Functions
  defineAll ast.Functions

/-- `CodeGen::generate`. -/
def generate (ast : ModuleAST) : M Unit :=
  visitModuleAST ast

/-! ### What a tree mentions -/

mutual
/-- The callee names of the `CallExpr` nodes of an expression. -/
def Expr.callees : Expr → List String
  | .BinaryExpr _ LHS RHS => LHS.callees ++ RHS.callees
  | .UnaryExpr _ RHS => RHS.callees
  | .CallExpr Callee Args => Callee :: calleesOfArgs Args
  | _ => []
termination_by structural e => e
/-- The callee names of the `CallExpr` nodes of a list of expressions. -/
def calleesOfArgs : List Expr → List String
  | [] => []
  | arg :: rest => arg.callees ++ calleesOfArgs rest
termination_by structural args => args
end

/-- The callee names in an expression that may be absent. -/
def calleesOfOption : Option Expr → List String
  | none => []
  | some e => e.callees

mutual
/-- The callee names of the `CallExpr` nodes of a statement. -/
def Stmt.callees : Stmt → List String
  | .VarDeclStmt _ _ Init => calleesOfOption Init
  | .ReturnStmt V => calleesOfOption V
  | .PrintStmt _ Args => calleesOfArgs Args
  | .ScanStmt _ => []
  | .IfStmt Condition ThenBranch ElseBranch =>
    calleesOfOption Condition ++ (calleesOfBranch ThenBranch ++ calleesOfBranch ElseBranch)
  | .WhileStmt Condition Body => calleesOfOption Condition ++ calleesOfBranch Body
  | .BlockStmt block => block.callees
termination_by structural s => s
/-- The callee names of the `CallExpr` nodes of a block that may be absent. -/
def calleesOfBranch : Option BlockStmt → List String
  | none => []
  | some block => block.callees
termination_by structural b => b
/-- The callee names of the `CallExpr` nodes of a block. -/
def BlockStmt.callees : BlockStmt → List String
  | .mk Statements => calleesOfStatements Statements
termination_by structural b => b
/-- The callee names of the `CallExpr` nodes of a list of statements. -/
def calleesOfStatements : List Stmt → List String
  | [] => []
  | stmt :: rest => stmt.callees ++ calleesOfStatements rest
termination_by structural l => l
end

mutual
/-- The variable names a statement declares, at any depth. -/
def Stmt.declared : Stmt → List String
  | .VarDeclStmt _ VarName _ => [VarName]
  | .IfStmt _ ThenBranch ElseBranch => declaredOfBranch ThenBranch ++ declaredOfBranch ElseBranch
  | .WhileStmt _ Body => declaredOfBranch Body
  | .BlockStmt block => block.declared
  | _ => []
termination_by structural s => s
/-- The variable names a block that may be absent declares, at any depth. -/
def declaredOfBranch : Option BlockStmt → List String
  | none => []
  | some block => block.declared
termination_by structural b => b
/-- The variable names a block declares, at any depth. -/
def BlockStmt.declared : BlockStmt → List String
  | .mk Statements => declaredOfStatements Statements
termination_by structural b => b
/-- The variable names a list of statements declares, at any depth. -/
def declaredOfStatements : List Stmt → List String
  | [] => []
  | stmt :: rest => stmt.declared ++ declaredOfStatements rest
termination_by structural l => l
end

/-! ### Relations kept by lowering -/

/-- A relation between an earlier and a later state of the generator that
every elementary step of expression lowering keeps: it is reflexive and
transitive and holds across each call into LLVM and each access to
`namedValues` or the error stream that an expression makes.  `okCallee` limits
the callees whose lookup may fail. -/
structure ExprFrame (R : CodeGen → CodeGen → Prop) (okCallee : String → Prop) : Prop where
  refl : ∀ g, R g g
  trans : ∀ g1 g2 g3, R g1 g2 → R g2 g3 → R g1 g3
  inserted : ∀ g opcode operands type Name, R g (Insert opcode operands type Name g).state
  globalString : ∀ g Str, R g (CreateGlobalString Str g).state
  looked : ∀ g Name, R g (namedValuesAt Name g).state
  logged : ∀ g str, str ≠ "Unknown function referenced" → R g (g.fprintf str)
  unknown : ∀ g Callee, okCallee Callee → g.moduleGetFunction Callee = none →
    Callee ≠ "printf" → Callee ≠ "scanf" → R g (g.fprintf "Unknown function referenced")
  declared : ∀ g ReturnType Params VarArg Name,
    R g (FunctionCreate ReturnType Params VarArg Name g).state

/-- A relation that every elementary step of statement lowering keeps as
well: it holds across the alloca and the binding of a declaration whose name
`okDecl` admits and across the creation of a block, and survives moving the
insertion point to a block created after the earlier state. -/
structure Frame (R : CodeGen → CodeGen → Prop) (okDecl okCallee : String → Prop)
    extends ExprFrame R okCallee : Prop where
  allocated : ∀ g BB Ty Name, okDecl Name → R g (CreateAllocaAtBegin BB Ty Name g).state
  blockCreated : ∀ g Name Parent, R g (BasicBlockCreate Name Parent g).state
  moved : ∀ g0 g BB, R g0 g → g0.blocks.length ≤ BB → R g0 { g with InsertBlock := some BB }
  bound : ∀ g Name alloca, okDecl Name → R g (namedValuesSet Name alloca g).state

/-- The call `x`, made in any state `g` reached from `g0`, leaves a state
still related to `g0`, no block of `g0` being lost; and what it returns
satisfies `Q`. -/
def Keeps (R : CodeGen → CodeGen → Prop) (g0 : CodeGen) {α : Type} (x : M α)
    (Q : α → Prop) : Prop :=
  ∀ g, R g0 g → g0.blocks.length ≤ g.blocks.length →
    R g0 (x g).state ∧ g0.blocks.length ≤ (x g).state.blocks.length ∧
      ∀ a g1, x g = .returned a g1 → Q a

/-- What lowering does to the blocks: `g1` is reached from `g` when no
function, block or instruction number of `g` is lost, the insertion block is
the one of `g` or a block created since, and every block of `g` keeps its name,
its parent and its instructions, with allocas put in front of them and, only
in the insertion block of `g`, instructions put behind them. -/
structure Extends (g g1 : CodeGen) : Prop where
  functions : g.functions <+: g1.functions
  numInsts : g.numInsts ≤ g1.numInsts
  length : g.blocks.length ≤ g1.blocks.length
  insertBlock : g1.InsertBlock = g.InsertBlock ∨
    ∃ BB, g1.InsertBlock = some BB ∧ g.blocks.length ≤ BB
  blocks : ∀ i B, g.blocks[i]? = some B →
    ∃ B1, g1.blocks[i]? = some B1 ∧ B1.Name = B.Name ∧ B1.Parent = B.Parent ∧
      ∃ pre post, B1.Insts = pre ++ B.Insts ++ post ∧
        (∀ I ∈ pre, ∃ Ty, I.opcode = .Alloca Ty) ∧ (g.InsertBlock ≠ some i → post = [])

/-- The operators `visit(BinaryExpr&)` has a case for. -/
def binaryOperators : List String :=
  ["+", "-", "*", "<", "==", "!=", "<=", ">=", "&&", "||"]

/-- The instructions of the integer family. -/
def Opcode.isIntegerFamily : Opcode → Bool
  | .Add | .Sub | .Mul | .ICmpULT | .ICmpEQ | .ICmpNE | .ICmpULE | .ICmpUGE | .And | .Or => true
  | _ => false

/-- The instructions of the floating family. -/
def Opcode.isFloatFamily : Opcode → Bool
  | .FAdd | .FSub | .FMul | .FCmpULT | .FCmpUEQ | .FCmpUNE | .FCmpULE | .FCmpUGE => true
  | _ => false

/-- The bytes of the UTF-8 encoding of a character, each as the character of
its number: the `char`s a `std::string` holds for it. -/
def utf8Chars (c : Char) : List Char :=
  let n := c.toNat
  if n < 0x80 then [c]
  else if n < 0x800 then [Char.ofNat (0xC0 + n / 0x40), Char.ofNat (0x80 + n % 0x40)]
  else if n < 0x10000 then
    [Char.ofNat (0xE0 + n / 0x1000), Char.ofNat (0x80 + n / 0x40 % 0x40),
      Char.ofNat (0x80 + n % 0x40)]
  else
    [Char.ofNat (0xF0 + n / 0x40000), Char.ofNat (0x80 + n / 0x1000 % 0x40),
      Char.ofNat (0x80 + n / 0x40 % 0x40), Char.ofNat (0x80 + n % 0x40)]

/-- The `char`s of the `std::string` that holds a text, which is what the
lexer reads: one for each byte of the text in UTF-8. -/
def sourceChars (source : String) : List Char :=
  (source.toList.map utf8Chars).flatten

/-- The characters whose UTF-8 bytes a list of `char`s holds, when it is made
of complete sequences. -/
def decodeChars : List Char → Option (List Char)
  | [] => some []
  | c :: rest =>
    if c.toNat < 0x80 then (decodeChars rest).map (c :: ·)
    else
      match rest with
      | [] => none
      | c1 :: rest1 =>
        if 0xC0 ≤ c.toNat ∧ c.toNat < 0xE0 then
          (decodeChars rest1).map (Char.ofNat ((c.toNat - 0xC0) * 0x40 + (c1.toNat - 0x80)) :: ·)
        else
          match rest1 with
          | [] => none
          | c2 :: rest2 =>
            if 0xE0 ≤ c.toNat ∧ c.toNat < 0xF0 then
              (decodeChars rest2).map
                (Char.ofNat ((c.toNat - 0xE0) * 0x1000 + (c1.toNat - 0x80) * 0x40 +
                  (c2.toNat - 0x80)) :: ·)
            else
              match rest2 with
              | [] => none
              | c3 :: rest3 =>
                if 0xF0 ≤ c.toNat ∧ c.toNat < 0xF8 then
                  (decodeChars rest3).map
                    (Char.ofNat ((c.toNat - 0xF0) * 0x40000 + (c1.toNat - 0x80) * 0x1000 +
                      (c2.toNat - 0x80) * 0x40 + (c3.toNat - 0x80)) :: ·)
                else none

/-- The text of a token the lexer has cut out of the `char`s of the source:
the characters its bytes encode.  A token that is a single byte of a longer
sequence keeps that byte as its text. -/
def Token.decoded (t : Token) : Token :=
  match decodeChars t.value.toList with
  | some cs => { t with value := String.mk cs }
  | none => t

/-- Run `tokenize`, `parse` and `generate` on a source text, as `main` does;
`fuel` bounds the lexer and the parser.  The lexer reads the bytes of the
text. -/
def compile (fuel : Nat) (source : String) : Option (Outcome Unit) :=
  match Lexer.tokenize fuel (sourceChars source) with
  | none => none
  | some tokens =>
    match parse fuel (tokens.map Token.decoded) with
    | none => none
    | some ast => some (generate ast CodeGen.new)

/-! ### More vocabulary of the statements below -/

/-- The tokens of an argument list given as pairs (comma, operand): every
argument preceded by its comma. -/
def argumentTokens : List (Token × Token) → List Token
  | [] => []
  | p :: ps => p.1 :: p.2 :: argumentTokens ps

/-- The tokens of the call `NAME ( args )`; the comma of the first argument is
not part of the text. -/
def callTokens (name lp rp : Token) (args : List (Token × Token)) : List Token :=
  name :: lp :: ((argumentTokens args).tail ++ [rp])

/-- What lowering an expression does: `g1` is reached from `g` with the same
insertion block, the same bindings in `namedValues`, no function or
instruction number lost, the same blocks, and instructions added only behind
those of the insertion block. -/
structure Appends (g g1 : CodeGen) : Prop where
  insertBlock : g1.InsertBlock = g.InsertBlock
  namedValues : ∀ Name, lookupAlloca g1.namedValues Name = lookupAlloca g.namedValues Name
  numInsts : g.numInsts ≤ g1.numInsts
  functions : g.functions <+: g1.functions
  length : g1.blocks.length = g.blocks.length
  blocks : ∀ i B, g.blocks[i]? = some B →
    ∃ B1, g1.blocks[i]? = some B1 ∧ B1.Name = B.Name ∧ B1.Parent = B.Parent ∧
      ∃ post, B1.Insts = B.Insts ++ post ∧ (g.InsertBlock ≠ some i → post = [])

/-- `CodeGen::visit(CallExpr&)` from line 155 on: the arguments are lowered
and, when none fails, the call is emitted. -/
def emitCall (calleeF : Nat) (Args : List Expr) : M (Option Value) :=
  visitCallArgs Args [] >>= fun argsV =>
    match argsV with
    | none => pure none
    | some argsV => CreateCall calleeF (argsV.map some) "calltmp" >>= fun v => pure (some v)

/-- The state in which `visit(WhileStmt&)` lowers the condition: the blocks
`loop` and `afterloop` exist, the jump to `loop` is emitted and `loop` is the
insertion block. -/
def whileHeader (g : CodeGen) : CodeGen :=
  ((GetInsertBlockParent >>= fun theFunction =>
    BasicBlockCreate "loop" theFunction >>= fun loopBB =>
    BasicBlockCreate "afterloop" none >>= fun _ =>
    CreateBr loopBB >>= fun _ => SetInsertPoint loopBB) g).state

/-- The module of `fn f() { if (x) { } }`. -/
def ifUndeclaredModule : ModuleAST :=
  ⟨[⟨⟨"f", [], "void"⟩, .mk [.IfStmt (some (.VariableExpr "x")) (some (.mk [])) none]⟩]⟩

/-- The module of `fn f() { while (x) { } }`. -/
def whileUndeclaredModule : ModuleAST :=
  ⟨[⟨⟨"f", [], "void"⟩, .mk [.WhileStmt (some (.VariableExpr "x")) (some (.mk []))]⟩]⟩

/-- The name, the parent and the opcodes of each block of a state. -/
def CodeGen.shape (g : CodeGen) : List (String × Option Nat × List Opcode) :=
  g.blocks.map fun B => (B.Name, B.Parent, B.Insts.map (·.opcode))

/-- The state right after lowering `fn f() { }` in a fresh generator: the
insertion block is the entry block of `f`. -/
def entryState : CodeGen :=
  (generate ⟨[⟨⟨"f", [], "void"⟩, .mk []⟩]⟩ CodeGen.new).state

/-- The module of `fn f(string s): string { string t; }`. -/
def stringModule : ModuleAST :=
  ⟨[⟨⟨"f", [("string", "s")], "string"⟩, .mk [.VarDeclStmt "string" "t" none]⟩]⟩

/-- The module of
`fn f() { int x = 0; while (x < 3) { print("%d", x); } }`. -/
def whileModule : ModuleAST :=
  ⟨[⟨⟨"f", [], "void"⟩, .mk [.VarDeclStmt "int" "x" (some (.NumberExpr "0" .INT_LITERAL)),
    .WhileStmt (some (.BinaryExpr "<" (.VariableExpr "x") (.NumberExpr "3" .INT_LITERAL)))
      (some (.mk [.PrintStmt ⟨"%d"⟩ [.VariableExpr "x"]]))]⟩]⟩

/-- The module of
`fn f() { int x = 0; while (x < 3) { print("%d", x); } int y; }`. -/
def declAfterWhileModule : ModuleAST :=
  ⟨[⟨⟨"f", [], "void"⟩, .mk [.VarDeclStmt "int" "x" (some (.NumberExpr "0" .INT_LITERAL)),
    .WhileStmt (some (.BinaryExpr "<" (.VariableExpr "x") (.NumberExpr "3" .INT_LITERAL)))
      (some (.mk [.PrintStmt ⟨"%d"⟩ [.VariableExpr "x"]])),
    .VarDeclStmt "int" "y" none]⟩]⟩

/-- The module of `fn f() { while (false) { } if (true) { int y; } }`. -/
def declInArmAfterWhileModule : ModuleAST :=
  ⟨[⟨⟨"f", [], "void"⟩, .mk [.WhileStmt (some (.BoolExpr false)) (some (.mk [])),
    .IfStmt (some (.BoolExpr true)) (some (.mk [.VarDeclStmt "int" "y" none])) none]⟩]⟩

/-- The module of `fn f() { while (false) { int y; } }`. -/
def declInLoopModule : ModuleAST :=
  ⟨[⟨⟨"f", [], "void"⟩, .mk [.WhileStmt (some (.BoolExpr false))
    (some (.mk [.VarDeclStmt "int" "y" none]))]⟩]⟩

/-- The module of `fn f() { int y = z; }`. -/
def declUndeclaredModule : ModuleAST :=
  ⟨[⟨⟨"f", [], "void"⟩, .mk [.VarDeclStmt "int" "y" (some (.VariableExpr "z"))]⟩]⟩

/-- The module of `fn f(): int { return 1 + 2; }`. -/
def foldModule : ModuleAST :=
  ⟨[⟨⟨"f", [], "int"⟩, .mk [.ReturnStmt (some (.BinaryExpr "+" (.NumberExpr "1" .INT_LITERAL)
    (.NumberExpr "2" .INT_LITERAL)))]⟩]⟩

/-- The state in which `visit(IfStmt&)` lowers the then-branch, `g1` being the
state after the condition and `condV` its value: the comparison is emitted,
the blocks `then`, `else` and `ifcont` exist, the conditional branch is
emitted and `then` is the insertion block. -/
def ifArms (condV : Value) (g1 : CodeGen) : CodeGen :=
  ((CreateICmpNE (some condV) (.ConstantInt .Int1 0) "ifcond" >>= fun condV =>
    GetInsertBlockParent >>= fun theFunction =>
    BasicBlockCreate "then" theFunction >>= fun thenBB =>
    BasicBlockCreate "else" theFunction >>= fun elseBB =>
    BasicBlockCreate "ifcont" theFunction >>= fun _ =>
    CreateCondBr condV thenBB elseBB >>= fun _ => SetInsertPoint thenBB) g1).state

/-- The part of `visit(FunctionAST&)` that comes before the body is lowered
(lines 296-313): the function is looked up, its entry block created and made
the insertion block, `namedValues` cleared and every argument stored into a
slot of its own.  The result is the function and what the module holds of
it. -/
def enterFunction (ast : FunctionAST) : M (Nat × Function) := do
  let found ← getFunction ast.Proto.Name
  let theFunction ← (match found with
    | some F => pure F
    | none => visitPrototypeAST ast.Proto : M Nat)
  let BB ← BasicBlockCreate "entry" (some theFunction)
  SetInsertPoint BB
  let F ← fun g => .returned (g.function theFunction) { g with namedValues := [] }
  storeArgs theFunction (F.Params.zip F.ArgNames) 0
  pure (theFunction, F)

/-- The table that binds each argument, given by type and name, to a slot of
its own: the slots are the instructions numbered `base`, `base + 2`, ... -/
def argSlots (base : Nat) : List (LLVMType × String) → List (String × Option AllocaInst)
  | [] => []
  | arg :: rest => (arg.2, some ⟨base, arg.1⟩) :: argSlots (base + 2) rest

/-- For each argument from position `idx` on, the alloca of its slot followed
by the store of the argument into the slot. -/
def argInsts (theFunction : Nat) : Nat → Nat → List (LLVMType × String) → List Instruction
  | _, _, [] => []
  | base, idx, arg :: rest =>
    ⟨base, .Alloca arg.1, [], .Pointer arg.1, arg.2⟩ ::
      ⟨base + 1, .Store,
        [some (.Argument theFunction idx arg.1), some (.Instruction base (.Pointer arg.1))],
        .Void, ""⟩ :: argInsts theFunction (base + 2) (idx + 1) rest

/-- The state after `int x;` in the entry block of `entryState`. -/
def declaredState : CodeGen :=
  (visitVarDeclStmt "int" "x" none entryState).state

/-- The module of `fn f(int a) { int x; } fn h(int b) { print("%d", x); }`. -/
def twoScopesModule : ModuleAST :=
  ⟨[⟨⟨"f", [("int", "a")], "void"⟩, .mk [.VarDeclStmt "int" "x" none]⟩,
    ⟨⟨"h", [("int", "b")], "void"⟩, .mk [.PrintStmt ⟨"%d"⟩ [.VariableExpr "x"]]⟩]⟩

/-- The module of `fn main(int a) { print("%d", a); print("%d", argc); }`. -/
def mainModule : ModuleAST :=
  ⟨[⟨⟨"main", [("int", "a")], "void"⟩,
    .mk [.PrintStmt ⟨"%d"⟩ [.VariableExpr "a"], .PrintStmt ⟨"%d"⟩ [.VariableExpr "argc"]]⟩]⟩

/-- Every name of `S` is the name of a function the module holds. -/
def Declared (S : List String) (g : CodeGen) : Prop :=
  ∀ n ∈ S, (g.moduleGetFunction n).isSome

/-- From `g` to `g1` no lookup of a function is lost, and when the names of
`S` are declared in `g` no line `Unknown function referenced` has been added
to an error stream that had none. -/
def Resolved (S : List String) (g g1 : CodeGen) : Prop :=
  (∀ n F, g.moduleGetFunction n = some F → g1.moduleGetFunction n = some F) ∧
    (Declared S g → "Unknown function referenced" ∉ g.errs →
      "Unknown function referenced" ∉ g1.errs)

/-- The module of `fn a(): int { return b(); } fn b(): int { return a(); }`. -/
def mutualModule : ModuleAST :=
  ⟨[⟨⟨"a", [], "int"⟩, .mk [.ReturnStmt (some (.CallExpr "b" []))]⟩,
    ⟨⟨"b", [], "int"⟩, .mk [.ReturnStmt (some (.CallExpr "a" []))]⟩]⟩

/-! ### Cursor positions of the parser -/

/-- The cursor `c` is reached from the cursor `cur` by advancing: it is not
before `cur`, and it is an index of the token vector when `cur` is one. -/
def Reach (toks : List Token) (cur c : Nat) : Prop :=
  cur ≤ c ∧ (cur < toks.length → c < toks.length)

/-- The tokens of
`fn add(int a, int b): int { return a + b; } fn main(): int { int x = add(2, 3); print("%d", x); return 0; }`,
with the line and the column the lexer gives each. -/
def addMainTokens : List Token :=
  [⟨.FN, "fn", 1, 3⟩, ⟨.IDENTIFIER, "add", 1, 7⟩, ⟨.LPAREN, "(", 1, 8⟩, ⟨.INT_TYPE, "int", 1, 11⟩,
    ⟨.IDENTIFIER, "a", 1, 13⟩, ⟨.COMMA, ",", 1, 14⟩, ⟨.INT_TYPE, "int", 1, 18⟩,
    ⟨.IDENTIFIER, "b", 1, 20⟩, ⟨.RPAREN, ")", 1, 21⟩, ⟨.COLON, ":", 1, 22⟩,
    ⟨.INT_TYPE, "int", 1, 26⟩, ⟨.LBRACE, "\x7b", 1, 28⟩, ⟨.RETURN, "return", 1, 35⟩,
    ⟨.IDENTIFIER, "a", 1, 37⟩, ⟨.PLUS, "+", 1, 39⟩, ⟨.IDENTIFIER, "b", 1, 41⟩,
    ⟨.SEMICOLON, ";", 1, 42⟩, ⟨.RBRACE, "\x7d", 1, 44⟩, ⟨.FN, "fn", 1, 47⟩,
    ⟨.IDENTIFIER, "main", 1, 52⟩, ⟨.LPAREN, "(", 1, 53⟩, ⟨.RPAREN, ")", 1, 54⟩,
    ⟨.COLON, ":", 1, 55⟩, ⟨.INT_TYPE, "int", 1, 59⟩, ⟨.LBRACE, "\x7b", 1, 61⟩,
    ⟨.INT_TYPE, "int", 1, 65⟩, ⟨.IDENTIFIER, "x", 1, 67⟩, ⟨.ASSIGN, "=", 1, 69⟩,
    ⟨.IDENTIFIER, "add", 1, 73⟩, ⟨.LPAREN, "(", 1, 74⟩, ⟨.INT_LITERAL, "2", 1, 75⟩,
    ⟨.COMMA, ",", 1, 76⟩, ⟨.INT_LITERAL, "3", 1, 78⟩, ⟨.RPAREN, ")", 1, 79⟩,
    ⟨.SEMICOLON, ";", 1, 80⟩, ⟨.PRINT, "print", 1, 86⟩, ⟨.LPAREN, "(", 1, 87⟩,
    ⟨.STRING_LITERAL, "%d", 1, 91⟩, ⟨.COMMA, ",", 1, 92⟩, ⟨.IDENTIFIER, "x", 1, 94⟩,
    ⟨.RPAREN, ")", 1, 95⟩, ⟨.SEMICOLON, ";", 1, 96⟩, ⟨.RETURN, "return", 1, 103⟩,
    ⟨.INT_LITERAL, "0", 1, 105⟩, ⟨.SEMICOLON, ";", 1, 106⟩, ⟨.RBRACE, "\x7d", 1, 108⟩,
    ⟨.END_OF_FILE, "", 1, 108⟩]

/-- The module of `add` and `main` that the parser is to return on
`addMainTokens`. -/
def addMainModule : ModuleAST :=
  ⟨[⟨⟨"add", [("int", "a"), ("int", "b")], "int"⟩,
      .mk [.ReturnStmt (some (.BinaryExpr "+" (.VariableExpr "a") (.VariableExpr "b")))]⟩,
    ⟨⟨"main", [], "int"⟩,
      .mk [.VarDeclStmt "int" "x" (some (.CallExpr "add"
          [.NumberExpr "2" .INT_LITERAL, .NumberExpr "3" .INT_LITERAL])),
        .PrintStmt ⟨"%d"⟩ [.VariableExpr "x"],
        .ReturnStmt (some (.NumberExpr "0" .INT_LITERAL))]⟩]⟩

/-! ### Operators in the tree -/

/-- The texts of the operators that have a precedence. -/
def surfaceOperators : List String :=
  ["+", "<", "==", "!=", "<=", ">=", "&&", "||"]

/-- A token whose kind has an entry in `BinopPrecedence` carries one of the
operator texts, and a token of kind `BANG` carries `!`. -/
def Token.lexemeOk (t : Token) : Prop :=
  (BinopPrecedence t.type ≠ none → t.value ∈ surfaceOperators) ∧
    (t.type = .BANG → t.value = "!")

mutual
/-- Every `BinaryExpr` node of the expression has one of the operator texts
and every `UnaryExpr` node has `!`. -/
def Expr.operatorsOk : Expr → Bool
  | .BinaryExpr Op LHS RHS => decide (Op ∈ surfaceOperators) && LHS.operatorsOk && RHS.operatorsOk
  | .UnaryExpr Op RHS => decide (Op = "!") && RHS.operatorsOk
  | .CallExpr _ Args => operatorsOkArgs Args
  | _ => true
termination_by structural e => e
/-- The same of every expression of a list. -/
def operatorsOkArgs : List Expr → Bool
  | [] => true
  | arg :: rest => arg.operatorsOk && operatorsOkArgs rest
termination_by structural args => args
end

/-- The same of an expression that may be absent. -/
def operatorsOkOption : Option Expr → Bool
  | none => true
  | some e => e.operatorsOk

mutual
/-- Every `BinaryExpr` node in the statement has one of the operator texts and
every `UnaryExpr` node has `!`. -/
def Stmt.operatorsOk : Stmt → Bool
  | .VarDeclStmt _ _ Init => operatorsOkOption Init
  | .ReturnStmt V => operatorsOkOption V
  | .PrintStmt _ Args => operatorsOkArgs Args
  | .ScanStmt _ => true
  | .IfStmt Condition ThenBranch ElseBranch =>
    operatorsOkOption Condition && operatorsOkBranch ThenBranch && operatorsOkBranch ElseBranch
  | .WhileStmt Condition Body => operatorsOkOption Condition && operatorsOkBranch Body
  | .BlockStmt block => block.operatorsOk
termination_by structural s => s
/-- The same of a block that may be absent. -/
def operatorsOkBranch : Option BlockStmt → Bool
  | none => true
  | some block => block.operatorsOk
termination_by structural b => b
/-- The same of a block. -/
def BlockStmt.operatorsOk : BlockStmt → Bool
  | .mk Statements => operatorsOkStatements Statements
termination_by structural b => b
/-- The same of a list of statements. -/
def operatorsOkStatements : List Stmt → Bool
  | [] => true
  | stmt :: rest => stmt.operatorsOk && operatorsOkStatements rest
termination_by structural l => l
end

/-- Every `BinaryExpr` node anywhere in the module has one of the operator
texts and every `UnaryExpr` node has `!`. -/
def ModuleAST.operatorsOk (m : ModuleAST) : Bool :=
  m.Functions.all fun f => f.Body.operatorsOk

/-- What the parser needs of a call of the lexer that returns a token: the
text of the token fits its kind. -/
def Lexer.Lexemes (r : Option (Token × Lexer.State)) : Prop :=
  ∀ t s, r = some (t, s) → t.lexemeOk

/-! ## Reading the token vector -/

theorem getElem?_pre (pre l : List Token) (k : Nat) : (pre ++ l)[pre.length + k]? = l[k]? := by
  rw [List.getElem?_append_right (by omega)]
  congr 1; omega

theorem currentToken_of {toks : List Token} {cur : Nat} {t : Token} (h : toks[cur]? = some t) :
    currentToken toks cur = t := by
  simp [currentToken, List.getD, h]

theorem lt_length_of {toks : List Token} {cur : Nat} {t : Token} (h : toks[cur]? = some t) :
    cur < toks.length := by
  rcases List.getElem?_eq_some.1 h with ⟨h', _⟩
  exact h'

theorem check_of {toks : List Token} {cur : Nat} {t : Token} (h : toks[cur]? = some t)
    (ty : TokenType) : check toks cur ty = (t.type == ty) := by
  have := lt_length_of h
  simp [check, currentToken_of h, Nat.not_le.2 this]

theorem advance_of {toks : List Token} {cur : Nat} {t : Token} (h : toks[cur + 1]? = some t) :
    advance toks cur = cur + 1 := by
  have := lt_length_of h
  have h2 : cur < toks.length - 1 := by omega
  simp [advance, h2]

theorem matchTok_of_eq {toks : List Token} {cur : Nat} {t u : Token} (h : toks[cur]? = some t)
    (h1 : toks[cur + 1]? = some u) {ty : TokenType} (hty : t.type = ty) :
    matchTok toks cur ty = (true, cur + 1) := by
  simp [matchTok, check_of h, hty, advance_of h1]

theorem matchTok_of_ne {toks : List Token} {cur : Nat} {t : Token} (h : toks[cur]? = some t)
    {ty : TokenType} (hty : t.type ≠ ty) :
    matchTok toks cur ty = (false, cur) := by
  simp [matchTok, check_of h, hty]

theorem getTokPrecedence_of {toks : List Token} {cur : Nat} {t : Token} (h : toks[cur]? = some t) :
    getTokPrecedence toks cur = (BinopPrecedence t.type).getD (-1) := by
  simp only [getTokPrecedence, currentToken_of h]
  cases BinopPrecedence t.type <;> rfl

theorem BinopPrecedence_ge {ty : TokenType} {p : Int} (h : BinopPrecedence ty = some p) :
    5 ≤ p := by
  cases ty <;> simp [BinopPrecedence] at h <;> omega

theorem parsePrimary_atom {toks : List Token} {cur : Nat} {x t : Token} (fuel : Nat)
    (h0 : toks[cur]? = some x) (h1 : toks[cur + 1]? = some t) (hx : isAtom x = true)
    (hcall : ¬ (x.type = .IDENTIFIER ∧ t.type = .LPAREN)) :
    parsePrimary (fuel + 2) toks cur = some (some (atomExpr x), cur + 1) := by
  rcases x with ⟨xt, xv, xl, xc⟩
  simp only [isAtom] at hx
  cases xt <;> simp at hx <;>
    simp_all [parsePrimary, parseIdentifierExpr, check_of h0, currentToken_of h0, advance_of h1,
      parseNumberExpr, parseStringExpr, parseBoolExpr, atomExpr, matchTok_of_ne h1]

theorem parseUnary_atom {toks : List Token} {cur : Nat} {x t : Token} (fuel : Nat)
    (h0 : toks[cur]? = some x) (h1 : toks[cur + 1]? = some t) (hx : isAtom x = true)
    (hcall : ¬ (x.type = .IDENTIFIER ∧ t.type = .LPAREN)) :
    parseUnary (fuel + 3) toks cur = some (some (atomExpr x), cur + 1) := by
  have hb : x.type ≠ .BANG := by
    intro h; simp [isAtom, h] at hx
  simp [parseUnary, check_of h0, hb, parsePrimary_atom fuel h0 h1 hx hcall]

theorem not_call_of_binop {x o : Token} {p : Int} (h : BinopPrecedence o.type = some p) :
    ¬ (x.type = .IDENTIFIER ∧ o.type = .LPAREN) := by
  rintro ⟨_, h2⟩
  simp [h2, BinopPrecedence] at h

theorem get_pre_of {pre l : List Token} (k : Nat) {t : Token} (h : l[k]? = some t) :
    (pre ++ l)[pre.length + k]? = some t := by
  rw [getElem?_pre]; exact h

theorem isType_of {toks : List Token} {cur : Nat} {t : Token} (h : toks[cur]? = some t) :
    isType toks cur = isTypeTok t := by
  simp [isType, isTypeTok, check_of h]

/-! ## Fuel

More fuel never changes a result: a call that returns with some fuel returns
the same with any larger fuel. -/

theorem fuel_mono_of_succ {β : Type} (f : Nat → Option β)
    (hs : ∀ n, f n = none ∨ f n = f (n + 1)) {n : Nat} {r : β} (h : f n = some r) (k : Nat) :
    f (n + k) = some r := by
  induction k with
  | zero => exact h
  | succ k ih =>
    rcases hs (n + k) with h2 | h2
    · rw [h2] at ih; cases ih
    · rw [← Nat.add_assoc, ← h2]; exact ih

theorem expr_fuel_succ (fuel : Nat) :
    (∀ toks cur, parseIdentifierExpr fuel toks cur = none ∨
        parseIdentifierExpr fuel toks cur = parseIdentifierExpr (fuel + 1) toks cur) ∧
    (∀ toks cur args, parseIdentifierExprLoop fuel toks cur args = none ∨
        parseIdentifierExprLoop fuel toks cur args =
          parseIdentifierExprLoop (fuel + 1) toks cur args) ∧
    (∀ toks cur, parseParenExpr fuel toks cur = none ∨
        parseParenExpr fuel toks cur = parseParenExpr (fuel + 1) toks cur) ∧
    (∀ toks cur, parsePrimary fuel toks cur = none ∨
        parsePrimary fuel toks cur = parsePrimary (fuel + 1) toks cur) ∧
    (∀ toks cur, parseUnary fuel toks cur = none ∨
        parseUnary fuel toks cur = parseUnary (fuel + 1) toks cur) ∧
    (∀ toks cur p e, parseBinOpRHS fuel toks cur p e = none ∨
        parseBinOpRHS fuel toks cur p e = parseBinOpRHS (fuel + 1) toks cur p e) ∧
    (∀ toks cur, parseExpression fuel toks cur = none ∨
        parseExpression fuel toks cur = parseExpression (fuel + 1) toks cur) := by
  induction fuel with
  | zero =>
    simp [parseIdentifierExpr, parseIdentifierExprLoop, parseParenExpr, parsePrimary, parseUnary,
      parseBinOpRHS, parseExpression]
  | succ n ih =>
    obtain ⟨ihId, ihLoop, ihParen, ihPrim, ihUn, ihBin, ihEx⟩ := ih
    refine ⟨?_, ?_, ?_, ?_, ?_, ?_, ?_⟩
    · intro toks cur
      rw [parseIdentifierExpr, parseIdentifierExpr]
      simp only []
      by_cases h1 : (!(matchTok toks (advance toks cur) .LPAREN).1) = true
      · right; simp only [h1, if_true]
      · by_cases h2 : (!check toks (matchTok toks (advance toks cur) .LPAREN).2 .RPAREN) = true
        · rcases ihLoop toks (matchTok toks (advance toks cur) .LPAREN).2 [] with h | h
          · left; simp [h1, h2, h]
          · right; rw [h]
        · right; simp [h1, h2]
    · intro toks cur args
      rw [parseIdentifierExprLoop, parseIdentifierExprLoop]
      rcases ihEx toks cur with h | h
      · left; simp [h]
      · rw [h]
        rcases parseExpression (n + 1) toks cur with _ | ⟨_ | e, c⟩
        · left; rfl
        · right; rfl
        · simp only []
          split
          · exact ihLoop _ _ _
          · right; rfl
    · intro toks cur
      rw [parseParenExpr, parseParenExpr]
      rcases ihEx toks (advance toks cur) with h | h
      · left; simp [h]
      · right; simp only [h]
    · intro toks cur
      rw [parsePrimary, parsePrimary]
      split
      · exact ihId _ _
      · split
        · right; rfl
        · split
          · right; rfl
          · split
            · right; rfl
            · split
              · exact ihParen _ _
              · right; rfl
    · intro toks cur
      rw [parseUnary, parseUnary]
      split
      · exact ihPrim _ _
      · rcases ihUn toks (advance toks cur) with h | h
        · left; simp [h]
        · right; simp only [h]
    · intro toks cur p e
      rw [parseBinOpRHS, parseBinOpRHS]
      simp only []
      split
      · right; rfl
      · rcases ihUn toks (advance toks cur) with h | h
        · left; simp [h]
        · rw [h]
          rcases parseUnary (n + 1) toks (advance toks cur) with _ | ⟨_ | e1, c1⟩
          · left; rfl
          · right; rfl
          · simp only []
            split
            · rcases ihBin toks c1 (getTokPrecedence toks cur + 1) e1 with h2 | h2
              · left; simp [h2]
              · rw [h2]
                rcases parseBinOpRHS (n + 1) toks c1 (getTokPrecedence toks cur + 1) e1 with
                  _ | ⟨_ | e2, c2⟩
                · left; rfl
                · right; rfl
                · exact ihBin _ _ _ _
            · exact ihBin _ _ _ _
    · intro toks cur
      rw [parseExpression, parseExpression]
      rcases ihUn toks cur with h | h
      · left; simp [h]
      · rw [h]
        rcases parseUnary (n + 1) toks cur with _ | ⟨_ | e, c⟩
        · left; rfl
        · right; rfl
        · exact ihBin _ _ _ _

theorem parseExpression_fuel_succ (fuel : Nat) (toks : List Token) (cur : Nat) :
    parseExpression fuel toks cur = none ∨
      parseExpression fuel toks cur = parseExpression (fuel + 1) toks cur :=
  (expr_fuel_succ fuel).2.2.2.2.2.2 toks cur

theorem parseReturnStmt_fuel_succ (fuel : Nat) (toks : List Token) (cur : Nat) :
    parseReturnStmt fuel toks cur = none ∨
      parseReturnStmt fuel toks cur = parseReturnStmt (fuel + 1) toks cur := by
  simp only [parseReturnStmt]
  rcases parseExpression_fuel_succ fuel toks (advance toks cur) with h | h
  · left; simp [h]
  · right; rw [h]

theorem parsePrintStmtLoop_fuel_succ (fuel : Nat) : ∀ (toks : List Token) (cur : Nat)
    (args : List Expr), parsePrintStmtLoop fuel toks cur args = none ∨
      parsePrintStmtLoop fuel toks cur args = parsePrintStmtLoop (fuel + 1) toks cur args := by
  induction fuel with
  | zero => intros; left; rfl
  | succ n ih =>
    intro toks cur args
    rw [parsePrintStmtLoop, parsePrintStmtLoop]
    split
    · rcases parseExpression_fuel_succ n toks (matchTok toks cur .COMMA).2 with h | h
      · left; simp [h]
      · rw [h]
        rcases parseExpression (n + 1) toks (matchTok toks cur .COMMA).2 with _ | ⟨_ | e, c⟩
        · left; rfl
        · right; rfl
        · exact ih _ _ _
    · right; rfl

theorem parsePrintStmt_fuel_succ (fuel : Nat) (toks : List Token) (cur : Nat) :
    parsePrintStmt fuel toks cur = none ∨
      parsePrintStmt fuel toks cur = parsePrintStmt (fuel + 1) toks cur := by
  simp only [parsePrintStmt, parseStringExpr]
  split
  · right; rfl
  · rcases parsePrintStmtLoop_fuel_succ fuel toks
      (advance toks (matchTok toks (advance toks cur) .LPAREN).2) [] with h | h
    · left; simp [h]
    · right; rw [h]

theorem parseVarDeclStmt_fuel_succ (fuel : Nat) (toks : List Token) (cur : Nat) :
    parseVarDeclStmt fuel toks cur = none ∨
      parseVarDeclStmt fuel toks cur = parseVarDeclStmt (fuel + 1) toks cur := by
  simp only [parseVarDeclStmt]
  by_cases h1 : (!check toks (advance toks cur) .IDENTIFIER) = true
  · right; simp [h1]
  · by_cases h2 : (matchTok toks (advance toks (advance toks cur)) .ASSIGN).1 = true
    · rcases parseExpression_fuel_succ fuel toks
        (matchTok toks (advance toks (advance toks cur)) .ASSIGN).2 with h | h
      · left; simp [h1, h2, h]
      · right; rw [h]
    · right; simp [h1, h2]

theorem stmt_fuel_succ (fuel : Nat) :
    (∀ toks cur, parseIfStmt fuel toks cur = none ∨
        parseIfStmt fuel toks cur = parseIfStmt (fuel + 1) toks cur) ∧
    (∀ toks cur, parseWhileStmt fuel toks cur = none ∨
        parseWhileStmt fuel toks cur = parseWhileStmt (fuel + 1) toks cur) ∧
    (∀ toks cur, parseStatement fuel toks cur = none ∨
        parseStatement fuel toks cur = parseStatement (fuel + 1) toks cur) ∧
    (∀ toks cur stmts, parseBlockLoop fuel toks cur stmts = none ∨
        parseBlockLoop fuel toks cur stmts = parseBlockLoop (fuel + 1) toks cur stmts) ∧
    (∀ toks cur, parseBlock fuel toks cur = none ∨
        parseBlock fuel toks cur = parseBlock (fuel + 1) toks cur) := by
  induction fuel with
  | zero => simp [parseIfStmt, parseWhileStmt, parseStatement, parseBlockLoop, parseBlock]
  | succ n ih =>
    obtain ⟨ihIf, ihWhile, ihStmt, ihLoop, ihBlock⟩ := ih
    refine ⟨?_, ?_, ?_, ?_, ?_⟩
    · intro toks cur
      rw [parseIfStmt, parseIfStmt]
      simp only []
      split
      · right; rfl
      · rcases parseExpression_fuel_succ n toks
          (matchTok toks (advance toks cur) .LPAREN).2 with h | h
        · left; simp [h]
        · rw [h]
          rcases parseExpression (n + 1) toks (matchTok toks (advance toks cur) .LPAREN).2 with
            _ | ⟨v, c⟩
          · left; rfl
          · simp only []
            split
            · right; rfl
            · rcases ihBlock toks (matchTok toks c .RPAREN).2 with h2 | h2
              · left; simp [h2]
              · rw [h2]
                rcases parseBlock (n + 1) toks (matchTok toks c .RPAREN).2 with _ | ⟨b, c2⟩
                · left; rfl
                · simp only []
                  split
                  · rcases ihBlock toks (matchTok toks c2 .ELSE).2 with h3 | h3
                    · left; simp [h3]
                    · right; rw [h3]
                  · right; rfl
    · intro toks cur
      rw [parseWhileStmt, parseWhileStmt]
      simp only []
      split
      · right; rfl
      · rcases parseExpression_fuel_succ n toks
          (matchTok toks (advance toks cur) .LPAREN).2 with h | h
        · left; simp [h]
        · rw [h]
          rcases parseExpression (n + 1) toks (matchTok toks (advance toks cur) .LPAREN).2 with
            _ | ⟨v, c⟩
          · left; rfl
          · simp only []
            split
            · right; rfl
            · rcases ihBlock toks (matchTok toks c .RPAREN).2 with h2 | h2
              · left; simp [h2]
              · right; rw [h2]
    · intro toks cur
      rw [parseStatement, parseStatement]
      split
      · exact parseReturnStmt_fuel_succ _ _ _
      · split
        · exact parsePrintStmt_fuel_succ _ _ _
        · split
          · right; rfl
          · split
            · exact parseVarDeclStmt_fuel_succ _ _ _
            · split
              · exact ihIf _ _
              · split
                · exact ihWhile _ _
                · right; rfl
    · intro toks cur stmts
      rw [parseBlockLoop, parseBlockLoop]
      split
      · rcases ihStmt toks cur with h | h
        · left; simp [h]
        · rw [h]
          rcases parseStatement (n + 1) toks cur with _ | ⟨_ | s, c⟩
          · left; rfl
          · exact ihLoop _ _ _
          · exact ihLoop _ _ _
      · right; rfl
    · intro toks cur
      rw [parseBlock, parseBlock]
      simp only []
      split
      · right; rfl
      · rcases ihLoop toks (matchTok toks cur .LBRACE).2 [] with h | h
        · left; simp [h]
        · right; rw [h]

theorem parseBlock_fuel_succ (fuel : Nat) (toks : List Token) (cur : Nat) :
    parseBlock fuel toks cur = none ∨ parseBlock fuel toks cur = parseBlock (fuel + 1) toks cur :=
  (stmt_fuel_succ fuel).2.2.2.2 toks cur

theorem parsePrototypeLoop_fuel_succ (fuel : Nat) : ∀ (toks : List Token) (cur : Nat)
    (argNames : List (String × String)), parsePrototypeLoop fuel toks cur argNames = none ∨
      parsePrototypeLoop fuel toks cur argNames =
        parsePrototypeLoop (fuel + 1) toks cur argNames := by
  induction fuel with
  | zero => intros; left; rfl
  | succ n ih =>
    intro toks cur argNames
    rw [parsePrototypeLoop, parsePrototypeLoop]
    simp only []
    split
    · right; rfl
    · split
      · right; rfl
      · split
        · exact ih _ _ _
        · right; rfl

theorem parsePrototype_fuel_succ (fuel : Nat) (toks : List Token) (cur : Nat) :
    parsePrototype fuel toks cur = none ∨
      parsePrototype fuel toks cur = parsePrototype (fuel + 1) toks cur := by
  simp only [parsePrototype]
  by_cases h1 : (!check toks
      (matchTok toks (advance toks (matchTok toks cur .FN).2) .LPAREN).2 .RPAREN) = true
  · rcases parsePrototypeLoop_fuel_succ fuel toks
      (matchTok toks (advance toks (matchTok toks cur .FN).2) .LPAREN).2 [] with h | h
    · simp only [h1, if_true, h]
      by_cases h2 : (!(matchTok toks cur .FN).1) = true
      · right; simp [h2]
      · by_cases h3 : (!check toks (matchTok toks cur .FN).2 .IDENTIFIER) = true
        · right; simp [h2, h3]
        · by_cases h4 : (!(matchTok toks (advance toks (matchTok toks cur .FN).2) .LPAREN).1)
            = true
          · right; simp [h2, h3, h4]
          · left; simp [h2, h3, h4]
    · right; rw [h]
  · right; simp [h1]

theorem parseDefinition_fuel_succ (fuel : Nat) (toks : List Token) (cur : Nat) :
    parseDefinition fuel toks cur = none ∨
      parseDefinition fuel toks cur = parseDefinition (fuel + 1) toks cur := by
  simp only [parseDefinition]
  rcases parsePrototype_fuel_succ fuel toks cur with h | h
  · left; simp [h]
  · rw [h]
    rcases parsePrototype (fuel + 1) toks cur with _ | ⟨_ | p, c⟩
    · left; rfl
    · right; rfl
    · simp only []
      rcases parseBlock_fuel_succ fuel toks c with h2 | h2
      · left; simp [h2]
      · right; rw [h2]

theorem parseLoop_fuel_succ (fuel : Nat) : ∀ (toks : List Token) (cur : Nat)
    (fs : List FunctionAST), parseLoop fuel toks cur fs = none ∨
      parseLoop fuel toks cur fs = parseLoop (fuel + 1) toks cur fs := by
  induction fuel with
  | zero => intros; left; rfl
  | succ n ih =>
    intro toks cur fs
    rw [parseLoop, parseLoop]
    split
    · rcases parseDefinition_fuel_succ n toks cur with h | h
      · left; simp [h]
      · rw [h]
        rcases parseDefinition (n + 1) toks cur with _ | ⟨_ | f, c⟩
        · left; rfl
        · exact ih _ _ _
        · exact ih _ _ _
    · right; rfl

theorem parseExpression_fuel_mono {fuel : Nat} {toks : List Token} {cur : Nat}
    {r : Option Expr × Nat} (h : parseExpression fuel toks cur = some r) (k : Nat) :
    parseExpression (fuel + k) toks cur = some r :=
  fuel_mono_of_succ (fun n => parseExpression n toks cur)
    (fun n => parseExpression_fuel_succ n toks cur) h k

theorem parseReturnStmt_fuel_mono {fuel : Nat} {toks : List Token} {cur : Nat}
    {r : Option Stmt × Nat} (h : parseReturnStmt fuel toks cur = some r) (k : Nat) :
    parseReturnStmt (fuel + k) toks cur = some r :=
  fuel_mono_of_succ (fun n => parseReturnStmt n toks cur)
    (fun n => parseReturnStmt_fuel_succ n toks cur) h k

theorem parseVarDeclStmt_fuel_mono {fuel : Nat} {toks : List Token} {cur : Nat}
    {r : Option Stmt × Nat} (h : parseVarDeclStmt fuel toks cur = some r) (k : Nat) :
    parseVarDeclStmt (fuel + k) toks cur = some r :=
  fuel_mono_of_succ (fun n => parseVarDeclStmt n toks cur)
    (fun n => parseVarDeclStmt_fuel_succ n toks cur) h k

theorem parsePrintStmt_fuel_mono {fuel : Nat} {toks : List Token} {cur : Nat}
    {r : Option Stmt × Nat} (h : parsePrintStmt fuel toks cur = some r) (k : Nat) :
    parsePrintStmt (fuel + k) toks cur = some r :=
  fuel_mono_of_succ (fun n => parsePrintStmt n toks cur)
    (fun n => parsePrintStmt_fuel_succ n toks cur) h k

theorem parseIfStmt_fuel_mono {fuel : Nat} {toks : List Token} {cur : Nat}
    {r : Option Stmt × Nat} (h : parseIfStmt fuel toks cur = some r) (k : Nat) :
    parseIfStmt (fuel + k) toks cur = some r :=
  fuel_mono_of_succ (fun n => parseIfStmt n toks cur)
    (fun n => (stmt_fuel_succ n).1 toks cur) h k

theorem parseWhileStmt_fuel_mono {fuel : Nat} {toks : List Token} {cur : Nat}
    {r : Option Stmt × Nat} (h : parseWhileStmt fuel toks cur = some r) (k : Nat) :
    parseWhileStmt (fuel + k) toks cur = some r :=
  fuel_mono_of_succ (fun n => parseWhileStmt n toks cur)
    (fun n => (stmt_fuel_succ n).2.1 toks cur) h k

theorem parsePrototype_fuel_mono {fuel : Nat} {toks : List Token} {cur : Nat}
    {r : Option PrototypeAST × Nat} (h : parsePrototype fuel toks cur = some r) (k : Nat) :
    parsePrototype (fuel + k) toks cur = some r :=
  fuel_mono_of_succ (fun n => parsePrototype n toks cur)
    (fun n => parsePrototype_fuel_succ n toks cur) h k

/-- A module returned by `parse` with some fuel is returned with every larger
fuel. -/
theorem parse_fuel_mono {fuel : Nat} {toks : List Token} {m : ModuleAST}
    (h : parse fuel toks = some m) (k : Nat) : parse (fuel + k) toks = some m :=
  fuel_mono_of_succ (fun n => parse n toks) (fun n => parseLoop_fuel_succ n toks 0 []) h k

/-! ## The lexer returns, and ends its output with the end marker (C10) -/

namespace Lexer

theorem advance_current (source : List Char) (s : State) :
    (advance source s).2.current = s.current + 1 := rfl

theorem isAlphaNumeric_peek_not_atEnd {source : List Char} {s : State}
    (h : isAlphaNumeric (peek source s) = true) : isAtEnd source s = false := by
  by_contra hc
  simp only [Bool.not_eq_false] at hc
  simp only [peek, hc, if_true] at h
  revert h
  decide

theorem isDigit_peek_not_atEnd {source : List Char} {s : State}
    (h : isDigit (peek source s) = true) : isAtEnd source s = false := by
  by_contra hc
  simp only [Bool.not_eq_false] at hc
  simp only [peek, hc, if_true] at h
  revert h
  decide

theorem lt_of_not_atEnd {source : List Char} {s : State} (h : isAtEnd source s = false) :
    s.current < source.length := by
  simpa [isAtEnd] using h

theorem skipComment_total (source : List Char) (fuel : Nat) : ∀ s : State,
    source.length - s.current < fuel →
      ∃ s', skipComment source fuel s = some s' ∧ s.current ≤ s'.current := by
  induction fuel with
  | zero => intro s h; omega
  | succ n ih =>
    intro s h
    rw [skipComment]
    split
    · rename_i hc
      have hlt := lt_of_not_atEnd hc.2
      obtain ⟨s', h1, h2⟩ := ih (advance source s).2 (by rw [advance_current]; omega)
      exact ⟨s', h1, by rw [advance_current] at h2; omega⟩
    · exact ⟨s, rfl, le_refl _⟩

theorem skipComment_progress (source : List Char) (fuel : Nat) (s : State)
    (hp : peek source s ≠ '\n') (he : isAtEnd source s = false)
    (h : source.length - s.current < fuel) :
    ∃ s', skipComment source fuel s = some s' ∧ s.current + 1 ≤ s'.current := by
  cases fuel with
  | zero => omega
  | succ n =>
    rw [skipComment]
    have hlt := lt_of_not_atEnd he
    simp only [hp, he, ne_eq, not_false_eq_true, and_self, if_true]
    obtain ⟨s', h1, h2⟩ := skipComment_total source n (advance source s).2
      (by rw [advance_current]; omega)
    exact ⟨s', h1, by rw [advance_current] at h2; omega⟩

theorem skipWhitespace_total (source : List Char) (fuel : Nat) : ∀ s : State,
    source.length - s.current + 1 < fuel →
      ∃ s', skipWhitespace source fuel s = some s' ∧ s.current ≤ s'.current := by
  induction fuel with
  | zero => intro s h; omega
  | succ n ih =>
    intro s h
    rw [skipWhitespace]
    by_cases he : isAtEnd source s = true
    · simp only [he, if_true]
      exact ⟨s, rfl, le_refl _⟩
    · simp only [he]
      have he' : isAtEnd source s = false := by simpa using he
      have hlt := lt_of_not_atEnd he'
      simp only [Bool.false_eq_true, if_false]
      split
      · obtain ⟨s', h1, h2⟩ := ih (advance source s).2 (by rw [advance_current]; omega)
        exact ⟨s', h1, by rw [advance_current] at h2; omega⟩
      · split
        · obtain ⟨s', h1, h2⟩ := ih (advance source { s with line := s.line + 1, column := 1 }).2
            (by rw [advance_current]; simp only; omega)
          exact ⟨s', h1, by rw [advance_current] at h2; simp only at h2; omega⟩
        · split
          · rename_i hslash
            split
            · have hp : peek source s ≠ '\n' := by rw [hslash]; decide
              obtain ⟨s1, h1, h2⟩ := skipComment_progress source n s hp he' (by omega)
              obtain ⟨s', h3, h4⟩ := ih s1 (by omega)
              simp only [h1]
              exact ⟨s', h3, by omega⟩
            · exact ⟨s, rfl, le_refl _⟩
          · exact ⟨s, rfl, le_refl _⟩

theorem identifierLoop_total (source : List Char) (fuel : Nat) : ∀ s : State,
    source.length - s.current < fuel →
      ∃ s', identifierLoop source fuel s = some s' ∧ s.current ≤ s'.current := by
  induction fuel with
  | zero => intro s h; omega
  | succ n ih =>
    intro s h
    rw [identifierLoop]
    split
    · rename_i hc
      have hlt := lt_of_not_atEnd (isAlphaNumeric_peek_not_atEnd hc)
      obtain ⟨s', h1, h2⟩ := ih (advance source s).2 (by rw [advance_current]; omega)
      exact ⟨s', h1, by rw [advance_current] at h2; omega⟩
    · exact ⟨s, rfl, le_refl _⟩

theorem numberLoop_total (source : List Char) (fuel : Nat) : ∀ s : State,
    source.length - s.current < fuel →
      ∃ s', numberLoop source fuel s = some s' ∧ s.current ≤ s'.current := by
  induction fuel with
  | zero => intro s h; omega
  | succ n ih =>
    intro s h
    rw [numberLoop]
    split
    · rename_i hc
      have hlt := lt_of_not_atEnd (isDigit_peek_not_atEnd hc)
      obtain ⟨s', h1, h2⟩ := ih (advance source s).2 (by rw [advance_current]; omega)
      exact ⟨s', h1, by rw [advance_current] at h2; omega⟩
    · exact ⟨s, rfl, le_refl _⟩

theorem stringLiteralLoop_total (source : List Char) (fuel : Nat) : ∀ s : State,
    source.length - s.current < fuel →
      ∃ s', stringLiteralLoop source fuel s = some s' ∧ s.current ≤ s'.current := by
  induction fuel with
  | zero => intro s h; omega
  | succ n ih =>
    intro s h
    rw [stringLiteralLoop]
    split
    · rename_i hc
      have hlt := lt_of_not_atEnd hc.2
      split
      · obtain ⟨s', h1, h2⟩ := ih (advance source { s with line := s.line + 1, column := 1 }).2
          (by rw [advance_current]; simp only; omega)
        exact ⟨s', h1, by rw [advance_current] at h2; simp only at h2; omega⟩
      · obtain ⟨s', h1, h2⟩ := ih (advance source s).2 (by rw [advance_current]; omega)
        exact ⟨s', h1, by rw [advance_current] at h2; omega⟩
    · exact ⟨s, rfl, le_refl _⟩

theorem ite_some_ne {c : Prop} [Decidable c] {a b : TokenType} {r : Option TokenType}
    (hab : a ≠ b) (hr : r ≠ some b) : (if c then some a else r) ≠ some b := by
  split
  · simpa using hab
  · exact hr

theorem keywords_ne_eof {text : String} {type : TokenType} (h : keywords text = some type) :
    type ≠ .END_OF_FILE := by
  intro heq
  rw [heq] at h
  revert h
  unfold keywords
  repeat' apply ite_some_ne (by decide)
  simp

theorem matchChar_current (source : List Char) (s : State) (c : Char) :
    s.current ≤ (matchChar source s c).2.current := by
  unfold matchChar
  repeat' split
  all_goals simp

theorem identifier_total (source : List Char) (fuel : Nat) (s : State)
    (h : source.length - s.current < fuel) :
    ∃ t s', identifier source fuel s = some (t, s') ∧ s.current ≤ s'.current ∧
      t.type ≠ .END_OF_FILE := by
  obtain ⟨s1, h1, h2⟩ := identifierLoop_total source fuel s h
  simp only [identifier, h1]
  split
  · rename_i type hk
    exact ⟨_, _, rfl, h2, keywords_ne_eof hk⟩
  · exact ⟨_, _, rfl, h2, by simp⟩

theorem number_total (source : List Char) (fuel : Nat) (s : State)
    (h : source.length - s.current < fuel) :
    ∃ t s', number source fuel s = some (t, s') ∧ s.current ≤ s'.current ∧
      t.type ≠ .END_OF_FILE := by
  obtain ⟨s1, h1, h2⟩ := numberLoop_total source fuel s h
  simp only [number, h1]
  split
  · obtain ⟨s2, h3, h4⟩ := numberLoop_total source fuel (advance source s1).2
      (by rw [advance_current]; omega)
    simp only [h3]
    exact ⟨_, _, rfl, by rw [advance_current] at h4; omega, by simp⟩
  · exact ⟨_, _, rfl, h2, by simp⟩

theorem stringLiteral_total (source : List Char) (fuel : Nat) (s : State)
    (h : source.length - s.current < fuel) :
    ∃ t s', stringLiteral source fuel s = some (t, s') ∧ s.current ≤ s'.current ∧
      t.type ≠ .END_OF_FILE := by
  obtain ⟨s1, h1, h2⟩ := stringLiteralLoop_total source fuel s h
  simp only [stringLiteral, h1]
  split
  · exact ⟨_, _, rfl, h2, by simp⟩
  · exact ⟨_, _, rfl, by rw [advance_current]; omega, by simp⟩

theorem Advances.ite {s : State} {c : Prop} [Decidable c] {x y : Option (Token × State)}
    (hx : Advances s x) (hy : Advances s y) : Advances s (if c then x else y) := by
  split
  · exact hx
  · exact hy

theorem Advances.tokenAt {s s1 : State} {type : TokenType} {v : String}
    (h : s.current + 1 ≤ s1.current) (ht : type ≠ TokenType.END_OF_FILE) :
    Advances s (some (tokenAt type v s1)) :=
  ⟨_, _, rfl, h, ht⟩

theorem nextToken_total (source : List Char) (fuel : Nat) (s : State)
    (he : isAtEnd source s = false) (h : source.length - s.current ≤ fuel) :
    Advances s (nextToken source fuel s) := by
  have hlt := lt_of_not_atEnd he
  have hm : ∀ c, s.current + 1 ≤
      (matchChar source (advance source { s with start := s.current }).2 c).2.current := by
    intro c
    have := matchChar_current source (advance source { s with start := s.current }).2 c
    rw [advance_current] at this
    exact this
  have ha : s.current + 1 ≤ (advance source { s with start := s.current }).2.current := by
    rw [advance_current]
  have hf : source.length - (advance source { s with start := s.current }).2.current < fuel := by
    rw [advance_current]; simp only; omega
  unfold nextToken
  simp only []
  repeat' apply Advances.ite
  all_goals first
    | exact Advances.tokenAt (hm _) (by decide)
    | exact Advances.tokenAt ha (by decide)
    | skip
  · obtain ⟨t, s', h1, h2, h3⟩ := stringLiteral_total source fuel _ hf
    exact ⟨t, s', h1, by rw [advance_current] at h2; exact h2, h3⟩
  · obtain ⟨t, s', h1, h2, h3⟩ := identifier_total source fuel _ hf
    exact ⟨t, s', h1, by rw [advance_current] at h2; exact h2, h3⟩
  · obtain ⟨t, s', h1, h2, h3⟩ := number_total source fuel _ hf
    exact ⟨t, s', h1, by rw [advance_current] at h2; exact h2, h3⟩

theorem tokenizeLoop_total (source : List Char) (fuel : Nat) : ∀ (s : State) (acc : List Token),
    source.length - s.current + 2 < fuel → (∀ t ∈ acc, t.type ≠ TokenType.END_OF_FILE) →
      ∃ toks eof, tokenizeLoop source fuel s acc = some (toks ++ [eof]) ∧
        eof.type = TokenType.END_OF_FILE ∧ ∀ t ∈ toks, t.type ≠ TokenType.END_OF_FILE := by
  induction fuel with
  | zero => intro s acc h; omega
  | succ n ih =>
    intro s acc h hacc
    rw [tokenizeLoop]
    by_cases he : isAtEnd source s = true
    · simp only [he, Bool.not_true, Bool.false_eq_true, if_false]
      exact ⟨acc, _, rfl, rfl, hacc⟩
    · have he' : isAtEnd source s = false := by simpa using he
      have hlt := lt_of_not_atEnd he'
      simp only [he', Bool.not_false, if_true]
      obtain ⟨s1, h1, h2⟩ := skipWhitespace_total source n s (by omega)
      simp only [h1]
      by_cases he1 : isAtEnd source s1 = true
      · simp only [he1, if_true]
        exact ⟨acc, _, rfl, rfl, hacc⟩
      · have he1' : isAtEnd source s1 = false := by simpa using he1
        simp only [he1', Bool.false_eq_true, if_false]
        obtain ⟨t, s2, h3, h4, h5⟩ := nextToken_total source n s1 he1' (by omega)
        simp only [h3]
        apply ih s2 (acc ++ [t]) (by omega)
        intro u hu
        rcases List.mem_append.1 hu with hu | hu
        · exact hacc u hu
        · simp only [List.mem_singleton] at hu
          rw [hu]; exact h5


/-! More fuel never changes what the lexer returns. -/

theorem fuel_ite {β : Type} {c : Prop} [Decidable c] {x x' y y' : Option β}
    (hx : x = none ∨ x = x') (hy : y = none ∨ y = y') :
    (if c then x else y) = none ∨ (if c then x else y) = (if c then x' else y') := by
  split
  · exact hx
  · exact hy

theorem skipComment_fuel_succ (source : List Char) (fuel : Nat) : ∀ s : State,
    skipComment source fuel s = none ∨
      skipComment source fuel s = skipComment source (fuel + 1) s := by
  induction fuel with
  | zero => intro s; left; rfl
  | succ n ih =>
    intro s
    rw [skipComment, skipComment]
    exact fuel_ite (ih _) (Or.inr rfl)

theorem skipWhitespace_fuel_succ (source : List Char) (fuel : Nat) : ∀ s : State,
    skipWhitespace source fuel s = none ∨
      skipWhitespace source fuel s = skipWhitespace source (fuel + 1) s := by
  induction fuel with
  | zero => intro s; left; rfl
  | succ n ih =>
    intro s
    rw [skipWhitespace, skipWhitespace]
    refine fuel_ite (Or.inr rfl) (fuel_ite (ih _) (fuel_ite (ih _)
      (fuel_ite (fuel_ite ?_ (Or.inr rfl)) (Or.inr rfl))))
    rcases skipComment_fuel_succ source n s with h | h
    · left; simp [h]
    · rw [h]
      rcases skipComment source (n + 1) s with _ | s1
      · left; rfl
      · exact ih s1

theorem identifierLoop_fuel_succ (source : List Char) (fuel : Nat) : ∀ s : State,
    identifierLoop source fuel s = none ∨
      identifierLoop source fuel s = identifierLoop source (fuel + 1) s := by
  induction fuel with
  | zero => intro s; left; rfl
  | succ n ih =>
    intro s
    rw [identifierLoop, identifierLoop]
    exact fuel_ite (ih _) (Or.inr rfl)

theorem numberLoop_fuel_succ (source : List Char) (fuel : Nat) : ∀ s : State,
    numberLoop source fuel s = none ∨
      numberLoop source fuel s = numberLoop source (fuel + 1) s := by
  induction fuel with
  | zero => intro s; left; rfl
  | succ n ih =>
    intro s
    rw [numberLoop, numberLoop]
    exact fuel_ite (ih _) (Or.inr rfl)

theorem stringLiteralLoop_fuel_succ (source : List Char) (fuel : Nat) : ∀ s : State,
    stringLiteralLoop source fuel s = none ∨
      stringLiteralLoop source fuel s = stringLiteralLoop source (fuel + 1) s := by
  induction fuel with
  | zero => intro s; left; rfl
  | succ n ih =>
    intro s
    rw [stringLiteralLoop, stringLiteralLoop]
    exact fuel_ite (ih _) (Or.inr rfl)

theorem identifier_fuel_succ (source : List Char) (fuel : Nat) (s : State) :
    identifier source fuel s = none ∨
      identifier source fuel s = identifier source (fuel + 1) s := by
  simp only [identifier]
  rcases identifierLoop_fuel_succ source fuel s with h | h
  · left; simp [h]
  · right; rw [h]

theorem number_fuel_succ (source : List Char) (fuel : Nat) (s : State) :
    number source fuel s = none ∨ number source fuel s = number source (fuel + 1) s := by
  simp only [number]
  rcases numberLoop_fuel_succ source fuel s with h | h
  · left; simp [h]
  · rw [h]
    rcases numberLoop source (fuel + 1) s with _ | s1
    · left; rfl
    · simp only []
      split
      · rcases numberLoop_fuel_succ source fuel (advance source s1).2 with h2 | h2
        · left; simp [h2]
        · right; rw [h2]
      · right; rfl

theorem stringLiteral_fuel_succ (source : List Char) (fuel : Nat) (s : State) :
    stringLiteral source fuel s = none ∨
      stringLiteral source fuel s = stringLiteral source (fuel + 1) s := by
  simp only [stringLiteral]
  rcases stringLiteralLoop_fuel_succ source fuel s with h | h
  · left; simp [h]
  · right; rw [h]

theorem nextToken_fuel_succ (source : List Char) (fuel : Nat) (s : State) :
    nextToken source fuel s = none ∨
      nextToken source fuel s = nextToken source (fuel + 1) s := by
  unfold nextToken
  simp only []
  repeat' apply fuel_ite
  all_goals first
    | exact Or.inr rfl
    | exact stringLiteral_fuel_succ _ _ _
    | exact identifier_fuel_succ _ _ _
    | exact number_fuel_succ _ _ _

theorem tokenizeLoop_fuel_succ (source : List Char) (fuel : Nat) :
    ∀ (s : State) (tokens : List Token),
      tokenizeLoop source fuel s tokens = none ∨
        tokenizeLoop source fuel s tokens = tokenizeLoop source (fuel + 1) s tokens := by
  induction fuel with
  | zero => intro s tokens; left; rfl
  | succ n ih =>
    intro s tokens
    rw [tokenizeLoop, tokenizeLoop]
    refine fuel_ite ?_ (Or.inr rfl)
    rcases skipWhitespace_fuel_succ source n s with h | h
    · left; simp [h]
    · rw [h]
      rcases skipWhitespace source (n + 1) s with _ | s1
      · left; rfl
      · simp only []
        refine fuel_ite (Or.inr rfl) ?_
        rcases nextToken_fuel_succ source n s1 with h2 | h2
        · left; simp [h2]
        · rw [h2]
          rcases nextToken source (n + 1) s1 with _ | ⟨t, s2⟩
          · left; rfl
          · exact ih _ _

theorem tokenize_fuel_mono {fuel : Nat} {source : List Char} {toks : List Token}
    (h : tokenize fuel source = some toks) (k : Nat) :
    tokenize (fuel + k) source = some toks :=
  fuel_mono_of_succ (fun n => tokenize n source)
    (fun n => tokenizeLoop_fuel_succ source n _ _) h k

end Lexer

/-- C10: for every source text, `Lexer::tokenize` returns, and what it returns
(the same vector for every fuel from the length of the text plus 3 on) is a
token sequence `toks ++ [eof]`: it is not empty, its last element has kind
`END_OF_FILE`, and no other element has that kind. -/
theorem tokenize_ends_with_eof (source : List Char) :
    ∃ toks eof,
      (∀ fuel, Lexer.tokenize (source.length + 3 + fuel) source = some (toks ++ [eof])) ∧
        eof.type = TokenType.END_OF_FILE ∧ ∀ t ∈ toks, t.type ≠ TokenType.END_OF_FILE := by
  obtain ⟨toks, eof, h, he, ht⟩ := Lexer.tokenizeLoop_total source (source.length + 3)
    ⟨0, 0, 1, 1⟩ [] (by simp) (by simp)
  exact ⟨toks, eof, fun fuel => Lexer.tokenize_fuel_mono h fuel, he, ht⟩

/-! ## Parsing does not depend on what precedes the cursor -/

@[simp] theorem shiftRes_none {β : Type} (k : Nat) :
    shiftRes k (none : Option (β × Nat)) = none := rfl
@[simp] theorem shiftRes_some {β : Type} (k : Nat) (a : β) (c : Nat) :
    shiftRes k (some (a, c)) = some (a, k + c) := rfl

theorem ite_shiftRes {β : Type} (k : Nat) (b : Prop) [Decidable b] (A : Option (β × Nat))
    (v : β) (c : Nat) :
    (if b then shiftRes k A else some (v, k + c)) = shiftRes k (if b then A else some (v, c)) := by
  split <;> rfl

theorem currentToken_shift (pre T : List Token) (c : Nat) :
    currentToken (pre ++ T) (pre.length + c) = currentToken T c := by
  simp [currentToken, List.getD, List.getElem?_append_right]

theorem advance_shift (pre T : List Token) (c : Nat) :
    advance (pre ++ T) (pre.length + c) = pre.length + advance T c := by
  simp only [advance, List.length_append]
  split <;> split <;> omega

theorem check_shift (pre T : List Token) (c : Nat) (ty : TokenType) :
    check (pre ++ T) (pre.length + c) ty = check T c ty := by
  simp [check, currentToken_shift]

theorem matchTok_shift (pre T : List Token) (c : Nat) (ty : TokenType) :
    matchTok (pre ++ T) (pre.length + c) ty =
      ((matchTok T c ty).1, pre.length + (matchTok T c ty).2) := by
  simp only [matchTok, check_shift, advance_shift]
  split <;> rfl

theorem isType_shift (pre T : List Token) (c : Nat) :
    isType (pre ++ T) (pre.length + c) = isType T c := by
  simp [isType, check_shift]

theorem getTokPrecedence_shift (pre T : List Token) (c : Nat) :
    getTokPrecedence (pre ++ T) (pre.length + c) = getTokPrecedence T c := by
  simp [getTokPrecedence, currentToken_shift]

theorem expr_shift (fuel : Nat) :
    (∀ pre T c, parseIdentifierExpr fuel (pre ++ T) (pre.length + c) =
        shiftRes pre.length (parseIdentifierExpr fuel T c)) ∧
    (∀ pre T c args, parseIdentifierExprLoop fuel (pre ++ T) (pre.length + c) args =
        shiftRes pre.length (parseIdentifierExprLoop fuel T c args)) ∧
    (∀ pre T c, parseParenExpr fuel (pre ++ T) (pre.length + c) =
        shiftRes pre.length (parseParenExpr fuel T c)) ∧
    (∀ pre T c, parsePrimary fuel (pre ++ T) (pre.length + c) =
        shiftRes pre.length (parsePrimary fuel T c)) ∧
    (∀ pre T c, parseUnary fuel (pre ++ T) (pre.length + c) =
        shiftRes pre.length (parseUnary fuel T c)) ∧
    (∀ pre T c p e, parseBinOpRHS fuel (pre ++ T) (pre.length + c) p e =
        shiftRes pre.length (parseBinOpRHS fuel T c p e)) ∧
    (∀ pre T c, parseExpression fuel (pre ++ T) (pre.length + c) =
        shiftRes pre.length (parseExpression fuel T c)) := by
  induction fuel with
  | zero =>
    simp [parseIdentifierExpr, parseIdentifierExprLoop, parseParenExpr, parsePrimary, parseUnary,
      parseBinOpRHS, parseExpression]
  | succ n ih =>
    obtain ⟨ihId, ihLoop, ihParen, ihPrim, ihUn, ihBin, ihEx⟩ := ih
    refine ⟨?_, ?_, ?_, ?_, ?_, ?_, ?_⟩
    · intro pre T c
      rw [parseIdentifierExpr, parseIdentifierExpr]
      simp only [advance_shift, matchTok_shift, check_shift, currentToken_shift, ihLoop]
      split
      · simp
      · by_cases hc : check T (matchTok T (advance T c) .LPAREN).2 .RPAREN = true
        · simp [hc, matchTok_shift]
          split <;> simp
        · simp only [hc]
          generalize parseIdentifierExprLoop n T _ [] = r
          rcases r with _ | ⟨_ | args, c1⟩ <;> simp [matchTok_shift]
          split <;> simp
    · intro pre T c args
      rw [parseIdentifierExprLoop, parseIdentifierExprLoop, ihEx]
      rcases parseExpression n T c with _ | ⟨_ | e, c1⟩ <;>
        simp [matchTok_shift, ihLoop]
      split <;> simp
    · intro pre T c
      rw [parseParenExpr, parseParenExpr]
      simp only [advance_shift, ihEx]
      rcases parseExpression n T (advance T c) with _ | ⟨_ | e, c1⟩ <;>
        simp [matchTok_shift]
      split <;> simp
    · intro pre T c
      rw [parsePrimary, parsePrimary]
      simp only [check_shift, ihId, ihParen, parseNumberExpr, parseStringExpr, parseBoolExpr,
        currentToken_shift, advance_shift]
      repeat' split
      all_goals simp
    · intro pre T c
      rw [parseUnary, parseUnary]
      simp only [check_shift, ihPrim, advance_shift, ihUn, currentToken_shift]
      split
      · rfl
      · rcases parseUnary n T (advance T c) with _ | ⟨_ | e, c1⟩ <;> simp
    · intro pre T c p e
      rw [parseBinOpRHS, parseBinOpRHS]
      simp only [getTokPrecedence_shift, advance_shift, ihUn, currentToken_shift]
      split
      · simp
      · rcases parseUnary n T (advance T c) with _ | ⟨_ | e1, c1⟩ <;>
          simp [getTokPrecedence_shift, ihBin]
        split
        · rcases parseBinOpRHS n T c1 (getTokPrecedence T c + 1) e1 with _ | ⟨_ | e2, c2⟩ <;>
            simp [ihBin]
        · rfl
    · intro pre T c
      rw [parseExpression, parseExpression, ihUn]
      rcases parseUnary n T c with _ | ⟨_ | e, c1⟩ <;> simp [ihBin]

theorem parseExpression_shift (fuel : Nat) (pre T : List Token) (c : Nat) :
    parseExpression fuel (pre ++ T) (pre.length + c) =
      shiftRes pre.length (parseExpression fuel T c) :=
  (expr_shift fuel).2.2.2.2.2.2 pre T c

theorem parseReturnStmt_shift (fuel : Nat) (pre T : List Token) (c : Nat) :
    parseReturnStmt fuel (pre ++ T) (pre.length + c) =
      shiftRes pre.length (parseReturnStmt fuel T c) := by
  simp only [parseReturnStmt, advance_shift, parseExpression_shift]
  rcases parseExpression fuel T (advance T c) with _ | ⟨v, c1⟩ <;> simp [matchTok_shift]
  split <;> simp

theorem parsePrintStmtLoop_shift (fuel : Nat) :
    ∀ (pre T : List Token) (c : Nat) (args : List Expr),
    parsePrintStmtLoop fuel (pre ++ T) (pre.length + c) args =
      shiftRes pre.length (parsePrintStmtLoop fuel T c args) := by
  induction fuel with
  | zero => intros; rfl
  | succ n ih =>
    intro pre T c args
    rw [parsePrintStmtLoop, parsePrintStmtLoop]
    simp only [matchTok_shift, parseExpression_shift]
    split
    · rcases parseExpression n T (matchTok T c .COMMA).2 with _ | ⟨_ | e, c1⟩ <;> simp [ih]
    · simp

theorem parsePrintStmt_shift (fuel : Nat) (pre T : List Token) (c : Nat) :
    parsePrintStmt fuel (pre ++ T) (pre.length + c) =
      shiftRes pre.length (parsePrintStmt fuel T c) := by
  simp only [parsePrintStmt, advance_shift, matchTok_shift, parseStringExpr, currentToken_shift,
    parsePrintStmtLoop_shift]
  split
  · simp
  · generalize parsePrintStmtLoop fuel T _ [] = r
    rcases r with _ | ⟨_ | args, c1⟩ <;> simp [matchTok_shift]
    split
    · simp
    · split <;> simp

theorem parseScanStmt_shift (pre T : List Token) (c : Nat) :
    parseScanStmt (pre ++ T) (pre.length + c) =
      ((parseScanStmt T c).1, pre.length + (parseScanStmt T c).2) := by
  simp only [parseScanStmt, advance_shift, matchTok_shift, check_shift, currentToken_shift]
  repeat' split
  all_goals rfl

theorem parseVarDeclStmt_shift (fuel : Nat) (pre T : List Token) (c : Nat) :
    parseVarDeclStmt fuel (pre ++ T) (pre.length + c) =
      shiftRes pre.length (parseVarDeclStmt fuel T c) := by
  simp only [parseVarDeclStmt, advance_shift, check_shift, currentToken_shift, matchTok_shift,
    parseExpression_shift, ite_shiftRes]
  by_cases h : check T (advance T c) .IDENTIFIER = true
  · simp only [h]
    generalize (@ite (PRes Expr) ((matchTok T (advance T (advance T c)) .ASSIGN).1 = true)
      _ _ _) = r
    rcases r with _ | ⟨v, c1⟩ <;> simp [matchTok_shift]
    split <;> simp
  · simp [h]

theorem stmt_shift (fuel : Nat) :
    (∀ pre T c, parseIfStmt fuel (pre ++ T) (pre.length + c) =
        shiftRes pre.length (parseIfStmt fuel T c)) ∧
    (∀ pre T c, parseWhileStmt fuel (pre ++ T) (pre.length + c) =
        shiftRes pre.length (parseWhileStmt fuel T c)) ∧
    (∀ pre T c, parseStatement fuel (pre ++ T) (pre.length + c) =
        shiftRes pre.length (parseStatement fuel T c)) ∧
    (∀ pre T c stmts, parseBlockLoop fuel (pre ++ T) (pre.length + c) stmts =
        shiftRes pre.length (parseBlockLoop fuel T c stmts)) ∧
    (∀ pre T c, parseBlock fuel (pre ++ T) (pre.length + c) =
        shiftRes pre.length (parseBlock fuel T c)) := by
  induction fuel with
  | zero => simp [parseIfStmt, parseWhileStmt, parseStatement, parseBlockLoop, parseBlock]
  | succ n ih =>
    obtain ⟨ihIf, ihWhile, ihStmt, ihLoop, ihBlock⟩ := ih
    refine ⟨?_, ?_, ?_, ?_, ?_⟩
    · intro pre T c
      rw [parseIfStmt, parseIfStmt]
      simp only [advance_shift, matchTok_shift, parseExpression_shift]
      split
      · simp
      · generalize parseExpression n T _ = r
        rcases r with _ | ⟨v, c1⟩ <;> simp [matchTok_shift, ihBlock]
        split
        · simp
        · generalize parseBlock n T _ = r2
          rcases r2 with _ | ⟨b, c2⟩ <;> simp [matchTok_shift, ihBlock]
          split
          · generalize parseBlock n T _ = r3
            rcases r3 with _ | ⟨b3, c3⟩ <;> simp
          · simp
    · intro pre T c
      rw [parseWhileStmt, parseWhileStmt]
      simp only [advance_shift, matchTok_shift, parseExpression_shift]
      split
      · simp
      · generalize parseExpression n T _ = r
        rcases r with _ | ⟨v, c1⟩ <;> simp [matchTok_shift, ihBlock]
        split
        · simp
        · generalize parseBlock n T _ = r2
          rcases r2 with _ | ⟨b, c2⟩ <;> simp
    · intro pre T c
      rw [parseStatement, parseStatement]
      simp only [check_shift, isType_shift, parseReturnStmt_shift, parsePrintStmt_shift,
        parseScanStmt_shift, parseVarDeclStmt_shift, ihIf, ihWhile]
      repeat' split
      all_goals rfl
    · intro pre T c stmts
      rw [parseBlockLoop, parseBlockLoop]
      simp only [check_shift, ihStmt, List.length_append, Nat.add_lt_add_iff_left]
      split
      · rcases parseStatement n T c with _ | ⟨_ | s, c1⟩ <;> simp [ihLoop, advance_shift]
      · simp
    · intro pre T c
      rw [parseBlock, parseBlock]
      simp only [matchTok_shift, ihLoop]
      split
      · simp
      · generalize parseBlockLoop n T _ [] = r
        rcases r with _ | ⟨b, c2⟩ <;> simp [matchTok_shift]
        split <;> simp

theorem parseBlock_shift (fuel : Nat) (pre T : List Token) (c : Nat) :
    parseBlock fuel (pre ++ T) (pre.length + c) = shiftRes pre.length (parseBlock fuel T c) :=
  (stmt_shift fuel).2.2.2.2 pre T c

theorem parsePrototypeLoop_shift (fuel : Nat) :
    ∀ (pre T : List Token) (c : Nat) (argNames : List (String × String)),
    parsePrototypeLoop fuel (pre ++ T) (pre.length + c) argNames =
      shiftRes pre.length (parsePrototypeLoop fuel T c argNames) := by
  induction fuel with
  | zero => intros; rfl
  | succ n ih =>
    intro pre T c argNames
    rw [parsePrototypeLoop, parsePrototypeLoop]
    simp only [isType_shift, currentToken_shift, advance_shift, check_shift, matchTok_shift, ih]
    repeat' split
    all_goals simp

theorem matchTok_shift_fst (pre T : List Token) (c : Nat) (ty : TokenType) :
    (matchTok (pre ++ T) (pre.length + c) ty).1 = (matchTok T c ty).1 := by
  rw [matchTok_shift]

theorem matchTok_shift_snd (pre T : List Token) (c : Nat) (ty : TokenType) :
    (matchTok (pre ++ T) (pre.length + c) ty).2 = pre.length + (matchTok T c ty).2 := by
  rw [matchTok_shift]

theorem parsePrototype_shift (fuel : Nat) (pre T : List Token) (c : Nat) :
    parsePrototype fuel (pre ++ T) (pre.length + c) =
      shiftRes pre.length (parsePrototype fuel T c) := by
  simp only [parsePrototype, matchTok_shift_fst, matchTok_shift_snd, check_shift,
    currentToken_shift, advance_shift, parsePrototypeLoop_shift, ite_shiftRes]
  generalize (@ite (PRes (List (String × String)))
    ((!check T (matchTok T (advance T (matchTok T c .FN).2) .LPAREN).2 .RPAREN) = true) _ _ _) = r
  rcases r with _ | ⟨_ | a, c1⟩
  · simp only [shiftRes_none]
    repeat' split
    all_goals rfl
  · simp only [shiftRes_some]
    repeat' split
    all_goals rfl
  · simp only [shiftRes_some, matchTok_shift_fst, matchTok_shift_snd]
    repeat' split
    all_goals simp_all [matchTok_shift_fst, matchTok_shift_snd, isType_shift, advance_shift,
      currentToken_shift]

theorem parseDefinition_shift (fuel : Nat) (pre T : List Token) (c : Nat) :
    parseDefinition fuel (pre ++ T) (pre.length + c) =
      shiftRes pre.length (parseDefinition fuel T c) := by
  simp only [parseDefinition, parsePrototype_shift]
  rcases parsePrototype fuel T c with _ | ⟨_ | p, c1⟩ <;> simp [parseBlock_shift]
  rcases parseBlock fuel T c1 with _ | ⟨_ | b, c2⟩ <;> simp

theorem parseLoop_shift (fuel : Nat) :
    ∀ (pre T : List Token) (c : Nat) (fs : List FunctionAST),
    parseLoop fuel (pre ++ T) (pre.length + c) fs = parseLoop fuel T c fs := by
  induction fuel with
  | zero => intros; rfl
  | succ n ih =>
    intro pre T c fs
    rw [parseLoop, parseLoop]
    simp only [currentToken_shift, parseDefinition_shift, List.length_append,
      Nat.add_lt_add_iff_left]
    split
    · rcases parseDefinition n T c with _ | ⟨_ | f, c1⟩ <;> simp [ih, advance_shift]
    · rfl

/-! ## Operator precedence (C2, C3, C4)

The operator text of a `BinaryExpr` or `UnaryExpr` is the lexeme of its token
(`currentToken().value`), which the lexer makes equal to the operator's
spelling.  The statements hold wherever the expression starts: `pre` is what
precedes it in the token vector. -/

/-- C2 (amended): for operand tokens `x`, `y`, `z` (identifier or literal) and
binary operators `op1`, `op2` of the precedence table with
`prec op1 ≥ prec op2`, `parseExpression` on `x op1 y op2 z` followed by a token
`t` that is not a binary operator and is not a `(` after an identifier `z`
returns `Binary(op2, Binary(op1, x, y), z)` and stops on `t`.  So `1 + 2 < 3`
is `(1 + 2) < 3`, and operators of equal precedence associate to the left. -/
theorem parseExpression_left_assoc (pre rest : List Token) (x op1 y op2 z t : Token)
    (p1 p2 : Int) (fuel : Nat)
    (hx : isAtom x = true) (hy : isAtom y = true) (hz : isAtom z = true)
    (h1 : BinopPrecedence op1.type = some p1) (h2 : BinopPrecedence op2.type = some p2)
    (hp : p2 ≤ p1) (ht : BinopPrecedence t.type = none)
    (hcall : ¬ (z.type = .IDENTIFIER ∧ t.type = .LPAREN)) :
    parseExpression (fuel + 6) (pre ++ x :: op1 :: y :: op2 :: z :: t :: rest) pre.length =
      some (some (Expr.BinaryExpr op2.value
        (Expr.BinaryExpr op1.value (atomExpr x) (atomExpr y)) (atomExpr z)), pre.length + 5) := by
  generalize htoks : pre ++ x :: op1 :: y :: op2 :: z :: t :: rest = toks
  have g0 : toks[pre.length]? = some x := by rw [← htoks]; exact get_pre_of 0 (by simp)
  have g1 : toks[pre.length + 1]? = some op1 := by rw [← htoks]; exact get_pre_of 1 (by simp)
  have g2 : toks[pre.length + 1 + 1]? = some y := by rw [← htoks]; exact get_pre_of 2 (by simp)
  have g3 : toks[pre.length + 1 + 1 + 1]? = some op2 := by
    rw [← htoks]; exact get_pre_of 3 (by simp)
  have g4 : toks[pre.length + 1 + 1 + 1 + 1]? = some z := by
    rw [← htoks]; exact get_pre_of 4 (by simp)
  have g5 : toks[pre.length + 1 + 1 + 1 + 1 + 1]? = some t := by
    rw [← htoks]; exact get_pre_of 5 (by simp)
  have q1 := BinopPrecedence_ge h1
  have q2 := BinopPrecedence_ge h2
  have ux := parseUnary_atom (fuel + 2) g0 g1 hx (not_call_of_binop h1)
  have uy := parseUnary_atom (fuel + 1) g2 g3 hy (not_call_of_binop h2)
  have uz := parseUnary_atom fuel g4 g5 hz hcall
  have e1 : ¬ (p1 < 0) := by omega
  have e2 : ¬ (p2 < 0) := by omega
  have e3 : ¬ (p1 < p2) := by omega
  have e4 : ¬ (p2 < -1) := by omega
  simp [parseExpression, ux, parseBinOpRHS, getTokPrecedence_of g1, getTokPrecedence_of g3,
    getTokPrecedence_of g5, h1, h2, ht, e1, e2, e3, e4, currentToken_of g1, currentToken_of g3,
    advance_of g2, advance_of g4, uy, uz]

/-- C2, witness: the tokens of `1 + 2 < 3` parse as `(1 + 2) < 3`. -/
theorem parseExpression_left_assoc_witness :
    parseExpression 6 [tk .INT_LITERAL "1", tk .PLUS "+", tk .INT_LITERAL "2", tk .LESS "<",
        tk .INT_LITERAL "3", tk .END_OF_FILE ""] 0 =
      some (some (Expr.BinaryExpr "<"
        (Expr.BinaryExpr "+" (Expr.NumberExpr "1" .INT_LITERAL) (Expr.NumberExpr "2" .INT_LITERAL))
        (Expr.NumberExpr "3" .INT_LITERAL)), 5) :=
  parseExpression_left_assoc [] [] (tk .INT_LITERAL "1") (tk .PLUS "+") (tk .INT_LITERAL "2")
    (tk .LESS "<") (tk .INT_LITERAL "3") (tk .END_OF_FILE "") 20 10 0 rfl rfl rfl rfl rfl
    (by decide) rfl (by decide)

/-- C2, counterexample to the claim as stated: in `a + b + c (` the operands are
identifiers, both operators are `+`, and the token after `c` is `(`, which is not
a binary operator; yet with any fuel that lets the call return,
`parseExpression` returns no result (the `(` makes `c` the callee of a call
whose argument list fails to parse). -/
theorem parseExpression_identifier_then_lparen :
    isAtom (tk .IDENTIFIER "a") = true ∧ isAtom (tk .IDENTIFIER "b") = true ∧
    isAtom (tk .IDENTIFIER "c") = true ∧
    BinopPrecedence (tk .PLUS "+").type = some 20 ∧
    BinopPrecedence (tk .LPAREN "(").type = none ∧
    ∀ fuel, parseExpression (10 + fuel)
      [tk .IDENTIFIER "a", tk .PLUS "+", tk .IDENTIFIER "b", tk .PLUS "+", tk .IDENTIFIER "c",
        tk .LPAREN "(", tk .END_OF_FILE ""] 0 = some (none, 6) :=
  ⟨rfl, rfl, rfl, rfl, rfl, fun fuel => parseExpression_fuel_mono (by rfl) fuel⟩

/-- C3: for operand tokens `a`, `b`, `c`, `d`, comparison operators `c1`, `c2`
(precedence 10) and a logical operator `l` (`&&` or `||`, precedence 5),
`parseExpression` on `a c1 b l c c2 d`, the expression ending at a token `t`
(not a binary operator, and not a `(` that would make an identifier `d` a
callee; the end marker is such a token), returns
`Binary(l, Binary(c1, a, b), Binary(c2, c, d))`: the tighter operator to the
right of `l` is grouped into the right operand of `l`. -/
theorem parseExpression_tighter_right (pre rest : List Token) (a c1 b l c c2 d t : Token)
    (fuel : Nat)
    (ha : isAtom a = true) (hb : isAtom b = true) (hc : isAtom c = true) (hd : isAtom d = true)
    (h1 : BinopPrecedence c1.type = some 10) (h2 : BinopPrecedence c2.type = some 10)
    (hl : l.type = .AMPERSAND_AMPERSAND ∨ l.type = .PIPE_PIPE)
    (ht : BinopPrecedence t.type = none)
    (hcall : ¬ (d.type = .IDENTIFIER ∧ t.type = .LPAREN)) :
    parseExpression (fuel + 7) (pre ++ a :: c1 :: b :: l :: c :: c2 :: d :: t :: rest)
        pre.length =
      some (some (Expr.BinaryExpr l.value
        (Expr.BinaryExpr c1.value (atomExpr a) (atomExpr b))
        (Expr.BinaryExpr c2.value (atomExpr c) (atomExpr d))), pre.length + 7) := by
  generalize htoks : pre ++ a :: c1 :: b :: l :: c :: c2 :: d :: t :: rest = toks
  have g0 : toks[pre.length]? = some a := by rw [← htoks]; exact get_pre_of 0 (by simp)
  have g1 : toks[pre.length + 1]? = some c1 := by rw [← htoks]; exact get_pre_of 1 (by simp)
  have g2 : toks[pre.length + 1 + 1]? = some b := by rw [← htoks]; exact get_pre_of 2 (by simp)
  have g3 : toks[pre.length + 1 + 1 + 1]? = some l := by
    rw [← htoks]; exact get_pre_of 3 (by simp)
  have g4 : toks[pre.length + 1 + 1 + 1 + 1]? = some c := by
    rw [← htoks]; exact get_pre_of 4 (by simp)
  have g5 : toks[pre.length + 1 + 1 + 1 + 1 + 1]? = some c2 := by
    rw [← htoks]; exact get_pre_of 5 (by simp)
  have g6 : toks[pre.length + 1 + 1 + 1 + 1 + 1 + 1]? = some d := by
    rw [← htoks]; exact get_pre_of 6 (by simp)
  have g7 : toks[pre.length + 1 + 1 + 1 + 1 + 1 + 1 + 1]? = some t := by
    rw [← htoks]; exact get_pre_of 7 (by simp)
  have hl5 : BinopPrecedence l.type = some 5 := by
    rcases hl with h | h <;> simp [h, BinopPrecedence]
  have ua := parseUnary_atom (fuel + 3) g0 g1 ha (not_call_of_binop h1)
  have ub := parseUnary_atom (fuel + 2) g2 g3 hb (not_call_of_binop hl5)
  have uc := parseUnary_atom (fuel + 1) g4 g5 hc (not_call_of_binop h2)
  have ud := parseUnary_atom fuel g6 g7 hd hcall
  simp [parseExpression, ua, parseBinOpRHS, getTokPrecedence_of g1, getTokPrecedence_of g3,
    getTokPrecedence_of g5, getTokPrecedence_of g7, h1, h2, hl5, ht, currentToken_of g1,
    currentToken_of g3, currentToken_of g5, advance_of g2, advance_of g4, advance_of g6, ub, uc, ud]

/-- C3, witness: the tokens of `a < b && c < d` parse as `(a < b) && (c < d)`. -/
theorem parseExpression_tighter_right_witness :
    parseExpression 7 [tk .IDENTIFIER "a", tk .LESS "<", tk .IDENTIFIER "b",
        tk .AMPERSAND_AMPERSAND "&&", tk .IDENTIFIER "c", tk .LESS "<", tk .IDENTIFIER "d",
        tk .END_OF_FILE ""] 0 =
      some (some (Expr.BinaryExpr "&&"
        (Expr.BinaryExpr "<" (Expr.VariableExpr "a") (Expr.VariableExpr "b"))
        (Expr.BinaryExpr "<" (Expr.VariableExpr "c") (Expr.VariableExpr "d"))), 7) :=
  parseExpression_tighter_right [] [] (tk .IDENTIFIER "a") (tk .LESS "<") (tk .IDENTIFIER "b")
    (tk .AMPERSAND_AMPERSAND "&&") (tk .IDENTIFIER "c") (tk .LESS "<") (tk .IDENTIFIER "d")
    (tk .END_OF_FILE "") 0 rfl rfl rfl rfl rfl rfl (Or.inl rfl) rfl (by decide)

/-- C4: logical negation binds tighter than every binary operator: for operand
tokens `a`, `b`, a `!` token `n` and a binary operator `op` of the precedence
table, `parseExpression` on `! a op b`, the expression ending at a token `t`
(not a binary operator, and not a `(` that would make an identifier `b` a
callee; the end marker is such a token), returns `Binary(op, Unary(!, a), b)`. -/
theorem parseExpression_bang_binds_tighter (pre rest : List Token) (n a op b t : Token) (p : Int)
    (fuel : Nat)
    (hn : n.type = .BANG) (ha : isAtom a = true) (hb : isAtom b = true)
    (hop : BinopPrecedence op.type = some p)
    (ht : BinopPrecedence t.type = none)
    (hcall : ¬ (b.type = .IDENTIFIER ∧ t.type = .LPAREN)) :
    parseExpression (fuel + 5) (pre ++ n :: a :: op :: b :: t :: rest) pre.length =
      some (some (Expr.BinaryExpr op.value (Expr.UnaryExpr n.value (atomExpr a)) (atomExpr b)),
        pre.length + 4) := by
  generalize htoks : pre ++ n :: a :: op :: b :: t :: rest = toks
  have g0 : toks[pre.length]? = some n := by rw [← htoks]; exact get_pre_of 0 (by simp)
  have g1 : toks[pre.length + 1]? = some a := by rw [← htoks]; exact get_pre_of 1 (by simp)
  have g2 : toks[pre.length + 1 + 1]? = some op := by rw [← htoks]; exact get_pre_of 2 (by simp)
  have g3 : toks[pre.length + 1 + 1 + 1]? = some b := by
    rw [← htoks]; exact get_pre_of 3 (by simp)
  have g4 : toks[pre.length + 1 + 1 + 1 + 1]? = some t := by
    rw [← htoks]; exact get_pre_of 4 (by simp)
  have q := BinopPrecedence_ge hop
  have ua := parseUnary_atom fuel g1 g2 ha (not_call_of_binop hop)
  have ub := parseUnary_atom fuel g3 g4 hb hcall
  have e1 : ¬ (p < 0) := by omega
  have e2 : ¬ (p < -1) := by omega
  have un : parseUnary (fuel + 4) toks pre.length =
      some (some (Expr.UnaryExpr n.value (atomExpr a)), pre.length + 1 + 1) := by
    rw [parseUnary]
    simp [check_of g0, hn, currentToken_of g0, advance_of g1, ua]
  simp [parseExpression, un, parseBinOpRHS, getTokPrecedence_of g2, getTokPrecedence_of g4, hop,
    ht, e1, e2, currentToken_of g2, advance_of g3, ub]

/-- C4, witness: the tokens of `!a < b` parse as `(!a) < b`. -/
theorem parseExpression_bang_binds_tighter_witness :
    parseExpression 5 [tk .BANG "!", tk .IDENTIFIER "a", tk .LESS "<", tk .IDENTIFIER "b",
        tk .END_OF_FILE ""] 0 =
      some (some (Expr.BinaryExpr "<" (Expr.UnaryExpr "!" (Expr.VariableExpr "a"))
        (Expr.VariableExpr "b")), 4) :=
  parseExpression_bang_binds_tighter [] [] (tk .BANG "!") (tk .IDENTIFIER "a") (tk .LESS "<")
    (tk .IDENTIFIER "b") (tk .END_OF_FILE "") 10 0 rfl rfl rfl rfl rfl (by decide)

/-! ## Recovery at the top level (C5) -/

theorem parse_skip_aux (fn f lp lb rb : Token) (T : List Token) (fuel : Nat)
    (hfn : fn.type = .FN) (hf : f.type = .IDENTIFIER) (hlp : lp.type = .LPAREN)
    (hlb : lb.type = .LBRACE) (hrb : rb.type = .RBRACE) (hT : T ≠ []) :
    parse (fuel + 2) (fn :: f :: lp :: lb :: rb :: T) = parse fuel T := by
  obtain ⟨t, T', rfl⟩ := List.exists_cons_of_ne_nil hT
  have hshift := parseLoop_shift fuel [fn, f, lp, lb, rb] (t :: T') 0 []
  simp only [List.length_cons, List.length_nil, Nat.zero_add, Nat.add_zero, List.cons_append,
    List.nil_append] at hshift
  generalize htoks : fn :: f :: lp :: lb :: rb :: t :: T' = toks at hshift ⊢
  have g0 : toks[0]? = some fn := by simp [← htoks]
  have g1 : toks[1]? = some f := by simp [← htoks]
  have g2 : toks[2]? = some lp := by simp [← htoks]
  have g3 : toks[3]? = some lb := by simp [← htoks]
  have g4 : toks[4]? = some rb := by simp [← htoks]
  have g5 : toks[5]? = some t := by simp [← htoks]
  have d0 : parseDefinition (fuel + 1) toks 0 = some (none, 3) := by
    simp [parseDefinition, parsePrototype, parsePrototypeLoop, matchTok_of_eq g0 g1 hfn,
      check_of g1, hf, advance_of g2, matchTok_of_eq g2 g3 hlp, check_of g3, hlb, isType]
  have d4 : parseDefinition fuel toks 4 = some (none, 4) := by
    have : rb.type ≠ .FN := by simp [hrb]
    simp [parseDefinition, parsePrototype, matchTok_of_ne g4 this]
  have c0 : (decide (0 < toks.length) && (currentToken toks 0).type != TokenType.END_OF_FILE)
      = true := by
    simp [currentToken_of g0, hfn, lt_length_of g0]
  have c4 : (decide (4 < toks.length) && (currentToken toks 4).type != TokenType.END_OF_FILE)
      = true := by
    simp [currentToken_of g4, hrb, lt_length_of g4]
  have a3 : advance toks 3 = 4 := advance_of g4
  have a4 : advance toks 4 = 5 := advance_of g5
  simp only [parse]
  rw [parseLoop]
  simp only [c0, d0, if_true, a3]
  rw [parseLoop]
  simp only [c4, d4, if_true, a4]
  exact hshift

/-- C5: the malformed definition `fn f( { }` is skipped and parsing continues.
For every non-empty token sequence `T` (every sequence ending in the end marker
is one), `parse` on the five tokens of `fn f( { }` followed by `T` does, with
two more units of fuel, exactly what `parse` does on `T` alone; so whenever
`parse` returns a module `m` on `T` it returns the same `m` on the longer
sequence (no function `f`, every definition of `T` kept), with any larger fuel
as well. -/
theorem parse_skips_malformed_definition (fn f lp lb rb : Token) (T : List Token) (fuel : Nat)
    (hfn : fn.type = .FN) (hf : f.type = .IDENTIFIER) (hlp : lp.type = .LPAREN)
    (hlb : lb.type = .LBRACE) (hrb : rb.type = .RBRACE) (hT : T ≠ []) :
    parse (fuel + 2) (fn :: f :: lp :: lb :: rb :: T) = parse fuel T ∧
      ∀ m, parse fuel T = some m →
        ∀ k, parse (fuel + 2 + k) (fn :: f :: lp :: lb :: rb :: T) = some m := by
  have h := parse_skip_aux fn f lp lb rb T fuel hfn hf hlp hlb hrb hT
  refine ⟨h, fun m hm k => parse_fuel_mono ?_ k⟩
  rw [h]; exact hm

/-- C5, witness: `fn f( { } fn g() { }` parses to the module of `fn g() { }`. -/
theorem parse_skips_malformed_definition_witness :
    parse 5 [tk .FN "fn", tk .IDENTIFIER "f", tk .LPAREN "(", tk .LBRACE "\x7b",
        tk .RBRACE "\x7d", tk .FN "fn", tk .IDENTIFIER "g", tk .LPAREN "(", tk .RPAREN ")",
        tk .LBRACE "\x7b", tk .RBRACE "\x7d", tk .END_OF_FILE ""] =
      some ⟨[⟨⟨"g", [], "void"⟩, BlockStmt.mk []⟩]⟩ :=
  (parse_skips_malformed_definition (tk .FN "fn") (tk .IDENTIFIER "f") (tk .LPAREN "(")
    (tk .LBRACE "\x7b") (tk .RBRACE "\x7d")
    [tk .FN "fn", tk .IDENTIFIER "g", tk .LPAREN "(", tk .RPAREN ")", tk .LBRACE "\x7b",
      tk .RBRACE "\x7d", tk .END_OF_FILE ""] 3 rfl rfl rfl rfl rfl (by simp)).2 _ (by rfl) 0

/-! ## The unclosed block (C1) -/

theorem parseBlockLoop_unclosed (fuel : Nat) (stmts : List Stmt) :
    parseBlockLoop fuel unclosedTokens 5 stmts = none := by
  induction fuel with
  | zero => rfl
  | succ n ih =>
    rw [parseBlockLoop]
    cases n with
    | zero => simp [parseStatement, check, currentToken, unclosedTokens, tk]
    | succ k =>
      have hs : parseStatement (k + 1) unclosedTokens 5 = some (none, 5) := by
        simp [parseStatement, check, currentToken, unclosedTokens, tk, isType]
      have ha : advance unclosedTokens 5 = 5 := by decide
      have hc : (!check unclosedTokens 5 .RBRACE && decide (5 < unclosedTokens.length)) = true := by
        decide
      simp only [hc, hs, ha, if_true]
      exact ih

/-- C1 (the code departs from the claim): on the token vector of `fn f() {`,
which ends in the end marker, `Parser::parse` never returns: the model runs out
of fuel whatever the fuel.  Inside `parseBlock` the cursor stands on the end
marker, `parseStatement` fails there, and `advance` leaves the cursor where it
is, so the statement loop repeats in the same state. -/
theorem parse_unclosed_block_diverges :
    (∀ fuel, Lexer.tokenize (7 + fuel) "fn f() \x7b".toList = some unclosedTokens) ∧
      ∀ fuel, parse fuel unclosedTokens = none := by
  refine ⟨fun fuel => Lexer.tokenize_fuel_mono (by decide) fuel, fun fuel => ?_⟩
  have hb : ∀ fuel, parseBlock fuel unclosedTokens 4 = none := by
    intro fuel
    cases fuel with
    | zero => rfl
    | succ n =>
      rw [parseBlock]
      have hm : matchTok unclosedTokens 4 .LBRACE = (true, 5) := by decide
      simp [hm, parseBlockLoop_unclosed]
  have hp : ∀ fuel, parsePrototype fuel unclosedTokens 0 =
      some (some ⟨"f", [], "void"⟩, 4) := by
    intro fuel
    simp [parsePrototype, matchTok, check, currentToken, advance, unclosedTokens, tk]
  cases fuel with
  | zero => rfl
  | succ n =>
    simp only [parse]
    rw [parseLoop]
    have hc : (decide (0 < unclosedTokens.length) &&
        (currentToken unclosedTokens 0).type != TokenType.END_OF_FILE) = true := by decide
    simp [hc, parseDefinition, hp, hb]

/-! ## Sub-parses whose failure is not propagated (C6, C7, C8)

Each statement evaluates the parser on the tokens of a small program; the
cursor positions are those of the statement inside `fn f() { ... }`
(the first statement starts at token 5). -/

/-- C6 (the code departs from the claim): `parseReturnStmt` and
`parseVarDeclStmt` test only the semicolon, not the expression.  In
`fn f() { return ; int x = ; }` the statement `return ;` yields a `ReturnStmt`
whose value is absent and `int x = ;` yields a `VarDeclStmt` without
initializer, and both nodes are in the module `parse` returns. -/
theorem parseReturnStmt_stores_absent_value :
    (∀ fuel, Lexer.tokenize (14 + fuel) "fn f() \x7b return ; int x = ; \x7d".toList =
      some absentValueTokens) ∧
    (∀ fuel, parseReturnStmt (3 + fuel) absentValueTokens 5 =
      some (some (Stmt.ReturnStmt none), 7)) ∧
    (∀ fuel, parseVarDeclStmt (3 + fuel) absentValueTokens 7 =
      some (some (Stmt.VarDeclStmt "int" "x" none), 11)) ∧
    (∀ fuel, parse (8 + fuel) absentValueTokens =
      some ⟨[⟨⟨"f", [], "void"⟩,
        BlockStmt.mk [Stmt.ReturnStmt none, Stmt.VarDeclStmt "int" "x" none]⟩]⟩) :=
  ⟨fun fuel => Lexer.tokenize_fuel_mono (by decide) fuel,
    fun fuel => parseReturnStmt_fuel_mono (by rfl) fuel,
    fun fuel => parseVarDeclStmt_fuel_mono (by rfl) fuel,
    fun fuel => parse_fuel_mono (by rfl) fuel⟩

/-- C7 (the code departs from the claim): `parseIfStmt` and `parseWhileStmt`
store the results of `parseExpression` and `parseBlock` without testing them.
In `fn f() { if (x) return 1; }` the `if` yields an `IfStmt` whose then-block is
absent (and `return 1;` becomes the next statement of the function body); the
same tokens read by `parseWhileStmt` yield a `WhileStmt` whose body is absent;
for `if ( ) { }` and `while ( ) { }` the node's condition is absent; and for
`if (x) { } else return 1;`, where no block follows `else`, the node is the one
of `if (x) { }`. -/
theorem parseIfStmt_stores_absent_block :
    (∀ fuel, Lexer.tokenize (16 + fuel) "fn f() \x7b if (x) return 1; \x7d".toList =
      some absentThenTokens) ∧
    (∀ fuel, parseIfStmt (5 + fuel) absentThenTokens 5 =
      some (some (Stmt.IfStmt (some (Expr.VariableExpr "x")) none none), 9)) ∧
    (∀ fuel, parseWhileStmt (5 + fuel) absentThenTokens 5 =
      some (some (Stmt.WhileStmt (some (Expr.VariableExpr "x")) none), 9)) ∧
    (∀ fuel, parse (9 + fuel) absentThenTokens =
      some ⟨[⟨⟨"f", [], "void"⟩,
        BlockStmt.mk [Stmt.IfStmt (some (Expr.VariableExpr "x")) none none,
          Stmt.ReturnStmt (some (Expr.NumberExpr "1" .INT_LITERAL))]⟩]⟩) ∧
    (∀ fuel, parseIfStmt (4 + fuel)
        [tk .IF "if", tk .LPAREN "(", tk .RPAREN ")", tk .LBRACE "\x7b", tk .RBRACE "\x7d",
          tk .END_OF_FILE ""] 0 =
      some (some (Stmt.IfStmt none (some (BlockStmt.mk [])) none), 5)) ∧
    (∀ fuel, parseWhileStmt (4 + fuel)
        [tk .WHILE "while", tk .LPAREN "(", tk .RPAREN ")", tk .LBRACE "\x7b",
          tk .RBRACE "\x7d", tk .END_OF_FILE ""] 0 =
      some (some (Stmt.WhileStmt none (some (BlockStmt.mk []))), 5)) ∧
    (∀ fuel, parseIfStmt (5 + fuel)
        [tk .IF "if", tk .LPAREN "(", tk .IDENTIFIER "x", tk .RPAREN ")", tk .LBRACE "\x7b",
          tk .RBRACE "\x7d", tk .ELSE "else", tk .RETURN "return", tk .INT_LITERAL "1",
          tk .SEMICOLON ";", tk .END_OF_FILE ""] 0 =
      some (some (Stmt.IfStmt (some (Expr.VariableExpr "x")) (some (BlockStmt.mk [])) none),
        7)) :=
  ⟨fun fuel => Lexer.tokenize_fuel_mono (by decide) fuel,
    fun fuel => parseIfStmt_fuel_mono (by rfl) fuel,
    fun fuel => parseWhileStmt_fuel_mono (by rfl) fuel,
    fun fuel => parse_fuel_mono (by rfl) fuel,
    fun fuel => parseIfStmt_fuel_mono (by rfl) fuel,
    fun fuel => parseWhileStmt_fuel_mono (by rfl) fuel,
    fun fuel => parseIfStmt_fuel_mono (by rfl) fuel⟩

/-- C8 (the code departs from the claim): `parsePrintStmt` calls
`parseStringExpr` without looking at the kind of the current token, and
`parseStringExpr` never fails.  In `fn f() { print(x); }` the token after
`print (` is the identifier `x`, and the statement yields a `PrintStmt` whose
format is the text `x`, present in the module `parse` returns. -/
theorem parsePrintStmt_takes_any_token_as_format :
    (∀ fuel, Lexer.tokenize (13 + fuel) "fn f() \x7b print(x); \x7d".toList =
      some printIdentifierTokens) ∧
    (currentToken printIdentifierTokens 7).type = TokenType.IDENTIFIER ∧
    (∀ fuel, parsePrintStmt (1 + fuel) printIdentifierTokens 5 =
      some (some (Stmt.PrintStmt ⟨"x"⟩ []), 10)) ∧
    (∀ fuel, parse (5 + fuel) printIdentifierTokens =
      some ⟨[⟨⟨"f", [], "void"⟩, BlockStmt.mk [Stmt.PrintStmt ⟨"x"⟩ []]⟩]⟩) :=
  ⟨fun fuel => Lexer.tokenize_fuel_mono (by decide) fuel, rfl,
    fun fuel => parsePrintStmt_fuel_mono (by rfl) fuel,
    fun fuel => parse_fuel_mono (by rfl) fuel⟩

/-! ## Prototypes (C9) -/

theorem paramTokens_length (ps : List (Token × Token × Token)) :
    (paramTokens ps).length = 3 * ps.length := by
  induction ps with
  | nil => rfl
  | cons p ps ih => simp [paramTokens, ih]; omega

theorem parsePrototypeLoop_params (ps : List (Token × Token × Token)) :
    ∀ (pre tail : List Token) (t0 n0 r : Token) (acc : List (String × String)) (fuel : Nat),
      isTypeTok t0 = true → n0.type = .IDENTIFIER →
      (∀ p ∈ ps, p.1.type = .COMMA ∧ isTypeTok p.2.1 = true ∧ p.2.2.type = .IDENTIFIER) →
      r.type ≠ .COMMA →
      parsePrototypeLoop (fuel + ps.length + 1) (pre ++ t0 :: n0 :: (paramTokens ps ++ r :: tail))
          pre.length acc =
        some (some (acc ++ (t0.value, n0.value) :: paramArgs ps),
          pre.length + 2 + 3 * ps.length) := by
  induction ps with
  | nil =>
    intro pre tail t0 n0 r acc fuel ht0 hn0 _ hr
    generalize htoks : pre ++ t0 :: n0 :: (paramTokens [] ++ r :: tail) = toks
    have g : ∀ k, toks[pre.length + k]? = (t0 :: n0 :: r :: tail)[k]? := by
      intro k; rw [← htoks]; exact getElem?_pre _ _ k
    have g0 : toks[pre.length]? = some t0 := by simpa using g 0
    have g1 : toks[pre.length + 1]? = some n0 := by simpa using g 1
    have g2 : toks[pre.length + 1 + 1]? = some r := by simpa using g 2
    rw [parsePrototypeLoop]
    simp [isType_of g0, ht0, currentToken_of g0, advance_of g1, check_of g1, hn0,
      currentToken_of g1, advance_of g2, matchTok_of_ne g2 hr, paramArgs]
  | cons p ps ih =>
    intro pre tail t0 n0 r acc fuel ht0 hn0 hps hr
    obtain ⟨hc, ht, hn⟩ := hps p (List.mem_cons_self _ _)
    have hps' : ∀ q ∈ ps, q.1.type = .COMMA ∧ isTypeTok q.2.1 = true ∧
        q.2.2.type = .IDENTIFIER := fun q hq => hps q (List.mem_cons_of_mem _ hq)
    have hrec := ih (pre ++ [t0, n0, p.1]) tail p.2.1 p.2.2 r (acc ++ [(t0.value, n0.value)])
      fuel ht hn hps' hr
    have hl : (pre ++ [t0, n0, p.1]).length = pre.length + 1 + 1 + 1 := by simp
    have htk : pre ++ [t0, n0, p.1] ++ p.2.1 :: p.2.2 :: (paramTokens ps ++ r :: tail) =
        pre ++ t0 :: n0 :: (paramTokens (p :: ps) ++ r :: tail) := by
      simp [paramTokens]
    rw [htk, hl] at hrec
    generalize htoks : pre ++ t0 :: n0 :: (paramTokens (p :: ps) ++ r :: tail) = toks at hrec ⊢
    have g : ∀ k, toks[pre.length + k]? =
        (t0 :: n0 :: p.1 :: p.2.1 :: p.2.2 :: (paramTokens ps ++ r :: tail))[k]? := by
      intro k; rw [← htoks]; exact getElem?_pre _ _ k
    have g0 : toks[pre.length]? = some t0 := by simpa using g 0
    have g1 : toks[pre.length + 1]? = some n0 := by simpa using g 1
    have g2 : toks[pre.length + 1 + 1]? = some p.1 := by simpa using g 2
    have g3 : toks[pre.length + 1 + 1 + 1]? = some p.2.1 := by simpa using g 3
    have hf : fuel + (p :: ps).length + 1 = (fuel + ps.length + 1) + 1 := by
      simp only [List.length_cons]; omega
    rw [hf, parsePrototypeLoop]
    simp only [isType_of g0, ht0, currentToken_of g0, advance_of g1, check_of g1, hn0,
      currentToken_of g1, advance_of g2, matchTok_of_eq g2 g3 hc]
    simp only [Bool.not_true, Bool.false_eq_true, if_false, beq_self_eq_true, if_true, hrec]
    simp only [paramArgs, List.map_cons, List.append_assoc, List.singleton_append,
      List.length_cons]
    have hn : pre.length + 1 + 1 + 1 + 2 + 3 * ps.length =
        pre.length + 2 + 3 * (ps.length + 1) := by omega
    rw [hn]

/-- The argument-list part of `parsePrototype`, from the cursor after `(`. -/
theorem parsePrototype_args (pre follow : List Token) (fn name lp rp : Token)
    (ps : List (Token × Token × Token)) (fuel : Nat) (hrp : rp.type = .RPAREN)
    (hps : ∀ p ∈ ps, p.1.type = .COMMA ∧ isTypeTok p.2.1 = true ∧ p.2.2.type = .IDENTIFIER) :
    (if !check (pre ++ (prototypeTokens fn name lp rp ps ++ follow)) (pre.length + 1 + 1 + 1)
          .RPAREN then
        parsePrototypeLoop (fuel + ps.length)
          (pre ++ (prototypeTokens fn name lp rp ps ++ follow)) (pre.length + 1 + 1 + 1) []
      else some (some [], pre.length + 1 + 1 + 1)) =
      some (some (paramArgs ps), pre.length + 3 + (paramTokens ps).tail.length) := by
  cases ps with
  | nil =>
    have g3 : (pre ++ (prototypeTokens fn name lp rp [] ++ follow))[pre.length + 1 + 1 + 1]? =
        some rp := get_pre_of 3 (by simp [prototypeTokens, paramTokens])
    simp [check_of g3, hrp, paramArgs, paramTokens]
  | cons p ps =>
    obtain ⟨_, ht, hn⟩ := hps p (List.mem_cons_self _ _)
    have hps' : ∀ q ∈ ps, q.1.type = .COMMA ∧ isTypeTok q.2.1 = true ∧
        q.2.2.type = .IDENTIFIER := fun q hq => hps q (List.mem_cons_of_mem _ hq)
    have hr : rp.type ≠ .COMMA := by simp [hrp]
    have hloop := parsePrototypeLoop_params ps (pre ++ [fn, name, lp]) follow p.2.1 p.2.2 rp []
      fuel ht hn hps' hr
    have hl : (pre ++ [fn, name, lp]).length = pre.length + 1 + 1 + 1 := by simp
    have htk : pre ++ [fn, name, lp] ++ p.2.1 :: p.2.2 :: (paramTokens ps ++ rp :: follow) =
        pre ++ (prototypeTokens fn name lp rp (p :: ps) ++ follow) := by
      simp [prototypeTokens, paramTokens]
    rw [htk, hl] at hloop
    have g3 : (pre ++ (prototypeTokens fn name lp rp (p :: ps) ++ follow))[
        pre.length + 1 + 1 + 1]? = some p.2.1 :=
      get_pre_of 3 (by simp [prototypeTokens, paramTokens])
    have hne : p.2.1.type ≠ .RPAREN := by
      intro h; simp [isTypeTok, h] at ht
    have hf : fuel + (p :: ps).length = fuel + ps.length + 1 := by simp; omega
    simp only [check_of g3, hf, hloop]
    simp [hne, paramArgs, paramTokens, paramTokens_length]
    omega

theorem prototypeTokens_get (pre follow : List Token) (fn name lp rp : Token)
    (ps : List (Token × Token × Token)) (k : Nat) {t : Token} (ht : (rp :: follow)[k]? = some t) :
    (pre ++ (prototypeTokens fn name lp rp ps ++ follow))[
        pre.length + 3 + (paramTokens ps).tail.length + k]? = some t := by
  rw [← ht]
  have h : pre ++ (prototypeTokens fn name lp rp ps ++ follow) =
      (pre ++ fn :: name :: lp :: (paramTokens ps).tail) ++ (rp :: follow) := by
    simp [prototypeTokens]
  have hl : pre.length + 3 + (paramTokens ps).tail.length =
      (pre ++ fn :: name :: lp :: (paramTokens ps).tail).length := by
    simp; omega
  rw [h, hl]
  exact getElem?_pre _ _ k

/-- C9: `parsePrototype` on a well-formed `fn NAME ( params )`, with any number
of parameters and no condition on their names.  (1) When the next token is
neither `:` nor `->` the Prototype has the `(type, name)` pairs in source order
and return type "void".  (2) When a marker `:` or `->` and a type keyword `T`
(any of the four) follow, it is the same Prototype with return type the text of
`T`, whichever marker was used.  (3) When the token after the marker is not a
type keyword there is no result. -/
theorem parsePrototype_spec (pre rest : List Token) (fn name lp rp : Token)
    (ps : List (Token × Token × Token)) (fuel : Nat)
    (hfn : fn.type = .FN) (hname : name.type = .IDENTIFIER) (hlp : lp.type = .LPAREN)
    (hrp : rp.type = .RPAREN)
    (hps : ∀ p ∈ ps, p.1.type = .COMMA ∧ isTypeTok p.2.1 = true ∧ p.2.2.type = .IDENTIFIER) :
    (∀ t : Token, t.type ≠ .COLON → t.type ≠ .ARROW →
      parsePrototype (fuel + ps.length)
          (pre ++ (prototypeTokens fn name lp rp ps ++ t :: rest)) pre.length =
        some (some ⟨name.value, paramArgs ps, "void"⟩,
          pre.length + (prototypeTokens fn name lp rp ps).length)) ∧
    (∀ m T u : Token, m.type = .COLON ∨ m.type = .ARROW → isTypeTok T = true →
      parsePrototype (fuel + ps.length)
          (pre ++ (prototypeTokens fn name lp rp ps ++ m :: T :: u :: rest)) pre.length =
        some (some ⟨name.value, paramArgs ps, T.value⟩,
          pre.length + (prototypeTokens fn name lp rp ps).length + 2)) ∧
    (∀ m u : Token, m.type = .COLON ∨ m.type = .ARROW → isTypeTok u = false →
      parsePrototype (fuel + ps.length)
          (pre ++ (prototypeTokens fn name lp rp ps ++ m :: u :: rest)) pre.length =
        some (none, pre.length + (prototypeTokens fn name lp rp ps).length + 1)) := by
  have hlen : pre.length + (prototypeTokens fn name lp rp ps).length =
      pre.length + 3 + (paramTokens ps).tail.length + 1 := by
    simp [prototypeTokens]; omega
  have head : ∀ follow : List Token,
      (pre ++ (prototypeTokens fn name lp rp ps ++ follow))[pre.length]? = some fn ∧
      (pre ++ (prototypeTokens fn name lp rp ps ++ follow))[pre.length + 1]? = some name ∧
      (pre ++ (prototypeTokens fn name lp rp ps ++ follow))[pre.length + 1 + 1]? = some lp ∧
      ∃ x, (pre ++ (prototypeTokens fn name lp rp ps ++ follow))[pre.length + 1 + 1 + 1]? =
        some x := by
    intro follow
    refine ⟨get_pre_of 0 (by simp [prototypeTokens]), get_pre_of 1 (by simp [prototypeTokens]),
      get_pre_of 2 (by simp [prototypeTokens]), ?_⟩
    cases ps with
    | nil => exact ⟨rp, get_pre_of 3 (by simp [prototypeTokens, paramTokens])⟩
    | cons p ps => exact ⟨p.2.1, get_pre_of 3 (by simp [prototypeTokens, paramTokens])⟩
  refine ⟨?_, ?_, ?_⟩
  · intro t hc ha
    obtain ⟨g0, g1, g2, x, g3⟩ := head (t :: rest)
    have hargs := parsePrototype_args pre (t :: rest) fn name lp rp ps fuel hrp hps
    have r0 : (pre ++ (prototypeTokens fn name lp rp ps ++ t :: rest))[
        pre.length + 3 + (paramTokens ps).tail.length]? = some rp :=
      prototypeTokens_get pre (t :: rest) fn name lp rp ps 0 (by simp)
    have r1 : (pre ++ (prototypeTokens fn name lp rp ps ++ t :: rest))[
        pre.length + 3 + (paramTokens ps).tail.length + 1]? = some t :=
      prototypeTokens_get pre (t :: rest) fn name lp rp ps 1 (by simp)
    rw [hlen]
    generalize pre ++ (prototypeTokens fn name lp rp ps ++ t :: rest) = toks at *
    generalize pre.length + 3 + (paramTokens ps).tail.length = c at *
    simp only [parsePrototype, matchTok_of_eq g0 g1 hfn, check_of g1, hname, currentToken_of g1,
      advance_of g2, matchTok_of_eq g2 g3 hlp, hargs, matchTok_of_eq r0 r1 hrp,
      matchTok_of_ne r1 hc, matchTok_of_ne r1 ha]
    simp
  · intro m T u hm hT
    obtain ⟨g0, g1, g2, x, g3⟩ := head (m :: T :: u :: rest)
    have hargs := parsePrototype_args pre (m :: T :: u :: rest) fn name lp rp ps fuel hrp hps
    have r0 : (pre ++ (prototypeTokens fn name lp rp ps ++ m :: T :: u :: rest))[
        pre.length + 3 + (paramTokens ps).tail.length]? = some rp :=
      prototypeTokens_get pre (m :: T :: u :: rest) fn name lp rp ps 0 (by simp)
    have r1 : (pre ++ (prototypeTokens fn name lp rp ps ++ m :: T :: u :: rest))[
        pre.length + 3 + (paramTokens ps).tail.length + 1]? = some m :=
      prototypeTokens_get pre (m :: T :: u :: rest) fn name lp rp ps 1 (by simp)
    have r2 : (pre ++ (prototypeTokens fn name lp rp ps ++ m :: T :: u :: rest))[
        pre.length + 3 + (paramTokens ps).tail.length + 1 + 1]? = some T :=
      prototypeTokens_get pre (m :: T :: u :: rest) fn name lp rp ps 2 (by simp)
    have r3 : (pre ++ (prototypeTokens fn name lp rp ps ++ m :: T :: u :: rest))[
        pre.length + 3 + (paramTokens ps).tail.length + 1 + 1 + 1]? = some u :=
      prototypeTokens_get pre (m :: T :: u :: rest) fn name lp rp ps 3 (by simp)
    rw [hlen]
    generalize pre ++ (prototypeTokens fn name lp rp ps ++ m :: T :: u :: rest) = toks at *
    generalize pre.length + 3 + (paramTokens ps).tail.length = c at *
    rcases hm with hm | hm
    · simp only [parsePrototype, matchTok_of_eq g0 g1 hfn, check_of g1, hname,
        currentToken_of g1, advance_of g2, matchTok_of_eq g2 g3 hlp, hargs,
        matchTok_of_eq r0 r1 hrp, matchTok_of_eq r1 r2 hm]
      simp [isType_of r2, hT, currentToken_of r2, advance_of r3]
    · have hmc : m.type ≠ .COLON := by simp [hm]
      simp only [parsePrototype, matchTok_of_eq g0 g1 hfn, check_of g1, hname,
        currentToken_of g1, advance_of g2, matchTok_of_eq g2 g3 hlp, hargs,
        matchTok_of_eq r0 r1 hrp, matchTok_of_ne r1 hmc, matchTok_of_eq r1 r2 hm]
      simp [isType_of r2, hT, currentToken_of r2, advance_of r3]
  · intro m u hm hu
    obtain ⟨g0, g1, g2, x, g3⟩ := head (m :: u :: rest)
    have hargs := parsePrototype_args pre (m :: u :: rest) fn name lp rp ps fuel hrp hps
    have r0 : (pre ++ (prototypeTokens fn name lp rp ps ++ m :: u :: rest))[
        pre.length + 3 + (paramTokens ps).tail.length]? = some rp :=
      prototypeTokens_get pre (m :: u :: rest) fn name lp rp ps 0 (by simp)
    have r1 : (pre ++ (prototypeTokens fn name lp rp ps ++ m :: u :: rest))[
        pre.length + 3 + (paramTokens ps).tail.length + 1]? = some m :=
      prototypeTokens_get pre (m :: u :: rest) fn name lp rp ps 1 (by simp)
    have r2 : (pre ++ (prototypeTokens fn name lp rp ps ++ m :: u :: rest))[
        pre.length + 3 + (paramTokens ps).tail.length + 1 + 1]? = some u :=
      prototypeTokens_get pre (m :: u :: rest) fn name lp rp ps 2 (by simp)
    rw [hlen]
    generalize pre ++ (prototypeTokens fn name lp rp ps ++ m :: u :: rest) = toks at *
    generalize pre.length + 3 + (paramTokens ps).tail.length = c at *
    rcases hm with hm | hm
    · simp only [parsePrototype, matchTok_of_eq g0 g1 hfn, check_of g1, hname,
        currentToken_of g1, advance_of g2, matchTok_of_eq g2 g3 hlp, hargs,
        matchTok_of_eq r0 r1 hrp, matchTok_of_eq r1 r2 hm]
      simp [isType_of r2, hu]
    · have hmc : m.type ≠ .COLON := by simp [hm]
      simp only [parsePrototype, matchTok_of_eq g0 g1 hfn, check_of g1, hname,
        currentToken_of g1, advance_of g2, matchTok_of_eq g2 g3 hlp, hargs,
        matchTok_of_eq r0 r1 hrp, matchTok_of_ne r1 hmc, matchTok_of_eq r1 r2 hm]
      simp [isType_of r2, hu]

/-- C9, witness: `fn add(int a, int a)`, whose two parameters share a name,
followed by `{`, by `-> float {`, by `: float {`, and by `: {`. -/
theorem parsePrototype_spec_witness :
    parsePrototype 2 [tk .FN "fn", tk .IDENTIFIER "add", tk .LPAREN "(", tk .INT_TYPE "int",
        tk .IDENTIFIER "a", tk .COMMA ",", tk .INT_TYPE "int", tk .IDENTIFIER "a",
        tk .RPAREN ")", tk .LBRACE "\x7b"] 0 =
      some (some ⟨"add", [("int", "a"), ("int", "a")], "void"⟩, 9) ∧
    parsePrototype 2 [tk .FN "fn", tk .IDENTIFIER "add", tk .LPAREN "(", tk .INT_TYPE "int",
        tk .IDENTIFIER "a", tk .COMMA ",", tk .INT_TYPE "int", tk .IDENTIFIER "a",
        tk .RPAREN ")", tk .ARROW "->", tk .FLOAT_TYPE "float", tk .LBRACE "\x7b"] 0 =
      some (some ⟨"add", [("int", "a"), ("int", "a")], "float"⟩, 11) ∧
    parsePrototype 2 [tk .FN "fn", tk .IDENTIFIER "add", tk .LPAREN "(", tk .INT_TYPE "int",
        tk .IDENTIFIER "a", tk .COMMA ",", tk .INT_TYPE "int", tk .IDENTIFIER "a",
        tk .RPAREN ")", tk .COLON ":", tk .FLOAT_TYPE "float", tk .LBRACE "\x7b"] 0 =
      some (some ⟨"add", [("int", "a"), ("int", "a")], "float"⟩, 11) ∧
    parsePrototype 2 [tk .FN "fn", tk .IDENTIFIER "add", tk .LPAREN "(", tk .INT_TYPE "int",
        tk .IDENTIFIER "a", tk .COMMA ",", tk .INT_TYPE "int", tk .IDENTIFIER "a",
        tk .RPAREN ")", tk .COLON ":", tk .LBRACE "\x7b"] 0 =
      some (none, 10) := by
  have h := parsePrototype_spec [] [] (tk .FN "fn") (tk .IDENTIFIER "add") (tk .LPAREN "(")
    (tk .RPAREN ")")
    [(tk .COMMA ",", tk .INT_TYPE "int", tk .IDENTIFIER "a"),
      (tk .COMMA ",", tk .INT_TYPE "int", tk .IDENTIFIER "a")] 0 rfl rfl rfl rfl
    (by decide)
  exact ⟨h.1 (tk .LBRACE "\x7b") (by decide) (by decide),
    h.2.1 (tk .ARROW "->") (tk .FLOAT_TYPE "float") (tk .LBRACE "\x7b") (Or.inr rfl) rfl,
    h.2.1 (tk .COLON ":") (tk .FLOAT_TYPE "float") (tk .LBRACE "\x7b") (Or.inl rfl) rfl,
    h.2.2 (tk .COLON ":") (tk .LBRACE "\x7b") (Or.inl rfl) rfl⟩

/-! ## The generator: sequencing and kept relations -/

theorem bind_apply {α β : Type} (x : M α) (f : α → M β) (g : CodeGen) :
    (x >>= f) g = match x g with
      | .returned a g1 => f a g1
      | .aborted g1 => .aborted g1 := rfl

theorem pure_apply {α : Type} (a : α) (g : CodeGen) : (pure a : M α) g = .returned a g := rfl

theorem bind_returned {α β : Type} {x : M α} {f : α → M β} {g g1 : CodeGen} {a : α}
    (h : x g = .returned a g1) : (x >>= f) g = f a g1 := by
  rw [bind_apply, h]

theorem bind_aborted {α β : Type} {x : M α} {f : α → M β} {g g1 : CodeGen}
    (h : x g = .aborted g1) : (x >>= f) g = .aborted g1 := by
  rw [bind_apply, h]

theorem keeps_bind {R : CodeGen → CodeGen → Prop} {g0 : CodeGen} {α β : Type} {x : M α}
    {f : α → M β} {Q : α → Prop} {Q2 : β → Prop}
    (hx : Keeps R g0 x Q) (hf : ∀ a, Q a → Keeps R g0 (f a) Q2) :
    Keeps R g0 (x >>= f) Q2 := by
  intro g hg hn
  obtain ⟨h1, h2, h3⟩ := hx g hg hn
  cases hxg : x g with
  | returned a g1 =>
    rw [bind_returned hxg]
    rw [hxg] at h1 h2
    exact hf a (h3 a g1 hxg) g1 h1 h2
  | aborted g1 =>
    rw [bind_aborted hxg]
    rw [hxg] at h1 h2
    exact ⟨h1, h2, fun a g2 h => by cases h⟩

theorem keeps_weaken {R : CodeGen → CodeGen → Prop} {g0 : CodeGen} {α : Type} {x : M α}
    {Q Q2 : α → Prop} (hx : Keeps R g0 x Q) (h : ∀ a, Q a → Q2 a) : Keeps R g0 x Q2 := by
  intro g hg hn
  obtain ⟨h1, h2, h3⟩ := hx g hg hn
  exact ⟨h1, h2, fun a g1 e => h a (h3 a g1 e)⟩

theorem keeps_pure {R : CodeGen → CodeGen → Prop} {g0 : CodeGen} {α : Type} (a : α)
    {Q : α → Prop} (h : Q a) : Keeps R g0 (pure a : M α) Q := by
  intro g hg hn
  refine ⟨hg, hn, fun b g1 e => ?_⟩
  rw [pure_apply] at e
  cases e
  exact h

theorem keeps_abort {R : CodeGen → CodeGen → Prop} {g0 : CodeGen} {α : Type}
    {Q : α → Prop} : Keeps R g0 (abort : M α) Q := by
  intro g hg hn
  exact ⟨hg, hn, fun b g1 e => by cases e⟩

/-- A step that keeps the blocks and is related to the state before it. -/
theorem keeps_step {R : CodeGen → CodeGen → Prop} {okCallee : String → Prop}
    (hR : ExprFrame R okCallee) {g0 : CodeGen} {α : Type} {x : M α}
    (h1 : ∀ g, R g (x g).state) (h2 : ∀ g, g.blocks.length ≤ (x g).state.blocks.length) :
    Keeps R g0 x (fun _ => True) := by
  intro g hg hn
  exact ⟨hR.trans _ _ _ hg (h1 g), Nat.le_trans hn (h2 g), fun _ _ _ => trivial⟩

theorem Insert_blocks_length (opcode : Opcode) (operands : List (Option Value)) (type : LLVMType)
    (Name : String) (g : CodeGen) :
    (Insert opcode operands type Name g).state.blocks.length = g.blocks.length := by
  unfold Insert
  cases g.InsertBlock <;> simp [Outcome.state]

theorem keeps_Insert {R : CodeGen → CodeGen → Prop} {okCallee : String → Prop}
    (hR : ExprFrame R okCallee) {g0 : CodeGen} (opcode : Opcode)
    (operands : List (Option Value)) (type : LLVMType) (Name : String) :
    Keeps R g0 (Insert opcode operands type Name) (fun _ => True) :=
  keeps_step hR (hR.inserted · opcode operands type Name)
    (fun g => Nat.le_of_eq (Insert_blocks_length opcode operands type Name g).symm)

theorem keeps_logErrorV {R : CodeGen → CodeGen → Prop} {okCallee : String → Prop}
    (hR : ExprFrame R okCallee) {g0 : CodeGen} {α : Type} (str : String)
    (h : str ≠ "Unknown function referenced") :
    Keeps R g0 (logErrorV str : M (Option α)) (fun _ => True) :=
  keeps_step hR (fun g => hR.logged g str h) (fun g => Nat.le_refl _)

theorem keeps_CreateGlobalString {R : CodeGen → CodeGen → Prop} {okCallee : String → Prop}
    (hR : ExprFrame R okCallee) {g0 : CodeGen} (Str : String) :
    Keeps R g0 (CreateGlobalString Str) (fun _ => True) :=
  keeps_step hR (hR.globalString · Str) (fun g => Nat.le_refl _)

theorem keeps_namedValuesAt {R : CodeGen → CodeGen → Prop} {okCallee : String → Prop}
    (hR : ExprFrame R okCallee) {g0 : CodeGen} (Name : String) :
    Keeps R g0 (namedValuesAt Name) (fun _ => True) :=
  keeps_step hR (hR.looked · Name) (fun g => by
    unfold Cat.namedValuesAt
    cases g.namedValues.lookup Name <;> simp [Outcome.state])

theorem keeps_FunctionCreate {R : CodeGen → CodeGen → Prop} {okCallee : String → Prop}
    (hR : ExprFrame R okCallee) {g0 : CodeGen} (ReturnType : LLVMType) (Params : List LLVMType)
    (VarArg : Bool) (Name : String) :
    Keeps R g0 (FunctionCreate ReturnType Params VarArg Name) (fun _ => True) :=
  keeps_step hR (hR.declared · ReturnType Params VarArg Name) (fun g => Nat.le_refl _)

theorem keeps_getFunction {R : CodeGen → CodeGen → Prop} {okCallee : String → Prop}
    (hR : ExprFrame R okCallee) {g0 : CodeGen} (name : String) :
    Keeps R g0 (getFunction name) (fun _ => True) := by
  intro g hg hn
  unfold Cat.getFunction
  cases g.moduleGetFunction name with
  | some F => exact ⟨hg, hn, fun _ _ _ => trivial⟩
  | none =>
    simp only []
    split
    · exact keeps_bind (keeps_FunctionCreate hR _ _ _ _) (fun F _ => keeps_pure (some F) trivial)
        g hg hn
    · split
      · exact keeps_bind (keeps_FunctionCreate hR _ _ _ _)
          (fun F _ => keeps_pure (some F) trivial) g hg hn
      · exact ⟨hg, hn, fun _ _ _ => trivial⟩

/-- The lookup of a callee followed by the test of `visit(CallExpr&)`. -/
theorem keeps_callee {R : CodeGen → CodeGen → Prop} {okCallee : String → Prop}
    (hR : ExprFrame R okCallee) {g0 : CodeGen} (Callee : String) (hc : okCallee Callee)
    {α : Type} (k : Nat → M (Option α))
    (hk : ∀ F, Keeps R g0 (k F) (fun _ => True)) :
    Keeps R g0 (getFunction Callee >>= fun calleeF =>
      match calleeF with
      | none => logErrorV "Unknown function referenced"
      | some calleeF => k calleeF) (fun _ => True) := by
  intro g hg hn
  rw [bind_apply]
  unfold Cat.getFunction
  cases hF : g.moduleGetFunction Callee with
  | some F => exact hk F g hg hn
  | none =>
    simp only []
    by_cases h1 : Callee = "printf"
    · rw [if_pos h1]
      have := keeps_bind (keeps_FunctionCreate hR .Int32 [.Pointer .Int8] true "printf")
        (fun F _ => hk F) g hg hn
      rw [bind_apply] at this
      rw [bind_apply]
      cases hc : FunctionCreate .Int32 [.Pointer .Int8] true "printf" g with
      | returned F g1 => rw [hc] at this; simpa [pure_apply] using this
      | aborted g1 => rw [hc] at this; simpa using this
    · rw [if_neg h1]
      by_cases h2 : Callee = "scanf"
      · rw [if_pos h2]
        have := keeps_bind (keeps_FunctionCreate hR .Int32 [.Pointer .Int8] true "scanf")
          (fun F _ => hk F) g hg hn
        rw [bind_apply] at this
        rw [bind_apply]
        cases hc : FunctionCreate .Int32 [.Pointer .Int8] true "scanf" g with
        | returned F g1 => rw [hc] at this; simpa [pure_apply] using this
        | aborted g1 => rw [hc] at this; simpa using this
      · rw [if_neg h2]
        simp only [Cat.logErrorV, Outcome.state]
        exact ⟨hR.trans _ _ _ hg (hR.unknown g Callee hc hF h1 h2), hn, fun _ _ _ => trivial⟩

theorem keeps_visitNumberExpr {R : CodeGen → CodeGen → Prop} {okCallee : String → Prop}
    (hR : ExprFrame R okCallee) {g0 : CodeGen} (V : String) (Ty : TokenType) :
    Keeps R g0 (visitNumberExpr V Ty) (fun _ => True) := by
  unfold Cat.visitNumberExpr
  split
  · split
    · exact keeps_pure _ trivial
    · exact keeps_abort
  · split
    · split
      · exact keeps_pure _ trivial
      · exact keeps_abort
    · exact keeps_logErrorV hR _ (by decide)

theorem keeps_visitVariableExpr {R : CodeGen → CodeGen → Prop} {okCallee : String → Prop}
    (hR : ExprFrame R okCallee) {g0 : CodeGen} (Name : String) :
    Keeps R g0 (visitVariableExpr Name) (fun _ => True) := by
  unfold Cat.visitVariableExpr
  refine keeps_bind (keeps_namedValuesAt hR Name) (fun a _ => ?_)
  cases a with
  | none => exact keeps_logErrorV hR _ (by decide)
  | some a => exact keeps_bind (keeps_Insert hR _ _ _ _) (fun v _ => keeps_pure _ trivial)

theorem keeps_CreateBinary {R : CodeGen → CodeGen → Prop} {okCallee : String → Prop}
    (hR : ExprFrame R okCallee) {g0 : CodeGen} (opcode : Opcode) (L R2 : Value)
    (Name : String) : Keeps R g0 (CreateBinary opcode L R2 Name) (fun _ => True) := by
  unfold CreateBinary
  split
  · exact keeps_pure _ trivial
  · exact keeps_Insert hR _ _ _ _

theorem keeps_CreateICmpNE {R : CodeGen → CodeGen → Prop} {okCallee : String → Prop}
    (hR : ExprFrame R okCallee) {g0 : CodeGen} (LHS : Option Value) (RHS : Value)
    (Name : String) : Keeps R g0 (CreateICmpNE LHS RHS Name) (fun _ => True) := by
  unfold CreateICmpNE
  split
  · exact keeps_abort
  · exact keeps_CreateBinary hR _ _ _ _

theorem keeps_CreateStore {R : CodeGen → CodeGen → Prop} {okCallee : String → Prop}
    (hR : ExprFrame R okCallee) {g0 : CodeGen} (Val : Option Value) (Ptr : AllocaInst) :
    Keeps R g0 (CreateStore Val Ptr) (fun _ => True) := by
  unfold CreateStore
  split
  · exact keeps_abort
  · exact keeps_Insert hR _ _ _ _

theorem keeps_CreateNot {R : CodeGen → CodeGen → Prop} {okCallee : String → Prop}
    (hR : ExprFrame R okCallee) {g0 : CodeGen} (V : Value) (Name : String) :
    Keeps R g0 (CreateNot V Name) (fun _ => True) := by
  unfold CreateNot
  split
  · exact keeps_pure _ trivial
  · exact keeps_Insert hR _ _ _ _

theorem keeps_visitBinaryExprRest {R : CodeGen → CodeGen → Prop}
    {okCallee : String → Prop}
    (hR : ExprFrame R okCallee) {g0 : CodeGen} (Op : String) (L R2 : Option Value) :
    Keeps R g0 (visitBinaryExprRest Op L R2) (fun _ => True) := by
  unfold Cat.visitBinaryExprRest
  split
  · split
    · exact keeps_bind (keeps_CreateBinary hR _ _ _ _) (fun v _ => keeps_pure _ trivial)
    · exact keeps_logErrorV hR _ (by decide)
  · exact keeps_pure _ trivial

theorem keeps_visitUnaryExprRest {R : CodeGen → CodeGen → Prop}
    {okCallee : String → Prop}
    (hR : ExprFrame R okCallee) {g0 : CodeGen} (Op : String) (operand : Option Value) :
    Keeps R g0 (visitUnaryExprRest Op operand) (fun _ => True) := by
  unfold Cat.visitUnaryExprRest
  split
  · exact keeps_pure _ trivial
  · split
    · exact keeps_bind (keeps_CreateNot hR _ _) (fun v _ => keeps_pure _ trivial)
    · exact keeps_logErrorV hR _ (by decide)

theorem keeps_CreateCall {R : CodeGen → CodeGen → Prop} {okCallee : String → Prop}
    (hR : ExprFrame R okCallee) {g0 : CodeGen} (Callee : Nat) (Args : List (Option Value))
    (Name : String) : Keeps R g0 (CreateCall Callee Args Name) (fun _ => True) := by
  intro g hg hn
  exact keeps_Insert hR _ _ _ _ g hg hn

mutual
theorem keeps_visitExpr {R : CodeGen → CodeGen → Prop} {okCallee : String → Prop}
    (hR : ExprFrame R okCallee) (g0 : CodeGen) :
    ∀ e : Expr, (∀ c ∈ e.callees, okCallee c) → Keeps R g0 (visitExpr e) (fun _ => True)
  | .NumberExpr V Ty, _ => by
    rw [Cat.visitExpr]; exact keeps_visitNumberExpr hR V Ty
  | .StringExpr node, _ => by
    rw [Cat.visitExpr]
    exact keeps_bind (keeps_CreateGlobalString hR _) (fun s _ => keeps_pure _ trivial)
  | .BoolExpr V, _ => by
    rw [Cat.visitExpr]; unfold visitBoolExpr
    split <;> exact keeps_pure _ trivial
  | .VariableExpr Name, _ => by
    rw [Cat.visitExpr]; exact keeps_visitVariableExpr hR Name
  | .BinaryExpr Op LHS RHS, h => by
    rw [Cat.visitExpr]
    have hl := keeps_visitExpr hR g0 LHS (fun c hc => h c (by simp [Expr.callees, hc]))
    have hr := keeps_visitExpr hR g0 RHS (fun c hc => h c (by simp [Expr.callees, hc]))
    exact keeps_bind hl (fun L _ => keeps_bind hr (fun R2 _ =>
      keeps_visitBinaryExprRest hR Op L R2))
  | .UnaryExpr Op RHS, h => by
    rw [Cat.visitExpr]
    have hr := keeps_visitExpr hR g0 RHS (fun c hc => h c (by simp [Expr.callees, hc]))
    exact keeps_bind hr (fun operand _ => keeps_visitUnaryExprRest hR Op operand)
  | .CallExpr Callee Args, h => by
    rw [Cat.visitExpr]
    have ha := keeps_visitCallArgs hR g0 Args (fun c hc => h c (by simp [Expr.callees, hc]))
    refine keeps_callee hR Callee (h Callee (by simp [Expr.callees])) _ (fun F => ?_)
    refine keeps_bind (Q := fun _ => True) (fun g hg hn => ⟨hg, hn, fun _ _ _ => trivial⟩)
      (fun Fn _ => ?_)
    split
    · exact keeps_logErrorV hR _ (by decide)
    · refine keeps_bind (ha []) (fun argsV _ => ?_)
      cases argsV with
      | none => exact keeps_pure _ trivial
      | some argsV =>
        exact keeps_bind (keeps_CreateCall hR _ _ _) (fun v _ => keeps_pure _ trivial)
theorem keeps_visitCallArgs {R : CodeGen → CodeGen → Prop} {okCallee : String → Prop}
    (hR : ExprFrame R okCallee) (g0 : CodeGen) :
    ∀ Args : List Expr, (∀ c ∈ calleesOfArgs Args, okCallee c) →
      ∀ argsV, Keeps R g0 (visitCallArgs Args argsV) (fun _ => True)
  | [], _, argsV => by
    rw [Cat.visitCallArgs]; exact keeps_pure _ trivial
  | arg :: rest, h, argsV => by
    rw [Cat.visitCallArgs]
    have h1 := keeps_visitExpr hR g0 arg (fun c hc => h c (by simp [calleesOfArgs, hc]))
    refine keeps_bind h1 (fun v _ => ?_)
    cases v with
    | none => exact keeps_pure _ trivial
    | some v =>
      exact keeps_visitCallArgs hR g0 rest (fun c hc => h c (by simp [calleesOfArgs, hc])) _
end

/-! ## Relations kept by statement lowering -/

theorem keeps_namedValuesSet {R : CodeGen → CodeGen → Prop} {okDecl okCallee : String → Prop}
    (hR : Frame R okDecl okCallee) {g0 : CodeGen} (Name : String) (alloca : AllocaInst)
    (h : okDecl Name) :
    Keeps R g0 (namedValuesSet Name alloca) (fun _ => True) :=
  keeps_step hR.toExprFrame (fun g => hR.bound g Name alloca h) (fun g => Nat.le_refl _)

theorem keeps_calleesOfOption {R : CodeGen → CodeGen → Prop} {okDecl okCallee : String → Prop}
    (hR : Frame R okDecl okCallee) (g0 : CodeGen) (e : Expr)
    (h : ∀ c ∈ calleesOfOption (some e), okCallee c) :
    Keeps R g0 (visitExpr e) (fun _ => True) :=
  keeps_visitExpr hR.toExprFrame g0 e h

theorem keeps_visitReturnStmt {R : CodeGen → CodeGen → Prop} {okDecl okCallee : String → Prop}
    (hR : Frame R okDecl okCallee) (g0 : CodeGen) (V : Option Expr)
    (h : ∀ c ∈ calleesOfOption V, okCallee c) :
    Keeps R g0 (visitReturnStmt V) (fun _ => True) := by
  cases V with
  | none => exact keeps_abort
  | some V =>
    unfold visitReturnStmt
    exact keeps_bind (keeps_visitExpr hR.toExprFrame g0 V h) (fun v _ =>
      keeps_bind (keeps_Insert hR.toExprFrame _ _ _ _) (fun _ _ => keeps_pure _ trivial))

theorem keeps_visitPrintArgs {R : CodeGen → CodeGen → Prop} {okDecl okCallee : String → Prop}
    (hR : Frame R okDecl okCallee) (g0 : CodeGen) :
    ∀ Args : List Expr, (∀ c ∈ calleesOfArgs Args, okCallee c) →
      ∀ args, Keeps R g0 (visitPrintArgs Args args) (fun _ => True)
  | [], _, args => by
    rw [visitPrintArgs]; exact keeps_pure _ trivial
  | arg :: rest, h, args => by
    rw [visitPrintArgs]
    exact keeps_bind
      (keeps_visitExpr hR.toExprFrame g0 arg (fun c hc => h c (by simp [calleesOfArgs, hc])))
      (fun v _ => keeps_visitPrintArgs hR g0 rest
        (fun c hc => h c (by simp [calleesOfArgs, hc])) _)

theorem keeps_visitPrintStmt {R : CodeGen → CodeGen → Prop} {okDecl okCallee : String → Prop}
    (hR : Frame R okDecl okCallee) (g0 : CodeGen) (Format : StringExpr) (Args : List Expr)
    (h : ∀ c ∈ calleesOfArgs Args, okCallee c) :
    Keeps R g0 (visitPrintStmt Format Args) (fun _ => True) := by
  unfold visitPrintStmt
  refine keeps_bind (keeps_getFunction hR.toExprFrame _) (fun printfFn _ => ?_)
  refine keeps_bind (keeps_CreateGlobalString hR.toExprFrame _) (fun format _ => ?_)
  refine keeps_bind (keeps_visitPrintArgs hR g0 Args h _) (fun args _ => ?_)
  cases printfFn with
  | none => exact keeps_abort
  | some printfFn =>
    exact keeps_bind (keeps_CreateCall hR.toExprFrame _ _ _) (fun _ _ => keeps_pure _ trivial)

theorem keeps_visitScanStmt {R : CodeGen → CodeGen → Prop} {okDecl okCallee : String → Prop}
    (hR : Frame R okDecl okCallee) (g0 : CodeGen) (Var : String) :
    Keeps R g0 (visitScanStmt Var) (fun _ => True) := by
  unfold visitScanStmt
  refine keeps_bind (keeps_namedValuesAt hR.toExprFrame _) (fun alloca _ => ?_)
  cases alloca with
  | none =>
    exact keeps_bind (keeps_logErrorV hR.toExprFrame _ (by decide)) (fun _ _ => keeps_pure _ trivial)
  | some alloca =>
    refine keeps_bind (keeps_getFunction hR.toExprFrame _) (fun scanfFn _ => ?_)
    refine keeps_bind (keeps_CreateGlobalString hR.toExprFrame _) (fun formatStr _ => ?_)
    cases scanfFn with
    | none => exact keeps_abort
    | some scanfFn =>
      exact keeps_bind (keeps_CreateCall hR.toExprFrame _ _ _) (fun _ _ => keeps_pure _ trivial)

theorem keeps_GetInsertBlockParent {R : CodeGen → CodeGen → Prop} {g0 : CodeGen} :
    Keeps R g0 GetInsertBlockParent (fun _ => True) := by
  intro g hg hn
  unfold GetInsertBlockParent
  cases g.InsertBlock <;> exact ⟨hg, hn, fun _ _ _ => trivial⟩

theorem keeps_getEntryBlock {R : CodeGen → CodeGen → Prop} {g0 : CodeGen}
    (theFunction : Option Nat) : Keeps R g0 (getEntryBlock theFunction) (fun _ => True) := by
  intro g hg hn
  unfold getEntryBlock
  cases theFunction with
  | none => exact ⟨hg, hn, fun _ _ _ => trivial⟩
  | some F =>
    simp only []
    cases g.getEntryBlock F <;> exact ⟨hg, hn, fun _ _ _ => trivial⟩

theorem keeps_CreateAllocaAtBegin {R : CodeGen → CodeGen → Prop}
    {okDecl okCallee : String → Prop} (hR : Frame R okDecl okCallee) {g0 : CodeGen}
    (BB : Nat) (Ty : LLVMType) (Name : String) (hd : okDecl Name) :
    Keeps R g0 (CreateAllocaAtBegin BB Ty Name) (fun _ => True) :=
  keeps_step hR.toExprFrame (fun g => hR.allocated g BB Ty Name hd) (fun g => by
    simp [CreateAllocaAtBegin, Outcome.state])

theorem keeps_BasicBlockCreate {R : CodeGen → CodeGen → Prop}
    {okDecl okCallee : String → Prop} (hR : Frame R okDecl okCallee) {g0 : CodeGen}
    (Name : String) (Parent : Option Nat) :
    Keeps R g0 (BasicBlockCreate Name Parent) (fun BB => g0.blocks.length ≤ BB) := by
  intro g hg hn
  refine ⟨hR.trans _ _ _ hg (hR.blockCreated g Name Parent), ?_, fun BB g1 e => ?_⟩
  · simp only [BasicBlockCreate, Outcome.state, List.length_append, List.length_singleton]
    omega
  · simp only [BasicBlockCreate, Outcome.returned.injEq] at e
    omega

theorem keeps_SetInsertPoint {R : CodeGen → CodeGen → Prop}
    {okDecl okCallee : String → Prop} (hR : Frame R okDecl okCallee) {g0 : CodeGen}
    (BB : Nat) (h : g0.blocks.length ≤ BB) :
    Keeps R g0 (SetInsertPoint BB) (fun _ => True) := by
  intro g hg hn
  exact ⟨hR.moved g0 g BB hg h, hn, fun _ _ _ => trivial⟩

theorem keeps_visitVarDeclStmt {R : CodeGen → CodeGen → Prop} {okDecl okCallee : String → Prop}
    (hR : Frame R okDecl okCallee) (g0 : CodeGen) (VarType VarName : String) (Init : Option Expr)
    (hd : okDecl VarName) (h : ∀ c ∈ calleesOfOption Init, okCallee c) :
    Keeps R g0 (visitVarDeclStmt VarType VarName Init) (fun _ => True) := by
  unfold visitVarDeclStmt
  refine keeps_bind keeps_GetInsertBlockParent (fun theFunction _ => ?_)
  refine keeps_bind (keeps_getEntryBlock _) (fun entry _ => ?_)
  refine keeps_bind (keeps_CreateAllocaAtBegin hR _ _ _ hd) (fun alloca _ => ?_)
  cases Init with
  | none => exact keeps_namedValuesSet hR _ _ hd
  | some Init =>
    exact keeps_bind (keeps_visitExpr hR.toExprFrame g0 Init h) (fun initVal _ =>
      keeps_bind (keeps_CreateStore hR.toExprFrame _ _) (fun _ _ => keeps_namedValuesSet hR _ _ hd))

mutual
theorem keeps_visitStmt {R : CodeGen → CodeGen → Prop} {okDecl okCallee : String → Prop}
    (hR : Frame R okDecl okCallee) (g0 : CodeGen) :
    ∀ s : Stmt, (∀ n ∈ s.declared, okDecl n) → (∀ c ∈ s.callees, okCallee c) →
      Keeps R g0 (visitStmt s) (fun _ => True)
  | .BlockStmt block, hd, hc => by
    rw [visitStmt]
    exact keeps_visitBlockStmt hR g0 block (fun n hn => hd n (by simpa [Stmt.declared] using hn))
      (fun c h => hc c (by simpa [Stmt.callees] using h))
  | .ReturnStmt V, _, hc => by
    rw [visitStmt]
    exact keeps_visitReturnStmt hR g0 V (fun c h => hc c (by simpa [Stmt.callees] using h))
  | .PrintStmt Format Args, _, hc => by
    rw [visitStmt]
    exact keeps_visitPrintStmt hR g0 Format Args
      (fun c h => hc c (by simpa [Stmt.callees] using h))
  | .ScanStmt Var, _, _ => by
    rw [visitStmt]
    exact keeps_visitScanStmt hR g0 Var
  | .VarDeclStmt VarType VarName Init, hd, hc => by
    rw [visitStmt]
    exact keeps_visitVarDeclStmt hR g0 VarType VarName Init (hd VarName (by simp [Stmt.declared]))
      (fun c h => hc c (by simpa [Stmt.callees] using h))
  | .IfStmt Condition ThenBranch ElseBranch, hd, hc => by
    have ht := keeps_visitBranch hR g0 ThenBranch
      (fun n h => hd n (by simp [Stmt.declared, h]))
      (fun c h => hc c (by simp [Stmt.callees, h]))
    have he := keeps_visitElseBranch hR g0 ElseBranch
      (fun n h => hd n (by simp [Stmt.declared, h]))
      (fun c h => hc c (by simp [Stmt.callees, h]))
    cases Condition with
    | none => rw [visitStmt]; exact keeps_abort
    | some Condition =>
      rw [visitStmt]
      refine keeps_bind (keeps_visitExpr hR.toExprFrame g0 Condition
        (fun c h => hc c (by simp [Stmt.callees, calleesOfOption, h]))) (fun condV _ => ?_)
      cases condV with
      | none => exact keeps_pure _ trivial
      | some condV =>
        refine keeps_bind (keeps_CreateICmpNE hR.toExprFrame _ _ _) (fun condV _ => ?_)
        refine keeps_bind keeps_GetInsertBlockParent (fun theFunction _ => ?_)
        refine keeps_bind (keeps_BasicBlockCreate hR _ _) (fun thenBB hthen => ?_)
        refine keeps_bind (keeps_BasicBlockCreate hR _ _) (fun elseBB helse => ?_)
        refine keeps_bind (keeps_BasicBlockCreate hR _ _) (fun mergeBB hmerge => ?_)
        refine keeps_bind (keeps_Insert hR.toExprFrame _ _ _ _) (fun _ _ => ?_)
        refine keeps_bind (keeps_SetInsertPoint hR _ hthen) (fun _ _ => ?_)
        refine keeps_bind ht (fun _ _ => ?_)
        refine keeps_bind (keeps_Insert hR.toExprFrame _ _ _ _) (fun _ _ => ?_)
        refine keeps_bind (keeps_SetInsertPoint hR _ helse) (fun _ _ => ?_)
        refine keeps_bind he (fun _ _ => ?_)
        exact keeps_bind (keeps_Insert hR.toExprFrame _ _ _ _) (fun _ _ =>
          keeps_SetInsertPoint hR _ hmerge)
  | .WhileStmt Condition Body, hd, hc => by
    rw [visitStmt]
    have hb := keeps_visitBranch hR g0 Body
      (fun n h => hd n (by simp [Stmt.declared, h]))
      (fun c h => hc c (by simp [Stmt.callees, h]))
    refine keeps_bind keeps_GetInsertBlockParent (fun theFunction _ => ?_)
    refine keeps_bind (keeps_BasicBlockCreate hR _ _) (fun loopBB hloop => ?_)
    refine keeps_bind (keeps_BasicBlockCreate hR _ _) (fun afterBB hafter => ?_)
    refine keeps_bind (keeps_Insert hR.toExprFrame _ _ _ _) (fun _ _ => ?_)
    refine keeps_bind (keeps_SetInsertPoint hR _ hloop) (fun _ _ => ?_)
    cases Condition with
    | none => exact keeps_abort
    | some Condition =>
      refine keeps_bind (keeps_visitExpr hR.toExprFrame g0 Condition
        (fun c h => hc c (by simp [Stmt.callees, calleesOfOption, h]))) (fun condV _ => ?_)
      refine keeps_bind (keeps_CreateICmpNE hR.toExprFrame _ _ _) (fun condV _ => ?_)
      refine keeps_bind (keeps_Insert hR.toExprFrame _ _ _ _) (fun _ _ => ?_)
      refine keeps_bind hb (fun _ _ => ?_)
      exact keeps_bind (keeps_Insert hR.toExprFrame _ _ _ _) (fun _ _ =>
        keeps_SetInsertPoint hR _ hafter)
theorem keeps_visitBranch {R : CodeGen → CodeGen → Prop} {okDecl okCallee : String → Prop}
    (hR : Frame R okDecl okCallee) (g0 : CodeGen) :
    ∀ b : Option BlockStmt, (∀ n ∈ declaredOfBranch b, okDecl n) →
      (∀ c ∈ calleesOfBranch b, okCallee c) → Keeps R g0 (visitBranch b) (fun _ => True)
  | none, _, _ => by
    rw [visitBranch]; exact keeps_abort
  | some block, hd, hc => by
    rw [visitBranch]
    exact keeps_visitBlockStmt hR g0 block
      (fun n h => hd n (by simpa [declaredOfBranch] using h))
      (fun c h => hc c (by simpa [calleesOfBranch] using h))
theorem keeps_visitElseBranch {R : CodeGen → CodeGen → Prop} {okDecl okCallee : String → Prop}
    (hR : Frame R okDecl okCallee) (g0 : CodeGen) :
    ∀ b : Option BlockStmt, (∀ n ∈ declaredOfBranch b, okDecl n) →
      (∀ c ∈ calleesOfBranch b, okCallee c) → Keeps R g0 (visitElseBranch b) (fun _ => True)
  | none, _, _ => by
    rw [visitElseBranch]; exact keeps_pure _ trivial
  | some block, hd, hc => by
    rw [visitElseBranch]
    exact keeps_visitBlockStmt hR g0 block
      (fun n h => hd n (by simpa [declaredOfBranch] using h))
      (fun c h => hc c (by simpa [calleesOfBranch] using h))
theorem keeps_visitBlockStmt {R : CodeGen → CodeGen → Prop} {okDecl okCallee : String → Prop}
    (hR : Frame R okDecl okCallee) (g0 : CodeGen) :
    ∀ b : BlockStmt, (∀ n ∈ b.declared, okDecl n) → (∀ c ∈ b.callees, okCallee c) →
      Keeps R g0 (visitBlockStmt b) (fun _ => True)
  | .mk Statements, hd, hc => by
    rw [visitBlockStmt]
    exact keeps_visitStatements hR g0 Statements
      (fun n h => hd n (by simpa [BlockStmt.declared] using h))
      (fun c h => hc c (by simpa [BlockStmt.callees] using h))
theorem keeps_visitStatements {R : CodeGen → CodeGen → Prop} {okDecl okCallee : String → Prop}
    (hR : Frame R okDecl okCallee) (g0 : CodeGen) :
    ∀ l : List Stmt, (∀ n ∈ declaredOfStatements l, okDecl n) →
      (∀ c ∈ calleesOfStatements l, okCallee c) →
      Keeps R g0 (visitStatements l) (fun _ => True)
  | [], _, _ => by
    rw [visitStatements]; exact keeps_pure _ trivial
  | stmt :: rest, hd, hc => by
    rw [visitStatements]
    exact keeps_bind (keeps_visitStmt hR g0 stmt
        (fun n h => hd n (by simp [declaredOfStatements, h]))
        (fun c h => hc c (by simp [calleesOfStatements, h])))
      (fun _ _ => keeps_visitStatements hR g0 rest
        (fun n h => hd n (by simp [declaredOfStatements, h]))
        (fun c h => hc c (by simp [calleesOfStatements, h])))
end

/-! ## The blocks only grow -/

theorem Extends_refl (g : CodeGen) : Extends g g :=
  ⟨List.prefix_refl _, Nat.le_refl _, Nat.le_refl _, Or.inl rfl,
    fun i B h => ⟨B, h, rfl, rfl, [], [], by simp, by simp, fun _ => rfl⟩⟩

theorem Extends_trans (g1 g2 g3 : CodeGen) (h12 : Extends g1 g2) (h23 : Extends g2 g3) :
    Extends g1 g3 := by
  refine ⟨h12.functions.trans h23.functions, Nat.le_trans h12.numInsts h23.numInsts,
    Nat.le_trans h12.length h23.length, ?_, ?_⟩
  · rcases h23.insertBlock with h | ⟨BB, h, hle⟩
    · rw [h]; exact h12.insertBlock
    · exact Or.inr ⟨BB, h, Nat.le_trans h12.length hle⟩
  · intro i B hB
    obtain ⟨B2, hB2, hn2, hp2, pre2, post2, hI2, ha2, hpost2⟩ := h12.blocks i B hB
    obtain ⟨B3, hB3, hn3, hp3, pre3, post3, hI3, ha3, hpost3⟩ := h23.blocks i B2 hB2
    refine ⟨B3, hB3, hn3.trans hn2, hp3.trans hp2, pre3 ++ pre2, post2 ++ post3, ?_, ?_, ?_⟩
    · rw [hI3, hI2]; simp
    · intro I hI
      rcases List.mem_append.1 hI with h | h
      · exact ha3 I h
      · exact ha2 I h
    · intro hne
      have hi : i < g1.blocks.length := by
        rcases Nat.lt_or_ge i g1.blocks.length with h | h
        · exact h
        · rw [List.getElem?_eq_none h] at hB; cases hB
      have hne2 : g2.InsertBlock ≠ some i := by
        rcases h12.insertBlock with h | ⟨BB, h, hle⟩
        · rw [h]; exact hne
        · rw [h]; intro e; cases e; omega
      rw [hpost2 hne, hpost3 hne2]; rfl

theorem blocks_Insert (opcode : Opcode) (operands : List (Option Value)) (type : LLVMType)
    (Name : String) (g : CodeGen) :
    (Insert opcode operands type Name g).state.blocks =
      match g.InsertBlock with
      | some BB => g.blocks.modify
          (fun B => { B with Insts := B.Insts ++ [⟨g.numInsts, opcode, operands, type, Name⟩] }) BB
      | none => g.blocks := rfl

theorem Extends_Insert (g : CodeGen) (opcode : Opcode) (operands : List (Option Value))
    (type : LLVMType) (Name : String) :
    Extends g (Insert opcode operands type Name g).state := by
  refine ⟨List.prefix_refl _, by simp [Insert, Outcome.state],
    Nat.le_of_eq (Insert_blocks_length _ _ _ _ g).symm, Or.inl rfl, ?_⟩
  intro i B hB
  rw [blocks_Insert]
  cases hI : g.InsertBlock with
  | none => exact ⟨B, hB, rfl, rfl, [], [], by simp, by simp, fun _ => rfl⟩
  | some BB =>
    simp only [List.getElem?_modify, hB, Option.map_eq_map, Option.map_some']
    by_cases h : BB = i
    · refine ⟨_, rfl, by simp [h], by simp [h], [],
        [⟨g.numInsts, opcode, operands, type, Name⟩], by simp [h], by simp, ?_⟩
      intro hne; exact absurd (by rw [h]) hne
    · exact ⟨_, rfl, by simp [h], by simp [h], [], [], by simp [h], by simp, fun _ => rfl⟩

theorem Extends_CreateAllocaAtBegin (g : CodeGen) (BB : Nat) (Ty : LLVMType) (Name : String) :
    Extends g (CreateAllocaAtBegin BB Ty Name g).state := by
  refine ⟨List.prefix_refl _, by simp [CreateAllocaAtBegin, Outcome.state],
    by simp [CreateAllocaAtBegin, Outcome.state], Or.inl rfl, ?_⟩
  intro i B hB
  simp only [CreateAllocaAtBegin, Outcome.state, List.getElem?_modify, hB, Option.map_eq_map,
    Option.map_some']
  by_cases h : BB = i
  · exact ⟨_, rfl, by simp [h], by simp [h], [⟨g.numInsts, .Alloca Ty, [], .Pointer Ty, Name⟩],
      [], by simp [h], by simp, fun _ => rfl⟩
  · exact ⟨_, rfl, by simp [h], by simp [h], [], [], by simp [h], by simp, fun _ => rfl⟩

theorem Extends_of_blocks_eq {g g1 : CodeGen} (hf : g.functions <+: g1.functions)
    (hn : g1.numInsts = g.numInsts) (hb : g1.blocks = g.blocks)
    (hi : g1.InsertBlock = g.InsertBlock) : Extends g g1 :=
  ⟨hf, Nat.le_of_eq hn.symm, by rw [hb], Or.inl hi,
    fun i B h => ⟨B, by rw [hb]; exact h, rfl, rfl, [], [], by simp, by simp, fun _ => rfl⟩⟩

theorem Extends_BasicBlockCreate (g : CodeGen) (Name : String) (Parent : Option Nat) :
    Extends g (BasicBlockCreate Name Parent g).state := by
  refine ⟨List.prefix_refl _, Nat.le_refl _, by simp [BasicBlockCreate, Outcome.state],
    Or.inl rfl, ?_⟩
  intro i B hB
  refine ⟨B, ?_, rfl, rfl, [], [], by simp, by simp, fun _ => rfl⟩
  have hi : i < g.blocks.length := by
    rcases Nat.lt_or_ge i g.blocks.length with h | h
    · exact h
    · rw [List.getElem?_eq_none h] at hB; cases hB
  simp only [BasicBlockCreate, Outcome.state]
  rw [List.getElem?_append_left hi]; exact hB

theorem Extends_moved (g0 g : CodeGen) (BB : Nat) (h : Extends g0 g)
    (hle : g0.blocks.length ≤ BB) : Extends g0 { g with InsertBlock := some BB } :=
  ⟨h.functions, h.numInsts, h.length, Or.inr ⟨BB, rfl, hle⟩, h.blocks⟩

theorem Extends_frame : Frame Extends (fun _ => True) (fun _ => True) where
  refl := Extends_refl
  trans := Extends_trans
  inserted := Extends_Insert
  allocated := fun g BB Ty Name _ => Extends_CreateAllocaAtBegin g BB Ty Name
  globalString := fun g Str => Extends_of_blocks_eq (List.prefix_refl _) rfl rfl rfl
  blockCreated := Extends_BasicBlockCreate
  moved := Extends_moved
  looked := fun g Name => by
    unfold namedValuesAt
    cases g.namedValues.lookup Name <;>
      exact Extends_of_blocks_eq (List.prefix_refl _) rfl rfl rfl
  bound := fun g Name alloca _ => Extends_of_blocks_eq (List.prefix_refl _) rfl rfl rfl
  logged := fun g str _ => Extends_of_blocks_eq (List.prefix_refl _) rfl rfl rfl
  unknown := fun g Callee _ _ _ _ => Extends_of_blocks_eq (List.prefix_refl _) rfl rfl rfl
  declared := fun g ReturnType Params VarArg Name =>
    Extends_of_blocks_eq (List.prefix_append _ _) rfl rfl rfl

theorem Extends_visitExpr (e : Expr) (g : CodeGen) : Extends g (visitExpr e g).state :=
  (keeps_visitExpr Extends_frame.toExprFrame g e (fun _ _ => trivial) g (Extends_refl g) (Nat.le_refl _)).1

theorem Extends_visitStmt (s : Stmt) (g : CodeGen) : Extends g (visitStmt s g).state :=
  (keeps_visitStmt Extends_frame g s (fun _ _ => trivial) (fun _ _ => trivial) g
    (Extends_refl g) (Nat.le_refl _)).1

theorem Extends_visitBranch (b : Option BlockStmt) (g : CodeGen) :
    Extends g (visitBranch b g).state :=
  (keeps_visitBranch Extends_frame g b (fun _ _ => trivial) (fun _ _ => trivial) g
    (Extends_refl g) (Nat.le_refl _)).1

theorem Extends_visitElseBranch (b : Option BlockStmt) (g : CodeGen) :
    Extends g (visitElseBranch b g).state :=
  (keeps_visitElseBranch Extends_frame g b (fun _ _ => trivial) (fun _ _ => trivial) g
    (Extends_refl g) (Nat.le_refl _)).1

/-! ## Parsing a call -/

theorem parseExpression_atom {toks : List Token} {cur : Nat} {x t : Token} (fuel : Nat)
    (h0 : toks[cur]? = some x) (h1 : toks[cur + 1]? = some t) (hx : isAtom x = true)
    (ht : BinopPrecedence t.type = none) (hl : t.type ≠ .LPAREN) :
    parseExpression (fuel + 4) toks cur = some (some (atomExpr x), cur + 1) := by
  rw [parseExpression, parseUnary_atom fuel h0 h1 hx (fun h => hl h.2)]
  simp only []
  rw [parseBinOpRHS]
  simp [getTokPrecedence_of h1, ht]

theorem argumentTokens_length (as : List (Token × Token)) :
    (argumentTokens as).length = 2 * as.length := by
  induction as with
  | nil => rfl
  | cons p ps ih => simp [argumentTokens, ih]; omega

theorem parseIdentifierExprLoop_atoms (as : List (Token × Token)) :
    ∀ (pre tail : List Token) (a0 r : Token) (acc : List Expr) (fuel : Nat),
      isAtom a0 = true →
      (∀ p ∈ as, p.1.type = .COMMA ∧ isAtom p.2 = true) →
      r.type = .RPAREN →
      parseIdentifierExprLoop (fuel + as.length + 5) (pre ++ a0 :: (argumentTokens as ++ r :: tail))
          pre.length acc =
        some (some (acc ++ atomExpr a0 :: as.map (fun p => atomExpr p.2)),
          pre.length + 1 + 2 * as.length) := by
  induction as with
  | nil =>
    intro pre tail a0 r acc fuel ha0 _ hr
    generalize htoks : pre ++ a0 :: (argumentTokens [] ++ r :: tail) = toks
    have g : ∀ k, toks[pre.length + k]? = (a0 :: r :: tail)[k]? := by
      intro k; rw [← htoks]; exact getElem?_pre _ _ k
    have g0 : toks[pre.length]? = some a0 := by simpa using g 0
    have g1 : toks[pre.length + 1]? = some r := by simpa using g 1
    have hb : BinopPrecedence r.type = none := by rw [hr]; rfl
    have hl : r.type ≠ .LPAREN := by rw [hr]; decide
    have hc : r.type ≠ .COMMA := by rw [hr]; decide
    have he := parseExpression_atom fuel g0 g1 ha0 hb hl
    simp only [List.length_nil, Nat.add_zero]
    rw [parseIdentifierExprLoop, he]
    simp [matchTok_of_ne g1 hc]
  | cons p ps ih =>
    intro pre tail a0 r acc fuel ha0 hps hr
    obtain ⟨hc, ha⟩ := hps p (List.mem_cons_self _ _)
    have hps2 : ∀ q ∈ ps, q.1.type = .COMMA ∧ isAtom q.2 = true :=
      fun q hq => hps q (List.mem_cons_of_mem _ hq)
    have hrec := ih (pre ++ [a0, p.1]) tail p.2 r (acc ++ [atomExpr a0]) fuel ha hps2 hr
    have hl : (pre ++ [a0, p.1]).length = pre.length + 1 + 1 := by simp
    have htk : pre ++ [a0, p.1] ++ p.2 :: (argumentTokens ps ++ r :: tail) =
        pre ++ a0 :: (argumentTokens (p :: ps) ++ r :: tail) := by
      simp [argumentTokens]
    rw [htk, hl] at hrec
    generalize htoks : pre ++ a0 :: (argumentTokens (p :: ps) ++ r :: tail) = toks at hrec ⊢
    have g : ∀ k, toks[pre.length + k]? =
        (a0 :: p.1 :: p.2 :: (argumentTokens ps ++ r :: tail))[k]? := by
      intro k; rw [← htoks]; exact getElem?_pre _ _ k
    have g0 : toks[pre.length]? = some a0 := by simpa using g 0
    have g1 : toks[pre.length + 1]? = some p.1 := by simpa using g 1
    have g2 : toks[pre.length + 1 + 1]? = some p.2 := by simpa using g 2
    have hb : BinopPrecedence p.1.type = none := by rw [hc]; rfl
    have hlp : p.1.type ≠ .LPAREN := by rw [hc]; decide
    have hf : fuel + (p :: ps).length + 5 = (fuel + ps.length + 1 + 4) + 1 := by
      simp only [List.length_cons]; omega
    have he := parseExpression_atom (fuel + ps.length + 1) g0 g1 ha0 hb hlp
    rw [hf, parseIdentifierExprLoop, he]
    simp only [matchTok_of_eq g1 g2 hc, if_true]
    have hf2 : fuel + ps.length + 1 + 4 = fuel + ps.length + 5 := by omega
    rw [hf2, hrec]
    simp only [List.map_cons, List.append_assoc, List.singleton_append, List.length_cons]
    have hn : pre.length + 1 + 1 + 1 + 2 * ps.length = pre.length + 1 + 2 * (ps.length + 1) := by
      omega
    rw [hn]

theorem callTokens_length (name lp rp : Token) (as : List (Token × Token)) :
    (callTokens name lp rp as).length = 3 + (argumentTokens as).tail.length := by
  simp [callTokens]; omega

theorem callTokens_get (pre follow : List Token) (name lp rp : Token)
    (as : List (Token × Token)) (k : Nat) {t : Token} (ht : (rp :: follow)[k]? = some t) :
    (pre ++ (callTokens name lp rp as ++ follow))[
        pre.length + 2 + (argumentTokens as).tail.length + k]? = some t := by
  rw [← ht]
  have h : pre ++ (callTokens name lp rp as ++ follow) =
      (pre ++ name :: lp :: (argumentTokens as).tail) ++ (rp :: follow) := by
    simp [callTokens]
  have hl : pre.length + 2 + (argumentTokens as).tail.length =
      (pre ++ name :: lp :: (argumentTokens as).tail).length := by
    simp; omega
  rw [h, hl]
  exact getElem?_pre _ _ k

/-- The argument-list part of `parseIdentifierExpr`, from the cursor after `(`. -/
theorem parseIdentifierExpr_args (pre follow : List Token) (name lp rp : Token)
    (as : List (Token × Token)) (fuel : Nat) (hrp : rp.type = .RPAREN)
    (has : ∀ p ∈ as, p.1.type = .COMMA ∧ isAtom p.2 = true) :
    (if !check (pre ++ (callTokens name lp rp as ++ follow)) (pre.length + 1 + 1) .RPAREN then
        parseIdentifierExprLoop (fuel + as.length + 4)
          (pre ++ (callTokens name lp rp as ++ follow)) (pre.length + 1 + 1) []
      else some (some [], pre.length + 1 + 1)) =
      some (some (as.map fun p => atomExpr p.2),
        pre.length + 2 + (argumentTokens as).tail.length) := by
  cases as with
  | nil =>
    have g2 : (pre ++ (callTokens name lp rp [] ++ follow))[pre.length + 1 + 1]? = some rp :=
      get_pre_of 2 (by simp [callTokens, argumentTokens])
    simp [check_of g2, hrp, argumentTokens]
  | cons p ps =>
    obtain ⟨_, ha⟩ := has p (List.mem_cons_self _ _)
    have hps2 : ∀ q ∈ ps, q.1.type = .COMMA ∧ isAtom q.2 = true :=
      fun q hq => has q (List.mem_cons_of_mem _ hq)
    have hloop := parseIdentifierExprLoop_atoms ps (pre ++ [name, lp]) follow p.2 rp [] fuel ha
      hps2 hrp
    have hl : (pre ++ [name, lp]).length = pre.length + 1 + 1 := by simp
    have htk : pre ++ [name, lp] ++ p.2 :: (argumentTokens ps ++ rp :: follow) =
        pre ++ (callTokens name lp rp (p :: ps) ++ follow) := by
      simp [callTokens, argumentTokens]
    rw [htk, hl] at hloop
    have g2 : (pre ++ (callTokens name lp rp (p :: ps) ++ follow))[pre.length + 1 + 1]? =
        some p.2 := get_pre_of 2 (by simp [callTokens, argumentTokens])
    have hne : p.2.type ≠ .RPAREN := by
      intro h; simp [isAtom, h] at ha
    have hf : fuel + (p :: ps).length + 4 = fuel + ps.length + 5 := by simp; omega
    simp only [check_of g2, hf, hloop]
    simp [hne, argumentTokens, argumentTokens_length]
    omega

theorem parseExpression_call (pre rest : List Token) (name lp rp t : Token)
    (as : List (Token × Token)) (fuel : Nat)
    (hname : name.type = .IDENTIFIER) (hlp : lp.type = .LPAREN) (hrp : rp.type = .RPAREN)
    (has : ∀ p ∈ as, p.1.type = .COMMA ∧ isAtom p.2 = true)
    (ht : BinopPrecedence t.type = none) :
    parseExpression (fuel + as.length + 8) (pre ++ (callTokens name lp rp as ++ t :: rest))
        pre.length =
      some (some (Expr.CallExpr name.value (as.map fun p => atomExpr p.2)),
        pre.length + (callTokens name lp rp as).length) := by
  have hargs := parseIdentifierExpr_args pre (t :: rest) name lp rp as fuel hrp has
  have r0 := callTokens_get pre (t :: rest) name lp rp as 0 (t := rp) rfl
  have r1 := callTokens_get pre (t :: rest) name lp rp as 1 (t := t) (by simp)
  have hlen : pre.length + (callTokens name lp rp as).length =
      pre.length + 2 + (argumentTokens as).tail.length + 1 := by
    rw [callTokens_length]; omega
  rw [hlen]
  have g0 : (pre ++ (callTokens name lp rp as ++ t :: rest))[pre.length]? = some name :=
    get_pre_of 0 (by simp [callTokens])
  have g1 : (pre ++ (callTokens name lp rp as ++ t :: rest))[pre.length + 1]? = some lp :=
    get_pre_of 1 (by simp [callTokens])
  have g2 : ∃ x, (pre ++ (callTokens name lp rp as ++ t :: rest))[pre.length + 1 + 1]? =
      some x := by
    cases as with
    | nil => exact ⟨rp, get_pre_of 2 (by simp [callTokens, argumentTokens])⟩
    | cons p ps => exact ⟨p.2, get_pre_of 2 (by simp [callTokens, argumentTokens])⟩
  obtain ⟨x2, g2⟩ := g2
  generalize pre ++ (callTokens name lp rp as ++ t :: rest) = toks at hargs r0 r1 g0 g1 g2 ⊢
  have hb : name.type ≠ .BANG := by rw [hname]; decide
  have hid : parseIdentifierExpr (fuel + as.length + 5) toks pre.length =
      some (some (Expr.CallExpr name.value (as.map fun p => atomExpr p.2)),
        pre.length + 2 + (argumentTokens as).tail.length + 1) := by
    rw [parseIdentifierExpr]
    simp only [currentToken_of g0, advance_of g1, matchTok_of_eq g1 g2 hlp, Bool.not_true,
      Bool.false_eq_true, if_false, hargs]
    simp only [Nat.add_zero] at r0
    rw [matchTok_of_eq r0 r1 hrp]
    rfl
  have hp : parsePrimary (fuel + as.length + 5 + 1) toks pre.length =
      some (some (Expr.CallExpr name.value (as.map fun p => atomExpr p.2)),
        pre.length + 2 + (argumentTokens as).tail.length + 1) := by
    rw [parsePrimary]
    simp only [check_of g0, hname, beq_self_eq_true, if_true]
    exact hid
  have hu : parseUnary (fuel + as.length + 5 + 1 + 1) toks pre.length =
      some (some (Expr.CallExpr name.value (as.map fun p => atomExpr p.2)),
        pre.length + 2 + (argumentTokens as).tail.length + 1) := by
    rw [parseUnary]
    have hc : check toks pre.length .BANG = false := by simp [check_of g0, hb]
    simp only [hc, Bool.not_false, if_true]
    exact hp
  have hf : fuel + as.length + 8 = (fuel + as.length + 5) + 1 + 1 + 1 := by omega
  rw [hf, parseExpression, hu]
  simp only []
  rw [parseBinOpRHS]
  simp only [getTokPrecedence_of r1, ht]
  simp

/-! ## Binary expressions (C20) -/

theorem visitExpr_BinaryExpr (Op : String) (LHS RHS : Expr) :
    visitExpr (.BinaryExpr Op LHS RHS) =
      (visitExpr LHS >>= fun L => visitExpr RHS >>= fun R => visitBinaryExprRest Op L R) := by
  rw [visitExpr]

theorem integerInstruction_spec (Op : String) :
    (Op ∈ binaryOperators ∧ ∃ opcode Name, integerInstruction Op = some (opcode, Name) ∧
      opcode.isIntegerFamily = true ∧ (Op = "<" → opcode = .ICmpULT) ∧
      (Op = "<=" → opcode = .ICmpULE) ∧ (Op = ">=" → opcode = .ICmpUGE)) ∨
    (Op ∉ binaryOperators ∧ integerInstruction Op = none) := by
  unfold integerInstruction binaryOperators
  by_cases h1 : Op = "+"
  · subst h1; left; exact ⟨by decide, _, _, rfl, rfl, by decide, by decide, by decide⟩
  by_cases h2 : Op = "-"
  · subst h2; left; exact ⟨by decide, _, _, rfl, rfl, by decide, by decide, by decide⟩
  by_cases h3 : Op = "*"
  · subst h3; left; exact ⟨by decide, _, _, rfl, rfl, by decide, by decide, by decide⟩
  by_cases h4 : Op = "<"
  · subst h4; left; exact ⟨by decide, _, _, rfl, rfl, fun _ => rfl, by decide, by decide⟩
  by_cases h5 : Op = "=="
  · subst h5; left; exact ⟨by decide, _, _, rfl, rfl, by decide, by decide, by decide⟩
  by_cases h6 : Op = "!="
  · subst h6; left; exact ⟨by decide, _, _, rfl, rfl, by decide, by decide, by decide⟩
  by_cases h7 : Op = "<="
  · subst h7; left; exact ⟨by decide, _, _, rfl, rfl, by decide, fun _ => rfl, by decide⟩
  by_cases h8 : Op = ">="
  · subst h8; left; exact ⟨by decide, _, _, rfl, rfl, by decide, by decide, fun _ => rfl⟩
  by_cases h9 : Op = "&&"
  · subst h9; left; exact ⟨by decide, _, _, rfl, rfl, by decide, by decide, by decide⟩
  by_cases h10 : Op = "||"
  · subst h10; left; exact ⟨by decide, _, _, rfl, rfl, by decide, by decide, by decide⟩
  right
  simp [h1, h2, h3, h4, h5, h6, h7, h8, h9, h10]

theorem floatInstruction_spec (Op : String) :
    (Op ∈ binaryOperators ∧ Op ≠ "&&" ∧ Op ≠ "||" ∧
      ∃ opcode Name, floatInstruction Op = some (opcode, Name) ∧ opcode.isFloatFamily = true) ∨
    ((Op ∉ binaryOperators ∨ Op = "&&" ∨ Op = "||") ∧ floatInstruction Op = none) := by
  unfold floatInstruction binaryOperators
  by_cases h1 : Op = "+"
  · subst h1; left; exact ⟨by decide, by decide, by decide, _, _, rfl, rfl⟩
  by_cases h2 : Op = "-"
  · subst h2; left; exact ⟨by decide, by decide, by decide, _, _, rfl, rfl⟩
  by_cases h3 : Op = "*"
  · subst h3; left; exact ⟨by decide, by decide, by decide, _, _, rfl, rfl⟩
  by_cases h4 : Op = "<"
  · subst h4; left; exact ⟨by decide, by decide, by decide, _, _, rfl, rfl⟩
  by_cases h5 : Op = "=="
  · subst h5; left; exact ⟨by decide, by decide, by decide, _, _, rfl, rfl⟩
  by_cases h6 : Op = "!="
  · subst h6; left; exact ⟨by decide, by decide, by decide, _, _, rfl, rfl⟩
  by_cases h7 : Op = "<="
  · subst h7; left; exact ⟨by decide, by decide, by decide, _, _, rfl, rfl⟩
  by_cases h8 : Op = ">="
  · subst h8; left; exact ⟨by decide, by decide, by decide, _, _, rfl, rfl⟩
  right
  by_cases h9 : Op = "&&"
  · subst h9; exact ⟨Or.inr (Or.inl rfl), rfl⟩
  by_cases h10 : Op = "||"
  · subst h10; exact ⟨Or.inr (Or.inr rfl), rfl⟩
  refine ⟨Or.inl ?_, ?_⟩ <;> simp [h1, h2, h3, h4, h5, h6, h7, h8, h9, h10]

theorem CreateBinary_constant {opcode : Opcode} {L R : Value} (Name : String)
    (h : (L.isConstant && R.isConstant) = true) :
    CreateBinary opcode L R Name = pure (fold opcode L R (binaryType opcode L)) := by
  unfold CreateBinary
  rw [if_pos h]

theorem CreateBinary_eq_Insert {opcode : Opcode} {L R : Value} (Name : String)
    (h : (L.isConstant && R.isConstant) = false) :
    CreateBinary opcode L R Name = Insert opcode [some L, some R] (binaryType opcode L) Name := by
  unfold CreateBinary
  rw [if_neg (by simp [h])]

theorem Insert_returned (opcode : Opcode) (operands : List (Option Value)) (type : LLVMType)
    (Name : String) (g : CodeGen) :
    Insert opcode operands type Name g =
      .returned (.Instruction g.numInsts type) (Insert opcode operands type Name g).state := rfl

theorem fprintf_blocks (g : CodeGen) (str : String) :
    (g.fprintf str).blocks = g.blocks ∧ (g.fprintf str).numInsts = g.numInsts := ⟨rfl, rfl⟩

/-- The value and the state `CreateBinary` returns. -/
theorem CreateBinary_spec (opcode : Opcode) (l r : Value) (Name : String) (g2 : CodeGen) :
    ∃ x g3, CreateBinary opcode l r Name g2 = .returned x g3 ∧
      ((l.isConstant && r.isConstant) = true →
        x = fold opcode l r (binaryType opcode l) ∧ g3 = g2) ∧
      ((l.isConstant && r.isConstant) = false →
        Insert opcode [some l, some r] (binaryType opcode l) Name g2 = .returned x g3) := by
  cases hc : (l.isConstant && r.isConstant) with
  | true =>
    rw [CreateBinary_constant Name hc]
    exact ⟨_, _, rfl, (fun _ => ⟨rfl, rfl⟩), (fun h => by cases h)⟩
  | false =>
    rw [CreateBinary_eq_Insert Name hc]
    exact ⟨_, _, Insert_returned _ _ _ _ _, (fun h => by cases h),
      fun _ => Insert_returned _ _ _ _ _⟩

/-- C20, as the code has it: lowering `BinaryExpr Op LHS RHS` lowers `LHS`, then
`RHS`, each whatever the other gave, and returns.  It yields no value exactly
when `LHS` or `RHS` yielded none, or the value of `LHS` is not integer-typed
and `Op` is `&&` or `||`, or `Op` is none of `+ - * < == != <= >= && ||`; then
it emits nothing.  Otherwise the operation is of the integer family when the
value of `LHS` is integer-typed (unsigned `<`, `<=`, `>=`) and of the floating
family otherwise, the type of the right operand never being read; when one of
the two values is not a constant, exactly one instruction on the two values
is emitted and its result is the value; when both are constants the builder
folds the operation: the value is a constant and nothing is emitted. -/
theorem visitBinaryExpr_spec (g g1 g2 : CodeGen) (Op : String) (LHS RHS : Expr)
    (L R : Option Value)
    (hL : visitExpr LHS g = .returned L g1) (hR : visitExpr RHS g1 = .returned R g2) :
    ∃ v g3, visitExpr (.BinaryExpr Op LHS RHS) g = .returned v g3 ∧
      (v = none ↔ (L = none ∨ R = none ∨
        (∃ l, L = some l ∧ l.getType.isIntegerTy = false ∧ (Op = "&&" ∨ Op = "||")) ∨
        Op ∉ binaryOperators)) ∧
      (v = none → g3.blocks = g2.blocks ∧ g3.numInsts = g2.numInsts) ∧
      (∀ x, v = some x → ∃ l r opcode Name, L = some l ∧ R = some r ∧
        (if l.getType.isIntegerTy then opcode.isIntegerFamily else opcode.isFloatFamily) = true ∧
        (l.getType.isIntegerTy = true → (Op = "<" → opcode = .ICmpULT) ∧
          (Op = "<=" → opcode = .ICmpULE) ∧ (Op = ">=" → opcode = .ICmpUGE)) ∧
        ((l.isConstant && r.isConstant) = false →
          Insert opcode [some l, some r] (binaryType opcode l) Name g2 = .returned x g3) ∧
        ((l.isConstant && r.isConstant) = true →
          x = fold opcode l r (binaryType opcode l) ∧ g3 = g2)) := by
  rw [visitExpr_BinaryExpr, bind_returned hL, bind_returned hR]
  unfold visitBinaryExprRest
  cases L with
  | none => exact ⟨none, g2, rfl, by simp, (fun _ => ⟨rfl, rfl⟩), fun x h => by cases h⟩
  | some l =>
    cases R with
    | none => exact ⟨none, g2, rfl, by simp, (fun _ => ⟨rfl, rfl⟩), fun x h => by cases h⟩
    | some r =>
      simp only []
      cases hi : l.getType.isIntegerTy with
      | true =>
        simp only [if_true]
        rcases integerInstruction_spec Op with ⟨hm, opcode, Name, he, hf, hu⟩ | ⟨hm, he⟩
        · rw [he]
          obtain ⟨x, g3, hx, hc, hn⟩ := CreateBinary_spec opcode l r Name g2
          simp only []
          rw [bind_returned hx, pure_apply]
          refine ⟨_, _, rfl, by simp [hm, hi], (fun h => by cases h), fun y hy => ?_⟩
          cases hy
          exact ⟨l, r, opcode, Name, rfl, rfl, by simp [hi, hf], fun _ => hu, hn, hc⟩
        · rw [he]
          exact ⟨none, _, rfl, by simp [hm], fun _ => fprintf_blocks _ _, fun x h => by cases h⟩
      | false =>
        simp only [Bool.false_eq_true, if_false]
        rcases floatInstruction_spec Op with ⟨hm, h1, h2, opcode, Name, he, hf⟩ | ⟨hm, he⟩
        · rw [he]
          obtain ⟨x, g3, hx, hc, hn⟩ := CreateBinary_spec opcode l r Name g2
          simp only []
          rw [bind_returned hx, pure_apply]
          refine ⟨_, _, rfl, by simp [hm, hi, h1, h2], (fun h => by cases h), fun y hy => ?_⟩
          cases hy
          exact ⟨l, r, opcode, Name, rfl, rfl, by simp [hi, hf], by simp [hi], hn, hc⟩
        · rw [he]
          refine ⟨none, _, rfl, ?_, fun _ => fprintf_blocks _ _, fun x h => by cases h⟩
          simp only [true_iff]
          rcases hm with hm | hm | hm
          · exact Or.inr (Or.inr (Or.inr hm))
          · exact Or.inr (Or.inr (Or.inl ⟨l, rfl, hi, Or.inl hm⟩))
          · exact Or.inr (Or.inr (Or.inl ⟨l, rfl, hi, Or.inr hm⟩))

/-! ## Calls: lookup and arity -/

theorem getFunction_of_some {g : CodeGen} {name : String} {F : Nat}
    (h : g.moduleGetFunction name = some F) : getFunction name g = .returned (some F) g := by
  unfold getFunction; rw [h]

theorem visitExpr_CallExpr (Callee : String) (Args : List Expr) :
    visitExpr (.CallExpr Callee Args) =
      (getFunction Callee >>= fun calleeF =>
        match calleeF with
        | none => logErrorV "Unknown function referenced"
        | some calleeF =>
          (fun g => Outcome.returned (g.function calleeF) g : M Function) >>= fun F =>
            if F.VarArg = false ∧ F.arg_size ≠ Args.length then
              logErrorV "Incorrect # arguments passed"
            else
              visitCallArgs Args [] >>= fun argsV =>
                match argsV with
                | none => pure none
                | some argsV =>
                  CreateCall calleeF (argsV.map some) "calltmp" >>= fun v => pure (some v)) := by
  rw [visitExpr]
  try rfl

theorem visitCallArgs_length : ∀ (Args : List Expr) (acc : List Value) (g g1 : CodeGen)
    (argsV : List Value), visitCallArgs Args acc g = .returned (some argsV) g1 →
      argsV.length = acc.length + Args.length
  | [], acc, g, g1, argsV, h => by
    rw [visitCallArgs, pure_apply] at h
    cases h; rfl
  | arg :: rest, acc, g, g1, argsV, h => by
    rw [visitCallArgs, bind_apply] at h
    cases ha : visitExpr arg g with
    | aborted g2 => rw [ha] at h; cases h
    | returned v g2 =>
      rw [ha] at h
      cases v with
      | none => simp only [pure_apply] at h; cases h
      | some v =>
        simp only [] at h
        have := visitCallArgs_length rest (acc ++ [v]) g2 g1 argsV h
        simp only [List.length_append, List.length_singleton, List.length_cons,
          List.length_nil] at this ⊢
        omega

/-- The codegen half of C12. -/
theorem visitCallExpr_arity_aux (g : CodeGen) (Callee : String) (Args : List Expr) (F : Nat)
    (hF : g.moduleGetFunction Callee = some F) (hv : (g.function F).VarArg = false) :
    ((g.function F).arg_size ≠ Args.length →
      visitExpr (.CallExpr Callee Args) g =
        .returned none (g.fprintf "Incorrect # arguments passed")) ∧
    ((g.function F).arg_size = Args.length → ∀ argsV g1,
      visitCallArgs Args [] g = .returned (some argsV) g1 →
        argsV.length = Args.length ∧
        visitExpr (.CallExpr Callee Args) g =
          .returned (some (.Instruction g1.numInsts (g1.function F).ReturnType))
            (Insert (.Call F) (argsV.map some) (g1.function F).ReturnType "calltmp" g1).state) := by
  rw [visitExpr_CallExpr, bind_returned (getFunction_of_some hF)]
  simp only [bind_apply, hv, true_and]
  constructor
  · intro hne
    rw [if_pos hne]; rfl
  · intro he argsV g1 ha
    rw [if_neg (by simpa using he)]
    simp only [bind_apply, ha, pure_apply]
    refine ⟨by simpa using visitCallArgs_length Args [] g g1 argsV ha, rfl⟩

/-! ## Prototypes in the module (C14) -/

theorem moduleGetFunction_eq_none {g : CodeGen} {Name : String} :
    g.moduleGetFunction Name = none ↔ Name ∉ g.functions.map (·.Name) := by
  unfold CodeGen.moduleGetFunction
  rw [List.findIdx?_eq_none_iff]
  simp only [List.mem_map, not_exists, not_and, beq_eq_false_iff_ne, ne_eq]

theorem createValueName_free (sep : String) {taken : List String} {Name : String}
    (LastUnique : Nat) (h : Name ∉ taken) :
    createValueName sep taken Name LastUnique = (Name, LastUnique) := by
  unfold createValueName; rw [if_neg h]

theorem findIdx?_append_new {α : Type} (p : α → Bool) (l : List α) (a : α)
    (h : l.findIdx? p = none) (ha : p a = true) : (l ++ [a]).findIdx? p = some l.length := by
  rw [List.findIdx?_append, h]
  simp [List.findIdx?_cons, ha]

theorem findIdx?_modify_same {α : Type} (p : α → Bool) (f : α → α) (hf : ∀ a, p (f a) = p a) :
    ∀ (l : List α) (n : Nat), (l.modify f n).findIdx? p = l.findIdx? p := by
  intro l
  have key : ∀ (l : List α) (n s : Nat), (l.modify f n).findIdx? p s = l.findIdx? p s := by
    intro l
    induction l with
    | nil => intro n s; cases n <;> rfl
    | cons a l ih =>
      intro n s
      cases n with
      | zero => simp [List.modify, List.findIdx?, hf]
      | succ n => simp only [List.modify, List.modifyTailIdx, List.findIdx?]; rw [← List.modify, ih]
  intro n; exact key l n 0

theorem visitPrototypeAST_eq (ast : PrototypeAST) (g : CodeGen) :
    visitPrototypeAST ast g = .returned g.functions.length
      (SetArgNames g.functions.length
        (if ast.Name = "main" then ["argc", "argv"] else ast.Args.map (fun arg => arg.2))
        (FunctionCreate (getType ast.ReturnType)
          (if ast.Name = "main" then [.Int32, .Pointer (.Pointer .Int8)]
           else ast.Args.map (fun arg => getType arg.1)) false ast.Name g).state).state := by
  unfold visitPrototypeAST
  by_cases h : ast.Name = "main"
  · simp only [h, if_true]; rfl
  · simp only [h, if_false]; rfl

theorem function_SetArgNames_FunctionCreate (g : CodeGen) (ReturnType : LLVMType)
    (Params : List LLVMType) (VarArg : Bool) (Name : String) (names : List String) :
    ((SetArgNames g.functions.length names
        (FunctionCreate ReturnType Params VarArg Name g).state).state.function
          g.functions.length) =
      { Name := (createValueName "." (g.functions.map (·.Name)) Name g.LastUnique).1
        ReturnType := ReturnType, Params := Params, VarArg := VarArg
        ArgNames := (setArgNames names [] 0).1, LastUnique := (setArgNames names [] 0).2 } := by
  simp [SetArgNames, FunctionCreate, Outcome.state, CodeGen.function, List.getD_eq_getElem?_getD,
    List.getElem?_modify]


/-- C14 (entry-point override): `visit(PrototypeAST&)` returns the function it
creates; its return type is the declared one and it is not variadic.  For a
prototype named `main` the parameters are an `i32` and a pointer to pointers to
`i8`, whatever the declared parameter list; for every other name there is one
parameter per declared parameter, in order, typed by `getType`.  When the name
was free the lookup finds the new function, and a call of `main` then fails
the arity check unless it has exactly two arguments, and is emitted when it
has two and they yield values. -/
theorem visitPrototypeAST_signature (ast : PrototypeAST) (g : CodeGen) :
    ∃ g1, visitPrototypeAST ast g = .returned g.functions.length g1 ∧
      (g1.function g.functions.length).ReturnType = getType ast.ReturnType ∧
      (g1.function g.functions.length).VarArg = false ∧
      (ast.Name = "main" →
        (g1.function g.functions.length).Params = [.Int32, .Pointer (.Pointer .Int8)]) ∧
      (ast.Name ≠ "main" →
        (g1.function g.functions.length).Params = ast.Args.map (fun arg => getType arg.1)) ∧
      (g.moduleGetFunction ast.Name = none →
        g1.moduleGetFunction ast.Name = some g.functions.length) ∧
      (ast.Name = "main" → g.moduleGetFunction ast.Name = none → ∀ Args : List Expr,
        (Args.length ≠ 2 → visitExpr (.CallExpr "main" Args) g1 =
          .returned none (g1.fprintf "Incorrect # arguments passed")) ∧
        (Args.length = 2 → ∀ argsV g2, visitCallArgs Args [] g1 = .returned (some argsV) g2 →
          ∃ v, visitExpr (.CallExpr "main" Args) g1 =
            .returned (some v)
              (Insert (.Call g.functions.length) (argsV.map some)
                (g2.function g.functions.length).ReturnType "calltmp" g2).state)) := by
  refine ⟨_, visitPrototypeAST_eq ast g, ?_⟩
  have hfn := function_SetArgNames_FunctionCreate g (getType ast.ReturnType)
    (if ast.Name = "main" then [.Int32, .Pointer (.Pointer .Int8)]
      else ast.Args.map (fun arg => getType arg.1)) false ast.Name
    (if ast.Name = "main" then ["argc", "argv"] else ast.Args.map (fun arg => arg.2))
  have hfind : g.moduleGetFunction ast.Name = none →
      (SetArgNames g.functions.length
        (if ast.Name = "main" then ["argc", "argv"] else ast.Args.map (fun arg => arg.2))
        (FunctionCreate (getType ast.ReturnType)
          (if ast.Name = "main" then [.Int32, .Pointer (.Pointer .Int8)]
           else ast.Args.map (fun arg => getType arg.1)) false ast.Name
          g).state).state.moduleGetFunction ast.Name = some g.functions.length := by
    intro hnone
    have hfree := createValueName_free "." g.LastUnique (moduleGetFunction_eq_none.1 hnone)
    simp only [CodeGen.moduleGetFunction, SetArgNames, FunctionCreate, Outcome.state, hfree]
    refine (findIdx?_modify_same _ _ (by intro a; rfl) _ _).trans ?_
    exact findIdx?_append_new _ _ _ hnone (by simp)
  generalize (SetArgNames g.functions.length
        (if ast.Name = "main" then ["argc", "argv"] else ast.Args.map (fun arg => arg.2))
        (FunctionCreate (getType ast.ReturnType)
          (if ast.Name = "main" then [.Int32, .Pointer (.Pointer .Int8)]
           else ast.Args.map (fun arg => getType arg.1)) false ast.Name
          g).state).state = g1 at hfn hfind ⊢
  refine ⟨by rw [hfn], by rw [hfn], fun h => by rw [hfn, if_pos h],
    fun h => by rw [hfn, if_neg h], hfind, ?_⟩
  intro hmain hnone Args
  have hF := hfind hnone
  have hv : (g1.function g.functions.length).VarArg = false := by rw [hfn]
  have hsz : (g1.function g.functions.length).arg_size = 2 := by
    rw [hfn, if_pos hmain]; rfl
  rw [hmain] at hF
  obtain ⟨h1, h2⟩ := visitCallExpr_arity_aux g1 "main" Args _ hF hv
  refine ⟨fun hne => h1 (by rw [hsz]; exact fun e => hne e.symm), fun he argsV g2 ha => ?_⟩
  exact ⟨_, (h2 (by rw [hsz, he]) argsV g2 ha).2⟩

/-! ## Bindings and appended instructions -/

theorem lookup_append_none (l : List (String × Option AllocaInst)) (k n : String)
    (h : l.lookup k = none) :
    lookupAlloca (l ++ [(k, none)]) n = lookupAlloca l n := by
  unfold lookupAlloca
  induction l with
  | nil =>
    by_cases e : n = k
    · simp [List.lookup, e]
    · have : (n == k) = false := by simp [e]
      simp [List.lookup, this]
  | cons p l ih =>
    obtain ⟨k1, v1⟩ := p
    by_cases e1 : k = k1
    · simp [List.lookup, e1] at h
    · have hk : (k == k1) = false := by simp [e1]
      simp only [List.lookup, hk] at h
      by_cases e2 : n = k1
      · simp [List.lookup, e2]
      · have hn : (n == k1) = false := by simp [e2]
        simp only [List.cons_append, List.lookup, hn]
        exact ih h

theorem lookupAlloca_assign (l : List (String × Option AllocaInst)) (k n : String)
    (a : AllocaInst) :
    lookupAlloca (assign k a l) n = if n = k then some a else lookupAlloca l n := by
  unfold lookupAlloca
  induction l with
  | nil =>
    by_cases e : n = k
    · simp [assign, List.lookup, e]
    · have : (n == k) = false := by simp [e]
      simp [assign, List.lookup, this, e]
  | cons p l ih =>
    obtain ⟨k1, v1⟩ := p
    by_cases e1 : k1 = k
    · by_cases e2 : n = k
      · simp [assign, List.lookup, e1, e2]
      · have hn : (n == k) = false := by simp [e2]
        simp [assign, List.lookup, e1, e2, hn]
    · by_cases e2 : n = k1
      · have : ¬ k1 = k := e1
        simp [assign, List.lookup, e1, e2, this]
      · have hn : (n == k1) = false := by simp [e2]
        simp only [assign, e1, if_false, List.lookup, hn]
        exact ih

theorem lookupAlloca_namedValuesAt (g : CodeGen) (k n : String) :
    lookupAlloca (namedValuesAt k g).state.namedValues n = lookupAlloca g.namedValues n := by
  unfold namedValuesAt
  cases h : g.namedValues.lookup k with
  | none => exact lookup_append_none _ _ _ h
  | some a => rfl

theorem namedValuesAt_result (g : CodeGen) (k : String) :
    (namedValuesAt k g).result? = some (lookupAlloca g.namedValues k) := by
  unfold namedValuesAt lookupAlloca
  cases h : g.namedValues.lookup k <;> rfl

theorem namedValuesAt_returned (g : CodeGen) (k : String) :
    namedValuesAt k g = .returned (lookupAlloca g.namedValues k) (namedValuesAt k g).state := by
  unfold namedValuesAt lookupAlloca
  cases h : g.namedValues.lookup k <;> rfl

theorem Appends_refl (g : CodeGen) : Appends g g :=
  ⟨rfl, fun _ => rfl, Nat.le_refl _, List.prefix_refl _, rfl,
    fun i B h => ⟨B, h, rfl, rfl, [], by simp, fun _ => rfl⟩⟩

theorem Appends_trans (g1 g2 g3 : CodeGen) (h12 : Appends g1 g2) (h23 : Appends g2 g3) :
    Appends g1 g3 := by
  refine ⟨h23.insertBlock.trans h12.insertBlock,
    fun n => (h23.namedValues n).trans (h12.namedValues n),
    Nat.le_trans h12.numInsts h23.numInsts, h12.functions.trans h23.functions,
    h23.length.trans h12.length, ?_⟩
  intro i B hB
  obtain ⟨B2, hB2, hn2, hp2, post2, hI2, hpost2⟩ := h12.blocks i B hB
  obtain ⟨B3, hB3, hn3, hp3, post3, hI3, hpost3⟩ := h23.blocks i B2 hB2
  refine ⟨B3, hB3, hn3.trans hn2, hp3.trans hp2, post2 ++ post3, ?_, ?_⟩
  · rw [hI3, hI2]; simp
  · intro hne
    have hne2 : g2.InsertBlock ≠ some i := by rw [h12.insertBlock]; exact hne
    rw [hpost2 hne, hpost3 hne2]; rfl

theorem Appends_of_blocks_eq {g g1 : CodeGen} (hf : g.functions <+: g1.functions)
    (hn : g1.numInsts = g.numInsts) (hb : g1.blocks = g.blocks)
    (hi : g1.InsertBlock = g.InsertBlock)
    (hv : ∀ n, lookupAlloca g1.namedValues n = lookupAlloca g.namedValues n) : Appends g g1 :=
  ⟨hi, hv, Nat.le_of_eq hn.symm, hf, by rw [hb],
    fun i B h => ⟨B, by rw [hb]; exact h, rfl, rfl, [], by simp, fun _ => rfl⟩⟩

theorem Appends_Insert (g : CodeGen) (opcode : Opcode) (operands : List (Option Value))
    (type : LLVMType) (Name : String) :
    Appends g (Insert opcode operands type Name g).state := by
  refine ⟨rfl, fun _ => rfl, by simp [Insert, Outcome.state], List.prefix_refl _,
    Insert_blocks_length _ _ _ _ g, ?_⟩
  intro i B hB
  rw [blocks_Insert]
  cases hI : g.InsertBlock with
  | none => exact ⟨B, hB, rfl, rfl, [], by simp, fun _ => rfl⟩
  | some BB =>
    simp only [List.getElem?_modify, hB, Option.map_eq_map, Option.map_some']
    by_cases h : BB = i
    · refine ⟨_, rfl, by simp [h], by simp [h],
        [⟨g.numInsts, opcode, operands, type, Name⟩], by simp [h], ?_⟩
      intro hne; exact absurd (by rw [h]) hne
    · exact ⟨_, rfl, by simp [h], by simp [h], [], by simp [h], fun _ => rfl⟩

theorem Appends_frame : ExprFrame Appends (fun _ => True) where
  refl := Appends_refl
  trans := Appends_trans
  inserted := Appends_Insert
  globalString := fun g Str => Appends_of_blocks_eq (List.prefix_refl _) rfl rfl rfl (fun _ => rfl)
  looked := fun g Name =>
    Appends_of_blocks_eq
      (by unfold namedValuesAt; cases g.namedValues.lookup Name <;> exact List.prefix_refl _)
      (by unfold namedValuesAt; cases g.namedValues.lookup Name <;> rfl)
      (by unfold namedValuesAt; cases g.namedValues.lookup Name <;> rfl)
      (by unfold namedValuesAt; cases g.namedValues.lookup Name <;> rfl)
      (fun n => lookupAlloca_namedValuesAt g Name n)
  logged := fun g str _ => Appends_of_blocks_eq (List.prefix_refl _) rfl rfl rfl (fun _ => rfl)
  unknown := fun g Callee _ _ _ _ =>
    Appends_of_blocks_eq (List.prefix_refl _) rfl rfl rfl (fun _ => rfl)
  declared := fun g ReturnType Params VarArg Name =>
    Appends_of_blocks_eq (List.prefix_append _ _) rfl rfl rfl (fun _ => rfl)

theorem Appends_visitExpr (e : Expr) (g : CodeGen) : Appends g (visitExpr e g).state :=
  (keeps_visitExpr Appends_frame g e (fun _ _ => trivial) g (Appends_refl g) (Nat.le_refl _)).1

theorem Appends_visitCallArgs (Args : List Expr) (acc : List Value) (g : CodeGen) :
    Appends g (visitCallArgs Args acc g).state :=
  (keeps_visitCallArgs Appends_frame g Args (fun _ _ => trivial) acc g (Appends_refl g)
    (Nat.le_refl _)).1

/-- The binding of a name is kept by every statement that does not declare it. -/
theorem lookup_frame (n : String) :
    Frame (fun g g1 => lookupAlloca g1.namedValues n = lookupAlloca g.namedValues n)
      (fun Name => Name ≠ n) (fun _ => True) where
  refl := fun _ => rfl
  trans := fun _ _ _ h1 h2 => h2.trans h1
  inserted := fun _ _ _ _ _ => rfl
  globalString := fun _ _ => rfl
  looked := fun g Name => lookupAlloca_namedValuesAt g Name n
  logged := fun _ _ _ => rfl
  unknown := fun _ _ _ _ _ _ => rfl
  declared := fun _ _ _ _ _ => rfl
  allocated := fun _ _ _ _ _ => rfl
  blockCreated := fun _ _ _ => rfl
  moved := fun _ _ _ h _ => h
  bound := fun g Name alloca h => by
    simp only [namedValuesSet, Outcome.state, lookupAlloca_assign]
    rw [if_neg (fun e => h e.symm)]

theorem lookup_visitStmt (n : String) (s : Stmt) (h : n ∉ s.declared) (g : CodeGen) :
    lookupAlloca (visitStmt s g).state.namedValues n = lookupAlloca g.namedValues n :=
  (keeps_visitStmt (lookup_frame n) g s (fun m hm e => h (e ▸ hm)) (fun _ _ => trivial) g rfl
    (Nat.le_refl _)).1

theorem lookup_visitStatements (n : String) (l : List Stmt) (h : n ∉ declaredOfStatements l)
    (g : CodeGen) :
    lookupAlloca (visitStatements l g).state.namedValues n = lookupAlloca g.namedValues n :=
  (keeps_visitStatements (lookup_frame n) g l (fun m hm e => h (e ▸ hm)) (fun _ _ => trivial) g
    rfl (Nat.le_refl _)).1

theorem lookup_visitElseBranch (n : String) (b : Option BlockStmt) (h : n ∉ declaredOfBranch b)
    (g : CodeGen) :
    lookupAlloca (visitElseBranch b g).state.namedValues n = lookupAlloca g.namedValues n :=
  (keeps_visitElseBranch (lookup_frame n) g b (fun m hm e => h (e ▸ hm)) (fun _ _ => trivial) g
    rfl (Nat.le_refl _)).1

/-! ## Calls (C12, C21, C29) -/

theorem compile_fuel_mono {fuel : Nat} {source : String} {o : Outcome Unit}
    (h : compile fuel source = some o) (k : Nat) : compile (fuel + k) source = some o := by
  unfold compile at h ⊢
  cases ht : Lexer.tokenize fuel (sourceChars source) with
  | none => rw [ht] at h; cases h
  | some tokens =>
    rw [ht] at h
    simp only [] at h
    rw [Lexer.tokenize_fuel_mono ht k]
    simp only []
    cases hp : parse fuel (tokens.map Token.decoded) with
    | none => rw [hp] at h; cases h
    | some ast =>
      rw [hp] at h
      rw [parse_fuel_mono hp k]
      exact h

/-- The lexer reads bytes: the two bytes of a character outside ASCII are two
unknown tokens, and inside a string literal they are the text of the literal. -/
theorem tokenize_bytes :
    (Lexer.tokenize 10 (sourceChars "é")).map (List.map (·.type)) =
      some [.UNKNOWN, .UNKNOWN, .END_OF_FILE] ∧
    (Lexer.tokenize 10 (sourceChars "\"é\"")).map (List.map fun t => t.decoded.value) =
      some ["é", ""] := by
  constructor <;> decide!

/-- A floating literal in range is lowered to a constant; `std::stod` throws
on a text without a number and on one out of the range of `double`, and the
lowering does not return. -/
theorem visitNumberExpr_float (g : CodeGen) :
    visitNumberExpr "3.14" .FLOAT_LITERAL g = .returned (some (.ConstantFP "3.14")) g ∧
    visitNumberExpr "1e999" .FLOAT_LITERAL g = .aborted g ∧
    visitNumberExpr "x" .FLOAT_LITERAL g = .aborted g := by
  have h1 : stod "3.14" = some () := by decide!
  have h2 : stod "1e999" = none := by decide!
  have h3 : stod "x" = none := by decide!
  refine ⟨?_, ?_, ?_⟩ <;> simp [visitNumberExpr, h1, h2, h3] <;> rfl

theorem visitExpr_CallExpr_found {g : CodeGen} {Callee : String} {F : Nat} (Args : List Expr)
    (hF : g.moduleGetFunction Callee = some F) :
    visitExpr (.CallExpr Callee Args) g =
      if (g.function F).VarArg = false ∧ (g.function F).arg_size ≠ Args.length then
        .returned none (g.fprintf "Incorrect # arguments passed")
      else emitCall F Args g := by
  rw [visitExpr_CallExpr, bind_returned (getFunction_of_some hF)]
  simp only [bind_apply]
  split <;> rfl

theorem visitCallArgs_cons {g g1 : CodeGen} {a : Expr} {v : Value} (rest : List Expr)
    (acc : List Value) (h : visitExpr a g = .returned (some v) g1) :
    visitCallArgs (a :: rest) acc g = visitCallArgs rest (acc ++ [v]) g1 := by
  rw [visitCallArgs, bind_returned h]

theorem visitCallArgs_fail : ∀ (pre : List Expr) (a : Expr) (post : List Expr) (acc vs : List Value)
    (g g1 g2 : CodeGen), visitCallArgs pre acc g = .returned (some vs) g1 →
      visitExpr a g1 = .returned none g2 →
      visitCallArgs (pre ++ a :: post) acc g = .returned none g2
  | [], a, post, acc, vs, g, g1, g2, hpre, ha => by
    rw [visitCallArgs, pure_apply] at hpre
    cases hpre
    rw [List.nil_append, visitCallArgs, bind_returned ha]; rfl
  | p :: pre, a, post, acc, vs, g, g1, g2, hpre, ha => by
    rw [visitCallArgs, bind_apply] at hpre
    rw [List.cons_append, visitCallArgs, bind_apply]
    cases hp : visitExpr p g with
    | aborted g3 => rw [hp] at hpre; cases hpre
    | returned v g3 =>
      rw [hp] at hpre
      cases v with
      | none => simp only [pure_apply] at hpre; cases hpre
      | some v =>
        simp only [] at hpre ⊢
        exact visitCallArgs_fail pre a post _ vs g3 g1 g2 hpre ha

/-- C12 (arity check): the parser accepts an identifier followed by a
parenthesised list of any number of atomic arguments and builds the `CallExpr`
whose arguments are exactly the parsed ones.  Lowering a call to a non-variadic
function of the module yields no value, logs `Incorrect # arguments passed` and
emits nothing when the number of arguments differs from the number of
parameters; when the numbers agree and every argument yields a value it appends
exactly one call instruction, which passes the lowered values. -/
theorem call_arity_checked_when_lowered (pre rest : List Token) (name lp rp t : Token)
    (as : List (Token × Token)) (fuel : Nat) (g : CodeGen) (Callee : String) (Args : List Expr)
    (F : Nat)
    (hname : name.type = .IDENTIFIER) (hlp : lp.type = .LPAREN) (hrp : rp.type = .RPAREN)
    (has : ∀ p ∈ as, p.1.type = .COMMA ∧ isAtom p.2 = true)
    (ht : BinopPrecedence t.type = none)
    (hF : g.moduleGetFunction Callee = some F) (hv : (g.function F).VarArg = false) :
    parseExpression (fuel + as.length + 8) (pre ++ (callTokens name lp rp as ++ t :: rest))
        pre.length =
      some (some (Expr.CallExpr name.value (as.map fun p => atomExpr p.2)),
        pre.length + (callTokens name lp rp as).length) ∧
    ((g.function F).arg_size ≠ Args.length →
      visitExpr (.CallExpr Callee Args) g =
        .returned none (g.fprintf "Incorrect # arguments passed")) ∧
    ((g.function F).arg_size = Args.length → ∀ argsV g1,
      visitCallArgs Args [] g = .returned (some argsV) g1 →
        argsV.length = Args.length ∧
        visitExpr (.CallExpr Callee Args) g =
          .returned (some (.Instruction g1.numInsts (g1.function F).ReturnType))
            (Insert (.Call F) (argsV.map some) (g1.function F).ReturnType "calltmp" g1).state) :=
  ⟨parseExpression_call pre rest name lp rp t as fuel hname hlp hrp has ht,
    visitCallExpr_arity_aux g Callee Args F hF hv⟩

/-- C12 at `f(1, 2, 3);` with `f` declared as `fn f(int a, int b): int`: the call
is parsed with its three arguments and its lowering fails the arity check. -/
theorem call_arity_checked_when_lowered_witness :
    parseExpression 11 [tk .IDENTIFIER "f", tk .LPAREN "(", tk .INT_LITERAL "1", tk .COMMA ",",
        tk .INT_LITERAL "2", tk .COMMA ",", tk .INT_LITERAL "3", tk .RPAREN ")",
        tk .SEMICOLON ";"] 0 =
      some (some (Expr.CallExpr "f" [.NumberExpr "1" .INT_LITERAL, .NumberExpr "2" .INT_LITERAL,
        .NumberExpr "3" .INT_LITERAL]), 8) ∧
    visitExpr (.CallExpr "f" [.NumberExpr "1" .INT_LITERAL, .NumberExpr "2" .INT_LITERAL,
        .NumberExpr "3" .INT_LITERAL])
        (visitPrototypeAST ⟨"f", [("int", "a"), ("int", "b")], "int"⟩ CodeGen.new).state =
      .returned none
        ((visitPrototypeAST ⟨"f", [("int", "a"), ("int", "b")], "int"⟩ CodeGen.new).state.fprintf
          "Incorrect # arguments passed") :=
  have h := call_arity_checked_when_lowered [] [] (tk .IDENTIFIER "f") (tk .LPAREN "(")
    (tk .RPAREN ")") (tk .SEMICOLON ";")
    [(tk .COMMA ",", tk .INT_LITERAL "1"), (tk .COMMA ",", tk .INT_LITERAL "2"),
      (tk .COMMA ",", tk .INT_LITERAL "3")] 0
    (visitPrototypeAST ⟨"f", [("int", "a"), ("int", "b")], "int"⟩ CodeGen.new).state "f"
    [.NumberExpr "1" .INT_LITERAL, .NumberExpr "2" .INT_LITERAL, .NumberExpr "3" .INT_LITERAL] 0
    rfl rfl rfl (by decide) rfl (by decide!) (by decide!)
  ⟨h.1, h.2.1 (by decide!)⟩

/-- C20 at `x + 1` after `int x;` in the entry block of `fn f() { }`: the left
value is the load of `x`, not a constant. -/
theorem visitBinaryExpr_spec_witness :
    ∃ v g3, visitExpr (.BinaryExpr "+" (.VariableExpr "x") (.NumberExpr "1" .INT_LITERAL))
        declaredState = .returned v g3 ∧
      (v = none ↔ ((some (Value.Instruction 2 .Int32) = none ∨
        some (Value.ConstantInt .Int32 1) = none ∨
        (∃ l, some (Value.Instruction 2 .Int32) = some l ∧ l.getType.isIntegerTy = false ∧
          ("+" = "&&" ∨ "+" = "||")) ∨
        "+" ∉ binaryOperators))) ∧
      (v = none → g3.blocks = (visitExpr (.VariableExpr "x") declaredState).state.blocks ∧
        g3.numInsts = (visitExpr (.VariableExpr "x") declaredState).state.numInsts) ∧
      (∀ x, v = some x → ∃ l r opcode Name, some (Value.Instruction 2 .Int32) = some l ∧
        some (Value.ConstantInt .Int32 1) = some r ∧
        (if l.getType.isIntegerTy then opcode.isIntegerFamily else opcode.isFloatFamily) = true ∧
        (l.getType.isIntegerTy = true → ("+" = "<" → opcode = .ICmpULT) ∧
          ("+" = "<=" → opcode = .ICmpULE) ∧ ("+" = ">=" → opcode = .ICmpUGE)) ∧
        ((l.isConstant && r.isConstant) = false →
          Insert opcode [some l, some r] (binaryType opcode l) Name
            (visitExpr (.VariableExpr "x") declaredState).state = .returned x g3) ∧
        ((l.isConstant && r.isConstant) = true →
          x = fold opcode l r (binaryType opcode l) ∧
            g3 = (visitExpr (.VariableExpr "x") declaredState).state)) :=
  visitBinaryExpr_spec declaredState (visitExpr (.VariableExpr "x") declaredState).state
    (visitExpr (.VariableExpr "x") declaredState).state "+" (.VariableExpr "x")
    (.NumberExpr "1" .INT_LITERAL) (some (.Instruction 2 .Int32)) (some (.ConstantInt .Int32 1))
    (by decide!) (by decide!)

/-- C20 fails for constants: lowering `1 + 2` yields the constant `3` and leaves
the state as it was, no instruction being emitted; the body of
`fn f(): int { return 1 + 2; }` is the return of that constant alone. -/
theorem visitBinaryExpr_folds_constants :
    visitExpr (.BinaryExpr "+" (.NumberExpr "1" .INT_LITERAL) (.NumberExpr "2" .INT_LITERAL))
        entryState = .returned (some (.ConstantInt .Int32 3)) entryState ∧
    (∀ k, compile (40 + k) "fn f(): int \x7b return 1 + 2; \x7d" =
      some (generate foldModule CodeGen.new)) ∧
    generate foldModule CodeGen.new = .returned () (generate foldModule CodeGen.new).state ∧
    (generate foldModule CodeGen.new).state.blocks =
      [⟨"entry", some 0, [⟨0, .Ret, [some (.ConstantInt .Int32 3)], .Void, ""⟩]⟩] :=
  ⟨by decide!, fun k => compile_fuel_mono (by decide!) k, by decide!, by decide!⟩

/-- C21: `visit(CallExpr&)` resolves the callee and checks the arity before it
lowers any argument: an unknown callee and a wrong count each end the call
with no value and the state as it was, but for the logged line.  The arguments
are lowered from left to right, each in the state the one before left; at the
first argument that yields no value the call yields no value in the state
that argument left, so no later argument is lowered and no call instruction is
emitted; when all yield a value, one call instruction is appended that passes
the values in argument order. -/
theorem visitCallExpr_stops_at_first_failure (g : CodeGen) (Callee : String) :
    (g.moduleGetFunction Callee = none → Callee ≠ "printf" → Callee ≠ "scanf" →
      ∀ Args, visitExpr (.CallExpr Callee Args) g =
        .returned none (g.fprintf "Unknown function referenced")) ∧
    (∀ F Args, g.moduleGetFunction Callee = some F → (g.function F).VarArg = false →
      (g.function F).arg_size ≠ Args.length →
      visitExpr (.CallExpr Callee Args) g =
        .returned none (g.fprintf "Incorrect # arguments passed")) ∧
    (∀ F pre a post vs g1 g2, g.moduleGetFunction Callee = some F →
      ((g.function F).VarArg = true ∨ (g.function F).arg_size = (pre ++ a :: post).length) →
      visitCallArgs pre [] g = .returned (some vs) g1 → visitExpr a g1 = .returned none g2 →
      visitExpr (.CallExpr Callee (pre ++ a :: post)) g = .returned none g2) ∧
    (∀ (a : Expr) (rest : List Expr) (acc : List Value) (v : Value) (g0 g1 : CodeGen),
      visitExpr a g0 = .returned (some v) g1 →
      visitCallArgs (a :: rest) acc g0 = visitCallArgs rest (acc ++ [v]) g1) ∧
    (∀ (acc : List Value) (g0 : CodeGen),
      visitCallArgs [] acc g0 = .returned (some acc) g0) ∧
    (∀ F Args argsV g1, g.moduleGetFunction Callee = some F →
      ((g.function F).VarArg = true ∨ (g.function F).arg_size = Args.length) →
      visitCallArgs Args [] g = .returned (some argsV) g1 →
      visitExpr (.CallExpr Callee Args) g =
        .returned (some (.Instruction g1.numInsts (g1.function F).ReturnType))
          (Insert (.Call F) (argsV.map some) (g1.function F).ReturnType "calltmp" g1).state) := by
  refine ⟨?_, ?_, ?_, ?_, ?_, ?_⟩
  · intro hnone h1 h2 Args
    rw [visitExpr_CallExpr, bind_apply]
    unfold getFunction
    rw [hnone]
    simp only [if_neg h1, if_neg h2]
    rfl
  · intro F Args hF hv hne
    rw [visitExpr_CallExpr_found Args hF, if_pos ⟨hv, hne⟩]
  · intro F pre a post vs g1 g2 hF har hpre ha
    have hc : ¬ ((g.function F).VarArg = false ∧
        (g.function F).arg_size ≠ (pre ++ a :: post).length) := by
      rintro ⟨h1, h2⟩
      rcases har with h | h
      · rw [h1] at h; cases h
      · exact h2 h
    rw [visitExpr_CallExpr_found _ hF, if_neg hc]
    unfold emitCall
    rw [bind_returned (visitCallArgs_fail pre a post [] vs g g1 g2 hpre ha)]
    rfl
  · intro a rest acc v g0 g1 h
    exact visitCallArgs_cons rest acc h
  · intro acc g0
    rw [visitCallArgs]; rfl
  · intro F Args argsV g1 hF har hargs
    have hc : ¬ ((g.function F).VarArg = false ∧ (g.function F).arg_size ≠ Args.length) := by
      rintro ⟨h1, h2⟩
      rcases har with h | h
      · rw [h1] at h; cases h
      · exact h2 h
    rw [visitExpr_CallExpr_found _ hF, if_neg hc]
    unfold emitCall
    rw [bind_returned hargs]
    rfl

theorem map_modify_of_eq {α β : Type} (p : α → β) (f : α → α) (hf : ∀ a, p (f a) = p a) :
    ∀ (l : List α) (n : Nat), (List.modify f n l).map p = l.map p := by
  intro l
  induction l with
  | nil => intro n; cases n <;> rfl
  | cons a l ih =>
    intro n
    cases n with
    | zero => simp [List.modify, hf]
    | succ n =>
      simp only [List.modify, List.modifyTailIdx, List.map_cons]
      rw [← List.modify, ih]

theorem GetInsertBlockParent_of {g : CodeGen} {BB : Nat} (h : g.InsertBlock = some BB) :
    GetInsertBlockParent g = .returned (g.getParent BB) g := by
  unfold GetInsertBlockParent; rw [h]

theorem whileHeader_eq {g : CodeGen} {BB : Nat} (h : g.InsertBlock = some BB) {α : Type}
    (k : Nat → Nat → M α) :
    (GetInsertBlockParent >>= fun theFunction =>
      BasicBlockCreate "loop" theFunction >>= fun loopBB =>
      BasicBlockCreate "afterloop" none >>= fun afterBB =>
      CreateBr loopBB >>= fun _ => SetInsertPoint loopBB >>= fun _ => k loopBB afterBB) g =
    k g.blocks.length (g.blocks.length + 1) (whileHeader g) := by
  unfold whileHeader
  simp only [bind_apply, GetInsertBlockParent_of h]
  simp [BasicBlockCreate, CreateBr, Insert, SetInsertPoint, Outcome.state]

theorem visitStmt_WhileStmt (Condition : Expr) (Body : Option BlockStmt) :
    visitStmt (.WhileStmt (some Condition) Body) =
      (GetInsertBlockParent >>= fun theFunction =>
        BasicBlockCreate "loop" theFunction >>= fun loopBB =>
        BasicBlockCreate "afterloop" none >>= fun afterBB =>
        CreateBr loopBB >>= fun _ => SetInsertPoint loopBB >>= fun _ =>
          (visitExpr Condition >>= fun condV =>
            CreateICmpNE condV (.ConstantInt .Int1 0) "loopcond" >>= fun condV =>
            CreateCondBr condV loopBB afterBB >>= fun _ =>
            visitBranch Body >>= fun _ =>
            CreateBr loopBB >>= fun _ => SetInsertPoint afterBB)) := by
  rw [visitStmt]

theorem visitStmt_IfStmt (Condition : Expr) (ThenBranch ElseBranch : Option BlockStmt) :
    visitStmt (.IfStmt (some Condition) ThenBranch ElseBranch) =
      (visitExpr Condition >>= fun condV =>
        match condV with
        | none => pure ()
        | some condV =>
          CreateICmpNE (some condV) (.ConstantInt .Int1 0) "ifcond" >>= fun condV =>
          GetInsertBlockParent >>= fun theFunction =>
          BasicBlockCreate "then" theFunction >>= fun thenBB =>
          BasicBlockCreate "else" theFunction >>= fun elseBB =>
          BasicBlockCreate "ifcont" theFunction >>= fun mergeBB =>
          CreateCondBr condV thenBB elseBB >>= fun _ =>
          SetInsertPoint thenBB >>= fun _ =>
          visitBranch ThenBranch >>= fun _ =>
          CreateBr mergeBB >>= fun _ =>
          SetInsertPoint elseBB >>= fun _ =>
          visitElseBranch ElseBranch >>= fun _ =>
          CreateBr mergeBB >>= fun _ => SetInsertPoint mergeBB) := by
  rw [visitStmt]
  try rfl

/-- C19, as the code has it: `visit(IfStmt&)` tests the value of its condition
and, when there is none, returns at once in the state the condition left (no
comparison, no block, no branch); `visit(WhileStmt&)` does not test it: the
blocks `loop` and `afterloop` exist before the condition is lowered and, when
the condition yields no value, the null pointer is passed to the comparison
against zero.  There the builder reads through it: the call does not
return, and no conditional branch, body or jump back is built. -/
theorem visitWhileStmt_condition_unchecked (g : CodeGen) (Condition : Expr)
    (ThenBranch ElseBranch Body : Option BlockStmt) :
    (∀ g1, visitExpr Condition g = .returned none g1 →
      visitStmt (.IfStmt (some Condition) ThenBranch ElseBranch) g = .returned () g1) ∧
    (∀ BB g1, g.InsertBlock = some BB →
      visitExpr Condition (whileHeader g) = .returned none g1 →
      (whileHeader g).blocks.map (·.Name) = g.blocks.map (·.Name) ++ ["loop", "afterloop"] ∧
      visitStmt (.WhileStmt (some Condition) Body) g =
        (CreateICmpNE none (.ConstantInt .Int1 0) "loopcond" >>= fun condV =>
          CreateCondBr condV g.blocks.length (g.blocks.length + 1) >>= fun _ =>
          visitBranch Body >>= fun _ =>
          CreateBr g.blocks.length >>= fun _ => SetInsertPoint (g.blocks.length + 1)) g1 ∧
      CreateICmpNE none (.ConstantInt .Int1 0) "loopcond" g1 = .aborted g1 ∧
      visitStmt (.WhileStmt (some Condition) Body) g = .aborted g1) := by
  constructor
  · intro g1 h
    rw [visitStmt_IfStmt, bind_returned h]; rfl
  · intro BB g1 hBB h
    have hw : visitStmt (.WhileStmt (some Condition) Body) g =
        (CreateICmpNE none (.ConstantInt .Int1 0) "loopcond" >>= fun condV =>
          CreateCondBr condV g.blocks.length (g.blocks.length + 1) >>= fun _ =>
          visitBranch Body >>= fun _ =>
          CreateBr g.blocks.length >>= fun _ => SetInsertPoint (g.blocks.length + 1)) g1 := by
      rw [visitStmt_WhileStmt, whileHeader_eq hBB, bind_returned h]
    refine ⟨?_, hw, rfl, ?_⟩
    · simp only [whileHeader, bind_apply, GetInsertBlockParent_of hBB, BasicBlockCreate, CreateBr,
        Insert, SetInsertPoint, Outcome.state, hBB]
      rw [map_modify_of_eq _ _ (by intro a; rfl)]
      simp
    · rw [hw]; rfl

/-- C19 at the condition `x`, not declared, in the entry block of `fn f() { }`:
the If returns in the state the condition left, the While does not return. -/
theorem visitWhileStmt_condition_unchecked_witness :
    visitStmt (.IfStmt (some (.VariableExpr "x")) (some (.mk [])) none) entryState =
      .returned () (visitExpr (.VariableExpr "x") entryState).state ∧
    visitStmt (.WhileStmt (some (.VariableExpr "x")) (some (.mk []))) entryState =
      .aborted (visitExpr (.VariableExpr "x") (whileHeader entryState)).state :=
  ⟨(visitWhileStmt_condition_unchecked entryState (.VariableExpr "x") (some (.mk [])) none
      (some (.mk []))).1 _ (by decide!),
    ((visitWhileStmt_condition_unchecked entryState (.VariableExpr "x") (some (.mk [])) none
      (some (.mk []))).2 0 _ (by decide!) (by decide!)).2.2.2⟩

/-- C19 fails for If: lowering `fn f() { if (x) { } }`, where `x` is not declared,
returns, logs `Unknown variable name` and leaves the entry block with the
implicit return alone, no comparison and no block of the If being built.
Lowering the same text with `while` does not return: it stops at the
comparison, with the blocks `loop` and `afterloop` and the jump into `loop`
built and nothing else. -/
theorem visitIfStmt_checks_condition :
    (∀ k, compile (40 + k) "fn f() \x7b if (x) \x7b \x7d \x7d" =
      some (generate ifUndeclaredModule CodeGen.new)) ∧
    generate ifUndeclaredModule CodeGen.new =
      .returned () (generate ifUndeclaredModule CodeGen.new).state ∧
    (generate ifUndeclaredModule CodeGen.new).state.shape = [("entry", some 0, [.RetVoid])] ∧
    (generate ifUndeclaredModule CodeGen.new).state.errs = ["Unknown variable name"] ∧
    (∀ k, compile (40 + k) "fn f() \x7b while (x) \x7b \x7d \x7d" =
      some (generate whileUndeclaredModule CodeGen.new)) ∧
    generate whileUndeclaredModule CodeGen.new =
      .aborted (generate whileUndeclaredModule CodeGen.new).state ∧
    (generate whileUndeclaredModule CodeGen.new).state.shape =
      [("entry", some 0, [.Br 1]), ("loop", some 0, []), ("afterloop", none, [])] :=
  ⟨fun k => compile_fuel_mono (by decide!) k, by decide!, by decide!, by decide!,
    fun k => compile_fuel_mono (by decide!) k, by decide!, by decide!⟩

theorem lookup_of_lookupAlloca {l : List (String × Option AllocaInst)} {k : String}
    {a : AllocaInst} (h : lookupAlloca l k = some a) : l.lookup k = some (some a) := by
  unfold lookupAlloca at h
  cases hl : l.lookup k with
  | none => rw [hl] at h; cases h
  | some o =>
    rw [hl] at h
    cases o with
    | none => cases h
    | some b =>
      have : b = a := by simpa [Option.join] using h
      rw [this]

theorem namedValuesAt_of_some {g : CodeGen} {k : String} {a : AllocaInst}
    (h : lookupAlloca g.namedValues k = some a) : namedValuesAt k g = .returned (some a) g := by
  unfold namedValuesAt
  rw [lookup_of_lookupAlloca h]

/-- C15 (the code departs from the claim): what `visit(WhileStmt&)` builds for
`fn f() { int x = 0; while (x < 3) { print("%d", x); } }`.  The block `loop`
holds the condition, the conditional branch, whose targets are `loop` itself
and `afterloop`, and behind the branch the body and the jump back: two control
transfers, the first of which is not its last instruction.  The block
`afterloop` has no parent: it belongs to no function. -/
theorem visitWhileStmt_body_in_header :
    (∀ k, compile (60 + k)
        "fn f() \x7b int x = 0; while (x < 3) \x7b print(\"%d\", x); \x7d \x7d" =
      some (generate whileModule CodeGen.new)) ∧
    (generate whileModule CodeGen.new).state.shape =
      [("entry", some 0, [.Alloca .Int32, .Store, .Br 1]),
        ("loop", some 0, [.Load, .ICmpULT, .ICmpNE, .CondBr 1 2, .Load, .Call 1, .Br 1]),
        ("afterloop", none, [.RetVoid])] :=
  ⟨fun k => compile_fuel_mono (by decide!) k, by decide!⟩

theorem getEntryBlock_of {g : CodeGen} {F entry : Nat} (h : g.getEntryBlock F = some entry) :
    getEntryBlock (some F) g = .returned entry g := by
  unfold getEntryBlock; simp only [h]

theorem CreateAllocaAtBegin_returned (BB : Nat) (Ty : LLVMType) (Name : String) (g : CodeGen) :
    CreateAllocaAtBegin BB Ty Name g =
      .returned ⟨g.numInsts, Ty⟩ (CreateAllocaAtBegin BB Ty Name g).state := rfl

theorem namedValuesSet_returned (Name : String) (a : AllocaInst) (g : CodeGen) :
    namedValuesSet Name a g = .returned () (namedValuesSet Name a g).state := rfl

theorem getElem?_modify_ne {α : Type} (f : α → α) (l : List α) {n i : Nat} (h : i ≠ n) :
    (l.modify f n)[i]? = l[i]? := by
  rw [List.getElem?_modify]
  cases l[i]? with
  | none => rfl
  | some a => simp [Ne.symm h]

theorem getElem?_modify_eq {α : Type} (f : α → α) (l : List α) {n : Nat} {a : α}
    (h : l[n]? = some a) : (l.modify f n)[n]? = some (f a) := by
  rw [List.getElem?_modify, h]; simp

/-- In a state whose insertion block belongs to a function with an entry
block, `visit(VarDeclStmt&)` makes the alloca of the slot the first instruction
of that entry block, whichever block is the insertion block, touches no other
block and leaves the insertion block as it was.  With an initializer, the
initializer is lowered after the alloca, at the insertion point; when it
yields a value the store into the slot is appended there and the name is
bound to the new slot, and when it yields none the call does not return. -/
theorem visitVarDeclStmt_in_function (g : CodeGen) (VarType VarName : String) (BB F entry : Nat)
    (B : BasicBlock) (hBB : g.InsertBlock = some BB) (hF : g.getParent BB = some F)
    (he : g.getEntryBlock F = some entry) (hB : g.blocks[entry]? = some B) :
    (∃ g1, visitVarDeclStmt VarType VarName none g = .returned () g1 ∧
      g1.InsertBlock = g.InsertBlock ∧
      (∃ B1, g1.blocks[entry]? = some B1 ∧ B1.Parent = some F ∧
        B1.Insts = ⟨g.numInsts, .Alloca (getType VarType), [], .Pointer (getType VarType),
          VarName⟩ :: B.Insts) ∧
      (∀ i, i ≠ entry → g1.blocks[i]? = g.blocks[i]?) ∧
      lookupAlloca g1.namedValues VarName = some ⟨g.numInsts, getType VarType⟩) ∧
    (∀ Init g2,
      visitExpr Init (CreateAllocaAtBegin entry (getType VarType) VarName g).state =
        .returned none g2 →
      visitVarDeclStmt VarType VarName (some Init) g = .aborted g2) ∧
    (∀ Init v g2,
      visitExpr Init (CreateAllocaAtBegin entry (getType VarType) VarName g).state =
        .returned (some v) g2 →
      ∃ g1, visitVarDeclStmt VarType VarName (some Init) g = .returned () g1 ∧
        g1.InsertBlock = g.InsertBlock ∧ g2.InsertBlock = g.InsertBlock ∧
        g1.blocks = (Insert .Store
          [some v, some (.Instruction g.numInsts (.Pointer (getType VarType)))]
          .Void "" g2).state.blocks ∧
        (∃ B1 post, g1.blocks[entry]? = some B1 ∧ B1.Parent = some F ∧
          B1.Insts = ⟨g.numInsts, .Alloca (getType VarType), [], .Pointer (getType VarType),
            VarName⟩ :: B.Insts ++ post) ∧
        lookupAlloca g1.namedValues VarName = some ⟨g.numInsts, getType VarType⟩) := by
  have hpar : B.Parent = some F := by
    unfold CodeGen.getEntryBlock at he
    have := List.findIdx?_eq_some_iff_getElem.1 he
    obtain ⟨hlt, hp, _⟩ := this
    have hB2 : g.blocks[entry] = B := by
      have := List.getElem?_eq_getElem hlt
      rw [this] at hB; exact Option.some.inj hB
    rw [hB2] at hp
    simpa using hp
  have hA : (CreateAllocaAtBegin entry (getType VarType) VarName g).state.blocks[entry]? =
      some { B with Insts := ⟨g.numInsts, .Alloca (getType VarType), [],
        .Pointer (getType VarType), VarName⟩ :: B.Insts } := by
    simp only [CreateAllocaAtBegin, Outcome.state]
    exact getElem?_modify_eq _ _ hB
  refine ⟨?_, ?_, ?_⟩
  · refine ⟨(namedValuesSet VarName ⟨g.numInsts, getType VarType⟩
      (CreateAllocaAtBegin entry (getType VarType) VarName g).state).state,
      ?_, rfl, ⟨_, hA, hpar, rfl⟩, ?_, ?_⟩
    · unfold visitVarDeclStmt
      rw [bind_returned (GetInsertBlockParent_of hBB), hF, bind_returned (getEntryBlock_of he),
        bind_returned (CreateAllocaAtBegin_returned _ _ _ _)]
      simp only []
      exact namedValuesSet_returned _ _ _
    · intro i hi
      simp only [namedValuesSet, CreateAllocaAtBegin, Outcome.state]
      exact getElem?_modify_ne _ _ hi
    · simp only [namedValuesSet, Outcome.state, lookupAlloca_assign, if_true]
  · intro Init g2 hv
    unfold visitVarDeclStmt
    rw [bind_returned (GetInsertBlockParent_of hBB), hF, bind_returned (getEntryBlock_of he),
      bind_returned (CreateAllocaAtBegin_returned _ _ _ _)]
    simp only []
    rw [bind_returned hv]
    rfl
  · intro Init v g2 hv
    have hap := Appends_visitExpr Init (CreateAllocaAtBegin entry (getType VarType) VarName g).state
    rw [hv] at hap
    simp only [Outcome.state] at hap
    have hap2 := Appends_Insert g2 .Store
      [some v, some (.Instruction g.numInsts (.Pointer (getType VarType)))] .Void ""
    obtain ⟨B2, hB2, _, hp2, post2, hI2, _⟩ := hap.blocks entry _ hA
    obtain ⟨B3, hB3, _, hp3, post3, hI3, _⟩ := hap2.blocks entry _ hB2
    refine ⟨(namedValuesSet VarName ⟨g.numInsts, getType VarType⟩
      (Insert .Store [some v, some (.Instruction g.numInsts (.Pointer (getType VarType)))]
        .Void "" g2).state).state,
      ?_, ?_, hap.insertBlock, rfl, ⟨B3, post2 ++ post3, hB3, ?_, ?_⟩, ?_⟩
    · unfold visitVarDeclStmt
      rw [bind_returned (GetInsertBlockParent_of hBB), hF, bind_returned (getEntryBlock_of he),
        bind_returned (CreateAllocaAtBegin_returned _ _ _ _)]
      simp only []
      rw [bind_returned hv]
      unfold CreateStore
      simp only []
      rw [bind_returned (Insert_returned _ _ _ _ _)]
      exact namedValuesSet_returned _ _ _
    · exact hap.insertBlock
    · rw [hp3, hp2]; exact hpar
    · rw [hI3, hI2]; simp
    · simp only [namedValuesSet, Outcome.state, lookupAlloca_assign, if_true]

/-- C23 (the code departs from the claim): `visit(VarDeclStmt&)` asks the insertion
block for its function and the function for its entry block.  After a While
the insertion block is `afterloop`, which has no function: lowering
`fn f() { int x = 0; while (x < 3) { print("%d", x); } int y; }` does not return
at `int y;`, and `y` gets no slot.  The blocks of an If that follows a loop
have no function either, so the declaration in the if-arm of
`fn f() { while (false) { } if (true) { int y; } }` ends the same way.  Inside
the body of the loop the slot is allocated in the entry block.  With an
initializer that yields no value, as in `fn f() { int y = z; }`, the slot is
allocated and the lowering does not return at the store. -/
theorem visitVarDeclStmt_after_while :
    (∀ k, compile (60 + k)
        "fn f() \x7b int x = 0; while (x < 3) \x7b print(\"%d\", x); \x7d int y; \x7d" =
      some (generate declAfterWhileModule CodeGen.new)) ∧
    generate declAfterWhileModule CodeGen.new =
      .aborted (generate declAfterWhileModule CodeGen.new).state ∧
    (generate declAfterWhileModule CodeGen.new).state.shape =
      [("entry", some 0, [.Alloca .Int32, .Store, .Br 1]),
        ("loop", some 0, [.Load, .ICmpULT, .ICmpNE, .CondBr 1 2, .Load, .Call 1, .Br 1]),
        ("afterloop", none, [])] ∧
    (generate declAfterWhileModule CodeGen.new).state.InsertBlock = some 2 ∧
    (generate declAfterWhileModule CodeGen.new).state.namedValues = [("x", some ⟨0, .Int32⟩)] ∧
    (∀ k, compile (60 + k)
        "fn f() \x7b while (false) \x7b \x7d if (true) \x7b int y; \x7d \x7d" =
      some (generate declInArmAfterWhileModule CodeGen.new)) ∧
    generate declInArmAfterWhileModule CodeGen.new =
      .aborted (generate declInArmAfterWhileModule CodeGen.new).state ∧
    (generate declInArmAfterWhileModule CodeGen.new).state.shape =
      [("entry", some 0, [.Br 1]), ("loop", some 0, [.CondBr 1 2, .Br 1]),
        ("afterloop", none, [.CondBr 3 4]), ("then", none, []), ("else", none, []),
        ("ifcont", none, [])] ∧
    (generate declInArmAfterWhileModule CodeGen.new).state.InsertBlock = some 3 ∧
    (∀ k, compile (60 + k) "fn f() \x7b while (false) \x7b int y; \x7d \x7d" =
      some (generate declInLoopModule CodeGen.new)) ∧
    (generate declInLoopModule CodeGen.new).state.shape =
      [("entry", some 0, [.Alloca .Int32, .Br 1]), ("loop", some 0, [.CondBr 1 2, .Br 1]),
        ("afterloop", none, [.RetVoid])] ∧
    (∀ k, compile (40 + k) "fn f() \x7b int y = z; \x7d" =
      some (generate declUndeclaredModule CodeGen.new)) ∧
    generate declUndeclaredModule CodeGen.new =
      .aborted (generate declUndeclaredModule CodeGen.new).state ∧
    (generate declUndeclaredModule CodeGen.new).state.shape =
      [("entry", some 0, [.Alloca .Int32])] ∧
    (generate declUndeclaredModule CodeGen.new).state.errs = ["Unknown variable name"] :=
  ⟨fun k => compile_fuel_mono (by decide!) k, by decide!, by decide!, by decide!, by decide!,
    fun k => compile_fuel_mono (by decide!) k, by decide!, by decide!, by decide!,
    fun k => compile_fuel_mono (by decide!) k, by decide!,
    fun k => compile_fuel_mono (by decide!) k, by decide!, by decide!, by decide!⟩

/-- C28: `getType` maps `int` to `i32`, `float` to `float`, `bool` to `i1` and every
other name, `string` among them, to `void`; `string` is a type keyword of the
lexer that `isType` accepts.  So `fn f(string s): string { string t; }` declares
`f` with a `void` parameter and return type, gives `s` and `t` slots of type
`void` and ends the body with the implicit `ret void`. -/
theorem getType_spec :
    getType "int" = .Int32 ∧ getType "float" = .Float ∧ getType "bool" = .Int1 ∧
    (∀ typeName, typeName ≠ "int" → typeName ≠ "float" → typeName ≠ "bool" →
      getType typeName = .Void) ∧
    getType "string" = .Void ∧
    Lexer.keywords "string" = some .STRING_TYPE ∧
    isType [tk .STRING_TYPE "string", tk .END_OF_FILE ""] 0 = true ∧
    (∀ k, compile (40 + k) "fn f(string s): string \x7b string t; \x7d" =
      some (generate stringModule CodeGen.new)) ∧
    (generate stringModule CodeGen.new).state.functions =
      [⟨"f", .Void, [.Void], false, ["s"], 0⟩] ∧
    (generate stringModule CodeGen.new).state.shape =
      [("entry", some 0, [.Alloca .Void, .Alloca .Void, .Store, .RetVoid])] ∧
    (generate stringModule CodeGen.new).state.namedValues =
      [("s", some ⟨0, .Void⟩), ("t", some ⟨2, .Void⟩)] := by
  refine ⟨rfl, rfl, rfl, ?_, rfl, by decide, by decide, fun k => compile_fuel_mono (by decide!) k,
    by decide!, by decide!, by decide!⟩
  intro typeName h1 h2 h3
  simp [getType, h1, h2, h3]

/-! ## The blocks of an If -/

theorem Insert_at {g : CodeGen} {j : Nat} {B : BasicBlock} (h : g.InsertBlock = some j)
    (hB : g.blocks[j]? = some B) (opcode : Opcode) (operands : List (Option Value))
    (type : LLVMType) (Name : String) :
    (Insert opcode operands type Name g).state.blocks[j]? =
      some { B with Insts := B.Insts ++ [⟨g.numInsts, opcode, operands, type, Name⟩] } := by
  rw [blocks_Insert, h]
  exact getElem?_modify_eq _ _ hB

theorem Insert_other {g : CodeGen} {i : Nat} (h : g.InsertBlock ≠ some i) (opcode : Opcode)
    (operands : List (Option Value)) (type : LLVMType) (Name : String) :
    (Insert opcode operands type Name g).state.blocks[i]? = g.blocks[i]? := by
  rw [blocks_Insert]
  cases hI : g.InsertBlock with
  | none => rfl
  | some BB =>
    refine getElem?_modify_ne _ _ ?_
    intro e; rw [hI, e] at h; exact h rfl

/-- What the comparison of `visit(IfStmt&)` returns: the folded constant and
the state as it was for a constant condition, the result of the new
instruction otherwise. -/
theorem CreateICmpNE_some (condV : Value) (Name : String) (g1 : CodeGen) :
    (condV.isConstant = true ∧
      CreateICmpNE (some condV) (.ConstantInt .Int1 0) Name g1 =
        .returned (fold .ICmpNE condV (.ConstantInt .Int1 0) .Int1) g1) ∨
    (condV.isConstant = false ∧
      CreateICmpNE (some condV) (.ConstantInt .Int1 0) Name g1 =
        .returned (.Instruction g1.numInsts .Int1)
          (Insert .ICmpNE [some condV, some (.ConstantInt .Int1 0)] .Int1 Name g1).state) := by
  unfold CreateICmpNE
  cases hc : condV.isConstant with
  | true =>
    left
    refine ⟨rfl, ?_⟩
    simp only []
    rw [CreateBinary_constant Name (by rw [hc]; rfl)]
    rfl
  | false =>
    right
    refine ⟨rfl, ?_⟩
    simp only []
    rw [CreateBinary_eq_Insert Name (by rw [hc]; rfl)]
    rfl

theorem CreateICmpNE_insertBlock (condV : Value) (Name : String) (g1 : CodeGen) :
    ∃ cv gc, CreateICmpNE (some condV) (.ConstantInt .Int1 0) Name g1 = .returned cv gc ∧
      gc.InsertBlock = g1.InsertBlock ∧ gc.namedValues = g1.namedValues ∧
      g1.numInsts ≤ gc.numInsts := by
  rcases CreateICmpNE_some condV Name g1 with ⟨_, e⟩ | ⟨_, e⟩
  · exact ⟨_, _, e, rfl, rfl, Nat.le_refl _⟩
  · exact ⟨_, _, e, rfl, rfl, Nat.le_succ _⟩

theorem ifArms_eq {g1 : CodeGen} {BB : Nat} (h : g1.InsertBlock = some BB) (condV : Value)
    {α : Type} (k : Nat → Nat → Nat → M α) :
    (CreateICmpNE (some condV) (.ConstantInt .Int1 0) "ifcond" >>= fun condV =>
      GetInsertBlockParent >>= fun theFunction =>
      BasicBlockCreate "then" theFunction >>= fun thenBB =>
      BasicBlockCreate "else" theFunction >>= fun elseBB =>
      BasicBlockCreate "ifcont" theFunction >>= fun mergeBB =>
      CreateCondBr condV thenBB elseBB >>= fun _ =>
      SetInsertPoint thenBB >>= fun _ => k thenBB elseBB mergeBB) g1 =
    k g1.blocks.length (g1.blocks.length + 1) (g1.blocks.length + 2) (ifArms condV g1) := by
  unfold ifArms
  rcases CreateICmpNE_some condV "ifcond" g1 with ⟨_, e⟩ | ⟨_, e⟩
  · rw [bind_returned e, bind_returned e]
    simp [bind_apply, GetInsertBlockParent, h, BasicBlockCreate, Insert,
      CreateCondBr, SetInsertPoint, Outcome.state]
  · rw [bind_returned e, bind_returned e]
    simp [bind_apply, Insert, GetInsertBlockParent, h, BasicBlockCreate,
      CreateCondBr, SetInsertPoint, Outcome.state]

theorem BasicBlockCreate_returned (Name : String) (Parent : Option Nat) (g : CodeGen) :
    BasicBlockCreate Name Parent g =
      .returned g.blocks.length { g with blocks := g.blocks ++ [⟨Name, Parent, []⟩] } := rfl

theorem ifArms_def_folded {g1 : CodeGen} {BB : Nat} (h : g1.InsertBlock = some BB)
    {condV : Value} (hc : condV.isConstant = true) :
    ifArms condV g1 =
      { (Insert (.CondBr g1.blocks.length (g1.blocks.length + 1))
          [some (fold .ICmpNE condV (.ConstantInt .Int1 0) .Int1)] .Void ""
          { g1 with
            blocks := g1.blocks ++
              [⟨"then", g1.getParent BB, []⟩, ⟨"else", g1.getParent BB, []⟩,
                ⟨"ifcont", g1.getParent BB, []⟩] }).state with
        InsertBlock := some g1.blocks.length } := by
  have e : CreateICmpNE (some condV) (.ConstantInt .Int1 0) "ifcond" g1 =
      .returned (fold .ICmpNE condV (.ConstantInt .Int1 0) .Int1) g1 := by
    rcases CreateICmpNE_some condV "ifcond" g1 with ⟨_, e⟩ | ⟨h2, _⟩
    · exact e
    · rw [hc] at h2; cases h2
  unfold ifArms CreateCondBr
  rw [bind_returned e, bind_returned (GetInsertBlockParent_of h),
    bind_returned (BasicBlockCreate_returned _ _ _), bind_returned (BasicBlockCreate_returned _ _ _),
    bind_returned (BasicBlockCreate_returned _ _ _), bind_returned (Insert_returned _ _ _ _ _)]
  simp only [List.length_append, List.length_cons, List.length_nil, List.append_assoc,
    List.cons_append, List.nil_append, Nat.zero_add]
  rfl

theorem ifArms_def {g1 : CodeGen} {BB : Nat} (h : g1.InsertBlock = some BB) {condV : Value}
    (hc : condV.isConstant = false) :
    ifArms condV g1 =
      { (Insert (.CondBr g1.blocks.length (g1.blocks.length + 1))
          [some (.Instruction g1.numInsts .Int1)] .Void ""
          { (Insert .ICmpNE [some condV, some (.ConstantInt .Int1 0)] .Int1 "ifcond" g1).state with
            blocks :=
              (Insert .ICmpNE [some condV, some (.ConstantInt .Int1 0)] .Int1 "ifcond"
                  g1).state.blocks ++
                [⟨"then", g1.getParent BB, []⟩, ⟨"else", g1.getParent BB, []⟩,
                  ⟨"ifcont", g1.getParent BB, []⟩] }).state with
        InsertBlock := some g1.blocks.length } := by
  have e : CreateICmpNE (some condV) (.ConstantInt .Int1 0) "ifcond" g1 =
      .returned (.Instruction g1.numInsts .Int1)
        (Insert .ICmpNE [some condV, some (.ConstantInt .Int1 0)] .Int1 "ifcond" g1).state := by
    rcases CreateICmpNE_some condV "ifcond" g1 with ⟨h2, _⟩ | ⟨_, e⟩
    · rw [hc] at h2; cases h2
    · exact e
  have hI : (Insert .ICmpNE [some condV, some (.ConstantInt .Int1 0)] .Int1 "ifcond"
      g1).state.InsertBlock = some BB := h
  have hP : (Insert .ICmpNE [some condV, some (.ConstantInt .Int1 0)] .Int1 "ifcond"
      g1).state.getParent BB = g1.getParent BB := by
    unfold CodeGen.getParent
    rw [blocks_Insert, h, List.getElem?_modify]
    cases g1.blocks[BB]? with
    | none => rfl
    | some B => simp
  unfold ifArms CreateCondBr
  rw [bind_returned e, bind_returned (GetInsertBlockParent_of hI), hP,
    bind_returned (BasicBlockCreate_returned _ _ _), bind_returned (BasicBlockCreate_returned _ _ _),
    bind_returned (BasicBlockCreate_returned _ _ _), bind_returned (Insert_returned _ _ _ _ _)]
  simp only [List.length_append, List.length_cons, List.length_nil, List.append_assoc,
    List.cons_append, List.nil_append, Insert_blocks_length, Nat.zero_add]
  rfl

/-- The state in which the then-branch is lowered: `then` is the insertion
block, the three blocks are there, and the block that was the insertion block
has got the comparison, unless it was folded, and the conditional branch. -/
theorem ifArms_spec {g1 : CodeGen} {BB : Nat} {B : BasicBlock} (h : g1.InsertBlock = some BB)
    (hB : g1.blocks[BB]? = some B) (condV : Value) :
    (ifArms condV g1).InsertBlock = some g1.blocks.length ∧
    (ifArms condV g1).blocks.length = g1.blocks.length + 3 ∧
    (ifArms condV g1).blocks[g1.blocks.length]? = some ⟨"then", B.Parent, []⟩ ∧
    (ifArms condV g1).blocks[g1.blocks.length + 1]? = some ⟨"else", B.Parent, []⟩ ∧
    (ifArms condV g1).blocks[g1.blocks.length + 2]? = some ⟨"ifcont", B.Parent, []⟩ ∧
    ∃ tail, (ifArms condV g1).blocks[BB]? = some { B with Insts := B.Insts ++ tail } ∧
      (condV.isConstant = false → tail =
        [⟨g1.numInsts, .ICmpNE, [some condV, some (.ConstantInt .Int1 0)], .Int1, "ifcond"⟩,
          ⟨g1.numInsts + 1, .CondBr g1.blocks.length (g1.blocks.length + 1),
            [some (.Instruction g1.numInsts .Int1)], .Void, ""⟩]) ∧
      (condV.isConstant = true → tail =
        [⟨g1.numInsts, .CondBr g1.blocks.length (g1.blocks.length + 1),
          [some (fold .ICmpNE condV (.ConstantInt .Int1 0) .Int1)], .Void, ""⟩]) := by
  have hlt : BB < g1.blocks.length := by
    rcases Nat.lt_or_ge BB g1.blocks.length with h1 | h1
    · exact h1
    · rw [List.getElem?_eq_none h1] at hB; cases hB
  have hP : g1.getParent BB = B.Parent := by unfold CodeGen.getParent; rw [hB]
  cases hc : condV.isConstant with
  | true =>
    rw [ifArms_def_folded h hc, hP]
    refine ⟨rfl, ?_, ?_, ?_, ?_, _, ?_, (fun e => by cases e), fun _ => rfl⟩
    · show (Insert _ _ _ _ _).state.blocks.length = _
      rw [Insert_blocks_length]
      simp only [List.length_append, List.length_cons, List.length_nil]
    · show (Insert _ _ _ _ _).state.blocks[_]? = _
      rw [Insert_other (fun e => by
        have e2 : g1.InsertBlock = some _ := e
        rw [h] at e2; cases e2; omega)]
      show (_ ++ _)[_]? = _
      rw [List.getElem?_append_right (by omega)]; simp
    · show (Insert _ _ _ _ _).state.blocks[_]? = _
      rw [Insert_other (fun e => by
        have e2 : g1.InsertBlock = some _ := e
        rw [h] at e2; cases e2; omega)]
      show (_ ++ _)[_]? = _
      rw [List.getElem?_append_right (by omega)]; simp
    · show (Insert _ _ _ _ _).state.blocks[_]? = _
      rw [Insert_other (fun e => by
        have e2 : g1.InsertBlock = some _ := e
        rw [h] at e2; cases e2; omega)]
      show (_ ++ _)[_]? = _
      rw [List.getElem?_append_right (by omega)]; simp
    · show (Insert _ _ _ _ _).state.blocks[_]? = _
      refine Eq.trans (Insert_at (B := B) ?_ ?_ _ _ _ _) ?_
      · exact h
      · show (_ ++ _)[_]? = _
        rw [List.getElem?_append_left (by omega)]
        exact hB
      · rfl
  | false =>
    have hlen := Insert_blocks_length .ICmpNE [some condV, some (.ConstantInt .Int1 0)] .Int1
      "ifcond" g1
    have h1 := Insert_at h hB .ICmpNE [some condV, some (.ConstantInt .Int1 0)] .Int1 "ifcond"
    rw [ifArms_def h hc, hP]
    refine ⟨rfl, ?_, ?_, ?_, ?_, _, ?_, (fun _ => rfl), fun e => by cases e⟩
    · show (Insert _ _ _ _ _).state.blocks.length = _
      rw [Insert_blocks_length]
      simp only [List.length_append, List.length_cons, List.length_nil, hlen]
    · show (Insert _ _ _ _ _).state.blocks[_]? = _
      rw [Insert_other (fun e => by
        have e2 : g1.InsertBlock = some _ := e
        rw [h] at e2; cases e2; omega)]
      show (_ ++ _)[_]? = _
      rw [List.getElem?_append_right (by omega), hlen]; simp
    · show (Insert _ _ _ _ _).state.blocks[_]? = _
      rw [Insert_other (fun e => by
        have e2 : g1.InsertBlock = some _ := e
        rw [h] at e2; cases e2; omega)]
      show (_ ++ _)[_]? = _
      rw [List.getElem?_append_right (by omega), hlen]; simp
    · show (Insert _ _ _ _ _).state.blocks[_]? = _
      rw [Insert_other (fun e => by
        have e2 : g1.InsertBlock = some _ := e
        rw [h] at e2; cases e2; omega)]
      show (_ ++ _)[_]? = _
      rw [List.getElem?_append_right (by omega), hlen]; simp
    · show (Insert _ _ _ _ _).state.blocks[_]? = _
      refine Eq.trans (Insert_at (B := { B with Insts := B.Insts ++
        [⟨g1.numInsts, .ICmpNE, [some condV, some (.ConstantInt .Int1 0)], .Int1, "ifcond"⟩] })
        ?_ ?_ _ _ _ _) ?_
      · exact h
      · show (_ ++ _)[_]? = _
        rw [List.getElem?_append_left (by omega)]
        exact h1
      · simp [Insert, Outcome.state]

theorem ifArms_numInsts {g1 : CodeGen} {BB : Nat} (h : g1.InsertBlock = some BB)
    (condV : Value) : g1.numInsts ≤ (ifArms condV g1).numInsts := by
  cases hc : condV.isConstant with
  | true => rw [ifArms_def_folded h hc]; exact Nat.le_succ _
  | false => rw [ifArms_def h hc]; exact Nat.le_of_lt (Nat.lt_succ_of_lt (Nat.lt_succ_self _))

theorem ifArms_namedValues {g1 : CodeGen} {BB : Nat} (h : g1.InsertBlock = some BB)
    (condV : Value) : (ifArms condV g1).namedValues = g1.namedValues := by
  cases hc : condV.isConstant with
  | true => rw [ifArms_def_folded h hc]; rfl
  | false => rw [ifArms_def h hc]; rfl

/-! ## If (C18) -/

theorem SetInsertPoint_returned (BB : Nat) (g : CodeGen) :
    SetInsertPoint BB g = .returned () (SetInsertPoint BB g).state := rfl

theorem CreateBr_returned (Dest : Nat) (g : CodeGen) :
    CreateBr Dest g = .returned (.Instruction g.numInsts .Void) (CreateBr Dest g).state := rfl

theorem visitBranch_some (T : BlockStmt) : visitBranch (some T) = visitBlockStmt T := by
  rw [visitBranch]

theorem visitBranch_none : visitBranch none = abort := by
  rw [visitBranch]

/-- The steps of `visit(IfStmt&)` after a condition that gave a value, when
the call returns. -/
theorem visitIfStmt_returned {g g1 g9 : CodeGen} {Condition : Expr}
    {ThenBranch ElseBranch : Option BlockStmt} {condV : Value}
    (hc : visitExpr Condition g = .returned (some condV) g1)
    (hret : visitStmt (.IfStmt (some Condition) ThenBranch ElseBranch) g = .returned () g9) :
    ∃ BB T g3 g5, g1.InsertBlock = some BB ∧ ThenBranch = some T ∧
      visitBlockStmt T (ifArms condV g1) = .returned () g3 ∧
      visitElseBranch ElseBranch
        (SetInsertPoint (g1.blocks.length + 1) (CreateBr (g1.blocks.length + 2) g3).state).state =
          .returned () g5 ∧
      g9 = (SetInsertPoint (g1.blocks.length + 2) (CreateBr (g1.blocks.length + 2) g5).state).state := by
  rw [visitStmt_IfStmt, bind_returned hc] at hret
  simp only [] at hret
  cases hIB : g1.InsertBlock with
  | none =>
    exfalso
    obtain ⟨cv, gc, e, hI, _, _⟩ := CreateICmpNE_insertBlock condV "ifcond" g1
    have ha : GetInsertBlockParent gc = .aborted gc := by
      unfold GetInsertBlockParent
      rw [hI, hIB]
    rw [bind_returned e, bind_aborted ha] at hret
    cases hret
  | some BB =>
    rw [ifArms_eq hIB] at hret
    cases ThenBranch with
    | none =>
      rw [visitBranch_none, bind_aborted (show abort _ = Outcome.aborted _ from rfl)] at hret
      cases hret
    | some T =>
      rw [visitBranch_some] at hret
      cases h3 : visitBlockStmt T (ifArms condV g1) with
      | aborted g3 => rw [bind_aborted h3] at hret; cases hret
      | returned u g3 =>
        rw [bind_returned h3, bind_returned (CreateBr_returned _ _),
          bind_returned (SetInsertPoint_returned _ _)] at hret
        cases h5 : visitElseBranch ElseBranch
          (SetInsertPoint (g1.blocks.length + 1)
            (CreateBr (g1.blocks.length + 2) g3).state).state with
        | aborted g5 => rw [bind_aborted h5] at hret; cases hret
        | returned u5 g5 =>
          rw [bind_returned h5, bind_returned (CreateBr_returned _ _)] at hret
          exact ⟨BB, T, g3, g5, rfl, rfl, h3, h5, (congrArg Outcome.state hret).symm⟩

theorem Extends_named {g g1 : CodeGen} (h : Extends g g1) {i : Nat} {B : BasicBlock}
    (hB : g.blocks[i]? = some B) :
    ∃ B1, g1.blocks[i]? = some B1 ∧ B1.Name = B.Name ∧ B1.Parent = B.Parent := by
  obtain ⟨B1, h1, h2, h3, _⟩ := h.blocks i B hB
  exact ⟨B1, h1, h2, h3⟩

theorem Extends_other {g g1 : CodeGen} (h : Extends g g1) {i : Nat} {B : BasicBlock}
    (hB : g.blocks[i]? = some B) (hne : g.InsertBlock ≠ some i) :
    ∃ B1 pre, g1.blocks[i]? = some B1 ∧ B1.Insts = pre ++ B.Insts ∧
      ∀ I ∈ pre, ∃ Ty, I.opcode = .Alloca Ty := by
  obtain ⟨B1, h1, _, _, pre, post, h4, h5, h6⟩ := h.blocks i B hB
  refine ⟨B1, pre, h1, ?_, h5⟩
  rw [h4, h6 hne, List.append_nil]

theorem Extends_insertBlock_ne {g g1 : CodeGen} (h : Extends g g1) {i : Nat}
    (hi : i < g.blocks.length) (hne : g.InsertBlock ≠ some i) : g1.InsertBlock ≠ some i := by
  rcases h.insertBlock with e | ⟨BB, e, hle⟩
  · rw [e]; exact hne
  · rw [e]; intro e2; cases e2; omega

theorem lt_of_getElem?_some {α : Type} {l : List α} {i : Nat} {a : α} (h : l[i]? = some a) :
    i < l.length := by
  rcases Nat.lt_or_ge i l.length with h1 | h1
  · exact h1
  · rw [List.getElem?_eq_none h1] at h; cases h

theorem Extends_visitBlockStmt (b : BlockStmt) (g : CodeGen) :
    Extends g (visitBlockStmt b g).state :=
  (keeps_visitBlockStmt Extends_frame g b (fun _ _ => trivial) (fun _ _ => trivial) g
    (Extends_refl g) (Nat.le_refl _)).1

theorem Extends_visitStatements (l : List Stmt) (g : CodeGen) :
    Extends g (visitStatements l g).state :=
  (keeps_visitStatements Extends_frame g l (fun _ _ => trivial) (fun _ _ => trivial) g
    (Extends_refl g) (Nat.le_refl _)).1

/-- What the second half of `visit(IfStmt&)` does to a block `i` of the state
`g3` reached at the end of the then-arm, `i` not being the block `else`. -/
theorem ifArms_rest {n : Nat} {g3 g5 : CodeGen} {ElseBranch : Option BlockStmt}
    (h5 : visitElseBranch ElseBranch (SetInsertPoint (n + 1) (CreateBr (n + 2) g3).state).state =
      .returned () g5) {i : Nat} {B3 : BasicBlock} (hB3 : g3.blocks[i]? = some B3)
    (hi : i ≠ n + 1) :
    ∃ B9 pre, (SetInsertPoint (n + 2) (CreateBr (n + 2) g5).state).state.blocks[i]? = some B9 ∧
      (∀ I ∈ pre, ∃ Ty, I.opcode = .Alloca Ty) ∧
      B9.Insts = pre ++ (if g3.InsertBlock = some i then
        B3.Insts ++ [⟨g3.numInsts, .Br (n + 2), [], .Void, ""⟩] else B3.Insts) := by
  have E5 := Extends_visitElseBranch ElseBranch
    (SetInsertPoint (n + 1) (CreateBr (n + 2) g3).state).state
  rw [h5] at E5
  replace E5 : Extends _ g5 := E5
  have hlt : i < g3.blocks.length := lt_of_getElem?_some hB3
  have hlen : (SetInsertPoint (n + 1) (CreateBr (n + 2) g3).state).state.blocks.length =
      g3.blocks.length := Insert_blocks_length _ _ _ _ g3
  have hne4 : (SetInsertPoint (n + 1) (CreateBr (n + 2) g3).state).state.InsertBlock ≠ some i := by
    show some (n + 1) ≠ some i
    intro e; cases e; exact hi rfl
  have hne5 : g5.InsertBlock ≠ some i := Extends_insertBlock_ne E5 (by rw [hlen]; exact hlt) hne4
  have h4 : ∃ X, (SetInsertPoint (n + 1) (CreateBr (n + 2) g3).state).state.blocks[i]? = some X ∧
      X.Insts = (if g3.InsertBlock = some i then
        B3.Insts ++ [⟨g3.numInsts, .Br (n + 2), [], .Void, ""⟩] else B3.Insts) := by
    by_cases hj : g3.InsertBlock = some i
    · exact ⟨_, Insert_at hj hB3 _ _ _ _, by rw [if_pos hj]⟩
    · exact ⟨B3, (Insert_other hj _ _ _ _).trans hB3, by rw [if_neg hj]⟩
  obtain ⟨X, hX, hXI⟩ := h4
  obtain ⟨B5, pre, hB5, hI5, hpre⟩ := Extends_other E5 hX hne4
  refine ⟨B5, pre, ?_, hpre, ?_⟩
  · exact (Insert_other hne5 _ _ _ _).trans hB5
  · rw [hI5, hXI]

/-- C18: when the condition of an If yields a value and the lowering of the If
returns, exactly three blocks `then`, `else`, `ifcont` have been created, in
this order, in the function of the current block, before any arm is lowered;
the current block ends with the conditional branch to `then` and `else` on
the value compared against zero: the comparison instruction followed by the
branch on its result, or, for a constant value, whose comparison the builder
folds, the branch on the folded constant alone.  The then-block is lowered
with `then` as insertion block and an unconditional jump to `ifcont` is
appended where that lowering ends, the else-block (nothing, when there is
none) with `else` as insertion block, followed again by the jump to `ifcont`,
both jumps being emitted whatever the arm holds; the insertion block is
`ifcont` at the end. -/
theorem visitIfStmt_spec (g g1 g9 : CodeGen) (Condition : Expr)
    (ThenBranch ElseBranch : Option BlockStmt) (condV : Value) (BB : Nat) (B : BasicBlock)
    (hc : visitExpr Condition g = .returned (some condV) g1)
    (hBB : g1.InsertBlock = some BB) (hB : g1.blocks[BB]? = some B)
    (hret : visitStmt (.IfStmt (some Condition) ThenBranch ElseBranch) g = .returned () g9) :
    ∃ T g3 g5, ThenBranch = some T ∧
      (ifArms condV g1).blocks.length = g1.blocks.length + 3 ∧
      (ifArms condV g1).InsertBlock = some g1.blocks.length ∧
      visitBlockStmt T (ifArms condV g1) = .returned () g3 ∧
      visitElseBranch ElseBranch
        (SetInsertPoint (g1.blocks.length + 1) (CreateBr (g1.blocks.length + 2) g3).state).state =
          .returned () g5 ∧
      g9 = (SetInsertPoint (g1.blocks.length + 2) (CreateBr (g1.blocks.length + 2) g5).state).state ∧
      g9.InsertBlock = some (g1.blocks.length + 2) ∧
      (∃ B1 B2 B3, g9.blocks[g1.blocks.length]? = some B1 ∧
        g9.blocks[g1.blocks.length + 1]? = some B2 ∧
        g9.blocks[g1.blocks.length + 2]? = some B3 ∧
        B1.Name = "then" ∧ B2.Name = "else" ∧ B3.Name = "ifcont" ∧
        B1.Parent = B.Parent ∧ B2.Parent = B.Parent ∧ B3.Parent = B.Parent) ∧
      (∃ B9 pre, g9.blocks[BB]? = some B9 ∧ (∀ I ∈ pre, ∃ Ty, I.opcode = .Alloca Ty) ∧
        (condV.isConstant = false → B9.Insts = pre ++ B.Insts ++
          [⟨g1.numInsts, .ICmpNE, [some condV, some (.ConstantInt .Int1 0)], .Int1, "ifcond"⟩,
            ⟨g1.numInsts + 1, .CondBr g1.blocks.length (g1.blocks.length + 1),
              [some (.Instruction g1.numInsts .Int1)], .Void, ""⟩]) ∧
        (condV.isConstant = true → B9.Insts = pre ++ B.Insts ++
          [⟨g1.numInsts, .CondBr g1.blocks.length (g1.blocks.length + 1),
            [some (fold .ICmpNE condV (.ConstantInt .Int1 0) .Int1)], .Void, ""⟩])) ∧
      (∀ j Bj, g3.InsertBlock = some j → g3.blocks[j]? = some Bj →
        ∃ B9 pre, g9.blocks[j]? = some B9 ∧
          B9.Insts = pre ++ Bj.Insts ++
            [⟨g3.numInsts, .Br (g1.blocks.length + 2), [], .Void, ""⟩]) ∧
      (∀ j Bj, g5.InsertBlock = some j → g5.blocks[j]? = some Bj →
        ∃ B9, g9.blocks[j]? = some B9 ∧
          B9.Insts = Bj.Insts ++ [⟨g5.numInsts, .Br (g1.blocks.length + 2), [], .Void, ""⟩]) := by
  obtain ⟨BB2, T, g3, g5, _, hT, h3, h5, h9⟩ := visitIfStmt_returned hc hret
  obtain ⟨a1, a2, a3, a4, a5, tail, a6, t1, t2⟩ := ifArms_spec hBB hB condV
  have hBBlt : BB < g1.blocks.length := lt_of_getElem?_some hB
  have E3 := Extends_visitBlockStmt T (ifArms condV g1)
  rw [h3] at E3
  replace E3 : Extends _ g3 := E3
  have E5 := Extends_visitElseBranch ElseBranch
    (SetInsertPoint (g1.blocks.length + 1) (CreateBr (g1.blocks.length + 2) g3).state).state
  rw [h5] at E5
  replace E5 : Extends _ g5 := E5
  have E3b : Extends (ifArms condV g1) (CreateBr (g1.blocks.length + 2) g3).state :=
    Extends_trans _ _ _ E3 (Extends_Insert g3 _ _ _ _)
  have E5b : Extends
      (SetInsertPoint (g1.blocks.length + 1) (CreateBr (g1.blocks.length + 2) g3).state).state
      (CreateBr (g1.blocks.length + 2) g5).state :=
    Extends_trans _ _ _ E5 (Extends_Insert g5 _ _ _ _)
  have named : ∀ (i : Nat) (X : BasicBlock), (ifArms condV g1).blocks[i]? = some X →
      ∃ B9 : BasicBlock, g9.blocks[i]? = some B9 ∧ B9.Name = X.Name ∧ B9.Parent = X.Parent := by
    intro i X hX
    obtain ⟨Y, hY, hY1, hY2⟩ := Extends_named E3b hX
    obtain ⟨Z, hZ, hZ1, hZ2⟩ := Extends_named E5b
      (show (SetInsertPoint (g1.blocks.length + 1)
        (CreateBr (g1.blocks.length + 2) g3).state).state.blocks[i]? = some Y from hY)
    rw [h9]
    exact ⟨Z, hZ, hZ1.trans hY1, hZ2.trans hY2⟩
  refine ⟨T, g3, g5, hT, a2, a1, h3, h5, h9, by rw [h9]; rfl, ?_, ?_, ?_, ?_⟩
  · obtain ⟨B1, h1, h1n, h1p⟩ := named _ _ a3
    obtain ⟨B2, h2, h2n, h2p⟩ := named _ _ a4
    obtain ⟨B3, h3, h3n, h3p⟩ := named _ _ a5
    exact ⟨B1, B2, B3, h1, h2, h3, h1n, h2n, h3n, h1p, h2p, h3p⟩
  · have hneA : (ifArms condV g1).InsertBlock ≠ some BB := by
      rw [a1]; intro e; cases e; omega
    obtain ⟨X, pre1, hX, hXI, hpre1⟩ := Extends_other E3 a6 hneA
    have hne3 : g3.InsertBlock ≠ some BB :=
      Extends_insertBlock_ne E3 (by rw [a2]; omega) hneA
    obtain ⟨B9, pre, hB9, hpre, hI⟩ := ifArms_rest h5 hX (by omega)
    rw [if_neg hne3, hXI] at hI
    rw [h9]
    refine ⟨B9, pre ++ pre1, hB9, ?_, ?_, ?_⟩
    · intro I hI2
      rcases List.mem_append.1 hI2 with h | h
      · exact hpre I h
      · exact hpre1 I h
    · intro hk
      rw [hI, ← t1 hk]; simp
    · intro hk
      rw [hI, ← t2 hk]; simp
  · intro j Bj hj hBj
    have hjne : j ≠ g1.blocks.length + 1 := by
      rcases E3.insertBlock with e | ⟨k, e, hle⟩
      · rw [e, a1] at hj; cases hj; omega
      · rw [e] at hj; cases hj; omega
    obtain ⟨B9, pre, hB9, _, hI⟩ := ifArms_rest h5 hBj hjne
    rw [if_pos hj] at hI
    rw [h9]
    exact ⟨B9, pre, hB9, by rw [hI, List.append_assoc]⟩
  · intro j Bj hj hBj
    rw [h9]
    exact ⟨_, Insert_at hj hBj _ _ _ _, rfl⟩

/-! ## Redeclaration inside a branch (C13) -/

/-- C18 at `if (x < 3) { print("a"); }` after `int x;` in the entry block of
`fn f() { }`: the block ends with the comparison of the value of `x < 3`
against zero and the branch on its result. -/
theorem visitIfStmt_spec_witness :
    ∃ B9 pre,
      (visitStmt (.IfStmt (some (.BinaryExpr "<" (.VariableExpr "x") (.NumberExpr "3" .INT_LITERAL)))
        (some (.mk [.PrintStmt ⟨"a"⟩ []])) none) declaredState).state.blocks[0]? = some B9 ∧
      B9.Insts = pre ++
        [⟨1, .Alloca .Int32, [], .Pointer .Int32, "x"⟩, ⟨0, .RetVoid, [], .Void, ""⟩,
          ⟨2, .Load, [some (.Instruction 1 (.Pointer .Int32))], .Int32, "x"⟩,
          ⟨3, .ICmpULT, [some (.Instruction 2 .Int32), some (.ConstantInt .Int32 3)], .Int1,
            "cmptmp"⟩] ++
        [⟨4, .ICmpNE, [some (.Instruction 3 .Int1), some (.ConstantInt .Int1 0)], .Int1,
            "ifcond"⟩,
          ⟨4 + 1, .CondBr 1 (1 + 1), [some (.Instruction 4 .Int1)], .Void, ""⟩] ∧
      (visitStmt (.IfStmt (some (.BinaryExpr "<" (.VariableExpr "x") (.NumberExpr "3" .INT_LITERAL)))
        (some (.mk [.PrintStmt ⟨"a"⟩ []])) none) declaredState).state.InsertBlock =
          some (1 + 2) := by
  obtain ⟨T, g3, g5, _, _, _, _, _, _, h6, _, ⟨B9, pre, hB9, _, hn, _⟩, _⟩ :=
    visitIfStmt_spec declaredState
      (visitExpr (.BinaryExpr "<" (.VariableExpr "x") (.NumberExpr "3" .INT_LITERAL))
        declaredState).state
      (visitStmt (.IfStmt (some (.BinaryExpr "<" (.VariableExpr "x") (.NumberExpr "3" .INT_LITERAL)))
        (some (.mk [.PrintStmt ⟨"a"⟩ []])) none) declaredState).state
      (.BinaryExpr "<" (.VariableExpr "x") (.NumberExpr "3" .INT_LITERAL))
      (some (.mk [.PrintStmt ⟨"a"⟩ []])) none (.Instruction 3 .Int1) 0
      ⟨"entry", some 0, [⟨1, .Alloca .Int32, [], .Pointer .Int32, "x"⟩,
        ⟨0, .RetVoid, [], .Void, ""⟩,
        ⟨2, .Load, [some (.Instruction 1 (.Pointer .Int32))], .Int32, "x"⟩,
        ⟨3, .ICmpULT, [some (.Instruction 2 .Int32), some (.ConstantInt .Int32 3)], .Int1,
          "cmptmp"⟩]⟩
      (by decide!) (by decide!) (by decide!) (by decide!)
  exact ⟨B9, pre, hB9, hn rfl, h6⟩

theorem visitStatements_append_returned : ∀ (l1 l2 : List Stmt) (g g3 : CodeGen),
    visitStatements (l1 ++ l2) g = .returned () g3 →
      ∃ g2, visitStatements l1 g = .returned () g2 ∧ visitStatements l2 g2 = .returned () g3
  | [], l2, g, g3, h => ⟨g, by rw [visitStatements]; rfl, h⟩
  | s :: l1, l2, g, g3, h => by
    rw [List.cons_append, visitStatements] at h
    cases hs : visitStmt s g with
    | aborted g1 => rw [bind_aborted hs] at h; cases h
    | returned u g1 =>
      rw [bind_returned hs] at h
      obtain ⟨g2, h1, h2⟩ := visitStatements_append_returned l1 l2 g1 g3 h
      exact ⟨g2, by rw [visitStatements, bind_returned hs]; exact h1, h2⟩

theorem visitVarDeclStmt_binds {VarType n : String} {Init : Option Expr} {g g1 : CodeGen}
    (h : visitVarDeclStmt VarType n Init g = .returned () g1) :
    lookupAlloca g1.namedValues n = some ⟨g.numInsts, getType VarType⟩ := by
  unfold visitVarDeclStmt at h
  cases hIB : g.InsertBlock with
  | none =>
    have ha : GetInsertBlockParent g = .aborted g := by unfold GetInsertBlockParent; rw [hIB]
    rw [bind_aborted ha] at h; cases h
  | some BB =>
    rw [bind_returned (GetInsertBlockParent_of hIB)] at h
    cases hF : g.getParent BB with
    | none =>
      rw [hF, bind_aborted (show getEntryBlock none g = .aborted g from rfl)] at h; cases h
    | some F =>
      rw [hF] at h
      cases he : g.getEntryBlock F with
      | none =>
        have ha : getEntryBlock (some F) g = .aborted g := by
          unfold getEntryBlock; simp only [he]
        rw [bind_aborted ha] at h; cases h
      | some entry =>
        rw [bind_returned (getEntryBlock_of he),
          bind_returned (CreateAllocaAtBegin_returned _ _ _ _)] at h
        cases Init with
        | none =>
          simp only [] at h
          have := congrArg Outcome.state h
          simp only [Outcome.state] at this
          rw [← this]
          simp only [namedValuesSet, lookupAlloca_assign, if_true]
        | some e =>
          simp only [] at h
          cases hv : visitExpr e (CreateAllocaAtBegin entry (getType VarType) n g).state with
          | aborted g2 => rw [bind_aborted hv] at h; cases h
          | returned v g2 =>
            rw [bind_returned hv] at h
            cases v with
            | none =>
              rw [bind_aborted (show CreateStore none _ g2 = .aborted g2 from rfl)] at h
              cases h
            | some v =>
            unfold CreateStore at h
            simp only [] at h
            rw [bind_returned (Insert_returned _ _ _ _ _)] at h
            have := congrArg Outcome.state h
            simp only [Outcome.state] at this
            rw [← this]
            simp only [namedValuesSet, lookupAlloca_assign, if_true]

/-- The last declaration of `n` in a block decides what `n` is bound to when
the block has been lowered. -/
theorem visitStatements_declares {pre post : List Stmt} {VarType n : String}
    {Init : Option Expr} {gS g3 : CodeGen}
    (h : visitStatements (pre ++ .VarDeclStmt VarType n Init :: post) gS = .returned () g3)
    (hpost : n ∉ declaredOfStatements post) :
    ∃ gD, visitStatements pre gS = .returned () gD ∧ gS.numInsts ≤ gD.numInsts ∧
      lookupAlloca g3.namedValues n = some ⟨gD.numInsts, getType VarType⟩ := by
  obtain ⟨gD, hpre, hrest⟩ := visitStatements_append_returned _ _ _ _ h
  refine ⟨gD, hpre, ?_, ?_⟩
  · have := (Extends_visitStatements pre gS).numInsts
    rw [hpre] at this; exact this
  · rw [visitStatements] at hrest
    cases hd : visitStmt (.VarDeclStmt VarType n Init) gD with
    | aborted gE => rw [bind_aborted hd] at hrest; cases hrest
    | returned u gE =>
      rw [bind_returned hd] at hrest
      rw [visitStmt] at hd
      have h1 := visitVarDeclStmt_binds hd
      have h2 := lookup_visitStatements n post hpost gE
      rw [hrest] at h2
      exact h2.trans h1

theorem visitExpr_VariableExpr_bound {g : CodeGen} {n : String} {slot : AllocaInst}
    (h : lookupAlloca g.namedValues n = some slot) :
    visitExpr (.VariableExpr n) g =
      (CreateLoad slot.AllocatedType slot n >>= fun v => pure (some v)) g := by
  rw [visitExpr]
  unfold visitVariableExpr
  rw [bind_returned (namedValuesAt_of_some h)]

/-- C13 (flat namespace): when an If whose condition yields a value declares `n`
in its then-block (no later statement of the block and no statement of the
else-block declaring it again) or in its else-block, then after the If `n` is
bound to the slot created by that declaration, which is not a slot that
existed before the If.  The declaration leaves the binding of every other name
as it was, and from then on every statement list that does not declare `n`,
and every expression, keeps `n` bound to that slot: a reference to `n` loads
from it. -/
theorem visitIfStmt_redeclaration (g g1 : CodeGen) (Condition : Expr) (condV : Value)
    (n VarType : String) (Init : Option Expr) (pre post : List Stmt)
    (hc : visitExpr Condition g = .returned (some condV) g1)
    (hpost : n ∉ declaredOfStatements post) :
    (∀ ElseBranch g9, n ∉ declaredOfBranch ElseBranch →
      visitStmt (.IfStmt (some Condition)
        (some (.mk (pre ++ .VarDeclStmt VarType n Init :: post))) ElseBranch) g =
          .returned () g9 →
      ∃ gD, visitStatements pre (ifArms condV g1) = .returned () gD ∧
        g.numInsts ≤ gD.numInsts ∧
        lookupAlloca g9.namedValues n = some ⟨gD.numInsts, getType VarType⟩ ∧
        ∀ o, lookupAlloca g.namedValues n = some o → o.id < g.numInsts →
          lookupAlloca g9.namedValues n ≠ some o) ∧
    (∀ ThenBranch g9,
      visitStmt (.IfStmt (some Condition) ThenBranch
        (some (.mk (pre ++ .VarDeclStmt VarType n Init :: post)))) g = .returned () g9 →
      ∃ gS gD, gS.InsertBlock = some (g1.blocks.length + 1) ∧
        visitStatements pre gS = .returned () gD ∧ g.numInsts ≤ gD.numInsts ∧
        lookupAlloca g9.namedValues n = some ⟨gD.numInsts, getType VarType⟩ ∧
        ∀ o, lookupAlloca g.namedValues n = some o → o.id < g.numInsts →
          lookupAlloca g9.namedValues n ≠ some o) ∧
    (∀ m gD, m ≠ n →
      lookupAlloca (visitStmt (.VarDeclStmt VarType n Init) gD).state.namedValues m =
        lookupAlloca gD.namedValues m) ∧
    (∀ slot g9, lookupAlloca g9.namedValues n = some slot →
      (∀ later, n ∉ declaredOfStatements later →
        lookupAlloca (visitStatements later g9).state.namedValues n = some slot) ∧
      (∀ e, lookupAlloca (visitExpr e g9).state.namedValues n = some slot) ∧
      visitExpr (.VariableExpr n) g9 =
        (CreateLoad slot.AllocatedType slot n >>= fun v => pure (some v)) g9) := by
  have hA := Appends_visitExpr Condition g
  rw [hc] at hA
  replace hA : Appends g g1 := hA
  have hne : ∀ (k : Nat) (o : AllocaInst), g.numInsts ≤ k → o.id < g.numInsts →
      (some (⟨k, getType VarType⟩ : AllocaInst)) ≠ some o := by
    intro k o hk ho e
    cases e
    exact absurd hk (Nat.not_le.2 ho)
  refine ⟨?_, ?_, ?_, ?_⟩
  · intro ElseBranch g9 helse hret
    obtain ⟨BB, T, g3, g5, hIB, hT, h3, h5, h9⟩ := visitIfStmt_returned hc hret
    cases hT
    rw [visitBlockStmt] at h3
    obtain ⟨gD, hpre, hle, hl⟩ := visitStatements_declares h3 hpost
    have hle2 : g.numInsts ≤ gD.numInsts := by
      have := ifArms_numInsts hIB condV
      have := hA.numInsts
      omega
    have hl9 : lookupAlloca g9.namedValues n = some ⟨gD.numInsts, getType VarType⟩ := by
      have h2 := lookup_visitElseBranch n ElseBranch helse
        (SetInsertPoint (g1.blocks.length + 1) (CreateBr (g1.blocks.length + 2) g3).state).state
      rw [h5] at h2
      rw [h9]
      exact h2.trans hl
    exact ⟨gD, hpre, hle2, hl9, fun o _ ho => by rw [hl9]; exact hne _ o hle2 ho⟩
  · intro ThenBranch g9 hret
    obtain ⟨BB, T, g3, g5, hIB, hT, h3, h5, h9⟩ := visitIfStmt_returned hc hret
    rw [visitElseBranch, visitBlockStmt] at h5
    obtain ⟨gD, hpre, hle, hl⟩ := visitStatements_declares h5 hpost
    have hle2 : g.numInsts ≤ gD.numInsts := by
      have e1 := ifArms_numInsts hIB condV
      have e2 := hA.numInsts
      have e3 := (Extends_visitBlockStmt T (ifArms condV g1)).numInsts
      rw [h3] at e3
      replace e3 : (ifArms condV g1).numInsts ≤ g3.numInsts := e3
      have e4 : (SetInsertPoint (g1.blocks.length + 1)
          (CreateBr (g1.blocks.length + 2) g3).state).state.numInsts = g3.numInsts + 1 := rfl
      omega
    have hl9 : lookupAlloca g9.namedValues n = some ⟨gD.numInsts, getType VarType⟩ := by
      rw [h9]; exact hl
    exact ⟨_, gD, rfl, hpre, hle2, hl9, fun o _ ho => by rw [hl9]; exact hne _ o hle2 ho⟩
  · intro m gD hm
    exact lookup_visitStmt m _ (by simp [Stmt.declared, hm]) gD
  · intro slot g9 hs
    refine ⟨fun later hl => (lookup_visitStatements n later hl g9).trans hs,
      fun e => ((Appends_visitExpr e g9).namedValues n).trans hs,
      visitExpr_VariableExpr_bound hs⟩

/-- C13 at `int x; if (true) { float x; }`: after the If `x` is bound to the slot
of the inner declaration. -/
theorem visitIfStmt_redeclaration_witness :
    lookupAlloca declaredState.namedValues "x" = some ⟨1, .Int32⟩ ∧
    ∃ gD, visitStatements [] (ifArms (.ConstantInt .Int1 1) declaredState) = .returned () gD ∧
      declaredState.numInsts ≤ gD.numInsts ∧
      lookupAlloca (visitStmt (.IfStmt (some (.BoolExpr true))
        (some (.mk ([] ++ .VarDeclStmt "float" "x" none :: []))) none)
          declaredState).state.namedValues "x" = some ⟨gD.numInsts, getType "float"⟩ ∧
      ∀ o, lookupAlloca declaredState.namedValues "x" = some o → o.id < declaredState.numInsts →
        lookupAlloca (visitStmt (.IfStmt (some (.BoolExpr true))
          (some (.mk ([] ++ .VarDeclStmt "float" "x" none :: []))) none)
            declaredState).state.namedValues "x" ≠ some o :=
  ⟨by decide!,
    (visitIfStmt_redeclaration declaredState declaredState (.BoolExpr true) (.ConstantInt .Int1 1)
      "x" "float" none [] [] (by decide!) (by simp [declaredOfStatements])).1 none _
      (by simp [declaredOfBranch]) (by decide!)⟩

/-! ## Entering a function -/

theorem bind_assoc_M {α β γ : Type} (x : M α) (f : α → M β) (h : β → M γ) :
    ((x >>= f) >>= h) = (x >>= fun a => f a >>= h) := by
  funext g
  simp only [bind_apply]
  cases x g <;> rfl

theorem pure_bind_M {α β : Type} (a : α) (f : α → M β) : ((pure a : M α) >>= f) = f a := rfl

theorem visitFunctionAST_eq (ast : FunctionAST) :
    visitFunctionAST ast =
      (enterFunction ast >>= fun p =>
        visitBlockStmt ast.Body >>= fun _ =>
          if p.2.ReturnType.isVoidTy then CreateRetVoid >>= fun _ => pure (some p.1)
          else pure (some p.1)) := by
  unfold visitFunctionAST enterFunction
  simp only [bind_assoc_M, pure_bind_M]

theorem assign_new (Name : String) (a : AllocaInst) :
    ∀ l : List (String × Option AllocaInst), Name ∉ l.map (·.1) →
      assign Name a l = l ++ [(Name, some a)]
  | [], _ => rfl
  | (k, v) :: rest, h => by
    have hk : k ≠ Name := fun e => h (by simp [e])
    have hr : Name ∉ rest.map (·.1) := fun e => h (by simp [e])
    simp only [assign, if_neg hk, List.cons_append, assign_new Name a rest hr]

theorem storeArgs_spec (theFunction BB : Nat) :
    ∀ (args : List (LLVMType × String)) (idx : Nat) (g : CodeGen) (B : BasicBlock),
      g.InsertBlock = some BB → g.blocks[BB]? = some B → (args.map (·.2)).Nodup →
      (∀ a ∈ args, a.2 ∉ g.namedValues.map (·.1)) →
      ∃ g1, storeArgs theFunction args idx g = .returned () g1 ∧
        g1.namedValues = g.namedValues ++ argSlots g.numInsts args ∧
        g1.numInsts = g.numInsts + 2 * args.length ∧
        g1.InsertBlock = some BB ∧ g1.functions = g.functions ∧ g1.errs = g.errs ∧
        g1.blocks.length = g.blocks.length ∧
        g1.blocks[BB]? =
          some { B with Insts := B.Insts ++ argInsts theFunction g.numInsts idx args } ∧
        ∀ i, i ≠ BB → g1.blocks[i]? = g.blocks[i]?
  | [], idx, g, B, _, hB, _, _ =>
    ⟨g, by rw [storeArgs]; rfl, by simp [argSlots], rfl, by assumption, rfl, rfl, rfl,
      by simp [argInsts, hB], fun _ _ => rfl⟩
  | arg :: rest, idx, g, B, hIB, hB, hnd, hfree => by
    have hnd2 : (rest.map (·.2)).Nodup := (List.nodup_cons.1 hnd).2
    have hnot : arg.2 ∉ rest.map (·.2) := (List.nodup_cons.1 hnd).1
    have hnew : arg.2 ∉ g.namedValues.map (·.1) := hfree arg (List.mem_cons_self _ _)
    have h1 := Insert_at hIB hB (.Alloca arg.1) [] (.Pointer arg.1) arg.2
    have hIB1 : (Insert (.Alloca arg.1) [] (.Pointer arg.1) arg.2 g).state.InsertBlock =
      some BB := hIB
    have h2 := Insert_at hIB1 h1 .Store
      [some (.Argument theFunction idx arg.1), some (AllocaInst.toValue ⟨g.numInsts, arg.1⟩)]
      .Void ""
    have hstep : storeArgs theFunction (arg :: rest) idx g =
        storeArgs theFunction rest (idx + 1)
          (namedValuesSet arg.2 ⟨g.numInsts, arg.1⟩
            (Insert .Store
              [some (.Argument theFunction idx arg.1),
                some (AllocaInst.toValue ⟨g.numInsts, arg.1⟩)] .Void ""
              (Insert (.Alloca arg.1) [] (.Pointer arg.1) arg.2 g).state).state).state := by
      rw [storeArgs]
      rfl
    have hfree2 : ∀ a ∈ rest, a.2 ∉
        (namedValuesSet arg.2 ⟨g.numInsts, arg.1⟩
          (Insert .Store
            [some (.Argument theFunction idx arg.1),
              some (AllocaInst.toValue ⟨g.numInsts, arg.1⟩)] .Void ""
            (Insert (.Alloca arg.1) [] (.Pointer arg.1) arg.2 g).state).state).state.namedValues.map
          (·.1) := by
      intro a ha
      show a.2 ∉ (assign arg.2 _ g.namedValues).map (·.1)
      rw [assign_new _ _ _ hnew]
      simp only [List.map_append, List.map_cons, List.map_nil, List.mem_append,
        List.mem_singleton, not_or]
      exact ⟨hfree a (List.mem_cons_of_mem _ ha),
        fun e => hnot (e ▸ List.mem_map_of_mem (·.2) ha)⟩
    obtain ⟨g1, hg1, hnv, hni, hib, hfn, herr, hlen, hblk, hoth⟩ :=
      storeArgs_spec theFunction BB rest (idx + 1)
        (namedValuesSet arg.2 ⟨g.numInsts, arg.1⟩
          (Insert .Store
            [some (.Argument theFunction idx arg.1),
              some (AllocaInst.toValue ⟨g.numInsts, arg.1⟩)] .Void ""
            (Insert (.Alloca arg.1) [] (.Pointer arg.1) arg.2 g).state).state).state _ hIB h2 hnd2 hfree2
    refine ⟨g1, hstep.trans hg1, ?_, ?_, hib, hfn, herr, ?_, ?_, ?_⟩
    · rw [hnv]
      show assign arg.2 _ g.namedValues ++ argSlots (g.numInsts + 1 + 1) rest = _
      rw [assign_new _ _ _ hnew]
      simp [argSlots]
    · rw [hni]
      show g.numInsts + 1 + 1 + 2 * rest.length = _
      simp only [List.length_cons]; omega
    · rw [hlen]
      show (Insert _ _ _ _ (Insert _ _ _ _ g).state).state.blocks.length = _
      rw [Insert_blocks_length, Insert_blocks_length]
    · rw [hblk]
      show some { B with Insts := (B.Insts ++ _ ++ _ ++
        argInsts theFunction (g.numInsts + 1 + 1) (idx + 1) rest) } = _
      have hn : (Insert (.Alloca arg.1) [] (.Pointer arg.1) arg.2 g).state.numInsts =
        g.numInsts + 1 := rfl
      simp [argInsts, AllocaInst.toValue, hn]
    · intro i hi
      rw [hoth i hi]
      show (Insert _ _ _ _ (Insert _ _ _ _ g).state).state.blocks[i]? = _
      rw [Insert_other (fun e => hi (Option.some.inj (hIB1.symm.trans e)).symm),
        Insert_other (fun e => hi (Option.some.inj (hIB.symm.trans e)).symm)]

theorem visitExpr_VariableExpr_unbound {g : CodeGen} {n : String}
    (h : lookupAlloca g.namedValues n = none) :
    visitExpr (.VariableExpr n) g =
      .returned none ((namedValuesAt n g).state.fprintf "Unknown variable name") := by
  rw [visitExpr]
  unfold visitVariableExpr
  rw [bind_returned (namedValuesAt_returned g n), h]
  rfl

theorem lookupAlloca_argSlots (m : String) :
    ∀ (args : List (LLVMType × String)) (base : Nat), m ∉ args.map (·.2) →
      lookupAlloca (argSlots base args) m = none
  | [], _, _ => rfl
  | arg :: rest, base, h => by
    have h1 : m ≠ arg.2 := fun e => h (by simp [e])
    have h2 : m ∉ rest.map (·.2) := fun e => h (by simp [e])
    have hb : (m == arg.2) = false := by simp [h1]
    have ih := lookupAlloca_argSlots m rest (base + 2) h2
    unfold lookupAlloca at ih ⊢
    simp only [argSlots, List.lookup, hb]
    exact ih

/-- What `visit(FunctionAST&)` has done when it reaches the body of a
function that the module holds under the name of the prototype. -/
theorem enterFunction_returned (ast : FunctionAST) (g : CodeGen) (F0 : Nat)
    (hF : g.moduleGetFunction ast.Proto.Name = some F0)
    (hnd : (((g.function F0).Params.zip (g.function F0).ArgNames).map (·.2)).Nodup) :
    ∃ g1, enterFunction ast g = .returned (F0, g.function F0) g1 ∧
      g1.namedValues = argSlots g.numInsts ((g.function F0).Params.zip (g.function F0).ArgNames) ∧
      g1.InsertBlock = some g.blocks.length ∧
      g1.blocks[g.blocks.length]? = some ⟨"entry", some F0,
        argInsts F0 g.numInsts 0 ((g.function F0).Params.zip (g.function F0).ArgNames)⟩ ∧
      (∀ i, i ≠ g.blocks.length → g1.blocks[i]? = g.blocks[i]?) ∧
      g1.functions = g.functions ∧ g1.errs = g.errs := by
  obtain ⟨g1, h1, hnv, _, hib, hfn, herrs, _, hblk, hoth⟩ :=
    storeArgs_spec F0 g.blocks.length
      ((g.function F0).Params.zip (g.function F0).ArgNames) 0
      { g with blocks := g.blocks ++ [⟨"entry", some F0, []⟩],
               InsertBlock := some g.blocks.length, namedValues := [] }
      ⟨"entry", some F0, []⟩ rfl (by simp) hnd (by simp)
  refine ⟨g1, ?_, by simpa using hnv, hib, by simpa using hblk, ?_, hfn, herrs⟩
  · unfold enterFunction
    rw [bind_returned (getFunction_of_some hF)]
    show (storeArgs F0 ((g.function F0).Params.zip (g.function F0).ArgNames) 0 >>=
        fun _ => pure (F0, g.function F0))
      { g with blocks := g.blocks ++ [⟨"entry", some F0, []⟩],
               InsertBlock := some g.blocks.length, namedValues := [] } = _
    rw [bind_returned h1]
    rfl
  · intro i hi
    rw [hoth i hi]
    show (g.blocks ++ _)[i]? = _
    rcases Nat.lt_or_ge i g.blocks.length with h | h
    · exact List.getElem?_append_left h
    · rw [List.getElem?_eq_none h, List.getElem?_eq_none]
      simp only [List.length_append, List.length_cons, List.length_nil]; omega

/-! ## The table of a function (C25, C27) -/

theorem visitPrototypeAST_function (ast : PrototypeAST) (g : CodeGen) :
    (visitPrototypeAST ast g).state.function g.functions.length =
      { Name := (createValueName "." (g.functions.map (·.Name)) ast.Name g.LastUnique).1
        ReturnType := getType ast.ReturnType
        Params := if ast.Name = "main" then [.Int32, .Pointer (.Pointer .Int8)]
          else ast.Args.map (fun arg => getType arg.1)
        VarArg := false
        ArgNames := (setArgNames
          (if ast.Name = "main" then ["argc", "argv"] else ast.Args.map (fun arg => arg.2))
          [] 0).1
        LastUnique := (setArgNames
          (if ast.Name = "main" then ["argc", "argv"] else ast.Args.map (fun arg => arg.2))
          [] 0).2 } := by
  rw [visitPrototypeAST_eq]
  exact function_SetArgNames_FunctionCreate g _ _ _ _ _

theorem visitPrototypeAST_declares (ast : PrototypeAST) (g : CodeGen)
    (hnone : g.moduleGetFunction ast.Name = none) :
    (visitPrototypeAST ast g).state.moduleGetFunction ast.Name = some g.functions.length := by
  rw [visitPrototypeAST_eq]
  have hfree := createValueName_free "." g.LastUnique (moduleGetFunction_eq_none.1 hnone)
  simp only [CodeGen.moduleGetFunction, SetArgNames, FunctionCreate, Outcome.state, hfree]
  refine (findIdx?_modify_same _ _ (by intro a; rfl) _ _).trans ?_
  exact findIdx?_append_new _ _ _ hnone (by simp)

/-- C25: when `visit(FunctionAST&)` reaches the body of a function that the module
holds, with arguments of distinct names, `namedValues` holds exactly one
binding per parameter of the signature, in order, each to a slot of its own
whose alloca, followed by the store of the argument into it, is in the new
entry block; nothing of the table of an earlier function is left, so every
other name is an unknown variable.  In
`fn f(int a) { int x; } fn h(int b) { print("%d", x); }` the reference to `x` in
`h` logs `Unknown variable name`. -/
theorem visitFunctionAST_resets_namedValues (ast : FunctionAST) (g : CodeGen) (F0 : Nat)
    (hF : g.moduleGetFunction ast.Proto.Name = some F0)
    (hnd : (((g.function F0).Params.zip (g.function F0).ArgNames).map (·.2)).Nodup) :
    (∃ g1, enterFunction ast g = .returned (F0, g.function F0) g1 ∧
      visitFunctionAST ast g =
        (visitBlockStmt ast.Body >>= fun _ =>
          if (g.function F0).ReturnType.isVoidTy then CreateRetVoid >>= fun _ => pure (some F0)
          else pure (some F0)) g1 ∧
      g1.namedValues =
        argSlots g.numInsts ((g.function F0).Params.zip (g.function F0).ArgNames) ∧
      g1.blocks[g.blocks.length]? = some ⟨"entry", some F0,
        argInsts F0 g.numInsts 0 ((g.function F0).Params.zip (g.function F0).ArgNames)⟩ ∧
      g1.InsertBlock = some g.blocks.length ∧
      ∀ m, m ∉ ((g.function F0).Params.zip (g.function F0).ArgNames).map (·.2) →
        lookupAlloca g1.namedValues m = none ∧
        visitExpr (.VariableExpr m) g1 =
          .returned none ((namedValuesAt m g1).state.fprintf "Unknown variable name")) ∧
    (∀ k, compile (60 + k)
        "fn f(int a) \x7b int x; \x7d fn h(int b) \x7b print(\"%d\", x); \x7d" =
      some (generate twoScopesModule CodeGen.new)) ∧
    (generate twoScopesModule CodeGen.new).state.errs = ["Unknown variable name"] ∧
    (generate twoScopesModule CodeGen.new).state.namedValues =
      [("b", some ⟨4, .Int32⟩), ("x", none)] := by
  refine ⟨?_, fun k => compile_fuel_mono (by decide!) k, by decide!, by decide!⟩
  obtain ⟨g1, h1, hnv, hib, hblk, _, _, _⟩ := enterFunction_returned ast g F0 hF hnd
  refine ⟨g1, h1, ?_, hnv, hblk, hib, ?_⟩
  · rw [visitFunctionAST_eq, bind_returned h1]
  · intro m hm
    have hl : lookupAlloca g1.namedValues m = none := by
      rw [hnv]; exact lookupAlloca_argSlots m _ _ hm
    exact ⟨hl, visitExpr_VariableExpr_unbound hl⟩

/-- C25 at `fn f(int a) { int x; }` declared in a fresh generator. -/
theorem visitFunctionAST_resets_namedValues_witness :
    ∃ g1, enterFunction ⟨⟨"f", [("int", "a")], "void"⟩, .mk [.VarDeclStmt "int" "x" none]⟩
        (visitPrototypeAST ⟨"f", [("int", "a")], "void"⟩ CodeGen.new).state =
          .returned (0, ⟨"f", .Void, [.Int32], false, ["a"], 0⟩) g1 ∧
      g1.namedValues = [("a", some ⟨0, .Int32⟩)] := by
  obtain ⟨⟨g1, h1, _, h2, _⟩, _⟩ := visitFunctionAST_resets_namedValues
    ⟨⟨"f", [("int", "a")], "void"⟩, .mk [.VarDeclStmt "int" "x" none]⟩
    (visitPrototypeAST ⟨"f", [("int", "a")], "void"⟩ CodeGen.new).state 0
    (by decide!) (by decide!)
  exact ⟨g1, h1, h2⟩

/-- C27: for a function named `main`, declared with any parameter list, the
signature holds the arguments `argc` and `argv`, and when the body is reached
`namedValues` binds exactly `argc` and `argv` to slots; a reference to any
other name, a declared parameter included, yields no value and logs
`Unknown variable name`.  In `fn main(int a) { print("%d", a); print("%d", argc); }`
only the reference to `a` is logged. -/
theorem visitFunctionAST_main_parameters (ast : FunctionAST) (g : CodeGen) (F0 : Nat)
    (hname : ast.Proto.Name = "main") (hF : g.moduleGetFunction "main" = some F0)
    (hP : (g.function F0).Params = [.Int32, .Pointer (.Pointer .Int8)])
    (hN : (g.function F0).ArgNames = ["argc", "argv"]) :
    (∃ g1, enterFunction ast g = .returned (F0, g.function F0) g1 ∧
      g1.namedValues = [("argc", some ⟨g.numInsts, .Int32⟩),
        ("argv", some ⟨g.numInsts + 2, .Pointer (.Pointer .Int8)⟩)] ∧
      ∀ a, a ≠ "argc" → a ≠ "argv" →
        visitExpr (.VariableExpr a) g1 =
          .returned none ((namedValuesAt a g1).state.fprintf "Unknown variable name")) ∧
    (∀ g0 : CodeGen, g0.moduleGetFunction "main" = none →
      (visitPrototypeAST ast.Proto g0).state.moduleGetFunction "main" =
        some g0.functions.length ∧
      ((visitPrototypeAST ast.Proto g0).state.function g0.functions.length).Params =
        [.Int32, .Pointer (.Pointer .Int8)] ∧
      ((visitPrototypeAST ast.Proto g0).state.function g0.functions.length).ArgNames =
        ["argc", "argv"]) ∧
    (∀ k, compile (60 + k)
        "fn main(int a) \x7b print(\"%d\", a); print(\"%d\", argc); \x7d" =
      some (generate mainModule CodeGen.new)) ∧
    (generate mainModule CodeGen.new).state.errs = ["Unknown variable name"] ∧
    (generate mainModule CodeGen.new).state.namedValues =
      [("argc", some ⟨0, .Int32⟩), ("argv", some ⟨2, .Pointer (.Pointer .Int8)⟩), ("a", none)] := by
  refine ⟨?_, ?_, fun k => compile_fuel_mono (by decide!) k, by decide!, by decide!⟩
  · obtain ⟨g1, h1, hnv, _⟩ := enterFunction_returned ast g F0 (by rw [hname]; exact hF)
      (by rw [hP, hN]; decide)
    rw [hP, hN] at hnv
    refine ⟨g1, h1, hnv, ?_⟩
    intro a h1 h2
    apply visitExpr_VariableExpr_unbound
    rw [hnv]
    have b1 : (a == "argc") = false := by simp [h1]
    have b2 : (a == "argv") = false := by simp [h2]
    simp [lookupAlloca, List.lookup, b1, b2]
  · intro g0 hnone
    have hd := visitPrototypeAST_declares ast.Proto g0 (by rw [hname]; exact hnone)
    have hf := visitPrototypeAST_function ast.Proto g0
    rw [hname] at hd
    refine ⟨hd, ?_, ?_⟩
    · rw [hf]; simp only [hname, if_true]
    · rw [hf]; simp only [hname, if_true]; rfl

/-- C27 at `fn main(int a) { print("%d", a); }` declared in a fresh generator. -/
theorem visitFunctionAST_main_parameters_witness :
    ∃ g1, enterFunction ⟨⟨"main", [("int", "a")], "void"⟩, .mk [.PrintStmt ⟨"%d"⟩ [.VariableExpr "a"]]⟩
        (visitPrototypeAST ⟨"main", [("int", "a")], "void"⟩ CodeGen.new).state =
          .returned (0, (visitPrototypeAST ⟨"main", [("int", "a")], "void"⟩
            CodeGen.new).state.function 0) g1 ∧
      g1.namedValues = [("argc", some ⟨0, .Int32⟩),
        ("argv", some ⟨0 + 2, .Pointer (.Pointer .Int8)⟩)] ∧
      visitExpr (.VariableExpr "a") g1 =
        .returned none ((namedValuesAt "a" g1).state.fprintf "Unknown variable name") := by
  obtain ⟨⟨g1, h1, h2, h3⟩, _⟩ := visitFunctionAST_main_parameters
    ⟨⟨"main", [("int", "a")], "void"⟩, .mk [.PrintStmt ⟨"%d"⟩ [.VariableExpr "a"]]⟩
    (visitPrototypeAST ⟨"main", [("int", "a")], "void"⟩ CodeGen.new).state 0
    rfl (by decide!) (by decide!) (by decide!)
  exact ⟨g1, h1, h2, h3 "a" (by decide) (by decide)⟩

/-! ## Function lookup is never lost -/

theorem findIdx?_append_some {α : Type} (p : α → Bool) (l l2 : List α) {i : Nat}
    (h : l.findIdx? p = some i) : (l ++ l2).findIdx? p = some i := by
  rw [List.findIdx?_append, h]; rfl

theorem moduleGetFunction_mono {g g1 : CodeGen} (hp : g.functions <+: g1.functions)
    {n : String} {F : Nat} (h : g.moduleGetFunction n = some F) :
    g1.moduleGetFunction n = some F := by
  obtain ⟨t, ht⟩ := hp
  unfold CodeGen.moduleGetFunction at h ⊢
  rw [← ht]
  exact findIdx?_append_some _ _ _ h

theorem moduleGetFunction_FunctionCreate (g : CodeGen) (ReturnType : LLVMType)
    (Params : List LLVMType) (VarArg : Bool) (Name : String) {n : String} {F : Nat}
    (h : g.moduleGetFunction n = some F) :
    (FunctionCreate ReturnType Params VarArg Name g).state.moduleGetFunction n = some F :=
  findIdx?_append_some _ _ _ h

theorem moduleGetFunction_visitPrototypeAST (ast : PrototypeAST) (g : CodeGen) {n : String}
    {F : Nat} (h : g.moduleGetFunction n = some F) :
    (visitPrototypeAST ast g).state.moduleGetFunction n = some F := by
  rw [visitPrototypeAST_eq]
  simp only [CodeGen.moduleGetFunction, SetArgNames, FunctionCreate, Outcome.state]
  refine (findIdx?_modify_same _ _ (by intro a; rfl) _ _).trans ?_
  exact findIdx?_append_some _ _ _ h

theorem visitPrototypeAST_keeps (ast : PrototypeAST) (g : CodeGen) :
    (visitPrototypeAST ast g).state.blocks = g.blocks ∧
    (visitPrototypeAST ast g).state.numInsts = g.numInsts ∧
    (visitPrototypeAST ast g).state.errs = g.errs ∧
    (visitPrototypeAST ast g).state.InsertBlock = g.InsertBlock ∧
    (visitPrototypeAST ast g).state.functions.length = g.functions.length + 1 := by
  rw [visitPrototypeAST_eq]
  refine ⟨rfl, rfl, rfl, rfl, ?_⟩
  simp [SetArgNames, FunctionCreate, Outcome.state]

theorem modify_append_length {α : Type} (f : α → α) (a : α) :
    ∀ l : List α, (l ++ [a]).modify f l.length = l ++ [f a]
  | [] => rfl
  | b :: l => by
    simp only [List.cons_append, List.length_cons, List.modify_succ_cons,
      modify_append_length f a l]

theorem visitPrototypeAST_functions (ast : PrototypeAST) (g : CodeGen) :
    g.functions <+: (visitPrototypeAST ast g).state.functions := by
  rw [visitPrototypeAST_eq]
  simp only [SetArgNames, FunctionCreate, Outcome.state, modify_append_length]
  exact List.prefix_append _ _

theorem function_mono {g g1 : CodeGen} (hp : g.functions <+: g1.functions) {i : Nat}
    (hi : i < g.functions.length) : g1.function i = g.function i := by
  obtain ⟨t, ht⟩ := hp
  unfold CodeGen.function
  rw [← ht, List.getD_eq_getElem?_getD, List.getD_eq_getElem?_getD,
    List.getElem?_append_left hi]

theorem visitPrototypeAST_isSome (ast : PrototypeAST) (g : CodeGen) :
    ((visitPrototypeAST ast g).state.moduleGetFunction ast.Name).isSome := by
  cases h : g.moduleGetFunction ast.Name with
  | none => rw [visitPrototypeAST_declares ast g h]; rfl
  | some F => rw [moduleGetFunction_visitPrototypeAST ast g h]; rfl

theorem Resolved_refl (S : List String) (g : CodeGen) : Resolved S g g :=
  ⟨fun _ _ h => h, fun _ h => h⟩

theorem Declared_of_Resolved {S : List String} {g g1 : CodeGen} (h : Resolved S g g1)
    (hd : Declared S g) : Declared S g1 := by
  intro n hn
  cases hF : g.moduleGetFunction n with
  | none => have := hd n hn; rw [hF] at this; cases this
  | some F => rw [h.1 n F hF]; rfl

theorem Resolved_trans (S : List String) (g1 g2 g3 : CodeGen) (h12 : Resolved S g1 g2)
    (h23 : Resolved S g2 g3) : Resolved S g1 g3 :=
  ⟨fun n F h => h23.1 n F (h12.1 n F h),
    fun hd he => h23.2 (Declared_of_Resolved h12 hd) (h12.2 hd he)⟩

theorem Resolved_of_eq {S : List String} {g g1 : CodeGen} (hf : g1.functions = g.functions)
    (he : g1.errs = g.errs) : Resolved S g g1 := by
  refine ⟨fun n F h => ?_, fun _ h => by rw [he]; exact h⟩
  unfold CodeGen.moduleGetFunction at h ⊢
  rw [hf]; exact h

theorem Resolved_frame (S : List String) :
    Frame (Resolved S) (fun _ => True) (fun c => c ∈ S ∨ c = "printf" ∨ c = "scanf") where
  refl := Resolved_refl S
  trans := Resolved_trans S
  inserted := fun _ _ _ _ _ => Resolved_of_eq rfl rfl
  globalString := fun _ _ => Resolved_of_eq rfl rfl
  looked := fun g Name => by
    unfold namedValuesAt
    cases g.namedValues.lookup Name <;> exact Resolved_of_eq rfl rfl
  logged := fun g str hne => by
    refine ⟨fun n F h => h, fun _ h => ?_⟩
    simp only [CodeGen.fprintf, List.mem_append, List.mem_singleton, not_or]
    exact ⟨h, fun e => hne e.symm⟩
  unknown := fun g Callee hok hnone h1 h2 => by
    refine ⟨fun n F h => h, fun hd _ => ?_⟩
    rcases hok with h | h | h
    · have := hd Callee h
      rw [hnone] at this; cases this
    · exact absurd h h1
    · exact absurd h h2
  declared := fun g ReturnType Params VarArg Name =>
    ⟨fun n F h => moduleGetFunction_FunctionCreate g ReturnType Params VarArg Name h,
      fun _ h => h⟩
  allocated := fun _ _ _ _ _ => Resolved_of_eq rfl rfl
  blockCreated := fun _ _ _ => Resolved_of_eq rfl rfl
  moved := fun _ _ _ h _ => h
  bound := fun _ _ _ _ => Resolved_of_eq rfl rfl

theorem storeArgs_keeps (theFunction : Nat) :
    ∀ (args : List (LLVMType × String)) (idx : Nat) (g : CodeGen),
      ∃ g1, storeArgs theFunction args idx g = .returned () g1 ∧
        g1.functions = g.functions ∧ g1.errs = g.errs
  | [], idx, g => ⟨g, by rw [storeArgs]; rfl, rfl, rfl⟩
  | arg :: rest, idx, g => by
    obtain ⟨g1, h1, h2, h3⟩ := storeArgs_keeps theFunction rest (idx + 1)
      (namedValuesSet arg.2 ⟨g.numInsts, arg.1⟩
        (Insert .Store
          [some (.Argument theFunction idx arg.1),
            some (AllocaInst.toValue ⟨g.numInsts, arg.1⟩)] .Void ""
          (Insert (.Alloca arg.1) [] (.Pointer arg.1) arg.2 g).state).state).state
    refine ⟨g1, ?_, h2, h3⟩
    rw [storeArgs]
    exact h1

theorem Resolved_visitPrototypeAST (S : List String) (ast : PrototypeAST) (g : CodeGen) :
    Resolved S g (visitPrototypeAST ast g).state :=
  ⟨fun _ _ h => moduleGetFunction_visitPrototypeAST ast g h,
    fun _ h => by rw [(visitPrototypeAST_keeps ast g).2.2.1]; exact h⟩

/-- The functions of the module are only added to. -/
theorem Prefix_frame :
    Frame (fun g g1 => g.functions <+: g1.functions) (fun _ => True) (fun _ => True) where
  refl := fun _ => List.prefix_refl _
  trans := fun _ _ _ h1 h2 => h1.trans h2
  inserted := fun _ _ _ _ _ => List.prefix_refl _
  globalString := fun _ _ => List.prefix_refl _
  looked := fun g Name => by
    unfold namedValuesAt
    cases g.namedValues.lookup Name <;> exact List.prefix_refl _
  logged := fun _ _ _ => List.prefix_refl _
  unknown := fun _ _ _ _ _ _ => List.prefix_refl _
  declared := fun _ _ _ _ _ => List.prefix_append _ _
  allocated := fun _ _ _ _ _ => List.prefix_refl _
  blockCreated := fun _ _ _ => List.prefix_refl _
  moved := fun _ _ _ h _ => h
  bound := fun _ _ _ _ => List.prefix_refl _

/-- The part of `visit(FunctionAST&)` before the body returns, and keeps every
relation that lowering keeps and that the declaration of a prototype keeps. -/
theorem enterFunction_keeps {R : CodeGen → CodeGen → Prop} {okDecl okCallee : String → Prop}
    (hR : Frame R okDecl okCallee) (hproto : ∀ ast g, R g (visitPrototypeAST ast g).state)
    (heq : ∀ g g1 : CodeGen, g1.functions = g.functions → g1.errs = g.errs → R g g1)
    (ast : FunctionAST) (g : CodeGen) :
    ∃ p g1, enterFunction ast g = .returned p g1 ∧ R g g1 := by
  unfold enterFunction
  have h0 := (keeps_getFunction hR.toExprFrame ast.Proto.Name g (hR.refl g) (Nat.le_refl _)).1
  cases hg : getFunction ast.Proto.Name g with
  | aborted g1 =>
    exfalso
    unfold getFunction at hg
    split at hg
    · cases hg
    · split at hg
      · cases hg
      · split at hg <;> cases hg
  | returned found g1 =>
    rw [hg] at h0
    replace h0 : R g g1 := h0
    rw [bind_returned hg]
    have key : ∀ (theFunction : Nat) (g2 : CodeGen), R g g2 →
        ∃ p g3, (BasicBlockCreate "entry" (some theFunction) >>= fun BB =>
          SetInsertPoint BB >>= fun _ =>
          (fun g => Outcome.returned (g.function theFunction) { g with namedValues := [] }) >>=
            fun F => storeArgs theFunction (F.Params.zip F.ArgNames) 0 >>= fun _ =>
              (pure (theFunction, F) : M (Nat × Function))) g2 = .returned p g3 ∧
          R g g3 := by
      intro theFunction g2 h2
      obtain ⟨g3, h3, hf, he⟩ := storeArgs_keeps theFunction
        ((g2.function theFunction).Params.zip (g2.function theFunction).ArgNames) 0
        { g2 with blocks := g2.blocks ++ [⟨"entry", some theFunction, []⟩],
                  InsertBlock := some g2.blocks.length, namedValues := [] }
      refine ⟨(theFunction, g2.function theFunction), g3, ?_,
        hR.trans _ _ _ h2 (heq _ _ hf he)⟩
      show (storeArgs theFunction
          ((g2.function theFunction).Params.zip (g2.function theFunction).ArgNames) 0 >>=
            fun _ => pure (theFunction, g2.function theFunction))
        { g2 with blocks := g2.blocks ++ [⟨"entry", some theFunction, []⟩],
                  InsertBlock := some g2.blocks.length, namedValues := [] } = _
      rw [bind_returned h3]
      rfl
    cases found with
    | some F => exact key F g1 h0
    | none =>
      simp only []
      rw [bind_returned (visitPrototypeAST_eq ast.Proto g1)]
      refine key _ _ (hR.trans _ _ _ h0 ?_)
      have := hproto ast.Proto g1
      rw [visitPrototypeAST_eq] at this
      exact this

theorem keeps_visitFunctionAST {R : CodeGen → CodeGen → Prop} {okDecl okCallee : String → Prop}
    (hR : Frame R okDecl okCallee) (hproto : ∀ ast g, R g (visitPrototypeAST ast g).state)
    (heq : ∀ g g1 : CodeGen, g1.functions = g.functions → g1.errs = g.errs → R g g1)
    (ast : FunctionAST) (g : CodeGen) (hd : ∀ n ∈ ast.Body.declared, okDecl n)
    (hc : ∀ c ∈ ast.Body.callees, okCallee c) :
    R g (visitFunctionAST ast g).state := by
  obtain ⟨p, g1, h1, hg1⟩ := enterFunction_keeps hR hproto heq ast g
  rw [visitFunctionAST_eq, bind_returned h1]
  have hb := (keeps_visitBlockStmt hR g1 ast.Body hd hc g1 (hR.refl g1) (Nat.le_refl _)).1
  cases hbody : visitBlockStmt ast.Body g1 with
  | aborted g2 =>
    rw [hbody] at hb
    rw [bind_aborted hbody]
    exact hR.trans _ _ _ hg1 hb
  | returned u g2 =>
    rw [hbody] at hb
    rw [bind_returned hbody]
    refine hR.trans _ _ _ hg1 (hR.trans _ _ _ hb ?_)
    split
    · exact hR.inserted _ _ _ _ _
    · exact hR.refl _

theorem keeps_defineAll {R : CodeGen → CodeGen → Prop} {okDecl okCallee : String → Prop}
    (hR : Frame R okDecl okCallee) (hproto : ∀ ast g, R g (visitPrototypeAST ast g).state)
    (heq : ∀ g g1 : CodeGen, g1.functions = g.functions → g1.errs = g.errs → R g g1) :
    ∀ (fs : List FunctionAST) (g : CodeGen),
      (∀ f ∈ fs, ∀ n ∈ f.Body.declared, okDecl n) →
      (∀ f ∈ fs, ∀ c ∈ f.Body.callees, okCallee c) →
      R g (defineAll fs g).state
  | [], g, _, _ => by rw [defineAll]; exact hR.refl g
  | f :: rest, g, hd, h => by
    rw [defineAll]
    have h1 := keeps_visitFunctionAST hR hproto heq f g (hd f (List.mem_cons_self _ _))
      (h f (List.mem_cons_self _ _))
    cases hf : visitFunctionAST f g with
    | aborted g1 => rw [hf] at h1; rw [bind_aborted hf]; exact h1
    | returned u g1 =>
      rw [hf] at h1
      rw [bind_returned hf]
      exact hR.trans _ _ _ h1
        (keeps_defineAll hR hproto heq rest g1
          (fun f2 h2 => hd f2 (List.mem_cons_of_mem _ h2))
          (fun f2 h2 => h f2 (List.mem_cons_of_mem _ h2)))

theorem declareAll_spec : ∀ (fs : List FunctionAST) (g : CodeGen),
    ∃ gd, declareAll fs g = .returned () gd ∧ gd.blocks = g.blocks ∧
      gd.numInsts = g.numInsts ∧ gd.errs = g.errs ∧ gd.InsertBlock = g.InsertBlock ∧
      gd.functions.length = g.functions.length + fs.length ∧
      g.functions <+: gd.functions ∧
      Declared (fs.map (·.Proto.Name)) gd ∧
      (∀ i f, fs[i]? = some f →
        (gd.function (g.functions.length + i)).ReturnType = getType f.Proto.ReturnType ∧
        (gd.function (g.functions.length + i)).Params =
          (if f.Proto.Name = "main" then [.Int32, .Pointer (.Pointer .Int8)]
            else f.Proto.Args.map (fun arg => getType arg.1)))
  | [], g => ⟨g, by rw [declareAll]; rfl, rfl, rfl, rfl, rfl, rfl, List.prefix_refl _,
      (fun _ h => by cases h), (fun i f h => by simp at h)⟩
  | f :: rest, g => by
    obtain ⟨gd, h1, h2, h3, h4, h5, h6, h7, h8, h9⟩ :=
      declareAll_spec rest (visitPrototypeAST f.Proto g).state
    obtain ⟨k1, k2, k3, k4, k5⟩ := visitPrototypeAST_keeps f.Proto g
    refine ⟨gd, ?_, h2.trans k1, h3.trans k2, h4.trans k3, h5.trans k4, ?_, ?_, ?_, ?_⟩
    · rw [declareAll, bind_returned (visitPrototypeAST_eq f.Proto g)]
      rw [visitPrototypeAST_eq] at h1
      exact h1
    · rw [h6, k5]; simp only [List.length_cons]; omega
    · exact (visitPrototypeAST_functions f.Proto g).trans h7
    · intro n hn
      rcases List.mem_cons.1 hn with e | e
      · have := visitPrototypeAST_isSome f.Proto g
        cases hF : (visitPrototypeAST f.Proto g).state.moduleGetFunction f.Proto.Name with
        | none => rw [hF] at this; cases this
        | some F => rw [e, moduleGetFunction_mono h7 hF]; rfl
      · exact h8 n e
    · intro i f2 hi
      cases i with
      | zero =>
        simp only [List.getElem?_cons_zero, Option.some.injEq] at hi
        subst hi
        have hfn := visitPrototypeAST_function f.Proto g
        rw [Nat.add_zero, function_mono h7 (by rw [k5]; omega), hfn]
        exact ⟨rfl, rfl⟩
      | succ i =>
        have := h9 i f2 (by simpa using hi)
        rw [k5] at this
        rw [show g.functions.length + (i + 1) = g.functions.length + 1 + i by omega]
        exact this

/-! ## Forward reference (C11) -/

/-- C11 (forward and mutual reference): `visit(ModuleAST&)` declares every function
of the module, in module order, before it lowers any body: its first loop
returns, creates no block and no instruction, logs nothing and appends one
function per definition, with its signature.  After it every name of a
function of the module is found by the lookup, and lowering an expression, a
statement, a function or a list of functions never loses that; so wherever a
body is lowered, a call whose callee is the name of a function of the module
finds its callee and goes on to the arity check.  When every callee of every
body is such a name, `printf` or `scanf`, no line `Unknown function referenced`
is logged.  The two functions of
`fn a(): int { return b(); } fn b(): int { return a(); }` lower to a call of the
other one and a return. -/
theorem forward_reference (ast : ModuleAST) (g : CodeGen) :
    visitModuleAST ast = (declareAll ast.Functions >>= fun _ => defineAll ast.Functions) ∧
    (∃ gd, declareAll ast.Functions g = .returned () gd ∧
      generate ast g = defineAll ast.Functions gd ∧
      gd.blocks = g.blocks ∧ gd.numInsts = g.numInsts ∧ gd.errs = g.errs ∧
      gd.functions.length = g.functions.length + ast.Functions.length ∧
      g.functions <+: gd.functions ∧
      (∀ i f, ast.Functions[i]? = some f →
        (gd.function (g.functions.length + i)).ReturnType = getType f.Proto.ReturnType ∧
        (gd.function (g.functions.length + i)).Params =
          (if f.Proto.Name = "main" then [.Int32, .Pointer (.Pointer .Int8)]
            else f.Proto.Args.map (fun arg => getType arg.1))) ∧
      Declared (ast.Functions.map (·.Proto.Name)) gd) ∧
    (∀ g1, Declared (ast.Functions.map (·.Proto.Name)) g1 →
      (∀ e, Declared (ast.Functions.map (·.Proto.Name)) (visitExpr e g1).state) ∧
      (∀ s, Declared (ast.Functions.map (·.Proto.Name)) (visitStmt s g1).state) ∧
      (∀ f, Declared (ast.Functions.map (·.Proto.Name)) (visitFunctionAST f g1).state) ∧
      (∀ fs, Declared (ast.Functions.map (·.Proto.Name)) (defineAll fs g1).state) ∧
      ∀ f ∈ ast.Functions, ∀ Args, ∃ F, g1.moduleGetFunction f.Proto.Name = some F ∧
        getFunction f.Proto.Name g1 = .returned (some F) g1 ∧
        visitExpr (.CallExpr f.Proto.Name Args) g1 =
          if (g1.function F).VarArg = false ∧ (g1.function F).arg_size ≠ Args.length then
            .returned none (g1.fprintf "Incorrect # arguments passed")
          else emitCall F Args g1) ∧
    ((∀ f ∈ ast.Functions, ∀ c ∈ f.Body.callees,
        c ∈ ast.Functions.map (·.Proto.Name) ∨ c = "printf" ∨ c = "scanf") →
      "Unknown function referenced" ∉ g.errs →
      "Unknown function referenced" ∉ (generate ast g).state.errs) ∧
    (∀ k, compile (60 + k)
        "fn a(): int \x7b return b(); \x7d fn b(): int \x7b return a(); \x7d" =
      some (generate mutualModule CodeGen.new)) ∧
    (generate mutualModule CodeGen.new).state.errs = [] ∧
    (generate mutualModule CodeGen.new).state.shape =
      [("entry", some 0, [.Call 1, .Ret]), ("entry", some 1, [.Call 0, .Ret])] := by
  obtain ⟨gd, h1, h2, h3, h4, _, h6, h7, h8, h9⟩ := declareAll_spec ast.Functions g
  have hgen : generate ast g = defineAll ast.Functions gd := by
    unfold generate visitModuleAST
    exact bind_returned h1
  have hpre : ∀ (g1 g2 : CodeGen), g1.functions <+: g2.functions →
      Declared (ast.Functions.map (·.Proto.Name)) g1 →
      Declared (ast.Functions.map (·.Proto.Name)) g2 := by
    intro g1 g2 hp hd n hn
    cases hF : g1.moduleGetFunction n with
    | none => have := hd n hn; rw [hF] at this; cases this
    | some F => rw [moduleGetFunction_mono hp hF]; rfl
  refine ⟨rfl, ⟨gd, h1, hgen, h2, h3, h4, h6, h7, h9, h8⟩, ?_, ?_,
    fun k => compile_fuel_mono (by decide!) k, by decide!, by decide!⟩
  · intro g1 hd
    refine ⟨fun e => hpre _ _ (Extends_visitExpr e g1).functions hd,
      fun s => hpre _ _ (Extends_visitStmt s g1).functions hd,
      fun f => hpre _ _ (keeps_visitFunctionAST Prefix_frame
        (fun ast g => visitPrototypeAST_functions ast g)
        (fun g g1 hf _ => by rw [hf]) f g1 (fun _ _ => trivial) (fun _ _ => trivial)) hd,
      fun fs => hpre _ _ (keeps_defineAll Prefix_frame
        (fun ast g => visitPrototypeAST_functions ast g)
        (fun g g1 hf _ => by rw [hf]) fs g1 (fun _ _ _ _ => trivial)
        (fun _ _ _ _ => trivial)) hd, ?_⟩
    intro f hf Args
    have hn : f.Proto.Name ∈ ast.Functions.map (·.Proto.Name) :=
      List.mem_map_of_mem (·.Proto.Name) hf
    cases hF : g1.moduleGetFunction f.Proto.Name with
    | none => have := hd _ hn; rw [hF] at this; cases this
    | some F =>
      exact ⟨F, rfl, getFunction_of_some hF, visitExpr_CallExpr_found Args hF⟩
  · intro hc he
    rw [hgen]
    have hR := keeps_defineAll (Resolved_frame (ast.Functions.map (·.Proto.Name)))
      (Resolved_visitPrototypeAST _) (fun g g1 hf he => Resolved_of_eq hf he)
      ast.Functions gd (fun _ _ _ _ => trivial) hc
    exact hR.2 h8 (by rw [h4]; exact he)

/-! ## The cursor stays inside the token vector -/

theorem Reach_refl (toks : List Token) (cur : Nat) : Reach toks cur cur :=
  ⟨Nat.le_refl _, fun h => h⟩

theorem Reach_trans {toks : List Token} {a b c : Nat} (h1 : Reach toks a b)
    (h2 : Reach toks b c) : Reach toks a c :=
  ⟨Nat.le_trans h1.1 h2.1, fun h => h2.2 (h1.2 h)⟩

theorem Reach_advance {toks : List Token} {cur c : Nat} (h : Reach toks cur c) :
    Reach toks cur (advance toks c) := by
  refine Reach_trans h ?_
  unfold advance Reach
  split <;> constructor <;> intros <;> omega

theorem Reach_matchTok {toks : List Token} {cur c : Nat} (t : TokenType)
    (h : Reach toks cur c) : Reach toks cur (matchTok toks c t).2 := by
  unfold matchTok
  split
  · exact Reach_advance h
  · exact h

theorem expr_Reach (fuel : Nat) :
    (∀ toks cur r c, parseIdentifierExpr fuel toks cur = some (r, c) → Reach toks cur c) ∧
    (∀ toks cur args r c, parseIdentifierExprLoop fuel toks cur args = some (r, c) →
      Reach toks cur c) ∧
    (∀ toks cur r c, parseParenExpr fuel toks cur = some (r, c) → Reach toks cur c) ∧
    (∀ toks cur r c, parsePrimary fuel toks cur = some (r, c) → Reach toks cur c) ∧
    (∀ toks cur r c, parseUnary fuel toks cur = some (r, c) → Reach toks cur c) ∧
    (∀ toks cur p e r c, parseBinOpRHS fuel toks cur p e = some (r, c) → Reach toks cur c) ∧
    (∀ toks cur r c, parseExpression fuel toks cur = some (r, c) → Reach toks cur c) := by
  induction fuel with
  | zero =>
    simp [parseIdentifierExpr, parseIdentifierExprLoop, parseParenExpr, parsePrimary, parseUnary,
      parseBinOpRHS, parseExpression]
  | succ n ih =>
    obtain ⟨ihId, ihLoop, ihParen, ihPrim, ihUn, ihBin, ihEx⟩ := ih
    refine ⟨?_, ?_, ?_, ?_, ?_, ?_, ?_⟩
    · intro toks cur r c h
      rw [parseIdentifierExpr] at h
      try simp only [] at h
      by_cases h2 : (!check toks (matchTok toks (advance toks cur) .LPAREN).2 .RPAREN) = true
      all_goals simp only [h2, ↓reduceIte, Bool.false_eq_true] at h
      all_goals repeat' split at h
      all_goals try cases h
      all_goals
        repeat first
          | exact Reach_refl _ _
          | apply Reach_advance
          | apply Reach_matchTok
          | refine Reach_trans ?_ (ihLoop _ _ _ _ _ (by assumption))
    · intro toks cur args r c h
      rw [parseIdentifierExprLoop] at h
      try simp only [] at h
      repeat' split at h
      all_goals try cases h
      all_goals
        repeat first
          | exact Reach_refl _ _
          | apply Reach_advance
          | apply Reach_matchTok
          | refine Reach_trans ?_ (ihLoop _ _ _ _ _ (by assumption))
          | refine Reach_trans ?_ (ihEx _ _ _ _ (by assumption))
    · intro toks cur r c h
      rw [parseParenExpr] at h
      try simp only [] at h
      repeat' split at h
      all_goals try cases h
      all_goals
        repeat first
          | exact Reach_refl _ _
          | apply Reach_advance
          | apply Reach_matchTok
          | refine Reach_trans ?_ (ihEx _ _ _ _ (by assumption))
    · intro toks cur r c h
      rw [parsePrimary] at h
      simp only [parseNumberExpr, parseStringExpr, parseBoolExpr] at h
      repeat' split at h
      all_goals try cases h
      all_goals
        repeat first
          | exact Reach_refl _ _
          | apply Reach_advance
          | apply Reach_matchTok
          | refine Reach_trans ?_ (ihId _ _ _ _ (by assumption))
          | refine Reach_trans ?_ (ihParen _ _ _ _ (by assumption))
    · intro toks cur r c h
      rw [parseUnary] at h
      try simp only [] at h
      repeat' split at h
      all_goals try cases h
      all_goals
        repeat first
          | exact Reach_refl _ _
          | apply Reach_advance
          | apply Reach_matchTok
          | refine Reach_trans ?_ (ihPrim _ _ _ _ (by assumption))
          | refine Reach_trans ?_ (ihUn _ _ _ _ (by assumption))
    · intro toks cur p e r c h
      rw [parseBinOpRHS] at h
      try simp only [] at h
      repeat' split at h
      all_goals try cases h
      all_goals
        repeat first
          | exact Reach_refl _ _
          | apply Reach_advance
          | apply Reach_matchTok
          | refine Reach_trans ?_ (ihBin _ _ _ _ _ _ (by assumption))
          | refine Reach_trans ?_ (ihUn _ _ _ _ (by assumption))
    · intro toks cur r c h
      rw [parseExpression] at h
      try simp only [] at h
      repeat' split at h
      all_goals try cases h
      all_goals
        repeat first
          | exact Reach_refl _ _
          | apply Reach_advance
          | apply Reach_matchTok
          | refine Reach_trans ?_ (ihBin _ _ _ _ _ _ (by assumption))
          | refine Reach_trans ?_ (ihUn _ _ _ _ (by assumption))

theorem parseExpression_Reach {fuel : Nat} {toks : List Token} {cur : Nat} {r : Option Expr}
    {c : Nat} (h : parseExpression fuel toks cur = some (r, c)) : Reach toks cur c :=
  (expr_Reach fuel).2.2.2.2.2.2 toks cur r c h

theorem parseReturnStmt_Reach {fuel : Nat} {toks : List Token} {cur : Nat} {r : Option Stmt}
    {c : Nat} (h : parseReturnStmt fuel toks cur = some (r, c)) : Reach toks cur c := by
  unfold parseReturnStmt at h
  try simp only [] at h
  repeat' split at h
  all_goals try cases h
  all_goals
    repeat first
      | exact Reach_refl _ _
      | apply Reach_advance
      | apply Reach_matchTok
      | refine Reach_trans ?_ (parseExpression_Reach (by assumption))

theorem parsePrintStmtLoop_Reach : ∀ (fuel : Nat) (toks : List Token) (cur : Nat)
    (args : List Expr) (r : Option (List Expr)) (c : Nat),
    parsePrintStmtLoop fuel toks cur args = some (r, c) → Reach toks cur c := by
  intro fuel
  induction fuel with
  | zero => intro toks cur args r c h; cases h
  | succ n ih =>
    intro toks cur args r c h
    rw [parsePrintStmtLoop] at h
    try simp only [] at h
    repeat' split at h
    all_goals try cases h
    all_goals
      repeat first
        | exact Reach_refl _ _
        | apply Reach_advance
        | apply Reach_matchTok
        | refine Reach_trans ?_ (parseExpression_Reach (by assumption))
        | refine Reach_trans ?_ (ih _ _ _ _ _ (by assumption))

theorem parsePrintStmt_Reach {fuel : Nat} {toks : List Token} {cur : Nat} {r : Option Stmt}
    {c : Nat} (h : parsePrintStmt fuel toks cur = some (r, c)) : Reach toks cur c := by
  unfold parsePrintStmt at h
  simp only [parseStringExpr] at h
  repeat' split at h
  all_goals try cases h
  all_goals
    repeat first
      | exact Reach_refl _ _
      | apply Reach_advance
      | apply Reach_matchTok
      | refine Reach_trans ?_ (parsePrintStmtLoop_Reach _ _ _ _ _ _ (by assumption))

theorem parseScanStmt_Reach {toks : List Token} {cur : Nat} {r : Option Stmt} {c : Nat}
    (h : some (parseScanStmt toks cur) = some (r, c)) : Reach toks cur c := by
  unfold parseScanStmt at h
  try simp only [] at h
  repeat' split at h
  all_goals try cases h
  all_goals
    repeat first
      | exact Reach_refl _ _
      | apply Reach_advance
      | apply Reach_matchTok

theorem parseVarDeclStmt_Reach {fuel : Nat} {toks : List Token} {cur : Nat} {r : Option Stmt}
    {c : Nat} (h : parseVarDeclStmt fuel toks cur = some (r, c)) : Reach toks cur c := by
  unfold parseVarDeclStmt at h
  try simp only [] at h
  by_cases h2 : (matchTok toks (advance toks (advance toks cur)) .ASSIGN).1 = true
  all_goals simp only [h2, ↓reduceIte, Bool.false_eq_true] at h
  all_goals repeat' split at h
  all_goals try cases h
  all_goals
    repeat first
      | exact Reach_refl _ _
      | apply Reach_advance
      | apply Reach_matchTok
      | refine Reach_trans ?_ (parseExpression_Reach (by assumption))

theorem stmt_Reach (fuel : Nat) :
    (∀ toks cur r c, parseIfStmt fuel toks cur = some (r, c) → Reach toks cur c) ∧
    (∀ toks cur r c, parseWhileStmt fuel toks cur = some (r, c) → Reach toks cur c) ∧
    (∀ toks cur r c, parseStatement fuel toks cur = some (r, c) → Reach toks cur c) ∧
    (∀ toks cur stmts r c, parseBlockLoop fuel toks cur stmts = some (r, c) →
      Reach toks cur c) ∧
    (∀ toks cur r c, parseBlock fuel toks cur = some (r, c) → Reach toks cur c) := by
  induction fuel with
  | zero => simp [parseIfStmt, parseWhileStmt, parseStatement, parseBlockLoop, parseBlock]
  | succ n ih =>
    obtain ⟨ihIf, ihWhile, ihStmt, ihLoop, ihBlock⟩ := ih
    refine ⟨?_, ?_, ?_, ?_, ?_⟩
    · intro toks cur r c h
      rw [parseIfStmt] at h
      try simp only [] at h
      repeat' split at h
      all_goals try cases h
      all_goals
        repeat first
          | exact Reach_refl _ _
          | apply Reach_advance
          | apply Reach_matchTok
          | refine Reach_trans ?_ (parseExpression_Reach (by assumption))
          | refine Reach_trans ?_ (ihBlock _ _ _ _ (by assumption))
    · intro toks cur r c h
      rw [parseWhileStmt] at h
      try simp only [] at h
      repeat' split at h
      all_goals try cases h
      all_goals
        repeat first
          | exact Reach_refl _ _
          | apply Reach_advance
          | apply Reach_matchTok
          | refine Reach_trans ?_ (parseExpression_Reach (by assumption))
          | refine Reach_trans ?_ (ihBlock _ _ _ _ (by assumption))
    · intro toks cur r c h
      rw [parseStatement] at h
      repeat' split at h
      all_goals try cases h
      all_goals
        repeat first
          | exact Reach_refl _ _
          | apply Reach_advance
          | apply Reach_matchTok
          | refine Reach_trans ?_ (parseReturnStmt_Reach (by assumption))
          | refine Reach_trans ?_ (parsePrintStmt_Reach (by assumption))
          | refine Reach_trans ?_ (parseScanStmt_Reach (by assumption))
          | refine Reach_trans ?_ (parseVarDeclStmt_Reach (by assumption))
          | refine Reach_trans ?_ (ihIf _ _ _ _ (by assumption))
          | refine Reach_trans ?_ (ihWhile _ _ _ _ (by assumption))
    · intro toks cur stmts r c h
      rw [parseBlockLoop] at h
      repeat' split at h
      all_goals try cases h
      all_goals
        repeat first
          | exact Reach_refl _ _
          | apply Reach_advance
          | apply Reach_matchTok
          | refine Reach_trans ?_ (ihLoop _ _ _ _ _ (by assumption))
          | refine Reach_trans ?_ (ihStmt _ _ _ _ (by assumption))
    · intro toks cur r c h
      rw [parseBlock] at h
      try simp only [] at h
      repeat' split at h
      all_goals try cases h
      all_goals
        repeat first
          | exact Reach_refl _ _
          | apply Reach_advance
          | apply Reach_matchTok
          | refine Reach_trans ?_ (ihLoop _ _ _ _ _ (by assumption))

theorem parseBlock_Reach {fuel : Nat} {toks : List Token} {cur : Nat} {r : Option BlockStmt}
    {c : Nat} (h : parseBlock fuel toks cur = some (r, c)) : Reach toks cur c :=
  (stmt_Reach fuel).2.2.2.2 toks cur r c h

theorem parsePrototypeLoop_Reach : ∀ (fuel : Nat) (toks : List Token) (cur : Nat)
    (argNames : List (String × String)) (r : Option (List (String × String))) (c : Nat),
    parsePrototypeLoop fuel toks cur argNames = some (r, c) → Reach toks cur c := by
  intro fuel
  induction fuel with
  | zero => intro toks cur args r c h; cases h
  | succ n ih =>
    intro toks cur args r c h
    rw [parsePrototypeLoop] at h
    try simp only [] at h
    repeat' split at h
    all_goals try cases h
    all_goals
      repeat first
        | exact Reach_refl _ _
        | apply Reach_advance
        | apply Reach_matchTok
        | refine Reach_trans ?_ (ih _ _ _ _ _ (by assumption))

theorem parsePrototype_Reach {fuel : Nat} {toks : List Token} {cur : Nat}
    {r : Option PrototypeAST} {c : Nat} (h : parsePrototype fuel toks cur = some (r, c)) :
    Reach toks (matchTok toks cur .FN).2 c := by
  unfold parsePrototype at h
  simp only [] at h
  by_cases hA : (!check toks
    (matchTok toks (advance toks (matchTok toks cur .FN).2) .LPAREN).2 .RPAREN) = true
  all_goals simp only [hA, ↓reduceIte, Bool.false_eq_true] at h
  all_goals repeat' split at h
  all_goals try cases h
  all_goals
    repeat first
      | exact Reach_refl _ _
      | apply Reach_advance
      | apply Reach_matchTok
      | refine Reach_trans ?_ (parsePrototypeLoop_Reach _ _ _ _ _ _ (by assumption))

theorem matchTok_FN_progress {toks : List Token} {cur : Nat}
    (h1 : (matchTok toks cur .FN).1 = true)
    (h2 : check toks (matchTok toks cur .FN).2 .IDENTIFIER = true) :
    cur < (matchTok toks cur .FN).2 := by
  unfold matchTok at h1 h2 ⊢
  by_cases hc : check toks cur .FN = true
  · simp only [hc, ↓reduceIte] at h1 h2 ⊢
    unfold advance at h2 ⊢
    by_cases hl : cur < toks.length - 1
    · simp only [hl, ↓reduceIte]; omega
    · exfalso
      simp only [hl, ↓reduceIte] at h2
      unfold check at hc h2
      by_cases hge : cur ≥ toks.length
      · simp only [hge, ↓reduceIte, Bool.false_eq_true] at hc
      · simp only [hge, ↓reduceIte, beq_iff_eq] at hc h2
        rw [hc] at h2; cases h2
  · simp only [hc, ↓reduceIte, Bool.false_eq_true] at h1

theorem parsePrototype_progress {fuel : Nat} {toks : List Token} {cur : Nat}
    {proto : PrototypeAST} {c : Nat}
    (h : parsePrototype fuel toks cur = some (some proto, c)) : cur < c := by
  have hR := parsePrototype_Reach h
  refine Nat.lt_of_lt_of_le (matchTok_FN_progress ?_ ?_) hR.1
  · unfold parsePrototype at h
    simp only [] at h
    by_cases h1 : (matchTok toks cur .FN).1 = true
    · exact h1
    · simp only [h1, Bool.not_false, ↓reduceIte, Bool.false_eq_true] at h
      cases h
  · unfold parsePrototype at h
    simp only [] at h
    split at h
    · cases h
    · by_cases h2 : check toks (matchTok toks cur .FN).2 .IDENTIFIER = true
      · exact h2
      · simp only [h2, Bool.not_false, ↓reduceIte, Bool.false_eq_true] at h
        cases h

theorem parseDefinition_Reach {fuel : Nat} {toks : List Token} {cur : Nat}
    {r : Option FunctionAST} {c : Nat} (h : parseDefinition fuel toks cur = some (r, c)) :
    Reach toks cur c := by
  unfold parseDefinition at h
  repeat' split at h
  all_goals try cases h
  all_goals
    repeat first
      | exact Reach_refl _ _
      | apply Reach_advance
      | apply Reach_matchTok
      | refine Reach_trans ?_ (parseBlock_Reach (by assumption))
      | refine Reach_trans (Reach_matchTok .FN (Reach_refl _ _)) (parsePrototype_Reach (by assumption))

theorem parseDefinition_progress {fuel : Nat} {toks : List Token} {cur : Nat}
    {f : FunctionAST} {c : Nat} (h : parseDefinition fuel toks cur = some (some f, c)) :
    cur < c := by
  unfold parseDefinition at h
  split at h
  · cases h
  · cases h
  · rename_i proto c1 hp
    split at h
    · cases h
    · cases h
    · rename_i body c2 hb
      cases h
      exact Nat.lt_of_lt_of_le (parsePrototype_progress hp) (parseBlock_Reach hb).1

theorem parseDefinition_fuel_mono {fuel : Nat} {toks : List Token} {cur : Nat}
    {r : Option FunctionAST × Nat} (h : parseDefinition fuel toks cur = some r) (k : Nat) :
    parseDefinition (fuel + k) toks cur = some r :=
  fuel_mono_of_succ (fun n => parseDefinition n toks cur)
    (fun n => parseDefinition_fuel_succ n toks cur) h k

/-- The functions of the module `parseLoop` returns, beyond those it was given,
are the results of `parseDefinition` at cursors that increase along the list. -/
theorem parseLoop_order : ∀ (fuel : Nat) (toks : List Token) (cur : Nat)
    (functions : List FunctionAST) (m : ModuleAST),
    parseLoop fuel toks cur functions = some m →
    ∃ fs : List (FunctionAST × Nat), m.Functions = functions ++ fs.map (·.1) ∧
      (fs.map (·.2)).Pairwise (· < ·) ∧
      ∀ p ∈ fs, cur ≤ p.2 ∧ p.2 < toks.length ∧
        ∃ c, parseDefinition fuel toks p.2 = some (some p.1, c) := by
  intro fuel
  induction fuel with
  | zero => intro toks cur functions m h; cases h
  | succ n ih =>
    intro toks cur functions m h
    rw [parseLoop] at h
    split at h
    · rename_i hcond
      have hlt : cur < toks.length := by
        simp only [Bool.and_eq_true, decide_eq_true_eq] at hcond
        exact hcond.1
      split at h
      · cases h
      · rename_i f c hd
        obtain ⟨fs, h1, h2, h3⟩ := ih toks c (functions ++ [f]) m h
        have hp := parseDefinition_progress hd
        refine ⟨(f, cur) :: fs, ?_, ?_, ?_⟩
        · rw [h1]; simp
        · rw [List.map_cons, List.pairwise_cons]
          refine ⟨?_, h2⟩
          intro a ha
          obtain ⟨p, hp1, hp2⟩ := List.mem_map.1 ha
          rw [← hp2]
          exact Nat.lt_of_lt_of_le hp (h3 p hp1).1
        · intro p hp2
          rcases List.mem_cons.1 hp2 with e | e
          · rw [e]
            exact ⟨Nat.le_refl _, hlt, c, parseDefinition_fuel_mono hd 1⟩
          · obtain ⟨q1, q2, c2, q3⟩ := h3 p e
            exact ⟨Nat.le_trans (Nat.le_of_lt hp) q1, q2, c2, parseDefinition_fuel_mono q3 1⟩
      · rename_i c hd
        obtain ⟨fs, h1, h2, h3⟩ := ih toks (advance toks c) functions m h
        refine ⟨fs, h1, h2, ?_⟩
        intro p hp2
        obtain ⟨q1, q2, c2, q3⟩ := h3 p hp2
        exact ⟨Nat.le_trans (Reach_advance (parseDefinition_Reach hd)).1 q1, q2, c2,
          parseDefinition_fuel_mono q3 1⟩
    · cases h
      exact ⟨[], by simp, by simp, fun p hp => by cases hp⟩

/-! ## Cursor safety (C26) and declaration order (C16) -/

/-- C26 (cursor safety): every parsing function leaves the cursor at a position
reached from where it started, that is, not before it and, when the start was
an index of the token vector, at an index of the token vector again, where
`currentToken` reads an element of the vector; `advance` and `match` do so
too.  `parse` starts at index `0` of a non-empty vector, and each function of
the module it returns was parsed at an index of the vector.  On the empty
vector `parse` returns the empty module at its first test. -/
theorem parser_cursor_in_bounds (fuel : Nat) (toks : List Token) (cur : Nat) :
    (∀ c, Reach toks cur c ↔ cur ≤ c ∧ (cur < toks.length → c < toks.length)) ∧
    (∀ c (h : c < toks.length), currentToken toks c = toks[c]) ∧
    (toks ≠ [] → 0 < toks.length) ∧
    Reach toks cur (advance toks cur) ∧
    (∀ t, Reach toks cur (matchTok toks cur t).2) ∧
    Reach toks cur (parseNumberExpr toks cur).2 ∧
    Reach toks cur (parseStringExpr toks cur).2 ∧
    Reach toks cur (parseBoolExpr toks cur).2 ∧
    Reach toks cur (parseScanStmt toks cur).2 ∧
    (∀ r c, parseIdentifierExpr fuel toks cur = some (r, c) → Reach toks cur c) ∧
    (∀ args r c, parseIdentifierExprLoop fuel toks cur args = some (r, c) → Reach toks cur c) ∧
    (∀ r c, parseParenExpr fuel toks cur = some (r, c) → Reach toks cur c) ∧
    (∀ r c, parsePrimary fuel toks cur = some (r, c) → Reach toks cur c) ∧
    (∀ r c, parseUnary fuel toks cur = some (r, c) → Reach toks cur c) ∧
    (∀ p e r c, parseBinOpRHS fuel toks cur p e = some (r, c) → Reach toks cur c) ∧
    (∀ r c, parseExpression fuel toks cur = some (r, c) → Reach toks cur c) ∧
    (∀ r c, parseReturnStmt fuel toks cur = some (r, c) → Reach toks cur c) ∧
    (∀ args r c, parsePrintStmtLoop fuel toks cur args = some (r, c) → Reach toks cur c) ∧
    (∀ r c, parsePrintStmt fuel toks cur = some (r, c) → Reach toks cur c) ∧
    (∀ r c, parseVarDeclStmt fuel toks cur = some (r, c) → Reach toks cur c) ∧
    (∀ r c, parseIfStmt fuel toks cur = some (r, c) → Reach toks cur c) ∧
    (∀ r c, parseWhileStmt fuel toks cur = some (r, c) → Reach toks cur c) ∧
    (∀ r c, parseStatement fuel toks cur = some (r, c) → Reach toks cur c) ∧
    (∀ stmts r c, parseBlockLoop fuel toks cur stmts = some (r, c) → Reach toks cur c) ∧
    (∀ r c, parseBlock fuel toks cur = some (r, c) → Reach toks cur c) ∧
    (∀ argNames r c, parsePrototypeLoop fuel toks cur argNames = some (r, c) →
      Reach toks cur c) ∧
    (∀ r c, parsePrototype fuel toks cur = some (r, c) → Reach toks cur c) ∧
    (∀ r c, parseDefinition fuel toks cur = some (r, c) →
      Reach toks cur c ∧ Reach toks cur (advance toks c)) ∧
    (∀ m, parse fuel toks = some m → ∃ fs : List (FunctionAST × Nat),
      m.Functions = fs.map (·.1) ∧
      ∀ p ∈ fs, p.2 < toks.length ∧ ∃ c, parseDefinition fuel toks p.2 = some (some p.1, c)) ∧
    (∀ fuel, parse (fuel + 1) [] = some ⟨[]⟩) := by
  refine ⟨fun c => Iff.rfl, ?_, ?_, Reach_advance (Reach_refl _ _),
    fun t => Reach_matchTok t (Reach_refl _ _), Reach_advance (Reach_refl _ _),
    Reach_advance (Reach_refl _ _), Reach_advance (Reach_refl _ _),
    parseScanStmt_Reach rfl,
    (expr_Reach fuel).1 toks cur, (expr_Reach fuel).2.1 toks cur,
    (expr_Reach fuel).2.2.1 toks cur, (expr_Reach fuel).2.2.2.1 toks cur,
    (expr_Reach fuel).2.2.2.2.1 toks cur, (expr_Reach fuel).2.2.2.2.2.1 toks cur,
    (expr_Reach fuel).2.2.2.2.2.2 toks cur,
    fun _ _ h => parseReturnStmt_Reach h, parsePrintStmtLoop_Reach fuel toks cur,
    fun _ _ h => parsePrintStmt_Reach h, fun _ _ h => parseVarDeclStmt_Reach h,
    (stmt_Reach fuel).1 toks cur, (stmt_Reach fuel).2.1 toks cur,
    (stmt_Reach fuel).2.2.1 toks cur, (stmt_Reach fuel).2.2.2.1 toks cur,
    (stmt_Reach fuel).2.2.2.2 toks cur, parsePrototypeLoop_Reach fuel toks cur,
    fun _ _ h => Reach_trans (Reach_matchTok .FN (Reach_refl _ _)) (parsePrototype_Reach h),
    fun _ _ h => ⟨parseDefinition_Reach h, Reach_advance (parseDefinition_Reach h)⟩, ?_, ?_⟩
  · intro c h
    unfold currentToken
    rw [List.getD_eq_getElem?_getD, List.getElem?_eq_getElem h]
    rfl
  · intro h
    exact List.length_pos.2 h
  · intro m h
    obtain ⟨fs, h1, _, h3⟩ := parseLoop_order fuel toks 0 [] m h
    exact ⟨fs, by simpa using h1, fun p hp => ⟨(h3 p hp).2.1, (h3 p hp).2.2⟩⟩
  · intro fuel
    rfl

/-- C16: the functions of the module `parse` returns are, in order, the results
of `parseDefinition` at cursor positions that increase along the list, each
definition ending after it began.  For the source text of `add` and `main`
the lexer returns `addMainTokens` and the parser, on these, `addMainModule`:
the two functions `add` and `main`, in this order, with their parameters,
return types and bodies. -/
theorem parse_preserves_declaration_order :
    (∀ fuel toks m, parse fuel toks = some m →
      ∃ fs : List (FunctionAST × Nat), m.Functions = fs.map (·.1) ∧
        (fs.map (·.2)).Pairwise (· < ·) ∧
        ∀ p ∈ fs, p.2 < toks.length ∧
          ∃ c, parseDefinition fuel toks p.2 = some (some p.1, c) ∧ p.2 < c) ∧
    (∀ k, Lexer.tokenize (200 + k)
        "fn add(int a, int b): int \x7b return a + b; \x7d fn main(): int \x7b int x = add(2, 3); print(\"%d\", x); return 0; \x7d".toList =
      some addMainTokens) ∧
    (∀ k, parse (100 + k) addMainTokens = some addMainModule) ∧
    (∀ k, (Lexer.tokenize (200 + k)
        "fn add(int a, int b): int \x7b return a + b; \x7d fn main(): int \x7b int x = add(2, 3); print(\"%d\", x); return 0; \x7d".toList).bind
        (parse (100 + k)) = some addMainModule) ∧
    addMainModule.Functions.map (·.Proto.Name) = ["add", "main"] := by
  have ht : ∀ k, Lexer.tokenize (200 + k)
      "fn add(int a, int b): int \x7b return a + b; \x7d fn main(): int \x7b int x = add(2, 3); print(\"%d\", x); return 0; \x7d".toList =
      some addMainTokens := fun k => Lexer.tokenize_fuel_mono (by decide!) k
  have hp : ∀ k, parse (100 + k) addMainTokens = some addMainModule :=
    fun k => parse_fuel_mono (by rfl) k
  refine ⟨?_, ht, hp, fun k => by rw [ht k]; exact hp k, rfl⟩
  intro fuel toks m h
  obtain ⟨fs, h1, h2, h3⟩ := parseLoop_order fuel toks 0 [] m h
  refine ⟨fs, by simpa using h1, h2, fun p hp => ?_⟩
  obtain ⟨_, q2, c, q3⟩ := h3 p hp
  exact ⟨q2, c, q3, parseDefinition_progress q3⟩

/-! ## Operator texts (C17) -/

theorem operatorsOkArgs_append (a : Expr) : ∀ args : List Expr,
    operatorsOkArgs (args ++ [a]) = (operatorsOkArgs args && a.operatorsOk)
  | [] => by simp [operatorsOkArgs]
  | b :: rest => by
    rw [List.cons_append, operatorsOkArgs, operatorsOkArgs, operatorsOkArgs_append a rest,
      Bool.and_assoc]

theorem operatorsOkStatements_append (a : Stmt) : ∀ l : List Stmt,
    operatorsOkStatements (l ++ [a]) = (operatorsOkStatements l && a.operatorsOk)
  | [] => by simp [operatorsOkStatements]
  | b :: rest => by
    rw [List.cons_append, operatorsOkStatements, operatorsOkStatements,
      operatorsOkStatements_append a rest, Bool.and_assoc]

theorem currentToken_lexemeOk {toks : List Token} (htoks : ∀ t ∈ toks, t.lexemeOk) (cur : Nat) :
    (currentToken toks cur).lexemeOk := by
  unfold currentToken
  rw [List.getD_eq_getElem?_getD]
  cases h : toks[cur]? with
  | none => exact ⟨fun h => absurd rfl h, fun h => by cases h⟩
  | some t => exact htoks t (List.mem_iff_getElem?.2 ⟨cur, h⟩)

theorem binOp_mem {toks : List Token} (htoks : ∀ t ∈ toks, t.lexemeOk) {cur : Nat} {p : Int}
    (hp : 0 ≤ p) (h : ¬ getTokPrecedence toks cur < p) :
    (currentToken toks cur).value ∈ surfaceOperators ∧ 0 ≤ getTokPrecedence toks cur + 1 := by
  refine ⟨(currentToken_lexemeOk htoks cur).1 ?_, by omega⟩
  intro hn
  unfold getTokPrecedence at h
  rw [hn] at h
  simp only [] at h
  omega

theorem bang_value {toks : List Token} (htoks : ∀ t ∈ toks, t.lexemeOk) {cur : Nat}
    (h : ¬ (!check toks cur .BANG) = true) : (currentToken toks cur).value = "!" := by
  refine (currentToken_lexemeOk htoks cur).2 ?_
  unfold check at h
  by_cases hge : cur ≥ toks.length
  · simp [hge] at h
  · simpa [hge] using h

theorem expr_operatorsOk {toks : List Token} (htoks : ∀ t ∈ toks, t.lexemeOk) (fuel : Nat) :
    (∀ cur e c, parseIdentifierExpr fuel toks cur = some (some e, c) → e.operatorsOk = true) ∧
    (∀ cur args r c, operatorsOkArgs args = true →
      parseIdentifierExprLoop fuel toks cur args = some (some r, c) →
      operatorsOkArgs r = true) ∧
    (∀ cur e c, parseParenExpr fuel toks cur = some (some e, c) → e.operatorsOk = true) ∧
    (∀ cur e c, parsePrimary fuel toks cur = some (some e, c) → e.operatorsOk = true) ∧
    (∀ cur e c, parseUnary fuel toks cur = some (some e, c) → e.operatorsOk = true) ∧
    (∀ cur p LHS e c, 0 ≤ p → LHS.operatorsOk = true →
      parseBinOpRHS fuel toks cur p LHS = some (some e, c) → e.operatorsOk = true) ∧
    (∀ cur e c, parseExpression fuel toks cur = some (some e, c) → e.operatorsOk = true) := by
  induction fuel with
  | zero =>
    simp [parseIdentifierExpr, parseIdentifierExprLoop, parseParenExpr, parsePrimary, parseUnary,
      parseBinOpRHS, parseExpression]
  | succ n ih =>
    obtain ⟨ihId, ihLoop, ihParen, ihPrim, ihUn, ihBin, ihEx⟩ := ih
    refine ⟨?_, ?_, ?_, ?_, ?_, ?_, ?_⟩
    · intro cur e c h
      rw [parseIdentifierExpr] at h
      simp only [] at h
      by_cases h2 : (!check toks (matchTok toks (advance toks cur) .LPAREN).2 .RPAREN) = true
      all_goals simp only [h2, ↓reduceIte, Bool.false_eq_true] at h
      all_goals repeat' split at h
      all_goals try cases h
      all_goals simp only [Expr.operatorsOk]
      · exact ihLoop _ [] _ _ rfl (by assumption)
      · rfl
    · intro cur args r c hargs h
      rw [parseIdentifierExprLoop] at h
      simp only [] at h
      repeat' split at h
      all_goals try cases h
      · refine ihLoop _ _ _ _ ?_ h
        rw [operatorsOkArgs_append, hargs, ihEx _ _ _ (by assumption)]; rfl
      · rw [operatorsOkArgs_append, hargs, ihEx _ _ _ (by assumption)]; rfl
    · intro cur e c h
      rw [parseParenExpr] at h
      simp only [] at h
      repeat' split at h
      all_goals try cases h
      exact ihEx _ _ _ (by assumption)
    · intro cur e c h
      rw [parsePrimary] at h
      simp only [parseNumberExpr, parseStringExpr, parseBoolExpr] at h
      repeat' split at h
      all_goals try cases h
      all_goals first
        | exact ihId _ _ _ h
        | exact ihParen _ _ _ h
        | rfl
    · intro cur e c h
      rw [parseUnary] at h
      simp only [] at h
      repeat' split at h
      all_goals try cases h
      · exact ihPrim _ _ _ h
      · simp only [Expr.operatorsOk, bang_value htoks (by assumption),
          ihUn _ _ _ (by assumption), decide_True, Bool.and_self]
    · intro cur p LHS e c hp hL h
      rw [parseBinOpRHS] at h
      simp only [] at h
      split at h
      · cases h; exact hL
      · obtain ⟨hop, hp1⟩ := binOp_mem htoks hp (by assumption)
        split at h
        · cases h
        · cases h
        · have hR := ihUn _ _ _ (by assumption)
          split at h
          · split at h
            · cases h
            · cases h
            · have hR2 := ihBin _ _ _ _ _ hp1 hR (by assumption)
              refine ihBin _ _ _ _ _ hp ?_ h
              simp only [Expr.operatorsOk, hop, hL, hR2, decide_True, Bool.and_self]
          · refine ihBin _ _ _ _ _ hp ?_ h
            simp only [Expr.operatorsOk, hop, hL, hR, decide_True, Bool.and_self]
    · intro cur e c h
      rw [parseExpression] at h
      split at h
      · cases h
      · cases h
      · exact ihBin _ _ _ _ _ (Int.le_refl 0) (ihUn _ _ _ (by assumption)) h

theorem parseExpression_operatorsOk {toks : List Token} (htoks : ∀ t ∈ toks, t.lexemeOk)
    {fuel cur : Nat} {v : Option Expr} {c : Nat}
    (h : parseExpression fuel toks cur = some (v, c)) : operatorsOkOption v = true := by
  cases v with
  | none => rfl
  | some e => exact (expr_operatorsOk htoks fuel).2.2.2.2.2.2 cur e c h

theorem parseReturnStmt_operatorsOk {toks : List Token} (htoks : ∀ t ∈ toks, t.lexemeOk)
    {fuel cur : Nat} {s : Stmt} {c : Nat}
    (h : parseReturnStmt fuel toks cur = some (some s, c)) : s.operatorsOk = true := by
  unfold parseReturnStmt at h
  try simp only [] at h
  repeat' split at h
  all_goals try cases h
  rw [Stmt.operatorsOk]
  exact parseExpression_operatorsOk htoks (by assumption)

theorem parsePrintStmtLoop_operatorsOk {toks : List Token} (htoks : ∀ t ∈ toks, t.lexemeOk) :
    ∀ (fuel cur : Nat) (args r : List Expr) (c : Nat), operatorsOkArgs args = true →
      parsePrintStmtLoop fuel toks cur args = some (some r, c) → operatorsOkArgs r = true := by
  intro fuel
  induction fuel with
  | zero => intro cur args r c _ h; cases h
  | succ n ih =>
    intro cur args r c hargs h
    rw [parsePrintStmtLoop] at h
    try simp only [] at h
    repeat' split at h
    all_goals try cases h
    · refine ih _ _ _ _ ?_ h
      have := parseExpression_operatorsOk htoks (by assumption : parseExpression _ _ _ = _)
      rw [operatorsOkArgs_append, hargs]
      exact this
    · exact hargs

theorem parsePrintStmt_operatorsOk {toks : List Token} (htoks : ∀ t ∈ toks, t.lexemeOk)
    {fuel cur : Nat} {s : Stmt} {c : Nat}
    (h : parsePrintStmt fuel toks cur = some (some s, c)) : s.operatorsOk = true := by
  unfold parsePrintStmt at h
  simp only [parseStringExpr] at h
  repeat' split at h
  all_goals try cases h
  rw [Stmt.operatorsOk]
  exact parsePrintStmtLoop_operatorsOk htoks _ _ [] _ _ rfl (by assumption)

theorem parseScanStmt_operatorsOk {toks : List Token} {cur : Nat} {s : Stmt} {c : Nat}
    (h : some (parseScanStmt toks cur) = some (some s, c)) : s.operatorsOk = true := by
  unfold parseScanStmt at h
  try simp only [] at h
  repeat' split at h
  all_goals try cases h
  rfl

theorem parseVarDeclStmt_operatorsOk {toks : List Token} (htoks : ∀ t ∈ toks, t.lexemeOk)
    {fuel cur : Nat} {s : Stmt} {c : Nat}
    (h : parseVarDeclStmt fuel toks cur = some (some s, c)) : s.operatorsOk = true := by
  unfold parseVarDeclStmt at h
  try simp only [] at h
  by_cases h2 : (matchTok toks (advance toks (advance toks cur)) .ASSIGN).1 = true
  all_goals simp only [h2, ↓reduceIte, Bool.false_eq_true] at h
  all_goals repeat' split at h
  all_goals try cases h
  all_goals rw [Stmt.operatorsOk]
  · exact parseExpression_operatorsOk htoks (by assumption)
  · rfl

theorem stmt_operatorsOk {toks : List Token} (htoks : ∀ t ∈ toks, t.lexemeOk) (fuel : Nat) :
    (∀ cur s c, parseIfStmt fuel toks cur = some (some s, c) → s.operatorsOk = true) ∧
    (∀ cur s c, parseWhileStmt fuel toks cur = some (some s, c) → s.operatorsOk = true) ∧
    (∀ cur s c, parseStatement fuel toks cur = some (some s, c) → s.operatorsOk = true) ∧
    (∀ cur stmts r c, operatorsOkStatements stmts = true →
      parseBlockLoop fuel toks cur stmts = some (r, c) → operatorsOkStatements r = true) ∧
    (∀ cur b c, parseBlock fuel toks cur = some (b, c) → operatorsOkBranch b = true) := by
  induction fuel with
  | zero => simp [parseIfStmt, parseWhileStmt, parseStatement, parseBlockLoop, parseBlock]
  | succ n ih =>
    obtain ⟨ihIf, ihWhile, ihStmt, ihLoop, ihBlock⟩ := ih
    refine ⟨?_, ?_, ?_, ?_, ?_⟩
    · intro cur s c h
      rw [parseIfStmt] at h
      try simp only [] at h
      repeat' split at h
      all_goals try cases h
      all_goals rw [Stmt.operatorsOk]
      all_goals simp only [Bool.and_eq_true]
      · exact ⟨⟨parseExpression_operatorsOk htoks (by assumption),
          ihBlock _ _ _ (by assumption)⟩, ihBlock _ _ _ (by assumption)⟩
      · exact ⟨⟨parseExpression_operatorsOk htoks (by assumption),
          ihBlock _ _ _ (by assumption)⟩, rfl⟩
    · intro cur s c h
      rw [parseWhileStmt] at h
      try simp only [] at h
      repeat' split at h
      all_goals try cases h
      rw [Stmt.operatorsOk]
      simp only [Bool.and_eq_true]
      exact ⟨parseExpression_operatorsOk htoks (by assumption), ihBlock _ _ _ (by assumption)⟩
    · intro cur s c h
      rw [parseStatement] at h
      repeat' split at h
      all_goals try cases h
      all_goals first
        | exact parseReturnStmt_operatorsOk htoks h
        | exact parsePrintStmt_operatorsOk htoks h
        | exact parseScanStmt_operatorsOk h
        | exact parseVarDeclStmt_operatorsOk htoks h
        | exact ihIf _ _ _ h
        | exact ihWhile _ _ _ h
    · intro cur stmts r c hs h
      rw [parseBlockLoop] at h
      repeat' split at h
      all_goals try cases h
      · refine ihLoop _ _ _ _ ?_ h
        rw [operatorsOkStatements_append, hs, ihStmt _ _ _ (by assumption)]; rfl
      · exact ihLoop _ _ _ _ hs h
      · exact hs
    · intro cur b c h
      rw [parseBlock] at h
      try simp only [] at h
      repeat' split at h
      all_goals try cases h
      all_goals first
        | rfl
        | (rw [operatorsOkBranch, BlockStmt.operatorsOk]
           exact ihLoop _ [] _ _ rfl (by assumption))

theorem parseDefinition_operatorsOk {toks : List Token} (htoks : ∀ t ∈ toks, t.lexemeOk)
    {fuel cur : Nat} {f : FunctionAST} {c : Nat}
    (h : parseDefinition fuel toks cur = some (some f, c)) : f.Body.operatorsOk = true := by
  unfold parseDefinition at h
  repeat' split at h
  all_goals try cases h
  have := (stmt_operatorsOk htoks fuel).2.2.2.2 _ _ _ (by assumption)
  exact this

theorem parseLoop_operatorsOk {toks : List Token} (htoks : ∀ t ∈ toks, t.lexemeOk) :
    ∀ (fuel cur : Nat) (functions : List FunctionAST) (m : ModuleAST),
      (∀ f ∈ functions, f.Body.operatorsOk = true) →
      parseLoop fuel toks cur functions = some m → m.operatorsOk = true := by
  intro fuel
  induction fuel with
  | zero => intro cur functions m _ h; cases h
  | succ n ih =>
    intro cur functions m hf h
    rw [parseLoop] at h
    repeat' split at h
    all_goals try cases h
    · refine ih _ _ _ ?_ h
      intro f hf2
      rcases List.mem_append.1 hf2 with e | e
      · exact hf f e
      · rw [List.mem_singleton.1 e]
        exact parseDefinition_operatorsOk htoks (by assumption)
    · exact ih _ _ _ hf h
    · unfold ModuleAST.operatorsOk
      rw [List.all_eq_true]
      exact hf

namespace Lexer

theorem Lexemes_ite {c : Prop} [Decidable c] {x y : Option (Token × State)}
    (hx : Lexemes x) (hy : Lexemes y) : Lexemes (if c then x else y) := by
  split
  · exact hx
  · exact hy

theorem Lexemes_tokenAt {type : TokenType} {v : String} {s : State}
    (h : (⟨type, v, 0, 0⟩ : Token).lexemeOk) : Lexemes (some (tokenAt type v s)) := by
  intro t s1 e
  cases e
  exact h

theorem ite_some_plain {c : Prop} [Decidable c] {a : TokenType} {r : Option TokenType}
    {P : TokenType → Prop} (ha : P a) (hr : ∀ type, r = some type → P type) :
    ∀ type, (if c then some a else r) = some type → P type := by
  intro type h
  split at h
  · cases h; exact ha
  · exact hr type h

theorem keywords_plain {text : String} {type : TokenType} (h : keywords text = some type) :
    BinopPrecedence type = none ∧ type ≠ .BANG := by
  revert type
  unfold keywords
  repeat' apply ite_some_plain
  all_goals first
    | exact ⟨rfl, by decide⟩
    | (intro type h; cases h)

theorem plain_lexemeOk {type : TokenType} {v : String} {l c : Int}
    (h : BinopPrecedence type = none ∧ type ≠ .BANG) : (⟨type, v, l, c⟩ : Token).lexemeOk :=
  ⟨fun hn => absurd h.1 hn, fun hb => absurd hb h.2⟩

theorem identifier_Lexemes (source : List Char) (fuel : Nat) (s : State) :
    Lexemes (identifier source fuel s) := by
  intro t s1 h
  unfold identifier at h
  split at h
  · cases h
  · simp only [] at h
    split at h
    · cases h
      exact plain_lexemeOk (keywords_plain (by assumption))
    · cases h
      exact plain_lexemeOk ⟨rfl, by decide⟩

theorem number_Lexemes (source : List Char) (fuel : Nat) (s : State) :
    Lexemes (number source fuel s) := by
  intro t s1 h
  unfold number at h
  repeat' split at h
  all_goals try cases h
  all_goals exact plain_lexemeOk ⟨rfl, by decide⟩

theorem stringLiteral_Lexemes (source : List Char) (fuel : Nat) (s : State) :
    Lexemes (stringLiteral source fuel s) := by
  intro t s1 h
  unfold stringLiteral at h
  repeat' split at h
  all_goals try cases h
  all_goals exact plain_lexemeOk ⟨rfl, by decide⟩

theorem nextToken_Lexemes (source : List Char) (fuel : Nat) (s : State) :
    Lexemes (nextToken source fuel s) := by
  unfold nextToken
  simp only []
  repeat' apply Lexemes_ite
  all_goals first
    | exact stringLiteral_Lexemes _ _ _
    | exact identifier_Lexemes _ _ _
    | exact number_Lexemes _ _ _
    | (apply Lexemes_tokenAt
       constructor <;> intro h <;>
         first | rfl | cases h | exact absurd rfl h | simp [surfaceOperators])

theorem tokenizeLoop_lexemeOk (source : List Char) : ∀ (fuel : Nat) (s : State)
    (acc toks : List Token), (∀ t ∈ acc, t.lexemeOk) →
      tokenizeLoop source fuel s acc = some toks → ∀ t ∈ toks, t.lexemeOk := by
  intro fuel
  induction fuel with
  | zero => intro s acc toks _ h; cases h
  | succ n ih =>
    intro s acc toks hacc h
    have hadd : ∀ (u : Token), u.lexemeOk → ∀ t ∈ acc ++ [u], t.lexemeOk := by
      intro u hu t ht
      rcases List.mem_append.1 ht with e | e
      · exact hacc t e
      · rw [List.mem_singleton.1 e]; exact hu
    rw [tokenizeLoop] at h
    repeat' split at h
    all_goals try cases h
    · exact hadd _ (plain_lexemeOk ⟨rfl, by decide⟩)
    · exact ih _ _ _ (hadd _ (nextToken_Lexemes _ _ _ _ _ (by assumption))) h
    · exact hadd _ (plain_lexemeOk ⟨rfl, by decide⟩)

end Lexer

theorem operatorsOk_BinaryExpr {Op : String} {LHS RHS : Expr}
    (h : (Expr.BinaryExpr Op LHS RHS).operatorsOk = true) :
    Op ∈ surfaceOperators ∧ LHS.operatorsOk = true ∧ RHS.operatorsOk = true := by
  rw [Expr.operatorsOk] at h
  simp only [Bool.and_eq_true, decide_eq_true_eq] at h
  exact ⟨h.1.1, h.1.2, h.2⟩

theorem operatorsOk_UnaryExpr {Op : String} {RHS : Expr}
    (h : (Expr.UnaryExpr Op RHS).operatorsOk = true) : Op = "!" ∧ RHS.operatorsOk = true := by
  rw [Expr.operatorsOk] at h
  simp only [Bool.and_eq_true, decide_eq_true_eq] at h
  exact h

/-- C17: in the module parsed from the tokens the lexer returns for a source text,
every `BinaryExpr` node carries one of the texts `+ < == != <= >= && ||`, hence
none of `-`, `*`, `>`, and every `UnaryExpr` node carries `!`. -/
theorem parse_operator_texts (source : List Char) (fuel fuel2 : Nat) (toks : List Token)
    (m : ModuleAST) (ht : Lexer.tokenize fuel source = some toks)
    (hp : parse fuel2 toks = some m) :
    m.operatorsOk = true ∧
    (∀ f ∈ m.Functions, f.Body.operatorsOk = true) ∧
    (∀ Op LHS RHS, (Expr.BinaryExpr Op LHS RHS).operatorsOk = true →
      Op ∈ ["+", "<", "==", "!=", "<=", ">=", "&&", "||"] ∧ Op ≠ "-" ∧ Op ≠ "*" ∧ Op ≠ ">" ∧
        LHS.operatorsOk = true ∧ RHS.operatorsOk = true) ∧
    (∀ Op RHS, (Expr.UnaryExpr Op RHS).operatorsOk = true →
      Op = "!" ∧ RHS.operatorsOk = true) := by
  have htoks : ∀ t ∈ toks, t.lexemeOk :=
    Lexer.tokenizeLoop_lexemeOk source fuel _ [] toks (fun t h => by cases h) ht
  have hm := parseLoop_operatorsOk htoks fuel2 0 [] m (fun f h => by cases h) hp
  refine ⟨hm, ?_, ?_, fun Op RHS h => operatorsOk_UnaryExpr h⟩
  · unfold ModuleAST.operatorsOk at hm
    exact List.all_eq_true.1 hm
  · intro Op LHS RHS h
    obtain ⟨h1, h2, h3⟩ := operatorsOk_BinaryExpr h
    refine ⟨h1, ?_, ?_, ?_, h2, h3⟩
    · intro e; rw [e] at h1; revert h1; decide
    · intro e; rw [e] at h1; revert h1; decide
    · intro e; rw [e] at h1; revert h1; decide

/-- C17 at the source text of `add` and `main`. -/
theorem parse_operator_texts_witness :
    Lexer.tokenize 200
      "fn add(int a, int b): int \x7b return a + b; \x7d fn main(): int \x7b int x = add(2, 3); print(\"%d\", x); return 0; \x7d".toList =
      some addMainTokens ∧
    parse 100 addMainTokens = some addMainModule ∧
    addMainModule.operatorsOk = true :=
  ⟨by decide!, by rfl,
    (parse_operator_texts
      "fn add(int a, int b): int \x7b return a + b; \x7d fn main(): int \x7b int x = add(2, 3); print(\"%d\", x); return 0; \x7d".toList
      200 100 addMainTokens addMainModule (by decide!) (by rfl)).1⟩

end Cat
